import Mathlib

/-! # OBSE expression compiler and operator evaluator

A shallow embedding of `obse/ScriptUtils.cpp`: the operator rule tables, the
run-time rule resolution of `Operator::Evaluate`, the arithmetic and
assignment handlers, and the operator-precedence parser `ExpressionParser`.

Conventions of the embedding:

* `double` values are exact rationals (`ℚ`); rounding, NaN, infinities and the
  sign of zero are outside the model.  The C library function `pow` is a
  parameter of the handlers that call it.
* C strings are lists of characters; the terminating NUL is implicit, and a NUL
  written into a buffer is the character with code 0.
* pointers that the code may find null are `Option`s; a call that would
  dereference a null pointer yields `none` at the outermost level.
* loops and recursion of the parser are driven by a fuel argument; running out
  of fuel is the distinguished result `none`.
-/

namespace OBSE

/-! ## Token model -/

/-- Type tags of script tokens (`Token_Type`). -/
inductive Token_Type
  | Number | Boolean | String | Form | Ref | Global | Array | ArrayElement | Slice
  | Command | Variable | NumericVar | RefVar | StringVar | ArrayVar | Ambiguous
  | Operator | ForEachContext | Pair | AssignableString | Invalid | Empty
  deriving DecidableEq, Repr

/-- Operator kinds (`OperatorType`), in the order of `s_operators`. -/
inductive OperatorType
  | Assignment | LogicalOr | LogicalAnd | Slice | Equals | NotEqual
  | GreaterThan | LessThan | GreaterOrEqual | LessOrEqual
  | BitwiseOr | BitwiseAnd | LeftShift | RightShift
  | Add | Subtract | Multiply | Divide | Modulo | Exponent
  | Negation | LogicalNot | LeftParen | RightParen | LeftBracket | RightBracket
  | In | ToString | PlusEquals | TimesEquals | DividedEquals | ExponentEquals | MinusEquals
  | ToNumber | Dereference | MemberAccess | MakePair | Box
  deriving DecidableEq, Repr

/-- Names of the operator routines a rule can point to (the function pointer
`OperationRule::eval`). -/
inductive EvalFn
  | Eval_Comp_Number_Number | Eval_Comp_String_String
  | Eval_Eq_Number | Eval_Eq_Array | Eval_Eq_String | Eval_Eq_Form | Eval_Eq_Form_Number
  | Eval_Logical | Eval_Add_Number | Eval_Add_String | Eval_Arithmetic | Eval_Integer
  | Eval_Assign_Numeric | Eval_Assign_String | Eval_Assign_AssignableString
  | Eval_Assign_Form | Eval_Assign_Form_Number | Eval_Assign_Global | Eval_Assign_Array
  | Eval_Assign_Elem_Number | Eval_Assign_Elem_String | Eval_Assign_Elem_Form
  | Eval_Assign_Elem_Array
  | Eval_PlusEquals_Number | Eval_MinusEquals_Number | Eval_TimesEquals
  | Eval_DividedEquals | Eval_ExponentEquals
  | Eval_PlusEquals_Global | Eval_MinusEquals_Global | Eval_TimesEquals_Global
  | Eval_DividedEquals_Global | Eval_ExponentEquals_Global
  | Eval_PlusEquals_String | Eval_TimesEquals_String | Eval_Multiply_String_Number
  | Eval_PlusEquals_Elem_Number | Eval_MinusEquals_Elem_Number | Eval_TimesEquals_Elem
  | Eval_DividedEquals_Elem | Eval_ExponentEquals_Elem | Eval_PlusEquals_Elem_String
  | Eval_Negation | Eval_LogicalNot
  | Eval_Subscript_Array_Number | Eval_Subscript_Elem_Number | Eval_Subscript_Elem_Slice
  | Eval_Subscript_Array_String | Eval_Subscript_Array_Slice
  | Eval_Subscript_StringVar_Number | Eval_Subscript_StringVar_Slice
  | Eval_Subscript_String | Eval_Subscript_String_Slice
  | Eval_MemberAccess | Eval_Slice_String | Eval_Slice_Number
  | Eval_ToString_String | Eval_ToString_Number | Eval_ToString_Form | Eval_ToString_Array
  | Eval_ToNumber | Eval_In | Eval_Dereference
  | Eval_Box_Number | Eval_Box_String | Eval_Box_Form | Eval_Box_Array | Eval_Pair
  deriving DecidableEq, Repr

/-- One row of a rule table: `{ lhs, rhs, result, eval, bAsymmetric }`.  A row
written without its last members has a null handler and `bAsymmetric = false`. -/
structure OperationRule where
  lhs : Token_Type
  rhs : Token_Type
  result : Token_Type
  eval : Option EvalFn := none
  bAsymmetric : Bool := false
  deriving DecidableEq, Repr

/-- The macro `OP_HANDLER(x)`: the routine in the run-time build (`OBLIVION`),
null in the editor build. -/
def OP_HANDLER (oblivion : Bool) (x : EvalFn) : Option EvalFn :=
  if oblivion then some x else none

/-- Rows that exist only in the editor build (`#if !OBLIVION`). -/
def editorOnly (oblivion : Bool) (rows : List OperationRule) : List OperationRule :=
  if oblivion then [] else rows

open Token_Type in
/-- Rule table `kOpRule_Comparison`. -/
def kOpRule_Comparison (ob : Bool) : List OperationRule :=
  editorOnly ob [
    { lhs := Ambiguous, rhs := Ambiguous, result := Boolean },
    { lhs := Ambiguous, rhs := Number, result := Boolean },
    { lhs := Ambiguous, rhs := String, result := Boolean } ] ++
  [ { lhs := Number, rhs := Number, result := Boolean,
      eval := OP_HANDLER ob .Eval_Comp_Number_Number },
    { lhs := String, rhs := String, result := Boolean,
      eval := OP_HANDLER ob .Eval_Comp_String_String } ]

open Token_Type in
/-- Rule table `kOpRule_Equality`. -/
def kOpRule_Equality (ob : Bool) : List OperationRule :=
  editorOnly ob [
    { lhs := Ambiguous, rhs := Ambiguous, result := Boolean },
    { lhs := Ambiguous, rhs := Number, result := Boolean },
    { lhs := Ambiguous, rhs := Form, result := Boolean },
    { lhs := Ambiguous, rhs := String, result := Boolean } ] ++
  [ { lhs := Number, rhs := Number, result := Boolean, eval := OP_HANDLER ob .Eval_Eq_Number },
    { lhs := String, rhs := String, result := Boolean, eval := OP_HANDLER ob .Eval_Eq_String },
    { lhs := Form, rhs := Form, result := Boolean, eval := OP_HANDLER ob .Eval_Eq_Form },
    { lhs := Form, rhs := Number, result := Boolean,
      eval := OP_HANDLER ob .Eval_Eq_Form_Number },
    { lhs := Array, rhs := Array, result := Boolean, eval := OP_HANDLER ob .Eval_Eq_Array } ]

open Token_Type in
/-- Rule table `kOpRule_Logical`. -/
def kOpRule_Logical (ob : Bool) : List OperationRule :=
  editorOnly ob [
    { lhs := Ambiguous, rhs := Ambiguous, result := Boolean },
    { lhs := Ambiguous, rhs := Boolean, result := Boolean } ] ++
  [ { lhs := Boolean, rhs := Boolean, result := Boolean, eval := OP_HANDLER ob .Eval_Logical } ]

open Token_Type in
/-- Rule table `kOpRule_Addition`. -/
def kOpRule_Addition (ob : Bool) : List OperationRule :=
  editorOnly ob [
    { lhs := Ambiguous, rhs := Ambiguous, result := Ambiguous },
    { lhs := Ambiguous, rhs := Number, result := Number },
    { lhs := Ambiguous, rhs := String, result := String } ] ++
  [ { lhs := Number, rhs := Number, result := Number, eval := OP_HANDLER ob .Eval_Add_Number },
    { lhs := String, rhs := String, result := String, eval := OP_HANDLER ob .Eval_Add_String } ]

open Token_Type in
/-- Rule table `kOpRule_Arithmetic`. -/
def kOpRule_Arithmetic (ob : Bool) : List OperationRule :=
  editorOnly ob [
    { lhs := Ambiguous, rhs := Ambiguous, result := Number },
    { lhs := Number, rhs := Ambiguous, result := Number } ] ++
  [ { lhs := Number, rhs := Number, result := Number, eval := OP_HANDLER ob .Eval_Arithmetic } ]

open Token_Type in
/-- Rule table `kOpRule_Multiply`. -/
def kOpRule_Multiply (ob : Bool) : List OperationRule :=
  editorOnly ob [
    { lhs := Ambiguous, rhs := Ambiguous, result := Ambiguous },
    { lhs := String, rhs := Ambiguous, result := String },
    { lhs := Number, rhs := Ambiguous, result := Ambiguous } ] ++
  [ { lhs := Number, rhs := Number, result := Number, eval := OP_HANDLER ob .Eval_Arithmetic },
    { lhs := String, rhs := Number, result := String,
      eval := OP_HANDLER ob .Eval_Multiply_String_Number } ]

open Token_Type in
/-- Rule table `kOpRule_Integer`. -/
def kOpRule_Integer (ob : Bool) : List OperationRule :=
  editorOnly ob [
    { lhs := Ambiguous, rhs := Ambiguous, result := Number },
    { lhs := Number, rhs := Ambiguous, result := Number } ] ++
  [ { lhs := Number, rhs := Number, result := Number, eval := OP_HANDLER ob .Eval_Integer } ]

open Token_Type in
/-- Rule table `kOpRule_Assignment`. -/
def kOpRule_Assignment (ob : Bool) : List OperationRule :=
  editorOnly ob [
    { lhs := Ambiguous, rhs := Ambiguous, result := Ambiguous, bAsymmetric := true },
    { lhs := Ambiguous, rhs := String, result := String, bAsymmetric := true },
    { lhs := Ambiguous, rhs := Number, result := Number, bAsymmetric := true },
    { lhs := Ambiguous, rhs := Array, result := Array, bAsymmetric := true },
    { lhs := Ambiguous, rhs := Form, result := Form, bAsymmetric := true },
    { lhs := NumericVar, rhs := Ambiguous, result := Number, bAsymmetric := true },
    { lhs := RefVar, rhs := Ambiguous, result := Form, bAsymmetric := true },
    { lhs := StringVar, rhs := Ambiguous, result := String, bAsymmetric := true },
    { lhs := ArrayVar, rhs := Ambiguous, result := Array, bAsymmetric := true },
    { lhs := ArrayElement, rhs := Ambiguous, result := Ambiguous, bAsymmetric := true } ] ++
  [ { lhs := AssignableString, rhs := String, result := String,
      eval := OP_HANDLER ob .Eval_Assign_AssignableString, bAsymmetric := true },
    { lhs := NumericVar, rhs := Number, result := Number,
      eval := OP_HANDLER ob .Eval_Assign_Numeric, bAsymmetric := true },
    { lhs := StringVar, rhs := String, result := String,
      eval := OP_HANDLER ob .Eval_Assign_String, bAsymmetric := true },
    { lhs := RefVar, rhs := Form, result := Form,
      eval := OP_HANDLER ob .Eval_Assign_Form, bAsymmetric := true },
    { lhs := RefVar, rhs := Number, result := Form,
      eval := OP_HANDLER ob .Eval_Assign_Form_Number, bAsymmetric := true },
    { lhs := Global, rhs := Number, result := Number,
      eval := OP_HANDLER ob .Eval_Assign_Global, bAsymmetric := true },
    { lhs := ArrayVar, rhs := Array, result := Array,
      eval := OP_HANDLER ob .Eval_Assign_Array, bAsymmetric := true },
    { lhs := ArrayElement, rhs := Number, result := Number,
      eval := OP_HANDLER ob .Eval_Assign_Elem_Number, bAsymmetric := true },
    { lhs := ArrayElement, rhs := String, result := String,
      eval := OP_HANDLER ob .Eval_Assign_Elem_String, bAsymmetric := true },
    { lhs := ArrayElement, rhs := Form, result := Form,
      eval := OP_HANDLER ob .Eval_Assign_Elem_Form, bAsymmetric := true },
    { lhs := ArrayElement, rhs := Array, result := Array,
      eval := OP_HANDLER ob .Eval_Assign_Elem_Array, bAsymmetric := true } ]

open Token_Type in
/-- Rule table `kOpRule_PlusEquals`. -/
def kOpRule_PlusEquals (ob : Bool) : List OperationRule :=
  editorOnly ob [
    { lhs := NumericVar, rhs := Ambiguous, result := Number, bAsymmetric := true },
    { lhs := StringVar, rhs := Ambiguous, result := String, bAsymmetric := true },
    { lhs := ArrayElement, rhs := Ambiguous, result := Ambiguous, bAsymmetric := true },
    { lhs := Global, rhs := Ambiguous, result := Number, bAsymmetric := true },
    { lhs := Ambiguous, rhs := Ambiguous, result := Ambiguous, bAsymmetric := false },
    { lhs := Ambiguous, rhs := Number, result := Number, bAsymmetric := true },
    { lhs := Ambiguous, rhs := String, result := String, bAsymmetric := true } ] ++
  [ { lhs := NumericVar, rhs := Number, result := Number,
      eval := OP_HANDLER ob .Eval_PlusEquals_Number, bAsymmetric := true },
    { lhs := ArrayElement, rhs := Number, result := Number,
      eval := OP_HANDLER ob .Eval_PlusEquals_Elem_Number, bAsymmetric := true },
    { lhs := StringVar, rhs := String, result := String,
      eval := OP_HANDLER ob .Eval_PlusEquals_String, bAsymmetric := true },
    { lhs := ArrayElement, rhs := String, result := String,
      eval := OP_HANDLER ob .Eval_PlusEquals_Elem_String, bAsymmetric := true },
    { lhs := Global, rhs := Number, result := Number,
      eval := OP_HANDLER ob .Eval_PlusEquals_Global, bAsymmetric := true } ]

open Token_Type in
/-- The editor-only rows shared by `-=`, `*=`, `/=` and `^=`. -/
def kOpRule_compoundEditorRows : List OperationRule :=
  [ { lhs := NumericVar, rhs := Ambiguous, result := Number, bAsymmetric := true },
    { lhs := ArrayElement, rhs := Ambiguous, result := Number, bAsymmetric := true },
    { lhs := Global, rhs := Ambiguous, result := Number, bAsymmetric := true },
    { lhs := Ambiguous, rhs := Ambiguous, result := Number, bAsymmetric := false },
    { lhs := Ambiguous, rhs := Number, result := Number, bAsymmetric := true } ]

open Token_Type in
/-- Rule table `kOpRule_MinusEquals`. -/
def kOpRule_MinusEquals (ob : Bool) : List OperationRule :=
  editorOnly ob kOpRule_compoundEditorRows ++
  [ { lhs := NumericVar, rhs := Number, result := Number,
      eval := OP_HANDLER ob .Eval_MinusEquals_Number, bAsymmetric := true },
    { lhs := ArrayElement, rhs := Number, result := Number,
      eval := OP_HANDLER ob .Eval_MinusEquals_Elem_Number, bAsymmetric := true },
    { lhs := Global, rhs := Number, result := Number,
      eval := OP_HANDLER ob .Eval_MinusEquals_Global, bAsymmetric := true } ]

open Token_Type in
/-- Rule table `kOpRule_TimesEquals`. -/
def kOpRule_TimesEquals (ob : Bool) : List OperationRule :=
  editorOnly ob kOpRule_compoundEditorRows ++
  [ { lhs := NumericVar, rhs := Number, result := Number,
      eval := OP_HANDLER ob .Eval_TimesEquals, bAsymmetric := true },
    { lhs := ArrayElement, rhs := Number, result := Number,
      eval := OP_HANDLER ob .Eval_TimesEquals_Elem, bAsymmetric := true },
    { lhs := Global, rhs := Number, result := Number,
      eval := OP_HANDLER ob .Eval_TimesEquals_Global, bAsymmetric := true } ]

open Token_Type in
/-- Rule table `kOpRule_DividedEquals`. -/
def kOpRule_DividedEquals (ob : Bool) : List OperationRule :=
  editorOnly ob kOpRule_compoundEditorRows ++
  [ { lhs := NumericVar, rhs := Number, result := Number,
      eval := OP_HANDLER ob .Eval_DividedEquals, bAsymmetric := true },
    { lhs := ArrayElement, rhs := Number, result := Number,
      eval := OP_HANDLER ob .Eval_DividedEquals_Elem, bAsymmetric := true },
    { lhs := Global, rhs := Number, result := Number,
      eval := OP_HANDLER ob .Eval_DividedEquals_Global, bAsymmetric := true } ]

open Token_Type in
/-- Rule table `kOpRule_ExponentEquals`. -/
def kOpRule_ExponentEquals (ob : Bool) : List OperationRule :=
  editorOnly ob kOpRule_compoundEditorRows ++
  [ { lhs := NumericVar, rhs := Number, result := Number,
      eval := OP_HANDLER ob .Eval_ExponentEquals, bAsymmetric := true },
    { lhs := ArrayElement, rhs := Number, result := Number,
      eval := OP_HANDLER ob .Eval_ExponentEquals_Elem, bAsymmetric := true },
    { lhs := Global, rhs := Number, result := Number,
      eval := OP_HANDLER ob .Eval_ExponentEquals_Global, bAsymmetric := true } ]

open Token_Type in
/-- Rule table `kOpRule_Negation`. -/
def kOpRule_Negation (ob : Bool) : List OperationRule :=
  editorOnly ob [ { lhs := Ambiguous, rhs := Invalid, result := Number, bAsymmetric := true } ] ++
  [ { lhs := Number, rhs := Invalid, result := Number,
      eval := OP_HANDLER ob .Eval_Negation, bAsymmetric := true } ]

open Token_Type in
/-- Rule table `kOpRule_LogicalNot`. -/
def kOpRule_LogicalNot (ob : Bool) : List OperationRule :=
  editorOnly ob [ { lhs := Ambiguous, rhs := Invalid, result := Boolean, bAsymmetric := true } ] ++
  [ { lhs := Boolean, rhs := Invalid, result := Boolean,
      eval := OP_HANDLER ob .Eval_LogicalNot, bAsymmetric := true } ]

open Token_Type in
/-- Rule table `kOpRule_LeftBracket`. -/
def kOpRule_LeftBracket (ob : Bool) : List OperationRule :=
  editorOnly ob [
    { lhs := Array, rhs := Ambiguous, result := ArrayElement, bAsymmetric := true },
    { lhs := String, rhs := Ambiguous, result := String, bAsymmetric := true },
    { lhs := Ambiguous, rhs := String, result := ArrayElement, bAsymmetric := true },
    { lhs := Ambiguous, rhs := Number, result := Ambiguous, bAsymmetric := true },
    { lhs := Ambiguous, rhs := Ambiguous, result := Ambiguous, bAsymmetric := true },
    { lhs := Ambiguous, rhs := Slice, result := Ambiguous, bAsymmetric := true } ] ++
  [ { lhs := Array, rhs := Number, result := ArrayElement,
      eval := OP_HANDLER ob .Eval_Subscript_Array_Number, bAsymmetric := true },
    { lhs := Array, rhs := String, result := ArrayElement,
      eval := OP_HANDLER ob .Eval_Subscript_Array_String, bAsymmetric := true },
    { lhs := ArrayElement, rhs := Number, result := AssignableString,
      eval := OP_HANDLER ob .Eval_Subscript_Elem_Number, bAsymmetric := true },
    { lhs := StringVar, rhs := Number, result := AssignableString,
      eval := OP_HANDLER ob .Eval_Subscript_StringVar_Number, bAsymmetric := true },
    { lhs := ArrayElement, rhs := Slice, result := AssignableString,
      eval := OP_HANDLER ob .Eval_Subscript_Elem_Slice, bAsymmetric := true },
    { lhs := StringVar, rhs := Slice, result := AssignableString,
      eval := OP_HANDLER ob .Eval_Subscript_StringVar_Slice, bAsymmetric := true },
    { lhs := String, rhs := Number, result := String,
      eval := OP_HANDLER ob .Eval_Subscript_String, bAsymmetric := true },
    { lhs := Array, rhs := Slice, result := Array,
      eval := OP_HANDLER ob .Eval_Subscript_Array_Slice, bAsymmetric := true },
    { lhs := String, rhs := Slice, result := String,
      eval := OP_HANDLER ob .Eval_Subscript_String_Slice, bAsymmetric := true } ]

open Token_Type in
/-- Rule table `kOpRule_MemberAccess`. -/
def kOpRule_MemberAccess (ob : Bool) : List OperationRule :=
  editorOnly ob [
    { lhs := Array, rhs := Ambiguous, result := ArrayElement, bAsymmetric := true },
    { lhs := Ambiguous, rhs := String, result := ArrayElement, bAsymmetric := true },
    { lhs := Ambiguous, rhs := Ambiguous, result := ArrayElement, bAsymmetric := true } ] ++
  [ { lhs := Array, rhs := String, result := ArrayElement,
      eval := OP_HANDLER ob .Eval_MemberAccess, bAsymmetric := true } ]

open Token_Type in
/-- Rule table `kOpRule_Slice`. -/
def kOpRule_Slice (ob : Bool) : List OperationRule :=
  editorOnly ob [
    { lhs := Ambiguous, rhs := Ambiguous, result := Slice },
    { lhs := Ambiguous, rhs := Number, result := Slice },
    { lhs := Ambiguous, rhs := String, result := Slice } ] ++
  [ { lhs := String, rhs := String, result := Slice, eval := OP_HANDLER ob .Eval_Slice_String },
    { lhs := Number, rhs := Number, result := Slice, eval := OP_HANDLER ob .Eval_Slice_Number } ]

open Token_Type in
/-- Rule table `kOpRule_In`. -/
def kOpRule_In (ob : Bool) : List OperationRule :=
  editorOnly ob [
    { lhs := ArrayVar, rhs := Ambiguous, result := ForEachContext, bAsymmetric := true } ] ++
  [ { lhs := ArrayVar, rhs := Array, result := ForEachContext,
      eval := OP_HANDLER ob .Eval_In, bAsymmetric := true },
    { lhs := StringVar, rhs := String, result := ForEachContext,
      eval := OP_HANDLER ob .Eval_In, bAsymmetric := true },
    { lhs := RefVar, rhs := Form, result := ForEachContext,
      eval := OP_HANDLER ob .Eval_In, bAsymmetric := true } ]

open Token_Type in
/-- Rule table `kOpRule_ToString`. -/
def kOpRule_ToString (ob : Bool) : List OperationRule :=
  editorOnly ob [ { lhs := Ambiguous, rhs := Invalid, result := String, bAsymmetric := true } ] ++
  [ { lhs := String, rhs := Invalid, result := String,
      eval := OP_HANDLER ob .Eval_ToString_String, bAsymmetric := true },
    { lhs := Number, rhs := Invalid, result := String,
      eval := OP_HANDLER ob .Eval_ToString_Number, bAsymmetric := true },
    { lhs := Form, rhs := Invalid, result := String,
      eval := OP_HANDLER ob .Eval_ToString_Form, bAsymmetric := true },
    { lhs := Array, rhs := Invalid, result := String,
      eval := OP_HANDLER ob .Eval_ToString_Array, bAsymmetric := true } ]

open Token_Type in
/-- Rule table `kOpRule_ToNumber`. -/
def kOpRule_ToNumber (ob : Bool) : List OperationRule :=
  editorOnly ob [ { lhs := Ambiguous, rhs := Invalid, result := Number, bAsymmetric := true } ] ++
  [ { lhs := String, rhs := Invalid, result := Number,
      eval := OP_HANDLER ob .Eval_ToNumber, bAsymmetric := true },
    { lhs := Number, rhs := Invalid, result := Number,
      eval := OP_HANDLER ob .Eval_ToNumber, bAsymmetric := true } ]

open Token_Type in
/-- Rule table `kOpRule_Dereference`. -/
def kOpRule_Dereference (ob : Bool) : List OperationRule :=
  editorOnly ob [
    { lhs := Ambiguous, rhs := Invalid, result := ArrayElement, bAsymmetric := true } ] ++
  [ { lhs := Array, rhs := Invalid, result := ArrayElement,
      eval := OP_HANDLER ob .Eval_Dereference, bAsymmetric := true } ]

open Token_Type in
/-- Rule table `kOpRule_Box`. -/
def kOpRule_Box (ob : Bool) : List OperationRule :=
  editorOnly ob [ { lhs := Ambiguous, rhs := Invalid, result := Array, bAsymmetric := true } ] ++
  [ { lhs := Number, rhs := Invalid, result := Array,
      eval := OP_HANDLER ob .Eval_Box_Number, bAsymmetric := true },
    { lhs := String, rhs := Invalid, result := Array,
      eval := OP_HANDLER ob .Eval_Box_String, bAsymmetric := true },
    { lhs := Form, rhs := Invalid, result := Array,
      eval := OP_HANDLER ob .Eval_Box_Form, bAsymmetric := true },
    { lhs := Array, rhs := Invalid, result := Array,
      eval := OP_HANDLER ob .Eval_Box_Array, bAsymmetric := true } ]

open Token_Type in
/-- Rule table `kOpRule_MakePair`. -/
def kOpRule_MakePair (ob : Bool) : List OperationRule :=
  editorOnly ob [
    { lhs := String, rhs := Ambiguous, result := Pair, bAsymmetric := true },
    { lhs := Number, rhs := Ambiguous, result := Pair, bAsymmetric := true },
    { lhs := Ambiguous, rhs := Number, result := Pair, bAsymmetric := true },
    { lhs := Ambiguous, rhs := String, result := Pair, bAsymmetric := true },
    { lhs := Ambiguous, rhs := Array, result := Pair, bAsymmetric := true },
    { lhs := Ambiguous, rhs := Form, result := Pair, bAsymmetric := true },
    { lhs := Ambiguous, rhs := Ambiguous, result := Pair, bAsymmetric := true } ] ++
  [ { lhs := String, rhs := Number, result := Pair,
      eval := OP_HANDLER ob .Eval_Pair, bAsymmetric := true },
    { lhs := String, rhs := String, result := Pair,
      eval := OP_HANDLER ob .Eval_Pair, bAsymmetric := true },
    { lhs := String, rhs := Form, result := Pair,
      eval := OP_HANDLER ob .Eval_Pair, bAsymmetric := true },
    { lhs := String, rhs := Array, result := Pair,
      eval := OP_HANDLER ob .Eval_Pair, bAsymmetric := true },
    { lhs := Number, rhs := Number, result := Pair,
      eval := OP_HANDLER ob .Eval_Pair, bAsymmetric := true },
    { lhs := Number, rhs := String, result := Pair,
      eval := OP_HANDLER ob .Eval_Pair, bAsymmetric := true },
    { lhs := Number, rhs := Form, result := Pair,
      eval := OP_HANDLER ob .Eval_Pair, bAsymmetric := true },
    { lhs := Number, rhs := Array, result := Pair,
      eval := OP_HANDLER ob .Eval_Pair, bAsymmetric := true } ]

/-- An operator: `{ precedence, symbol, numOperands, type, numRules, rules }`. -/
structure Operator where
  precedence : Nat
  symbol : String
  numOperands : Nat
  type : OperatorType
  rules : List OperationRule
  deriving DecidableEq, Repr

namespace Operator

/-- `Operator::IsUnary`. -/
def IsUnary (op : Operator) : Bool := op.numOperands == 1

/-- `Operator::IsBinary`. -/
def IsBinary (op : Operator) : Bool := op.numOperands == 2

end Operator

/-- The operator table `s_operators`, for the run-time build (`ob = true`) or
the editor build (`ob = false`). -/
def s_operators (ob : Bool) : List Operator :=
  [ ⟨2, ":=", 2, .Assignment, kOpRule_Assignment ob⟩,
    ⟨5, "||", 2, .LogicalOr, kOpRule_Logical ob⟩,
    ⟨7, "&&", 2, .LogicalAnd, kOpRule_Logical ob⟩,
    ⟨9, ":", 2, .Slice, kOpRule_Slice ob⟩,
    ⟨13, "==", 2, .Equals, kOpRule_Equality ob⟩,
    ⟨13, "!=", 2, .NotEqual, kOpRule_Equality ob⟩,
    ⟨15, ">", 2, .GreaterThan, kOpRule_Comparison ob⟩,
    ⟨15, "<", 2, .LessThan, kOpRule_Comparison ob⟩,
    ⟨15, ">=", 2, .GreaterOrEqual, kOpRule_Comparison ob⟩,
    ⟨15, "<=", 2, .LessOrEqual, kOpRule_Comparison ob⟩,
    ⟨16, "|", 2, .BitwiseOr, kOpRule_Integer ob⟩,
    ⟨17, "&", 2, .BitwiseAnd, kOpRule_Integer ob⟩,
    ⟨18, "<<", 2, .LeftShift, kOpRule_Integer ob⟩,
    ⟨18, ">>", 2, .RightShift, kOpRule_Integer ob⟩,
    ⟨19, "+", 2, .Add, kOpRule_Addition ob⟩,
    ⟨19, "-", 2, .Subtract, kOpRule_Arithmetic ob⟩,
    ⟨21, "*", 2, .Multiply, kOpRule_Multiply ob⟩,
    ⟨21, "/", 2, .Divide, kOpRule_Arithmetic ob⟩,
    ⟨21, "%", 2, .Modulo, kOpRule_Integer ob⟩,
    ⟨23, "^", 2, .Exponent, kOpRule_Arithmetic ob⟩,
    ⟨25, "-", 1, .Negation, kOpRule_Negation ob⟩,
    ⟨27, "!", 1, .LogicalNot, kOpRule_LogicalNot ob⟩,
    ⟨80, "(", 0, .LeftParen, []⟩,
    ⟨80, ")", 0, .RightParen, []⟩,
    ⟨90, "[", 2, .LeftBracket, kOpRule_LeftBracket ob⟩,
    ⟨90, "]", 0, .RightBracket, []⟩,
    ⟨2, "<-", 2, .In, kOpRule_In ob⟩,
    ⟨25, "$", 1, .ToString, kOpRule_ToString ob⟩,
    ⟨2, "+=", 2, .PlusEquals, kOpRule_PlusEquals ob⟩,
    ⟨2, "*=", 2, .TimesEquals, kOpRule_TimesEquals ob⟩,
    ⟨2, "/=", 2, .DividedEquals, kOpRule_DividedEquals ob⟩,
    ⟨2, "^=", 2, .ExponentEquals, kOpRule_ExponentEquals ob⟩,
    ⟨2, "-=", 2, .MinusEquals, kOpRule_MinusEquals ob⟩,
    ⟨25, "#", 1, .ToNumber, kOpRule_ToNumber ob⟩,
    ⟨25, "*", 1, .Dereference, kOpRule_Dereference ob⟩,
    ⟨90, "->", 2, .MemberAccess, kOpRule_MemberAccess ob⟩,
    ⟨3, "::", 2, .MakePair, kOpRule_MakePair ob⟩,
    ⟨25, "&", 1, .Box, kOpRule_Box ob⟩ ]

/-! ## Run-time rule resolution: `Operator::Evaluate` -/

namespace Operator

/-- The matching test of one loop iteration of `Operator::Evaluate`: the pair
`(bRuleMatches, bSwapOrder)`.  The right operand is a pointer that is null for
a unary operator; the result is `none` when the test would dereference a null
right operand. -/
def matchRule {Tok : Type} (CanConvertTo : Tok → Token_Type → Bool)
    (op : Operator) (rule : OperationRule) (lhs : Tok) (rhs : Option Tok) :
    Option (Bool × Bool) :=
  if op.IsUnary && CanConvertTo lhs rule.lhs then some (true, false)
  else
    -- lhs->CanConvertTo(rule->lhs) && rhs->CanConvertTo(rule->rhs)
    let direct : Option Bool :=
      if CanConvertTo lhs rule.lhs then rhs.map (fun r => CanConvertTo r rule.rhs)
      else some false
    match direct with
    | none => none
    | some true => some (true, false)
    | some false =>
      -- !rule->bAsymmetric && rhs->CanConvertTo(rule->lhs) && lhs->CanConvertTo(rule->rhs)
      if !rule.bAsymmetric then
        match rhs with
        | none => none
        | some r =>
          if CanConvertTo r rule.lhs && CanConvertTo lhs rule.rhs then some (true, true)
          else some (false, false)
      else some (false, false)

/-- The `for` loop of `Operator::Evaluate` over the rules not yet visited. -/
def EvaluateRules {Tok Ctx : Type} (CanConvertTo : Tok → Token_Type → Bool)
    (Error : String → Ctx → Ctx)
    (call : EvalFn → OperatorType → Tok → Option Tok → Ctx → Option (Option Tok × Ctx))
    (op : Operator) (lhs : Tok) (rhs : Option Tok) (context : Ctx) :
    List OperationRule → Option (Option Tok × Ctx)
  | [] => some (none, Error "Cannot evaluate token  (Incomplete info)" context)
  | rule :: rest =>
    match rule.eval with
    | none => EvaluateRules CanConvertTo Error call op lhs rhs context rest
    | some eval =>
      match matchRule CanConvertTo op rule lhs rhs with
      | none => none
      | some (true, bSwapOrder) =>
        if bSwapOrder then
          match rhs with
          | none => none
          | some r => call eval op.type r (some lhs) context
        else call eval op.type lhs rhs context
      | some (false, _) => EvaluateRules CanConvertTo Error call op lhs rhs context rest

/-- `Operator::Evaluate(lhs, rhs, context)`.  `CanConvertTo` is
`ScriptToken::CanConvertTo`, `Error` is `ExpressionEvaluator::Error` and `call`
invokes the routine a rule points to. -/
def Evaluate {Tok Ctx : Type} (CanConvertTo : Tok → Token_Type → Bool)
    (Error : String → Ctx → Ctx)
    (call : EvalFn → OperatorType → Tok → Option Tok → Ctx → Option (Option Tok × Ctx))
    (op : Operator) (lhs : Tok) (rhs : Option Tok) (context : Ctx) :
    Option (Option Tok × Ctx) :=
  if op.numOperands == 0 then
    some (none, Error ("Attempting to evaluate " ++ op.symbol ++
      " but this operator takes no operands") context)
  else EvaluateRules CanConvertTo Error call op lhs rhs context op.rules

/-- The claim's direct match of a rule: for a unary operator the left operand
converts to the rule's left type; for a binary operator both operands convert
to the rule's types. -/
def matchesDirect {Tok : Type} (CanConvertTo : Tok → Token_Type → Bool)
    (op : Operator) (rule : OperationRule) (lhs : Tok) (rhs : Option Tok) : Bool :=
  if op.IsUnary then CanConvertTo lhs rule.lhs
  else CanConvertTo lhs rule.lhs && rhs.any (fun r => CanConvertTo r rule.rhs)

/-- The claim's swapped match of a rule: the operator is binary, the rule is not
asymmetric and the operands convert in swapped order. -/
def matchesSwapped {Tok : Type} (CanConvertTo : Tok → Token_Type → Bool)
    (op : Operator) (rule : OperationRule) (lhs : Tok) (rhs : Option Tok) : Bool :=
  !op.IsUnary && !rule.bAsymmetric &&
    rhs.any (fun r => CanConvertTo r rule.lhs) && CanConvertTo lhs rule.rhs

/-- First-match-wins resolution over a rule list as the specification words
it: the first rule in declaration order that has a handler and matches
directly or swapped decides; its handler gets the operands swapped exactly when
only the swapped order matched; with no such rule, an error and no token. -/
def resolveSpec {Tok Ctx : Type} (CanConvertTo : Tok → Token_Type → Bool)
    (Error : String → Ctx → Ctx)
    (call : EvalFn → OperatorType → Tok → Option Tok → Ctx → Option (Option Tok × Ctx))
    (op : Operator) (lhs : Tok) (rhs : Option Tok) (context : Ctx)
    (rules : List OperationRule) : Option (Option Tok × Ctx) :=
  match (rules.filter (fun r => r.eval.isSome)).find?
      (fun r => matchesDirect CanConvertTo op r lhs rhs ||
        matchesSwapped CanConvertTo op r lhs rhs) with
  | none => some (none, Error "Cannot evaluate token  (Incomplete info)" context)
  | some rule =>
    match rule.eval, rhs with
    | some eval, some r =>
      if matchesDirect CanConvertTo op rule lhs rhs then call eval op.type lhs rhs context
      else call eval op.type r (some lhs) context
    | some eval, none => call eval op.type lhs rhs context
    | none, _ => none

/-- The specification of `Evaluate`: an operator without operands yields an
error and no token; otherwise first-match-wins resolution over its rules. -/
def EvaluateSpec {Tok Ctx : Type} (CanConvertTo : Tok → Token_Type → Bool)
    (Error : String → Ctx → Ctx)
    (call : EvalFn → OperatorType → Tok → Option Tok → Ctx → Option (Option Tok × Ctx))
    (op : Operator) (lhs : Tok) (rhs : Option Tok) (context : Ctx) :
    Option (Option Tok × Ctx) :=
  if op.numOperands = 0 then
    some (none, Error ("Attempting to evaluate " ++ op.symbol ++
      " but this operator takes no operands") context)
  else resolveSpec CanConvertTo Error call op lhs rhs context op.rules

end Operator

/-! ## Run-time values and stores -/

/-- Declared types of script variables (`Script::eVarType_*`). -/
inductive VarType
  | Float | Integer | String | Array | Ref | Invalid
  deriving DecidableEq, Repr

/-- Key types of an array (`kDataType_Numeric`, `kDataType_String`). -/
inductive DataType
  | Numeric | String
  deriving DecidableEq, Repr

/-- A key of an array: a number or a string. -/
inductive ArrayKey
  | num (n : ℚ)
  | str (s : List Char)
  deriving DecidableEq

/-- `ArrayKey::KeyType`. -/
def ArrayKey.KeyType : ArrayKey → DataType
  | .num _ => .Numeric
  | .str _ => .String

/-- The value stored at a key of an array. -/
inductive ArrayElement
  | Number (n : ℚ)
  | String (s : List Char)
  | Form (formID : Nat)
  | Array (arrID : Nat)
  deriving DecidableEq

/-- Modelled from the spec: the array storage collaborator (`ArrayVar`, whose
source is not part of the repository files at hand), a key-value collection
with one key type.  -/
structure ArrayVar where
  keyType : DataType
  elems : ArrayKey → Option ArrayElement

namespace ArrayVar

/-- The array with the value at one key replaced. -/
def store (a : ArrayVar) (key : ArrayKey) (e : ArrayElement) : ArrayVar :=
  { a with elems := fun k => if k = key then some e else a.elems k }

/-- Modelled from the spec: `ArrayVar::GetElementNumber(key, &out)`, which
succeeds when a number is stored at the key. -/
def GetElementNumber (a : ArrayVar) (key : ArrayKey) : Option ℚ :=
  match a.elems key with
  | some (.Number n) => some n
  | _ => none

/-- Modelled from the spec: `ArrayVar::SetElementNumber(key, num)`, which
stores the number at the key and fails when the key is of the wrong type
(`InvalidArrayKeyType`). -/
def SetElementNumber (a : ArrayVar) (key : ArrayKey) (num : ℚ) : Option ArrayVar :=
  if key.KeyType = a.keyType then some (a.store key (.Number num)) else none

end ArrayVar

/-- The state an operator routine can read and write: the variables of the
running script (`ScriptEventList::Var::data` by variable index), the globals
(`TESGlobal::data` by form id), the array store `g_ArrayMap`, and the messages
passed to `ExpressionEvaluator::Error`, oldest first. -/
structure ExpressionEvaluator where
  vars : Nat → ℚ
  globals : Nat → ℚ
  arrays : Nat → Option ArrayVar
  errors : List String
  /-- The string store `g_StringMap`: the text of a string variable by its id. -/
  strings : Nat → Option (List Char) := fun _ => none

namespace ExpressionEvaluator

/-- `ExpressionEvaluator::Error(msg)`: records the message; nothing else
changes. -/
def Error (msg : String) (context : ExpressionEvaluator) : ExpressionEvaluator :=
  { context with errors := context.errors ++ [msg] }

/-- Assignment to `var->data`. -/
def setVar (context : ExpressionEvaluator) (idx : Nat) (data : ℚ) : ExpressionEvaluator :=
  { context with vars := fun i => if i = idx then data else context.vars i }

/-- Assignment to `global->data`. -/
def setGlobal (context : ExpressionEvaluator) (id : Nat) (data : ℚ) : ExpressionEvaluator :=
  { context with globals := fun i => if i = id then data else context.globals i }

/-- Replacement of one array of `g_ArrayMap` after a member call changed it. -/
def setArray (context : ExpressionEvaluator) (id : Nat) (a : ArrayVar) : ExpressionEvaluator :=
  { context with arrays := fun i => if i = id then some a else context.arrays i }

end ExpressionEvaluator

/-- Modelled from the spec: a `Slice` (declared in `ScriptTokens.h`): a lower
and an upper bound, numbers or strings, and the flag that marks a slice with
string bounds. -/
structure Slice where
  bIsString : Bool
  m_lower : ℚ
  m_upper : ℚ
  m_lowerStr : List Char
  m_upperStr : List Char
  deriving DecidableEq

/-- Run-time operand tokens.  Variable tokens hold the index of the script
variable they point to, a global its form id, an array element the id of its
array and its key (a null key pointer is `none`).  A for-each context holds
the source, the iterator, the kind of variable iterated with and that
variable; an assignable string the string variable or array element it is a
part of and the bounds of the part. -/
inductive ScriptToken
  | Number (num : ℚ)
  | Boolean (b : Bool)
  | String (str : List Char)
  | Form (formID : Nat)
  | Array (arrID : Nat)
  | NumericVar (varIdx : Nat) (varType : VarType)
  | StringVar (varIdx : Nat)
  | ArrayVar (varIdx : Nat)
  | RefVar (varIdx : Nat)
  | Global (formID : Nat)
  | ArrayElement (arrID : Nat) (key : Option ArrayKey)
  | Slice (slice : Slice)
  | Pair (left right : ScriptToken)
  | ForEachContext (sourceID iteratorID : Nat) (variableType : VarType) (var : Option Nat)
  | AssignableStringVar (strID : Nat) (lbound ubound : Nat)
  | AssignableStringElem (arrID : Nat) (key : Option ArrayKey) (lbound ubound : Nat)
  deriving DecidableEq

namespace ScriptToken

/-- The type tag of a token (`ScriptToken::Type`). -/
def TokenType : ScriptToken → Token_Type
  | Number _ => .Number
  | Boolean _ => .Boolean
  | String _ => .String
  | Form _ => .Form
  | Array _ => .Array
  | NumericVar _ _ => .NumericVar
  | StringVar _ => .StringVar
  | ArrayVar _ => .ArrayVar
  | RefVar _ => .RefVar
  | Global _ => .Global
  | ArrayElement _ _ => .ArrayElement
  | Slice _ => .Slice
  | Pair _ _ => .Pair
  | ForEachContext _ _ _ _ => .ForEachContext
  | AssignableStringVar _ _ _ => .AssignableString
  | AssignableStringElem _ _ _ _ => .AssignableString

/-- `ScriptToken::GetVar`: the script variable of a variable token, null for
any other token. -/
def GetVar : ScriptToken → Option Nat
  | NumericVar i _ => some i
  | StringVar i => some i
  | ArrayVar i => some i
  | RefVar i => some i
  | _ => none

/-- `ScriptToken::GetGlobal`: the global of a global token, null otherwise. -/
def GetGlobal : ScriptToken → Option Nat
  | Global id => some id
  | _ => none

/-- `ScriptToken::GetVariableType`. -/
def GetVariableType : ScriptToken → VarType
  | NumericVar _ t => t
  | StringVar _ => .String
  | ArrayVar _ => .Array
  | RefVar _ => .Ref
  | _ => .Invalid

/-- `ScriptToken::GetArrayKey`: the key of an array element token. -/
def GetArrayKey : ScriptToken → Option ArrayKey
  | ArrayElement _ key => key
  | _ => none

/-- `ScriptToken::GetOwningArrayID`: the array an element token belongs to. -/
def GetOwningArrayID : ScriptToken → Nat
  | ArrayElement arrID _ => arrID
  | _ => 0

/-- Modelled from the spec: `ScriptToken::GetNumber`, the numeric value a token
denotes: a number literal its value, a boolean 1 or 0, a numeric variable or
global the stored value, an array element the number stored at its key, and 0
for every token without a numeric value. -/
def GetNumber (context : ExpressionEvaluator) : ScriptToken → ℚ
  | Number n => n
  | Boolean b => if b then 1 else 0
  | NumericVar i _ => context.vars i
  | Global id => context.globals id
  | ArrayElement arrID (some key) =>
    match context.arrays arrID with
    | some a => (a.GetElementNumber key).getD 0
    | none => 0
  | _ => 0

end ScriptToken

/-! ## Operator routines -/

/-- Two's-complement wrapping into the range of `SInt64`. -/
def wrapSInt64 (z : Int) : Int := (z + 2 ^ 63) % 2 ^ 64 - 2 ^ 63

/-- The conversion `double → SInt64` of `SInt64 l = lh->GetNumber()`:
truncation toward zero.  (For a value outside the 64-bit range the C++
conversion is undefined; the model wraps.) -/
def toSInt64 (x : ℚ) : Int := wrapSInt64 (x.num.tdiv x.den)

/-- `OpTypeToSymbol`: the symbol of `s_operators[op]`. -/
def OpTypeToSymbol (op : OperatorType) : String :=
  match (s_operators true).find? (fun o => o.type == op) with
  | some o => o.symbol
  | none => "<unknown>"

/-- The result type of an operator routine: `none` when the routine does not
return (it would dereference a null pointer, or an integer division
overflows), otherwise the returned token (`none` for `NULL`) and the state it
leaves. -/
abbrev EvalResult := Option (Option ScriptToken × ExpressionEvaluator)

/-- `Eval_Add_Number`. -/
def Eval_Add_Number (_op : OperatorType) (lh rh : ScriptToken)
    (context : ExpressionEvaluator) : EvalResult :=
  some (some (.Number (lh.GetNumber context + rh.GetNumber context)), context)

/-- `Eval_Arithmetic`. -/
def Eval_Arithmetic (pow : ℚ → ℚ → ℚ) (op : OperatorType) (lh rh : ScriptToken)
    (context : ExpressionEvaluator) : EvalResult :=
  let l := lh.GetNumber context
  let r := rh.GetNumber context
  match op with
  | .Subtract => some (some (.Number (l - r)), context)
  | .Multiply => some (some (.Number (l * r)), context)
  | .Divide =>
    if r ≠ 0 then some (some (.Number (l / r)), context)
    else some (none, context.Error "Division by zero")
  | .Exponent => some (some (.Number (pow l r)), context)
  | _ => some (none, context.Error ("Unhandled operator " ++ OpTypeToSymbol op))

/-- The number of low bits that do not fit into the 53-bit significand of a
`double`: 0 for a magnitude below 2^53, one more for each further bit. -/
def roundShift : Nat → Nat → Nat
  | 0, _ => 0
  | fuel + 1, a => if a < 9007199254740992 then 0 else roundShift fuel (a / 2) + 1

/-- A 64-bit integer rounded to 53 significant bits, to nearest, ties to even
(the rounding of the conversion of an integer to `double`). -/
def roundSInt64 (z : Int) : Int :=
  let a := z.natAbs
  let e := roundShift 64 a
  let q := a / 2 ^ e
  let rem := a % 2 ^ e
  let q := if 2 ^ e < 2 * rem ∨ (2 * rem = 2 ^ e ∧ q % 2 = 1) then q + 1 else q
  z.sign * ((q * 2 ^ e : Nat) : Int)

/-- The conversion `double(x)` of a signed 64-bit integer: exact below 2^53 in
absolute value, otherwise rounded to 53 significant bits. -/
def SInt64ToDouble (z : Int) : ℚ := ((roundSInt64 z : Int) : ℚ)

/-- `Eval_Integer`.  The result of the integer operation is converted back by
`double(...)`.  The remainder of the least 64-bit integer by -1 overflows: the
division traps and the routine does not return.  (Shift counts outside 0..63
and the overflow of `<<` are undefined in C++; the model reduces the count
modulo 64 and wraps.) -/
def Eval_Integer (op : OperatorType) (lh rh : ScriptToken)
    (context : ExpressionEvaluator) : EvalResult :=
  let l : Int := toSInt64 (lh.GetNumber context)
  let r : Int := toSInt64 (rh.GetNumber context)
  match op with
  | .Modulo =>
    if r ≠ 0 then
      if l = -9223372036854775808 ∧ r = -1 then none
      else some (some (.Number (SInt64ToDouble (Int.tmod l r))), context)
    else some (none, context.Error "Division by zero")
  | .BitwiseOr => some (some (.Number (SInt64ToDouble (Int.lor l r))), context)
  | .BitwiseAnd => some (some (.Number (SInt64ToDouble (Int.land l r))), context)
  | .LeftShift =>
    some (some (.Number (SInt64ToDouble (wrapSInt64 (l * 2 ^ (r % 64).toNat)))), context)
  | .RightShift =>
    some (some (.Number (SInt64ToDouble (Int.shiftRight l (r % 64).toNat))), context)
  | _ => some (none, context.Error ("Unhandled operator " ++ OpTypeToSymbol op))

/-- `Eval_Negation`. -/
def Eval_Negation (_op : OperatorType) (lh : ScriptToken) (_rh : Option ScriptToken)
    (context : ExpressionEvaluator) : EvalResult :=
  some (some (.Number (lh.GetNumber context * -1)), context)

/-- `Eval_DividedEquals`. -/
def Eval_DividedEquals (_op : OperatorType) (lh rh : ScriptToken)
    (context : ExpressionEvaluator) : EvalResult :=
  let rhNum := rh.GetNumber context
  if rhNum = 0 then some (none, context.Error "Division by zero")
  else
    match lh.GetVar with
    | none => none
    | some v =>
      let context := context.setVar v (context.vars v / rhNum)
      some (some (.Number (context.vars v)), context)

/-- `Eval_DividedEquals_Global`. -/
def Eval_DividedEquals_Global (_op : OperatorType) (lh rh : ScriptToken)
    (context : ExpressionEvaluator) : EvalResult :=
  let num := rh.GetNumber context
  if num = 0 then some (none, context.Error "Division by zero.")
  else
    match lh.GetGlobal with
    | none => none
    | some g =>
      let context := context.setGlobal g (context.globals g / num)
      some (some (.Number (context.globals g)), context)

/-- `Eval_DividedEquals_Elem`. -/
def Eval_DividedEquals_Elem (_op : OperatorType) (lh rh : ScriptToken)
    (context : ExpressionEvaluator) : EvalResult :=
  match lh.GetArrayKey with
  | none => some (none, context.Error "Array Element is invalid")
  | some key =>
    let id := lh.GetOwningArrayID
    match context.arrays id with
    | none =>
      some (none, context.Error ("Eval_DividedEquals_Elem : Invalid Array Access - The array "
        ++ toString id ++ " was not initialized"))
    | some array =>
      match array.GetElementNumber key with
      | none => some (none, context.Error "Array Element is invalid")
      | some elemVal =>
        let result := rh.GetNumber context
        if result = 0 then some (none, context.Error "Division by zero")
        else
          let result := elemVal / rh.GetNumber context
          match array.SetElementNumber key result with
          | some array => some (some (.Number result), context.setArray id array)
          | none => some (none, context)

/-- `Eval_ExponentEquals`. -/
def Eval_ExponentEquals (pow : ℚ → ℚ → ℚ) (_op : OperatorType) (lh rh : ScriptToken)
    (context : ExpressionEvaluator) : EvalResult :=
  let rhNum := rh.GetNumber context
  match lh.GetVar with
  | none => none
  | some v =>
    let lhNum := context.vars v
    let context := context.setVar v (pow lhNum rhNum)
    some (some (.Number (context.vars v)), context)

/-- `Eval_ExponentEquals_Global`. -/
def Eval_ExponentEquals_Global (pow : ℚ → ℚ → ℚ) (_op : OperatorType) (lh rh : ScriptToken)
    (context : ExpressionEvaluator) : EvalResult :=
  match lh.GetGlobal with
  | none => none
  | some g =>
    let lhNum := context.globals g
    let context := context.setGlobal g (pow lhNum (rh.GetNumber context))
    some (some (.Number (context.globals g)), context)

/-- `Eval_ExponentEquals_Elem`. -/
def Eval_ExponentEquals_Elem (pow : ℚ → ℚ → ℚ) (_op : OperatorType) (lh rh : ScriptToken)
    (context : ExpressionEvaluator) : EvalResult :=
  match lh.GetArrayKey with
  | none => some (none, context.Error "Array Element is invalid")
  | some key =>
    let id := lh.GetOwningArrayID
    match context.arrays id with
    | none =>
      some (none, context.Error ("Eval_ExponentEquals_Elem: Invalid Array Access - The array "
        ++ toString id ++ " was not initialized"))
    | some array =>
      match array.GetElementNumber key with
      | none => some (none, context.Error "Array Element is invalid")
      | some elemVal =>
        let result := pow elemVal (rh.GetNumber context)
        match array.SetElementNumber key result with
        | some array => some (some (.Number result), context.setArray id array)
        | none => some (none, context)

/-- A stand-in for the C library `pow` on exact rationals, used where a
concrete run is evaluated: exact for integral exponents (`pow(x, 0) = 1`), and
the base itself for a non-integral exponent, where no rational result exists. -/
def powInt (x y : ℚ) : ℚ :=
  if y.den = 1 then x ^ y.num else x

/-- Modelled from the spec: `ScriptToken::CanConvertTo` at run time, the fixed
one-hop conversion lattice of the token model: every token converts to its own
type; a numeric variable and a global to `Number`; a number to `Boolean`; a
string variable to `String`; an array variable to `Array`; a reference variable
to `Form`; an array element to the type of the value stored at its key. -/
def ScriptToken.CanConvertTo (context : ExpressionEvaluator) (t : ScriptToken)
    (target : Token_Type) : Bool :=
  t.TokenType == target ||
  match t with
  | .Number _ => target == .Boolean
  | .NumericVar _ _ => target == .Number
  | .Global _ => target == .Number
  | .StringVar _ => target == .String
  | .ArrayVar _ => target == .Array
  | .RefVar _ => target == .Form
  | .ArrayElement arrID (some key) =>
    match context.arrays arrID with
    | some a =>
      match a.elems key with
      | some (.Number _) => target == .Number || target == .Boolean
      | some (.String _) => target == .String
      | some (.Form _) => target == .Form
      | some (.Array _) => target == .Array
      | none => false
    | none => false
  | _ => false

/-- The call `rule->eval(type, lh, rh, context)` for the routines embedded
above; `other` stands for the routines that are not.  A two-operand routine
dereferences its right operand. -/
def callHandler (pow : ℚ → ℚ → ℚ)
    (other : EvalFn → OperatorType → ScriptToken → Option ScriptToken →
      ExpressionEvaluator → EvalResult)
    (f : EvalFn) (op : OperatorType) (lh : ScriptToken) (rh : Option ScriptToken)
    (context : ExpressionEvaluator) : EvalResult :=
  match f, rh with
  | .Eval_Negation, rh => Eval_Negation op lh rh context
  | .Eval_Add_Number, some r => Eval_Add_Number op lh r context
  | .Eval_Arithmetic, some r => Eval_Arithmetic pow op lh r context
  | .Eval_Integer, some r => Eval_Integer op lh r context
  | .Eval_DividedEquals, some r => Eval_DividedEquals op lh r context
  | .Eval_DividedEquals_Global, some r => Eval_DividedEquals_Global op lh r context
  | .Eval_DividedEquals_Elem, some r => Eval_DividedEquals_Elem op lh r context
  | .Eval_ExponentEquals, some r => Eval_ExponentEquals pow op lh r context
  | .Eval_ExponentEquals_Global, some r => Eval_ExponentEquals_Global pow op lh r context
  | .Eval_ExponentEquals_Elem, some r => Eval_ExponentEquals_Elem pow op lh r context
  | .Eval_Add_Number, none => none
  | .Eval_Arithmetic, none => none
  | .Eval_Integer, none => none
  | .Eval_DividedEquals, none => none
  | .Eval_DividedEquals_Global, none => none
  | .Eval_DividedEquals_Elem, none => none
  | .Eval_ExponentEquals, none => none
  | .Eval_ExponentEquals_Global, none => none
  | .Eval_ExponentEquals_Elem, none => none
  | f, rh => other f op lh rh context

/-- A state for concrete runs: every variable and global holds 2, array 1 is
a numeric-keyed array holding 6 at key 0, no error has been reported. -/
def sampleContext : ExpressionEvaluator :=
  { vars := fun _ => 2
    globals := fun _ => 2
    arrays := fun i =>
      if i = 1 then
        some { keyType := .Numeric, elems := fun k => if k = .num 0 then some (.Number 6) else none }
      else none
    errors := [] }

/-- The operator `+` of the run-time table. -/
def opAdd : Operator := ⟨19, "+", 2, .Add, kOpRule_Addition true⟩

/-! ## Compile-time side: characters and text -/

/-- The NUL character that terminates a C string. -/
def NUL : Char := Char.ofNat 0

/-- The C library `isspace` in the "C" locale. -/
def isspace (c : Char) : Bool :=
  c == ' ' || (9 ≤ c.toNat && c.toNat ≤ 13)

/-- The C library `ispunct` in the "C" locale. -/
def ispunct (c : Char) : Bool :=
  (33 ≤ c.toNat && c.toNat ≤ 47) || (58 ≤ c.toNat && c.toNat ≤ 64) ||
    (91 ≤ c.toNat && c.toNat ≤ 96) || (123 ≤ c.toNat && c.toNat ≤ 126)

/-- The character `text[i]` of a buffer whose unused tail is zeroed. -/
def charAt (text : List Char) (i : Nat) : Char := text.getD i NUL

/-- The C library `strlen`: the number of characters before the first NUL. -/
def strlen (text : List Char) : Nat := (text.takeWhile (fun c => c != NUL)).length

/-- `std::string::find(ch, pos)`: the least index at or after `pos` holding
`ch`, `none` for `npos`. -/
def findFrom (ch : Char) (pos : Nat) (str : List Char) : Option Nat :=
  match (str.drop pos).indexOf? ch with
  | some i => some (pos + i)
  | none => none

/-- The loop of `FormatString`; each iteration advances `pos`, so the length of
the string bounds the number of iterations. -/
def FormatStringLoop : Nat → Nat → List Char → List Char
  | 0, _, str => str
  | fuel + 1, pos, str =>
    match findFrom '%' pos str with
    | none => str
    | some pos =>
      if pos < str.length - 1 then
        let next := charAt str (pos + 1)
        if next == '%' then FormatStringLoop fuel (pos + 2) str
        else if next == 'r' || next == 'R' then
          FormatStringLoop fuel (pos + 1) (str.take pos ++ '\n' :: str.drop (pos + 2))
        else if next == 'q' || next == 'Q' then
          FormatStringLoop fuel (pos + 1) (str.take pos ++ '"' :: str.drop (pos + 2))
        else FormatStringLoop fuel (pos + 1) str
      else str

/-- `FormatString(str)`: replaces the format specifiers of a string argument. -/
def FormatString (str : List Char) : List Char :=
  FormatStringLoop (str.length + 1) 0 str

/-- The C library `isdigit`. -/
def isdigit (c : Char) : Bool := 48 ≤ c.toNat && c.toNat ≤ 57

/-- The value of a string of decimal digits. -/
def digitsValue (ds : List Char) : Nat :=
  ds.foldl (fun acc c => 10 * acc + (c.toNat - 48)) 0

/-- The C library `strtod(str, &leftOvers)` on the decimal literals
`digits [. digits] [e digits]` (a token never holds a sign or a blank): the
value and the unparsed rest; no conversion gives 0 and the whole string.
Hexadecimal literals and the words `inf` and `nan` are outside the model and
count as unparsed. -/
def strtod (str : List Char) : ℚ × List Char :=
  let intPart := str.takeWhile isdigit
  let rest1 := str.dropWhile isdigit
  let fracPart := match rest1 with
    | '.' :: t => t.takeWhile isdigit
    | _ => []
  let rest2 := match rest1 with
    | '.' :: t => t.dropWhile isdigit
    | _ => rest1
  if intPart.isEmpty && fracPart.isEmpty then (0, str)
  else
    let mantissa : ℚ :=
      (digitsValue intPart : ℚ) + (digitsValue fracPart : ℚ) / (10 : ℚ) ^ fracPart.length
    match rest2 with
    | e :: t =>
      if (e == 'e' || e == 'E') && !(t.takeWhile isdigit).isEmpty then
        (mantissa * (10 : ℚ) ^ digitsValue (t.takeWhile isdigit), t.dropWhile isdigit)
      else (mantissa, rest2)
    | [] => (mantissa, rest2)

namespace Operator

/-- The character `symbol[i]`, NUL past the end of the symbol. -/
def sym (op : Operator) (i : Nat) : Char := charAt op.symbol.toList i

/-- Modelled from the spec: `Operator::IsOpenBracket` (declared in
`ScriptTokens.h`): the operator is `(` or `[`. -/
def IsOpenBracket (op : Operator) : Bool :=
  op.type == .LeftParen || op.type == .LeftBracket

/-- Modelled from the spec: `Operator::IsClosingBracket`: the operator is `)`
or `]`. -/
def IsClosingBracket (op : Operator) : Bool :=
  op.type == .RightParen || op.type == .RightBracket

/-- Modelled from the spec: `Operator::GetMatchedBracket`, the closing
character of an opening bracket. -/
def GetMatchedBracket (op : Operator) : Char :=
  match op.type with
  | .LeftParen => ')'
  | .LeftBracket => ']'
  | _ => NUL

/-- Modelled from the spec: `Operator::ExpectsStringLiteral`, true of the
member access operator `->`. -/
def ExpectsStringLiteral (op : Operator) : Bool := op.type == .MemberAccess

/-- Modelled from the spec: `Operator::Precedes`, "binds tighter than or equal
to": the queued operator is popped before `op` is pushed. -/
def Precedes (top op : Operator) : Bool := decide (op.precedence ≤ top.precedence)

end Operator

/-- Modelled from the spec: `CanConvertOperand(from, to)` on type tags, the
one-hop conversion lattice: a type converts to itself; `Ambiguous` to anything;
`NumericVar` and `Global` to `Number`; `Number` to `Boolean`; `StringVar` to
`String`; `ArrayVar` to `Array`; `RefVar` to `Form`; `ArrayElement` to
`Number`, `String`, `Form`, `Array` and `Boolean`.  `Invalid` and `Empty`
convert to nothing else. -/
def CanConvertOperand (source target : Token_Type) : Bool :=
  source == target ||
  match source with
  | .Ambiguous => target != .Invalid && target != .Empty
  | .NumericVar => target == .Number
  | .Global => target == .Number
  | .Number => target == .Boolean
  | .StringVar => target == .String
  | .ArrayVar => target == .Array
  | .RefVar => target == .Form
  | .ArrayElement =>
    target == .Number || target == .String || target == .Form || target == .Array ||
      target == .Boolean
  | _ => false

/-- Modelled from the spec: `Operator::GetResult(lhs, rhs)`, the static rule
resolution: the result type of the first rule, in declaration order, that the
operand types match directly or, unless it is asymmetric, swapped;
`kTokenType_Invalid` when no rule matches. -/
def Operator.GetResult (op : Operator) (lhs rhs : Token_Type) : Token_Type :=
  match op.rules.find? (fun rule =>
      if op.IsUnary then CanConvertOperand lhs rule.lhs
      else (CanConvertOperand lhs rule.lhs && CanConvertOperand rhs rule.rhs) ||
        (!rule.bAsymmetric && CanConvertOperand lhs rule.rhs && CanConvertOperand rhs rule.lhs)) with
  | some rule => rule.result
  | none => .Invalid

/-! ## Compile-time side: the parser state and its collaborators -/

/-- Messages passed to `CompilerMessages::Show`, with their arguments; the
last constructor is the direct `ShowCompilerError` call of `ParseArgs`. -/
inductive CompilerMessage
  | kError_CantParse
  | kError_TooManyOperators
  | kError_TooManyOperands
  | kError_MismatchedBrackets
  | kError_InvalidOperands (symbol : String)
  | kError_MismatchedQuotes
  | kError_InvalidDotSyntax
  | kError_CantFindVariable (name : List Char)
  | kError_ExpectedStringVariable
  | kError_TooManyArgs
  | kError_RefRequired (name : String)
  | kError_MissingParam (typeStr : String) (index : Nat)
  | kError_ExpectedStringLiteral
  | kWarning_UnquotedString (token : List Char)
  | InvalidExpressionForParameter (index : Nat) (typeStr : String)
  deriving DecidableEq, Repr

/-- Form types the parser tells apart. -/
inductive FormType
  | Global | REFR | Quest | Other
  deriving DecidableEq, Repr

/-- What the parser reads of a `TESForm`. -/
structure TESForm where
  refID : Nat
  typeID : FormType
  deriving DecidableEq, Repr

/-- What the parser reads of a `Script::RefVariable`. -/
structure RefVariable where
  name : List Char
  varIdx : Nat
  form : Option TESForm
  deriving DecidableEq, Repr

/-- What the parser reads of a `Script::VariableInfo`. -/
structure VariableInfo where
  idx : Nat
  deriving DecidableEq, Repr

/-- Return types of commands (`CommandReturnType`). -/
inductive CommandReturnType
  | Default | Form | String | Array | ArrayIndex | Ambiguous
  deriving DecidableEq, Repr

/-- One parameter of a command: `{ typeStr, typeID, isOptional }`. -/
structure ParamInfo where
  typeStr : String
  typeID : Nat
  isOptional : Bool
  deriving DecidableEq, Repr

/-- What the parser reads of a `CommandInfo`. -/
structure CommandInfo where
  longName : String
  opcode : Nat
  needsParent : Bool
  params : List ParamInfo
  deriving DecidableEq, Repr

/-- Operand tokens as the parser creates them, one constructor for each
`ScriptToken::Create` overload that `ParseOperand` calls. -/
inductive OperandToken
  | Number (num : ℚ)
  | String (str : List Char)
  | Variable (varInfo : Option VariableInfo) (refIdx : Nat) (varType : VarType)
  | Global (form : TESForm) (refIdx : Nat)
  | Ref (refVar : RefVariable) (refIdx : Nat)
  | Command (cmdInfo : CommandInfo) (refIdx : Nat)
  deriving DecidableEq

namespace OperandToken

/-- The type tag of a created operand (`ScriptToken::Type`). -/
def TokenType : OperandToken → Token_Type
  | Number _ => .Number
  | String _ => .String
  | Variable _ _ .Float => .NumericVar
  | Variable _ _ .Integer => .NumericVar
  | Variable _ _ .String => .StringVar
  | Variable _ _ .Array => .ArrayVar
  | Variable _ _ .Ref => .RefVar
  | Variable _ _ .Invalid => .Invalid
  | Global _ _ => .Global
  | Ref _ _ => .Ref
  | Command _ _ => .Command

/-- `ScriptToken::GetCommandInfo`: the command of a command token. -/
def GetCommandInfo : OperandToken → Option CommandInfo
  | Command c _ => some c
  | _ => none

end OperandToken

/-- What has been written to `m_lineBuf->dataBuf`: a serialized operand
(`ScriptToken::Write`), a serialized operator, a 16-bit length field, or a
single byte. -/
inductive OutItem
  | operand (t : OperandToken)
  | operator (op : OperatorType)
  | len16 (value : Nat)
  | byte (value : Nat)
  deriving DecidableEq

/-- The kinds of vanilla parameter types that `ValidateArgType` tells apart. -/
inductive VanillaParamKind
  | String | Number | ActorValue | Unsupported | MagicEffect | Array | Form
  deriving DecidableEq, Repr

/-- The collaborators of the parser and the constants that are declared
outside the files at hand: the script being compiled, the reference and
command tables, the encoding of parameter types and the size of a serialized
token. -/
structure ParserEnv where
  /-- `true` for the run-time build (`OBLIVION`), `false` for the editor. -/
  oblivion : Bool
  /-- `m_scriptBuf->vars.GetVariableByName`. -/
  scriptVars : List Char → Option VariableInfo
  /-- `GetScriptFromForm(form)->varList.GetVariableByName`, `none` for an
  unscripted form. -/
  formScriptVars : TESForm → Option (List Char → Option VariableInfo)
  /-- `m_scriptBuf->GetVariableType`. -/
  GetVariableType : VariableInfo → Option RefVariable → VarType
  /-- `m_scriptBuf->ResolveRef`. -/
  ResolveRef : List Char → Option RefVariable
  /-- `m_scriptBuf->GetRefIdx`. -/
  GetRefIdx : RefVariable → Nat
  /-- `g_scriptCommands.GetByName`. -/
  GetByName : List Char → Option CommandInfo
  /-- `g_scriptCommands.GetReturnType`. -/
  GetReturnType : CommandInfo → CommandReturnType
  /-- `m_scriptBuf->scriptType == Script::eType_Quest`. -/
  isQuestScript : Bool
  /-- The token types whose bit is set in an OBSE parameter type, `none` for
  `kOBSEParamType_NoTypeCheck`. -/
  obseParamTypes : Nat → Option (List Token_Type)
  /-- The `switch` case a vanilla parameter type falls in. -/
  vanillaParamKind : Nat → VanillaParamKind
  /-- The number of bytes `ScriptToken::Write` emits for an operand. -/
  operandSize : OperandToken → Nat
  /-- The number of bytes `ScriptToken::Write` emits for an operator. -/
  operatorSize : OperatorType → Nat

/-- The state the parser works on: the text and read offset of the line
buffer, the compiled output, the global `s_parserDepth`, the messages shown so
far (oldest first), and whether an `ASSERT` on the depth counter has failed. -/
structure ParserState where
  paramText : List Char
  lineOffset : Nat
  dataBuf : List OutItem
  s_parserDepth : Int
  messages : List CompilerMessage
  assertFailed : Bool

namespace ParserState

/-- `CompilerMessages::Show(code, ...)`: the message is recorded. -/
def Show (st : ParserState) (msg : CompilerMessage) : ParserState :=
  { st with messages := st.messages ++ [msg] }

/-- `Text()[idx]`. -/
def textAt (st : ParserState) (idx : Nat) : Char := charAt st.paramText idx

/-- Modelled from the spec: `ExpressionParser::Peek(idx)` (declared in
`ScriptUtils.h`): the character at `idx`, 0 at or past `m_len`. -/
def Peek (st : ParserState) (m_len : Nat) (idx : Nat) : Char :=
  if idx < m_len then st.textAt idx else NUL

/-- An item appended to the output. -/
def write (st : ParserState) (item : OutItem) : ParserState :=
  { st with dataBuf := st.dataBuf ++ [item] }

end ParserState

namespace ParserEnv

/-- The size in bytes of an output item. -/
def itemSize (env : ParserEnv) : OutItem → Nat
  | .operand t => env.operandSize t
  | .operator op => env.operatorSize op
  | .len16 _ => 2
  | .byte _ => 1

/-- The number of bytes from item number `start` to the end of the output:
the pointer difference `(dataBuf + dataOffset) - dataStart`. -/
def bytesFrom (env : ParserEnv) (dataBuf : List OutItem) (start : Nat) : Nat :=
  ((dataBuf.drop start).map env.itemSize).sum

/-- The store `*((UInt16*)dataStart) = (dataBuf + dataOffset) - dataStart` into
the length field that is item number `start`. -/
def patchLength (env : ParserEnv) (st : ParserState) (start : Nat) : ParserState :=
  { st with dataBuf := st.dataBuf.set start (.len16 (env.bytesFrom st.dataBuf start % 65536)) }

/-- The operator table of the build. -/
def operators (env : ParserEnv) : List Operator := s_operators env.oblivion

end ParserEnv

/-! ## Compile-time side: `ExpressionParser` -/

/-- The scan of `ExpressionParser::MatchOpenBracket` from index `i`, with
`fuel` characters left before `m_len`: the index at which the count of open
brackets reaches 0, or `none` for the result `-1`. -/
def MatchOpenBracketLoop (openBrac closingBrac : Char) (text : List Char) :
    Nat → Nat → Nat → Option Nat
  | 0, _, _ => none
  | fuel + 1, i, openBracCount =>
    if charAt text i == NUL then none
    else
      let openBracCount :=
        if charAt text i == openBrac then openBracCount + 1
        else if charAt text i == closingBrac then openBracCount - 1
        else openBracCount
      if openBracCount == 0 then some i
      else MatchOpenBracketLoop openBrac closingBrac text fuel (i + 1) openBracCount

/-- `ExpressionParser::MatchOpenBracket(openBracOp)`. -/
def MatchOpenBracket (st : ParserState) (m_len : Nat) (openBracOp : Operator) : Option Nat :=
  MatchOpenBracketLoop (openBracOp.sym 0) openBracOp.GetMatchedBracket st.paramText
    (m_len - st.lineOffset) st.lineOffset 1

/-- The second-character loop of `ParseOperator`: the definite match, if any,
and the candidates left after the erasures. -/
def secondCharScan (ch : Char) : List Operator → Option Operator × List Operator
  | [] => (none, [])
  | cur :: rest =>
    if cur.sym 1 == ch then (some cur, cur :: rest)
    else if cur.sym 1 != NUL then secondCharScan ch rest
    else ((secondCharScan ch rest).1, cur :: (secondCharScan ch rest).2)

/-- `ExpressionParser::ParseOperator(bExpectBinaryOperator, bConsumeIfFound)`. -/
def ParseOperator (env : ParserEnv) (m_len : Nat) (bExpectBinaryOperator : Bool)
    (bConsumeIfFound : Bool) (st : ParserState) : Option Operator × ParserState :=
  let ch := st.Peek m_len st.lineOffset
  if ch == ',' then (none, { st with lineOffset := st.lineOffset + 1 })
  else
    let ops := env.operators.filter (fun curOp =>
      (if bExpectBinaryOperator then curOp.IsBinary || curOp.IsClosingBracket
       else curOp.IsUnary || curOp.IsOpenBracket) && ch == curOp.sym 0)
    let ch := st.Peek m_len (st.lineOffset + 1)
    let found : Option Operator × List Operator :=
      if ch != NUL && ispunct ch then secondCharScan ch ops
      else (ops.find? (fun o => o.sym 1 == NUL), ops)
    let op : Option Operator :=
      match found.1, found.2 with
      | none, [only] => some only
      | op, _ => op
    match op with
    | some o =>
      if bConsumeIfFound then
        (some o, { st with lineOffset := st.lineOffset + o.symbol.length })
      else (some o, st)
    | none => (none, st)

/-- The loop of `ExpressionParser::GetCurToken`: the offset of the first blank
or punctuation character other than `_` and `.`, with `fuel` characters left
before `m_len`. -/
def GetCurTokenEnd (st : ParserState) (m_len : Nat) : Nat → Nat → Nat
  | 0, offset => offset
  | fuel + 1, offset =>
    let ch := st.Peek m_len offset
    if ch == NUL then offset
    else if isspace ch || (ispunct ch && ch != '_' && ch != '.') then offset
    else GetCurTokenEnd st m_len fuel (offset + 1)

/-- `ExpressionParser::GetCurToken()`: the token and the state after it. -/
def GetCurToken (st : ParserState) (m_len : Nat) : List Char × ParserState :=
  let stop := GetCurTokenEnd st m_len (m_len - st.lineOffset) st.lineOffset
  ((st.paramText.drop st.lineOffset).take (stop - st.lineOffset), { st with lineOffset := stop })

/-- `ExpressionParser::LookupVariable(varName, refVar)`. -/
def LookupVariable (env : ParserEnv) (varName : List Char) (refVar : Option RefVariable) :
    Option VariableInfo :=
  match refVar with
  | some rv =>
    match rv.form with
    | none => none
    | some form =>
      match env.formScriptVars form with
      | some vars => vars varName
      | none => none
  | none => env.scriptVars varName

/-- The case-insensitive comparison `_stricmp(a, b) == 0`. -/
def stricmpEq (a b : List Char) : Bool := a.map Char.toLower == b.map Char.toLower

/-- The C library `strchr(text + offset, ch)`: the index of the first `ch` at
or after `offset` and before the terminating NUL. -/
def strchrFrom (text : List Char) (offset : Nat) (ch : Char) : Option Nat :=
  match ((text.drop offset).takeWhile (fun c => c != NUL)).indexOf? ch with
  | some i => some (offset + i)
  | none => none

/-- The block `if (refVar) { ... }` of `ExpressionParser::ParseOperand`: what
it returns, `none` when control leaves the block without a `return`. -/
def ParseOperandRef (env : ParserEnv) (hasDot : Bool) (rv : RefVariable) (refIdx : Nat)
    (st : ParserState) : Option (Option OperandToken × ParserState) :=
  if !hasDot then
    if rv.varIdx != 0 then some (some (.Variable (env.scriptVars rv.name) 0 .Ref), st)
    else
      match rv.form with
      | some form =>
        if form.typeID == .Global then some (some (.Global form refIdx), st)
        else some (some (.Ref rv refIdx), st)
      | none => some (some (.Ref rv refIdx), st)
  else
    match rv.form with
    | some form =>
      if form.typeID != .REFR && form.typeID != .Quest then
        some (none, st.Show .kError_InvalidDotSyntax)
      else none
    | none => none

/-- The end of `ExpressionParser::ParseOperand` from the comment `command?`
on: a command, a variable, or a string. -/
def ParseOperandName (env : ParserEnv) (curOp : Option Operator) (bExpectStringVar : Bool)
    (hasDot : Bool) (token : List Char) (refVar : Option RefVariable) (refIdx : Nat)
    (st : ParserState) : Option OperandToken × ParserState :=
  match (if bExpectStringVar then none else env.GetByName token) with
  | some cmdInfo =>
    if env.isQuestScript && cmdInfo.needsParent && refVar.isNone then
      (none, st.Show (.kError_RefRequired cmdInfo.longName))
    else if refVar.any (fun rv => rv.form.any (fun f => f.typeID != .REFR)) then (none, st)
    else (some (.Command cmdInfo refIdx), st)
  | none =>
    match LookupVariable env token refVar with
    | some varInfo =>
      if bExpectStringVar && env.GetVariableType varInfo refVar != .String then
        (none, st.Show .kError_ExpectedStringVariable)
      else (some (.Variable (some varInfo) refIdx (env.GetVariableType varInfo refVar)), st)
    | none =>
      if hasDot then (none, st.Show (.kError_CantFindVariable token))
      else if bExpectStringVar then (none, st.Show .kError_ExpectedStringVariable)
      else if refVar.isSome then (none, st.Show .kError_InvalidDotSyntax)
      else if curOp.all (fun o => o.type != .MemberAccess) then
        (some (.String (FormatString token)), st.Show (.kWarning_UnquotedString token))
      else (some (.String (FormatString token)), st)

/-- The part of `ExpressionParser::ParseOperand` from the check for a calling
object on, for a token that is not a number: `refToken` and `token` are the
parts before and after the dot. -/
def ParseOperandObject (env : ParserEnv) (curOp : Option Operator) (bExpectStringVar : Bool)
    (hasDot : Bool) (refToken token : List Char) (st : ParserState) :
    Option OperandToken × ParserState :=
  match (if !hasDot then LookupVariable env token none else none) with
  | some varInfo => (some (.Variable (some varInfo) 0 (env.GetVariableType varInfo none)), st)
  | none =>
    match env.ResolveRef
        (if stricmpEq refToken "player".toList && hasDot then "playerRef".toList
         else refToken) with
    | none =>
      if hasDot then (none, st.Show .kError_InvalidDotSyntax)
      else ParseOperandName env curOp bExpectStringVar hasDot token none 0 st
    | some rv =>
      match ParseOperandRef env hasDot rv (env.GetRefIdx rv) st with
      | some r => r
      | none =>
        ParseOperandName env curOp bExpectStringVar hasDot token (some rv) (env.GetRefIdx rv) st

/-- The part of `ExpressionParser::ParseOperand(curOp)` after the current
token has been read: the operand the token denotes. -/
def ParseOperandToken (env : ParserEnv) (curOp : Option Operator) (bExpectStringVar : Bool)
    (token : List Char) (st : ParserState) : Option OperandToken × ParserState :=
  if curOp.any Operator.ExpectsStringLiteral then
    if token.length == 0 || bExpectStringVar then (none, st.Show .kError_ExpectedStringLiteral)
    else (some (.String token), st)
  else if (strtod token).2.isEmpty then (some (.Number (strtod token).1), st)
  else
    match token.indexOf? '.' with
    | some dotPos =>
      ParseOperandObject env curOp bExpectStringVar true (token.take dotPos)
        (token.drop (dotPos + 1)) st
    | none => ParseOperandObject env curOp bExpectStringVar false token token st

/-- `ExpressionParser::ParseOperand(curOp)`. -/
def ParseOperand (env : ParserEnv) (m_len : Nat) (curOp : Option Operator)
    (st : ParserState) : Option OperandToken × ParserState :=
  let firstChar := st.Peek m_len st.lineOffset
  if firstChar == NUL then (none, st.Show .kError_CantParse)
  else if firstChar == '"' then
    let st := { st with lineOffset := st.lineOffset + 1 }
    match strchrFrom st.paramText st.lineOffset '"' with
    | none => (none, st.Show .kError_MismatchedQuotes)
    | some endQuote =>
      (some (.String (FormatString
          ((st.paramText.drop st.lineOffset).take (endQuote - st.lineOffset)))),
        { st with lineOffset := endQuote + 1 })
  else
    let bExpectStringVar := firstChar == '$'
    let st := if bExpectStringVar then { st with lineOffset := st.lineOffset + 1 } else st
    ParseOperandToken env curOp bExpectStringVar (GetCurToken st m_len).1 (GetCurToken st m_len).2

/-- `ExpressionParser::PopOperator(ops, operands)` where `topOp` is the
operator popped off the operator stack: the returned type, the operand stack
and the state. -/
def PopOperator (topOp : Operator) (operands : List Token_Type) (st : ParserState) :
    Token_Type × List Token_Type × ParserState :=
  if operands.length < topOp.numOperands then
    (.Invalid, operands, st.Show .kError_TooManyOperators)
  else
    let popped : Option (Token_Type × Token_Type × List Token_Type) :=
      match topOp.numOperands, operands with
      | 2, rhType :: lhType :: rest => some (lhType, rhType, rest)
      | 1, lhType :: rest => some (lhType, .Invalid, rest)
      | _, _ => none
    match popped with
    | none => (.Invalid, operands, st.Show .kError_CantParse)
    | some (lhType, rhType, operands) =>
      let result := topOp.GetResult lhType rhType
      if result == .Invalid then
        (.Invalid, operands, st.Show (.kError_InvalidOperands topOp.symbol))
      else (result, result :: operands, st.write (.operator topOp.type))

/-- The loop `while (ops.size() && ops.top()->Precedes(op)) PopOperator(ops,
operands);` of `ParseSubExpression`; the value `PopOperator` returns is not
looked at. -/
def popWhilePrecedes (op : Operator) :
    List Operator → List Token_Type → ParserState →
      List Operator × List Token_Type × ParserState
  | [], operands, st => ([], operands, st)
  | topOp :: ops, operands, st =>
    if topOp.Precedes op then
      popWhilePrecedes op ops (PopOperator topOp operands st).2.1
        (PopOperator topOp operands st).2.2
    else (topOp :: ops, operands, st)

/-- The stacks after an opening bracket has been read: the subscript operator
`[` takes operands and is pushed like an operator, after the pops; `(` is not
pushed. -/
def pushOpenBracket (op : Operator) (ops : List Operator) (operands : List Token_Type)
    (st : ParserState) : List Operator × List Token_Type × ParserState :=
  if op.numOperands != 0 then
    (op :: (popWhilePrecedes op ops operands st).1, (popWhilePrecedes op ops operands st).2)
  else (ops, operands, st)

/-- The end of `ParseSubExpression` after its main loop: the operator stack is
cleaned off, stopping at the first `PopOperator` that fails, and the operand
stack must hold one result. -/
def finishSubExpression :
    List Operator → List Token_Type → ParserState → Token_Type × ParserState
  | topOp :: ops, operands, st =>
    if (PopOperator topOp operands st).1 == .Invalid then
      (.Invalid, (PopOperator topOp operands st).2.2)
    else
      finishSubExpression ops (PopOperator topOp operands st).2.1
        (PopOperator topOp operands st).2.2
  | [], operands, st =>
    match operands with
    | [] => (.Empty, st)
    | [result] => (result, st)
    | _ :: _ :: _ => (.Invalid, st.Show .kError_TooManyOperands)

/-- `ExpressionParser::ValidateArgType(paramType, argType, bIsOBSEParam)`. -/
def ValidateArgType (env : ParserEnv) (paramType : Nat) (argType : Token_Type)
    (bIsOBSEParam : Bool) : Bool :=
  if bIsOBSEParam then
    match env.obseParamTypes paramType with
    | none => true
    | some types => types.any (fun ty => CanConvertOperand argType ty)
  else if argType == .Ambiguous then true
  else
    match env.vanillaParamKind paramType with
    | .String => CanConvertOperand argType .String
    | .Number =>
      CanConvertOperand argType .Number || CanConvertOperand argType .StringVar ||
        CanConvertOperand argType .Variable
    | .ActorValue => CanConvertOperand argType .String || CanConvertOperand argType .Number
    | .Unsupported => false
    | .MagicEffect =>
      CanConvertOperand argType .String || CanConvertOperand argType .Number ||
        CanConvertOperand argType .Form
    | .Array => CanConvertOperand argType .Array
    | .Form => CanConvertOperand argType .Form

/-- The loop `while ((ch = Peek(Offset()))) { if (!isspace(ch)) break;
Offset()++; }`, with `fuel` characters left before `m_len`. -/
def skipSpaces (st : ParserState) (m_len : Nat) : Nat → Nat → Nat
  | 0, offset => offset
  | fuel + 1, offset =>
    if isspace (st.Peek m_len offset) then skipSpaces st m_len fuel (offset + 1) else offset

/-- The constructor `ExpressionParser::ExpressionParser`: it asserts that the
depth counter is not negative and increments it. -/
def ExpressionParser_enter (st : ParserState) : ParserState :=
  { st with
    assertFailed := st.assertFailed || decide (st.s_parserDepth < 0)
    s_parserDepth := st.s_parserDepth + 1 }

/-- The destructor `ExpressionParser::~ExpressionParser`: it asserts that the
depth counter is positive and decrements it. -/
def ExpressionParser_leave (st : ParserState) : ParserState :=
  { st with
    assertFailed := st.assertFailed || decide (st.s_parserDepth ≤ 0)
    s_parserDepth := st.s_parserDepth - 1 }

/-- The number of required arguments as `ParseArgs` counts them: the
parameters before the first optional one. -/
def numExpectedArgs (params : List ParamInfo) : Nat :=
  (params.takeWhile (fun p => !p.isOptional)).length

/-- The end of `ParseArgs` after its loop: the checks for left-over text and
for missing arguments, and the store of the argument count into the byte that
is item number `numArgsPtr`. -/
def finishParseArgs (m_len : Nat) (params : List ParamInfo) (numArgsPtr : Nat)
    (m_numArgsParsed : Nat) (st : ParserState) : Bool × ParserState :=
  if st.lineOffset < m_len && st.s_parserDepth == 1 then (false, st.Show .kError_TooManyArgs)
  else if numExpectedArgs params > m_numArgsParsed then
    (false, st.Show (.kError_MissingParam
      ((params.get? m_numArgsParsed).map (fun p => p.typeStr) |>.getD "") (m_numArgsParsed + 1)))
  else (true, { st with dataBuf := st.dataBuf.set numArgsPtr (.byte m_numArgsParsed) })

/-- The operand type the main loop records for a command operand: adjusted
when the return type of the command is known. -/
def commandOperandType (env : ParserEnv) (cmdInfo : CommandInfo) : Token_Type :=
  match env.GetReturnType cmdInfo with
  | .String => .String
  | .Array => .Array
  | .Form => .Form
  | _ => .Command

/-- The main loop of `ExpressionParser::ParseArgs`, over the parameters not yet
matched, given the parser `sub` for one argument expression
(`ParseSubExpression`).  The result is `none` when `sub` runs out of fuel;
otherwise the number of arguments parsed when the loop ends, or `none` for
`return false`, and the state. -/
def ParseArgsLoop (env : ParserEnv)
    (sub : Nat → ParserState → Option (Token_Type × ParserState))
    (argsEndPos : Nat) (bUsesOBSEParamTypes : Bool) :
    List ParamInfo → Nat → Nat → ParserState → Option (Option Nat × ParserState)
  | [], m_numArgsParsed, _, st => some (some m_numArgsParsed, st)
  | param :: rest, m_numArgsParsed, dataStart, st =>
    if st.lineOffset < argsEndPos then
      match sub (argsEndPos - st.lineOffset) (st.write (.len16 0)) with
      | none => none
      | some (argType, st) =>
        if argType == .Invalid then some (none, st)
        else if argType == .Empty then some (some m_numArgsParsed, st)
        else if !ValidateArgType env param.typeID argType bUsesOBSEParamTypes then
          some (none,
            st.Show (.InvalidExpressionForParameter (m_numArgsParsed + 1) param.typeStr))
        else
          ParseArgsLoop env sub argsEndPos bUsesOBSEParamTypes rest (m_numArgsParsed + 1)
            (env.patchLength st dataStart).dataBuf.length (env.patchLength st dataStart)
    else some (some m_numArgsParsed, st)

/-- `ExpressionParser::ParseArgs(params, numParams, bUsesOBSEParamTypes)` for a
parser of text length `m_len` that has parsed no argument yet, given the
parser `sub` for one argument expression. -/
def ParseArgsWith (env : ParserEnv)
    (sub : Nat → ParserState → Option (Token_Type × ParserState))
    (m_len : Nat) (params : List ParamInfo) (bUsesOBSEParamTypes : Bool)
    (st : ParserState) : Option (Bool × ParserState) :=
  let numArgsPtr := st.dataBuf.length
  let st := st.write (.byte 0)
  let st := { st with lineOffset := skipSpaces st m_len (m_len - st.lineOffset) st.lineOffset }
  match ParseArgsLoop env sub m_len bUsesOBSEParamTypes params 0 st.dataBuf.length st with
  | none => none
  | some (none, st) => some (false, st)
  | some (some m_numArgsParsed, st) =>
    some (finishParseArgs m_len params numArgsPtr m_numArgsParsed st)

/-- `ExpressionParser::ParseFunctionCall(cmdInfo)`, given the parser `sub` for
one argument expression in a parser of a given text length.

Modelled from the spec: the call `ParseNestedFunction(cmdInfo, m_lineBuf,
m_scriptBuf)`, whose source is not among the files: the argument list of the
command is compiled by a new `ExpressionParser` on the line buffer, with arity
and parameter types taken from the command table, and the parser is destroyed
when the call returns. -/
def ParseFunctionCallWith (env : ParserEnv)
    (sub : Nat → Nat → ParserState → Option (Token_Type × ParserState))
    (cmdInfo : CommandInfo) (st : ParserState) : Option (Bool × ParserState) :=
  let oldOffset := st.lineOffset
  let argsLenPtr := st.dataBuf.length
  let oldLineText := st.paramText
  let st := st.write (.len16 0)
  let st := { st with paramText := oldLineText.drop oldOffset, lineOffset := 0 }
  let st := ExpressionParser_enter st
  match ParseArgsWith env (sub (strlen st.paramText)) (strlen st.paramText) cmdInfo.params true
      st with
  | none => none
  | some (bParsed, st) =>
    let st := ExpressionParser_leave st
    let st := { st with lineOffset := st.lineOffset + oldOffset }
    let st := env.patchLength st argsLenPtr
    some (bParsed, { st with paramText := oldLineText })

mutual

/-- `ExpressionParser::ParseSubExpression(exprLen)` for a parser of text
length `m_len`; the first argument is the fuel. -/
def ParseSubExpression (env : ParserEnv) :
    Nat → Nat → Nat → ParserState → Option (Token_Type × ParserState)
  | 0, _, _, _ => none
  | fuel + 1, m_len, exprLen, st =>
    ParseSubExpressionLoop env fuel m_len (st.lineOffset + exprLen) [] [] false st

/-- The main loop of `ParseSubExpression` from one evaluation of its
condition on, with the stacks `ops` and `operands` (top first) and the flag
`bLastTokenWasOperand`. -/
def ParseSubExpressionLoop (env : ParserEnv) :
    Nat → Nat → Nat → List Operator → List Token_Type → Bool → ParserState →
      Option (Token_Type × ParserState)
  | 0, _, _, _, _, _, _ => none
  | fuel + 1, m_len, exprEnd, ops, operands, bLastTokenWasOperand, st =>
    let ch := st.Peek m_len st.lineOffset
    if !(st.lineOffset < exprEnd && ch != NUL) then some (finishSubExpression ops operands st)
    else if isspace ch then
      ParseSubExpressionLoop env fuel m_len exprEnd ops operands bLastTokenWasOperand
        { st with lineOffset := st.lineOffset + 1 }
    else
      match ParseOperator env m_len bLastTokenWasOperand true st with
      | (some op, st) =>
        if op.IsOpenBracket then
          let pushed := pushOpenBracket op ops operands st
          match MatchOpenBracket pushed.2.2 m_len op with
          | none => some (.Invalid, pushed.2.2.Show .kError_MismatchedBrackets)
          | some endBracPos =>
            match ParseSubExpression env fuel m_len (endBracPos - pushed.2.2.lineOffset)
                { pushed.2.2 with paramText := pushed.2.2.paramText.set endBracPos NUL } with
            | none => none
            | some (operandType, st) =>
              let st := { st with lineOffset := endBracPos + 1 }
              if operandType == .Invalid then some (.Invalid, st.Show .kError_CantParse)
              else
                ParseSubExpressionLoop env fuel m_len exprEnd pushed.1
                  (operandType :: pushed.2.1) true st
        else if op.IsClosingBracket then some (.Invalid, st.Show .kError_MismatchedBrackets)
        else
          ParseSubExpressionLoop env fuel m_len exprEnd
            (op :: (popWhilePrecedes op ops operands st).1)
            (popWhilePrecedes op ops operands st).2.1 false
            (popWhilePrecedes op ops operands st).2.2
      | (none, st) =>
        let delimiter : Bool × ParserState :=
          if bLastTokenWasOperand then (true, st)
          else
            ((ParseOperator env m_len (!bLastTokenWasOperand) false st).1.isSome,
              (ParseOperator env m_len (!bLastTokenWasOperand) false st).2)
        let st := delimiter.2
        if delimiter.1 then some (finishSubExpression ops operands st)
        else
          match ParseOperand env m_len ops.head? st with
          | (none, st) => some (.Invalid, st)
          | (some operand, st) =>
            let st := st.write (.operand operand)
            match operand.GetCommandInfo with
            | some cmdInfo =>
              match ParseFunctionCallWith env (fun len => ParseSubExpression env fuel len)
                  cmdInfo { st with s_parserDepth := st.s_parserDepth + 1 } with
              | none => none
              | some (bParsed, st) =>
                let st := { st with s_parserDepth := st.s_parserDepth - 1 }
                if !bParsed then some (.Invalid, st.Show .kError_CantParse)
                else
                  ParseSubExpressionLoop env fuel m_len exprEnd ops
                    (commandOperandType env cmdInfo :: operands) true st
            | none =>
              if operand.TokenType == .Invalid then some (.Invalid, st.Show .kError_CantParse)
              else
                ParseSubExpressionLoop env fuel m_len exprEnd ops
                  (operand.TokenType :: operands) true st

end

/-- `ExpressionParser::ParseArgs(params, numParams, bUsesOBSEParamTypes)` with
`fuel` for each argument expression. -/
def ParseArgs (env : ParserEnv) (fuel : Nat) (m_len : Nat) (params : List ParamInfo)
    (bUsesOBSEParamTypes : Bool) (st : ParserState) : Option (Bool × ParserState) :=
  ParseArgsWith env (ParseSubExpression env fuel m_len) m_len params bUsesOBSEParamTypes st

/-- `ExpressionParser::Parse()`. -/
def Parse (env : ParserEnv) (fuel : Nat) (m_len : Nat) (st : ParserState) :
    Option (Token_Type × ParserState) :=
  let dataStart := st.dataBuf.length
  match ParseSubExpression env fuel m_len m_len (st.write (.len16 0)) with
  | none => none
  | some (result, st) => some (result, env.patchLength st dataStart)

/-- A parser environment without variables, references or commands, for the
editor build. -/
def plainEnv : ParserEnv :=
  { oblivion := false
    scriptVars := fun _ => none
    formScriptVars := fun _ => none
    GetVariableType := fun _ _ => .Invalid
    ResolveRef := fun _ => none
    GetRefIdx := fun _ => 0
    GetByName := fun _ => none
    GetReturnType := fun _ => .Default
    isQuestScript := false
    obseParamTypes := fun _ => none
    vanillaParamKind := fun _ => .Form
    operandSize := fun _ => 1
    operatorSize := fun _ => 1 }

/-- The state of a fresh line buffer holding `text`, inside one parser
(`s_parserDepth = 1`). -/
def startState (text : String) : ParserState :=
  { paramText := text.toList
    lineOffset := 0
    dataBuf := []
    s_parserDepth := 1
    messages := []
    assertFailed := false }

/-- The bracket count after the characters `s`, starting from the count `c`. -/
def bracketCount (openBrac closingBrac : Char) (c : Nat) (s : List Char) : Int :=
  (c : Int) + (s.count openBrac : Int) - (s.count closingBrac : Int)

/-- The text the bracket scan may visit. -/
def scanWindow (text : List Char) (i n : Nat) : List Char :=
  ((text.drop i).take n).takeWhile (fun c => c != NUL)

/-- The operator `(`. -/
def opLeftParen : Operator := ⟨80, "(", 0, .LeftParen, []⟩

/-- The operator `)`. -/
def opRightParen : Operator := ⟨80, ")", 0, .RightParen, []⟩

/-- The operator `[`. -/
def opLeftBracket (ob : Bool) : Operator := ⟨90, "[", 2, .LeftBracket, kOpRule_LeftBracket ob⟩

/-- The operator `]`. -/
def opRightBracket : Operator := ⟨90, "]", 0, .RightBracket, []⟩

/-- The closing character that matches an opening bracket character. -/
def closingOf (b : Char) : Char := if b == '(' then ')' else ']'

/-- The state of the line buffer `("a)" + 1)` after its first character has
been read. -/
def quotedBracketState : ParserState :=
  { startState "(\"a)\" + 1)" with lineOffset := 1 }

/-- The loop state of `(1 + 2))` after the bracketed part has been parsed:
its closing bracket has been overwritten with NUL, and the offset is at the
second closing bracket. -/
def secondClosingState : ParserState :=
  { startState "(1 + 2))" with
    paramText := "(1 + 2))".toList.set 6 NUL
    lineOffset := 7 }

/-- The depth counter is the same in both states, and if it is not negative
no assertion on it has failed in between. -/
def DepthKept (st st' : ParserState) : Prop :=
  st'.s_parserDepth = st.s_parserDepth ∧
    (0 ≤ st.s_parserDepth → st'.assertFailed = st.assertFailed)

/-- A parser environment whose command table holds one command, `foo`, with
one required and one optional parameter. -/
def commandEnv : ParserEnv :=
  { plainEnv with
    GetByName := fun name =>
      if name = "foo".toList then
        some { longName := "foo", opcode := 1, needsParent := false,
               params := [⟨"value", 0, false⟩, ⟨"extra", 0, true⟩] }
      else none }

/-- The binary operators `+ - * / % ^`. -/
inductive ArithOp
  | Add | Subtract | Multiply | Divide | Modulo | Exponent
  deriving DecidableEq, Repr

namespace ArithOp

/-- The entry of `s_operators` for an arithmetic operator. -/
def operator (ob : Bool) : ArithOp → Operator
  | Add => ⟨19, "+", 2, .Add, kOpRule_Addition ob⟩
  | Subtract => ⟨19, "-", 2, .Subtract, kOpRule_Arithmetic ob⟩
  | Multiply => ⟨21, "*", 2, .Multiply, kOpRule_Multiply ob⟩
  | Divide => ⟨21, "/", 2, .Divide, kOpRule_Arithmetic ob⟩
  | Modulo => ⟨21, "%", 2, .Modulo, kOpRule_Integer ob⟩
  | Exponent => ⟨23, "^", 2, .Exponent, kOpRule_Arithmetic ob⟩

/-- The character an arithmetic operator is written with. -/
def char : ArithOp → Char
  | Add => '+'
  | Subtract => '-'
  | Multiply => '*'
  | Divide => '/'
  | Modulo => '%'
  | Exponent => '^'

/-- The precedence of an arithmetic operator in `s_operators`. -/
def precedence (o : ArithOp) : Nat := (o.operator true).precedence

end ArithOp

/-- A bracket-free arithmetic expression as it is written, grouped into a
tree: a numeric literal after some blanks, or two expressions around an
operator that follows some blanks. -/
inductive ArithExpr
  | lit (blanks : List Char) (digits : List Char)
  | bin (lhs : ArithExpr) (blanks : List Char) (op : ArithOp) (rhs : ArithExpr)

namespace ArithExpr

/-- The text of a written expression. -/
def text : ArithExpr → List Char
  | lit ws t => ws ++ t
  | bin l ws o r => l.text ++ (ws ++ o.char :: r.text)

/-- The expression is written with proper tokens: blanks are blanks, and a
literal is a non-empty string of digits and dots that starts with a digit and
that `strtod` converts as a whole. -/
def WellFormed : ArithExpr → Prop
  | lit ws t =>
    (∀ c ∈ ws, isspace c = true) ∧ (∀ c ∈ t, isdigit c = true ∨ c = '.') ∧
      (∃ d t', t = d :: t' ∧ isdigit d = true) ∧ (strtod t).2 = []
  | bin l ws _ r => l.WellFormed ∧ (∀ c ∈ ws, isspace c = true) ∧ r.WellFormed

/-- The operator at the root binds at least as tightly as precedence `p`
(a literal binds tighter than any operator). -/
def rootGe (p : Nat) : ArithExpr → Prop
  | lit _ _ => True
  | bin _ _ o _ => p ≤ o.precedence

/-- The operator at the root binds strictly tighter than precedence `p`. -/
def rootGt (p : Nat) : ArithExpr → Prop
  | lit _ _ => True
  | bin _ _ o _ => p < o.precedence

/-- The tree is the full parenthesisation that the precedences determine, with
operators of equal precedence grouped left to right: the left operand of an
operator binds at least as tightly as the operator, the right operand strictly
tighter. -/
def Grouped : ArithExpr → Prop
  | lit _ _ => True
  | bin l _ o r => l.Grouped ∧ r.Grouped ∧ l.rootGe o.precedence ∧ r.rootGt o.precedence

/-- The postfix form of the tree: operands in order, each operator after its
two operands. -/
def postorder : ArithExpr → List OutItem
  | lit _ t => [.operand (.Number (strtod t).1)]
  | bin l _ o r => l.postorder ++ r.postorder ++ [.operator (o.operator true).type]

/-- The operators of the right spine of the tree, innermost first: those still
on the operator stack when the last token of the expression has been read. -/
def pending : ArithExpr → List ArithOp
  | lit _ _ => []
  | bin _ _ o r => r.pending ++ [o]

/-- What has been written to the output when the last token of the expression
has been read. -/
def emitted : ArithExpr → List OutItem
  | lit _ t => [.operand (.Number (strtod t).1)]
  | bin l _ _ r => l.postorder ++ r.emitted

/-- The number of iterations of the main loop that read the expression: one
for each blank and one for each token. -/
def steps : ArithExpr → Nat
  | lit ws _ => ws.length + 1
  | bin l ws _ r => l.steps + (ws.length + 1 + r.steps)

/-- The tokens of the expression from left to right, without the blanks. -/
def tokens : ArithExpr → List (List Char ⊕ ArithOp)
  | lit _ t => [.inl t]
  | bin l _ o r => l.tokens ++ .inr o :: r.tokens

end ArithExpr

/-- The process of adding one more operator and literal at the right end of a
grouped tree. -/
def ArithExpr.extend : ArithExpr → List Char → ArithOp → List Char → List Char → ArithExpr
  | .lit ws t, ws1, o, ws2, t2 => .bin (.lit ws t) ws1 o (.lit ws2 t2)
  | .bin l ws p r, ws1, o, ws2, t2 =>
    if p.precedence < o.precedence then .bin l ws p (ArithExpr.extend r ws1 o ws2 t2)
    else .bin (.bin l ws p r) ws1 o (.lit ws2 t2)

/-- The grouped tree of a literal followed by operator and literal pairs. -/
def ArithExpr.group (first : ArithExpr) :
    List (List Char × ArithOp × List Char × List Char) → ArithExpr
  | [] => first
  | (ws1, o, ws2, t2) :: rest => ArithExpr.group (first.extend ws1 o ws2 t2) rest

/-- The parser stands before `rest`: the text of the line buffer is `pre ++
rest`, the offset is at the end of `pre`, and `m_len` is the length of the
text. -/
def Cursor (st : ParserState) (m_len : Nat) (pre rest : List Char) : Prop :=
  st.paramText = pre ++ rest ∧ st.lineOffset = pre.length ∧ m_len = st.paramText.length

/-- What follows a token ends it: nothing, a blank, or a punctuation character
other than `_` and `.`. -/
def Stops (post : List Char) : Prop :=
  ∀ c ∈ post.head?, isspace c = true ∨ (ispunct c = true ∧ c ≠ '_' ∧ c ≠ '.')

/-- The items written when pending operators are popped, top first. -/
def pendingItems (ops : List ArithOp) : List OutItem :=
  ops.map (fun o => .operator (o.operator true).type)

/-- The text of a list of operator and literal pairs, each token after its
blanks. -/
def pairsText : List (List Char × ArithOp × List Char × List Char) → List Char
  | [] => []
  | (ws1, o, ws2, t2) :: rest => ws1 ++ o.char :: (ws2 ++ t2) ++ pairsText rest

/-- The tokens of a list of operator and literal pairs. -/
def pairsTokens :
    List (List Char × ArithOp × List Char × List Char) → List (List Char ⊕ ArithOp)
  | [] => []
  | (_, o, _, t2) :: rest => .inr o :: .inl t2 :: pairsTokens rest

/-- The pairs are written with proper tokens. -/
def pairsWellFormed : List (List Char × ArithOp × List Char × List Char) → Prop
  | [] => True
  | (ws1, _, ws2, t2) :: rest =>
    (∀ c ∈ ws1, isspace c = true) ∧ (ArithExpr.lit ws2 t2).WellFormed ∧ pairsWellFormed rest

/-- Modelled from the spec: the evaluation of a postfix instruction stream by
the interpreter loop (which is not part of the files): an operand is pushed on
the evaluation stack, an operator is applied by `Operator::Evaluate` to the
value on top of the stack when it is unary and to the two values on top of it
otherwise, and its result is pushed. -/
def evalPostfix (pow : ℚ → ℚ → ℚ) :
    List OutItem → ExpressionEvaluator → List ScriptToken → Option (List ScriptToken)
  | [], _, stack => some stack
  | .operand (.Number n) :: rest, context, stack =>
    evalPostfix pow rest context (.Number n :: stack)
  | .operator ty :: rest, context, stack =>
    match (s_operators true).find? (fun op => op.type == ty) with
    | some op =>
      let popped : Option (ScriptToken × Option ScriptToken × List ScriptToken) :=
        if op.IsUnary then
          match stack with
          | lhs :: stack => some (lhs, none, stack)
          | [] => none
        else
          match stack with
          | rhs :: lhs :: stack => some (lhs, some rhs, stack)
          | _ => none
      match popped with
      | some (lhs, rhs, stack) =>
        match Operator.Evaluate (ScriptToken.CanConvertTo context) ExpressionEvaluator.Error
            (callHandler pow (fun _ _ _ _ _ => none)) op lhs rhs context with
        | some (some v, context) => evalPostfix pow rest context (v :: stack)
        | _ => none
      | none => none
    | none => none
  | _, _, _ => none

/-- The written expression `2 + 3 * 4`, grouped. -/
def twoPlusThreeTimesFour : ArithExpr :=
  .bin (.lit [] ['2']) [' '] .Add (.bin (.lit [' '] ['3']) [' '] .Multiply (.lit [' '] ['4']))

/-- The operator and literal pairs of the written expression `2 + 3 * 4` after
its first literal. -/
def plusThreeTimesFour : List (List Char × ArithOp × List Char × List Char) :=
  [([' '], .Add, [' '], ['3']), ([' '], .Multiply, [' '], ['4'])]

/-- Truncation toward zero of a number, as the specification words it: the
floor of a non-negative number, the ceiling of a negative one. -/
def truncTowardZero (x : ℚ) : Int := if 0 ≤ x then ⌊x⌋ else ⌈x⌉

/-- The C string a character buffer or a `std::string` denotes through
`c_str()`: the characters before the first NUL. -/
def cstr (s : List Char) : List Char := s.takeWhile (fun c => c != NUL)

/-- The conversion `double → UInt32`: truncation toward zero.  (For a value
outside the range the C++ conversion is undefined; the model wraps.) -/
def toUInt32 (x : ℚ) : Nat := ((x.num.tdiv x.den) % 4294967296).toNat

/-- The conversion `double → SInt32`: truncation toward zero, wrapped into the
range. -/
def toSInt32 (x : ℚ) : Int := (x.num.tdiv x.den + 2147483648) % 4294967296 - 2147483648

/-- The conversion `double → size_t` of a value that is not negative. -/
def truncNat (x : ℚ) : Nat := (x.num.tdiv x.den).toNat

/-- The C library `tolower` in the "C" locale. -/
def tolower (c : Char) : Char :=
  if 65 ≤ c.toNat ∧ c.toNat ≤ 90 then Char.ofNat (c.toNat + 32) else c

/-- The C library `_stricmp(a, b)` on two C strings: the difference of the
first pair of characters that differ after `tolower`, the end of a string
counting as the character code 0; 0 when there is none. -/
def stricmp : List Char → List Char → Int
  | [], [] => 0
  | [], d :: _ => 0 - ((tolower d).toNat : Int)
  | c :: _, [] => ((tolower c).toNat : Int)
  | c :: a, d :: b =>
    if tolower c = tolower d then stricmp a b
    else ((tolower c).toNat : Int) - ((tolower d).toNat : Int)

namespace ScriptToken

/-- Modelled from the spec: `ScriptToken::GetString`, the text a token denotes,
as a C string: a string its text, a string variable the text stored under its
id in the string store, an array element the string stored at its key, and the
empty string for every other token. -/
def GetString (context : ExpressionEvaluator) : ScriptToken → List Char
  | String s => cstr s
  | StringVar i =>
    match context.strings (toUInt32 (context.vars i)) with
    | some s => cstr s
    | none => []
  | ArrayElement arrID (some key) =>
    match context.arrays arrID with
    | some a =>
      match a.elems key with
      | some (.String s) => cstr s
      | _ => []
    | none => []
  | _ => []

/-- Modelled from the spec: `ScriptToken::GetBool`, the truth value of the
number a token denotes. -/
def GetBool (context : ExpressionEvaluator) (t : ScriptToken) : Bool :=
  decide (t.GetNumber context ≠ 0)

/-- Modelled from the spec: `ScriptToken::GetArray`, the id of the array a
token denotes: an array its id, an array variable the id stored in it, an array
element the array stored at its key, and 0 for every other token. -/
def GetArray (context : ExpressionEvaluator) : ScriptToken → Nat
  | Array id => id
  | ArrayVar i => toUInt32 (context.vars i)
  | ArrayElement arrID (some key) =>
    match context.arrays arrID with
    | some a =>
      match a.elems key with
      | some (.Array id) => id
      | _ => 0
    | none => 0
  | _ => 0

/-- Modelled from the spec: `ScriptToken::GetFormID`, the id of the form a
token denotes: a form its id, a reference variable the id stored in it (the
code keeps the id in the bits of the variable; the model keeps it as the
number), an array element the form stored at its key, and 0 for every other
token. -/
def GetFormID (context : ExpressionEvaluator) : ScriptToken → Nat
  | Form id => id
  | RefVar i => toUInt32 (context.vars i)
  | ArrayElement arrID (some key) =>
    match context.arrays arrID with
    | some a =>
      match a.elems key with
      | some (.Form id) => id
      | _ => 0
    | none => 0
  | _ => 0

/-- Modelled from the spec: `ScriptToken::GetSlice`, the slice of a slice
token, null for every other token. -/
def GetSlice : ScriptToken → Option OBSE.Slice
  | Slice s => some s
  | _ => none

end ScriptToken

/-- The collaborators of the operator routines whose code is not part of the
files at hand, and the C library functions they call. -/
structure EvalEnv where
  /-- The C library `pow`. -/
  pow : ℚ → ℚ → ℚ
  /-- `FloatEqual`, the tolerant comparison of two numbers. -/
  FloatEqual : ℚ → ℚ → Bool
  /-- `LookupFormByID`, null for an id that denotes no form. -/
  LookupFormByID : Nat → Option TESForm
  /-- `GetFullName(form)`. -/
  GetFullName : Option TESForm → List Char
  /-- `ScriptToken::GetNumericRepresentation(false)`. -/
  GetNumericRepresentation : ExpressionEvaluator → ScriptToken → ℚ
  /-- The text `sprintf_s` prints for the format `%g`. -/
  formatG : ℚ → List Char
  /-- `g_ArrayMap.SizeOf(id)`. -/
  SizeOf : ExpressionEvaluator → Nat → Nat
  /-- `g_ArrayMap.GetFirstElement(id, &elem, &key)`: the key of the first
  element, `none` when the call fails. -/
  GetFirstElement : ExpressionEvaluator → Nat → Option ArrayKey
  /-- The id `g_ArrayMap.Create` gives the array it creates. -/
  newArrayID : ExpressionEvaluator → Nat
  /-- The id `g_StringMap.Add` gives the string it adds. -/
  newStringID : ExpressionEvaluator → Nat
  /-- `g_ArrayMap.MakeSlice(src, slice, modIndex)`: the id and the contents of
  the array it creates, `none` for the result 0. -/
  MakeSlice : ExpressionEvaluator → Nat → Option Slice → Option (Nat × ArrayVar)

namespace ExpressionEvaluator

/-- Modelled from the spec: `g_ArrayMap.Create(keyType, bPacked, modIndex)`: a
new, empty array is added to the array store; the result is its id. -/
def createArray (env : EvalEnv) (context : ExpressionEvaluator) (keyType : DataType) :
    Nat × ExpressionEvaluator :=
  (env.newArrayID context,
    context.setArray (env.newArrayID context) { keyType := keyType, elems := fun _ => none })

/-- Modelled from the spec: `g_ArrayMap.SetElementNumber(id, key, num)` and its
siblings for the other kinds of value: the value is stored at the key of the
array when the array exists and the key is of its key type. -/
def setElement (context : ExpressionEvaluator) (id : Nat) (key : ArrayKey)
    (e : ArrayElement) : ExpressionEvaluator :=
  match context.arrays id with
  | some a => if key.KeyType = a.keyType then context.setArray id (a.store key e) else context
  | none => context

/-- Modelled from the spec: `g_StringMap.Add(modIndex, text)`: the text is
added to the string store; the result is its id. -/
def addString (env : EvalEnv) (context : ExpressionEvaluator) (text : List Char) :
    Nat × ExpressionEvaluator :=
  (env.newStringID context,
    { context with
      strings := fun i => if i = env.newStringID context then some text else context.strings i })

/-- `g_ArrayMap.GetKeyType(id)`, `none` for an id without an array. -/
def GetKeyType (context : ExpressionEvaluator) (id : Nat) : Option DataType :=
  (context.arrays id).map (fun a => a.keyType)

/-- `g_ArrayMap.HasKey(id, key)`. -/
def HasKey (context : ExpressionEvaluator) (id : Nat) (key : ArrayKey) : Bool :=
  (context.arrays id).any (fun a => (a.elems key).isSome)

end ExpressionEvaluator

/-- `ScriptToken::GetTESForm`: the form of the id a token denotes. -/
def ScriptToken.GetTESForm (env : EvalEnv) (context : ExpressionEvaluator) (t : ScriptToken) :
    Option TESForm :=
  env.LookupFormByID (t.GetFormID context)

/-- The `default` case of the routines that switch on the operator: the error
"Unhandled operator" and no token. -/
def unhandledOperator (op : OperatorType) (context : ExpressionEvaluator) : EvalResult :=
  some (none, context.Error ("Unhandled operator " ++ OpTypeToSymbol op))

/-- `Eval_Comp_Number_Number`. -/
def Eval_Comp_Number_Number (op : OperatorType) (lh rh : ScriptToken)
    (context : ExpressionEvaluator) : EvalResult :=
  match op with
  | .GreaterThan =>
    some (some (.Boolean (decide (lh.GetNumber context > rh.GetNumber context))), context)
  | .LessThan =>
    some (some (.Boolean (decide (lh.GetNumber context < rh.GetNumber context))), context)
  | .GreaterOrEqual =>
    some (some (.Boolean (decide (lh.GetNumber context ≥ rh.GetNumber context))), context)
  | .LessOrEqual =>
    some (some (.Boolean (decide (lh.GetNumber context ≤ rh.GetNumber context))), context)
  | _ => unhandledOperator op context

/-- `Eval_Comp_String_String`. -/
def Eval_Comp_String_String (op : OperatorType) (lh rh : ScriptToken)
    (context : ExpressionEvaluator) : EvalResult :=
  let lhs := lh.GetString context
  let rhs := rh.GetString context
  match op with
  | .GreaterThan => some (some (.Boolean (decide (stricmp lhs rhs > 0))), context)
  | .LessThan => some (some (.Boolean (decide (stricmp lhs rhs < 0))), context)
  | .GreaterOrEqual => some (some (.Boolean (decide (stricmp lhs rhs ≥ 0))), context)
  | .LessOrEqual => some (some (.Boolean (decide (stricmp lhs rhs ≤ 0))), context)
  | _ => unhandledOperator op context

/-- `Eval_Eq_Number`. -/
def Eval_Eq_Number (env : EvalEnv) (op : OperatorType) (lh rh : ScriptToken)
    (context : ExpressionEvaluator) : EvalResult :=
  match op with
  | .Equals =>
    some (some (.Boolean (env.FloatEqual (lh.GetNumber context) (rh.GetNumber context))), context)
  | .NotEqual =>
    some (some (.Boolean (!env.FloatEqual (lh.GetNumber context) (rh.GetNumber context))),
      context)
  | _ => unhandledOperator op context

/-- `Eval_Eq_Array`. -/
def Eval_Eq_Array (op : OperatorType) (lh rh : ScriptToken)
    (context : ExpressionEvaluator) : EvalResult :=
  match op with
  | .Equals => some (some (.Boolean (lh.GetArray context == rh.GetArray context)), context)
  | .NotEqual => some (some (.Boolean (lh.GetArray context != rh.GetArray context)), context)
  | _ => unhandledOperator op context

/-- `Eval_Eq_String`. -/
def Eval_Eq_String (op : OperatorType) (lh rh : ScriptToken)
    (context : ExpressionEvaluator) : EvalResult :=
  let lhs := lh.GetString context
  let rhs := rh.GetString context
  match op with
  | .Equals => some (some (.Boolean (decide (stricmp lhs rhs = 0))), context)
  | .NotEqual => some (some (.Boolean (decide (stricmp lhs rhs ≠ 0))), context)
  | _ => unhandledOperator op context

/-- `Eval_Eq_Form`. -/
def Eval_Eq_Form (env : EvalEnv) (op : OperatorType) (lh rh : ScriptToken)
    (context : ExpressionEvaluator) : EvalResult :=
  let result : Bool :=
    match lh.GetTESForm env context, rh.GetTESForm env context with
    | none, none => true
    | some lhForm, some rhForm => lhForm.refID == rhForm.refID
    | _, _ => false
  match op with
  | .Equals => some (some (.Boolean result), context)
  | .NotEqual => some (some (.Boolean (!result)), context)
  | _ => unhandledOperator op context

/-- `Eval_Eq_Form_Number`. -/
def Eval_Eq_Form_Number (op : OperatorType) (lh rh : ScriptToken)
    (context : ExpressionEvaluator) : EvalResult :=
  let result : Bool :=
    if (rh.TokenType == .Number || rh.TokenType == .NumericVar) &&
        (decide (rh.GetNumber context = 0) && lh.GetFormID context == 0) then true
    else if rh.TokenType == .Form && rh.GetFormID context == 0 &&
        decide (lh.GetNumber context = 0) then true
    else false
  match op with
  | .Equals => some (some (.Boolean result), context)
  | .NotEqual => some (some (.Boolean (!result)), context)
  | _ => unhandledOperator op context

/-- `Eval_Logical`. -/
def Eval_Logical (op : OperatorType) (lh rh : ScriptToken)
    (context : ExpressionEvaluator) : EvalResult :=
  match op with
  | .LogicalAnd => some (some (.Boolean (lh.GetBool context && rh.GetBool context)), context)
  | .LogicalOr => some (some (.Boolean (lh.GetBool context || rh.GetBool context)), context)
  | _ => unhandledOperator op context

/-- `Eval_Add_String`. -/
def Eval_Add_String (_op : OperatorType) (lh rh : ScriptToken)
    (context : ExpressionEvaluator) : EvalResult :=
  some (some (.String (lh.GetString context ++ rh.GetString context)), context)

/-- `Eval_Multiply_String_Number`. -/
def Eval_Multiply_String_Number (_op : OperatorType) (lh rh : ScriptToken)
    (context : ExpressionEvaluator) : EvalResult :=
  let rhNum := rh.GetNumber context
  let str := lh.GetString context
  let result : List Char :=
    if rhNum > 0 then (List.replicate (toUInt32 rhNum) str).flatten else []
  some (some (.String (cstr result)), context)

/-- `Eval_LogicalNot`. -/
def Eval_LogicalNot (_op : OperatorType) (lh : ScriptToken) (_rh : Option ScriptToken)
    (context : ExpressionEvaluator) : EvalResult :=
  some (some (.Boolean (if lh.GetBool context then false else true)), context)

/-- `Eval_Subscript_Array_Number`. -/
def Eval_Subscript_Array_Number (_op : OperatorType) (lh rh : ScriptToken)
    (context : ExpressionEvaluator) : EvalResult :=
  if lh.GetArray context == 0 then
    some (none, context.Error
      "Eval_Subscript_Array_Number: Invalid array access - the array was not initialized.")
  else if context.GetKeyType (lh.GetArray context) != some .Numeric then
    some (none, context.Error
      "Eval_Subscript_Array_Number: Invalid array access - expected string index, received numeric.")
  else some (some (.ArrayElement (lh.GetArray context) (some (.num (rh.GetNumber context)))),
    context)

/-- `Eval_Subscript_Elem_Number`; the `dynamic_cast` of a token that is not an
array element is null. -/
def Eval_Subscript_Elem_Number (_op : OperatorType) (lh rh : ScriptToken)
    (context : ExpressionEvaluator) : EvalResult :=
  let idx := toUInt32 (rh.GetNumber context)
  match lh with
  | .ArrayElement arrID key =>
    if !(lh.CanConvertTo context .String) then
      some (none, context.Error "Invalid subscript operation")
    else some (some (.AssignableStringElem arrID key idx idx), context)
  | _ => none

/-- `Eval_Subscript_Elem_Slice`. -/
def Eval_Subscript_Elem_Slice (_op : OperatorType) (lh rh : ScriptToken)
    (context : ExpressionEvaluator) : EvalResult :=
  match rh.GetSlice with
  | none =>
    some (none, context.Error
      "Invalid array slice operation - array is unitialized or suuplied index doesn't match key type")
  | some slice =>
    if slice.bIsString then
      some (none, context.Error
        "Invalid array slice operation - array is unitialized or suuplied index doesn't match key type")
    else
      match lh with
      | .ArrayElement arrID key =>
        some (some (.AssignableStringElem arrID key (toUInt32 slice.m_lower)
          (toUInt32 slice.m_upper)), context)
      | _ => none

/-- `Eval_Subscript_Array_String`. -/
def Eval_Subscript_Array_String (_op : OperatorType) (lh rh : ScriptToken)
    (context : ExpressionEvaluator) : EvalResult :=
  if lh.GetArray context == 0 then
    some (none, context.Error
      ("Eval_Subscript_Array_String: Invalid array access - the array " ++
        toString (lh.GetArray context) ++ " " ++ toString lh.GetOwningArrayID ++
        " was not initialized."))
  else if context.GetKeyType (lh.GetArray context) != some .String then
    some (none, context.Error
      "Eval_Subscript_Array_String: Invalid array access - expected numeric index, received string")
  else some (some (.ArrayElement (lh.GetArray context) (some (.str (rh.GetString context)))),
    context)

/-- `Eval_Subscript_Array_Slice`. -/
def Eval_Subscript_Array_Slice (env : EvalEnv) (_op : OperatorType) (lh rh : ScriptToken)
    (context : ExpressionEvaluator) : EvalResult :=
  match env.MakeSlice context (lh.GetArray context) rh.GetSlice with
  | none =>
    some (none, context.Error
      "Invalid array slice operation - array is uninitialized or supplied index does not match key type")
  | some (slicedID, sliced) => some (some (.Array slicedID), context.setArray slicedID sliced)

/-- `Eval_Subscript_StringVar_Number`. -/
def Eval_Subscript_StringVar_Number (_op : OperatorType) (lh rh : ScriptToken)
    (context : ExpressionEvaluator) : EvalResult :=
  let idx := toSInt32 (rh.GetNumber context)
  match lh.GetVar with
  | some var =>
    match context.strings (toUInt32 (context.vars var)) with
    | none => some (none, context.Error "String var is uninitialized")
    | some strVar =>
      let idx := if idx < 0 then idx + (cstr strVar).length else idx
      some (some (.AssignableStringVar (toUInt32 (context.vars var))
        (idx % 4294967296).toNat (idx % 4294967296).toNat), context)
  | none => some (none, context.Error "Invalid variable")

/-- `Eval_Subscript_StringVar_Slice`; the slice and the variable are
dereferenced before they are tested. -/
def Eval_Subscript_StringVar_Slice (_op : OperatorType) (lh rh : ScriptToken)
    (context : ExpressionEvaluator) : EvalResult :=
  match lh.GetVar, rh.GetSlice with
  | some var, some slice =>
    match context.strings (toUInt32 (context.vars var)) with
    | none => some (none, context.Error "String var is uninitialized")
    | some strVar =>
      let len : ℚ := (cstr strVar).length
      let upper := if slice.m_upper < 0 then slice.m_upper + len else slice.m_upper
      let lower := if slice.m_lower < 0 then slice.m_lower + len else slice.m_lower
      if !slice.bIsString then
        some (some (.AssignableStringVar (toUInt32 (context.vars var)) (toUInt32 lower)
          (toUInt32 upper)), context)
      else
        some (none, context.Error
          "Invalid string var slice operation - variable invalid or variable is not a stirng var")
  | _, _ => none

/-- `Eval_Subscript_String`. -/
def Eval_Subscript_String (_op : OperatorType) (lh rh : ScriptToken)
    (context : ExpressionEvaluator) : EvalResult :=
  let str := lh.GetString context
  let idx : Nat :=
    if rh.GetNumber context < 0 then toUInt32 ((str.length : ℚ) + rh.GetNumber context)
    else toUInt32 (rh.GetNumber context)
  if idx < str.length then some (some (.String ((str.drop idx).take 1)), context)
  else some (some (.String []), context)

/-- `Eval_Subscript_String_Slice`. -/
def Eval_Subscript_String_Slice (_op : OperatorType) (lh rh : ScriptToken)
    (context : ExpressionEvaluator) : EvalResult :=
  let str := lh.GetString context
  match rh.GetSlice with
  | none => some (none, context.Error "Invalid string slice operation")
  | some srcSlice =>
    if srcSlice.bIsString then some (none, context.Error "Invalid string slice operation")
    else
      let lower :=
        if srcSlice.m_lower < 0 then srcSlice.m_lower + (str.length : ℚ) else srcSlice.m_lower
      let upper :=
        if srcSlice.m_upper < 0 then srcSlice.m_upper + (str.length : ℚ) else srcSlice.m_upper
      if lower ≥ 0 ∧ upper < (str.length : ℚ) ∧ lower ≤ upper then
        some (some (.String ((str.drop (truncNat lower)).take (truncNat (upper - lower + 1)))),
          context)
      else some (some (.String []), context)

/-- `Eval_MemberAccess`. -/
def Eval_MemberAccess (_op : OperatorType) (lh rh : ScriptToken)
    (context : ExpressionEvaluator) : EvalResult :=
  if lh.GetArray context == 0 then
    some (none, context.Error
      ("Eval_MemberAccess: Invalid array access - the array " ++
        toString (lh.GetArray context) ++ "  " ++ toString lh.GetOwningArrayID ++
        " was not initialized."))
  else if context.GetKeyType (lh.GetArray context) != some .String then
    some (none, context.Error
      "Eval_MemberAccess: Invalid array access - expected numeric index, received string")
  else some (some (.ArrayElement (lh.GetArray context) (some (.str (rh.GetString context)))),
    context)

/-- `Eval_Slice_String`.

Modelled from the spec: the constructor `Slice(const char*, const char*)`, a
slice with string bounds. -/
def Eval_Slice_String (_op : OperatorType) (lh rh : ScriptToken)
    (context : ExpressionEvaluator) : EvalResult :=
  some (some (.Slice ⟨true, 0, 0, lh.GetString context, rh.GetString context⟩), context)

/-- `Eval_Slice_Number`.

Modelled from the spec: the constructor `Slice(double, double)`, a slice with
numeric bounds. -/
def Eval_Slice_Number (_op : OperatorType) (lh rh : ScriptToken)
    (context : ExpressionEvaluator) : EvalResult :=
  some (some (.Slice ⟨false, lh.GetNumber context, rh.GetNumber context, [], []⟩), context)

/-- `Eval_ToString_String`. -/
def Eval_ToString_String (_op : OperatorType) (lh : ScriptToken) (_rh : Option ScriptToken)
    (context : ExpressionEvaluator) : EvalResult :=
  some (some (.String (lh.GetString context)), context)

/-- `Eval_ToString_Number`. -/
def Eval_ToString_Number (env : EvalEnv) (_op : OperatorType) (lh : ScriptToken)
    (_rh : Option ScriptToken) (context : ExpressionEvaluator) : EvalResult :=
  some (some (.String (env.formatG (lh.GetNumber context))), context)

/-- `Eval_ToString_Form`. -/
def Eval_ToString_Form (env : EvalEnv) (_op : OperatorType) (lh : ScriptToken)
    (_rh : Option ScriptToken) (context : ExpressionEvaluator) : EvalResult :=
  some (some (.String (cstr (env.GetFullName (lh.GetTESForm env context)))), context)

/-- `Eval_ToString_Array`. -/
def Eval_ToString_Array (_op : OperatorType) (lh : ScriptToken) (_rh : Option ScriptToken)
    (context : ExpressionEvaluator) : EvalResult :=
  let id := lh.GetArray context
  match context.arrays id with
  | some _ => some (some (.String ("Array ID " ++ toString id).toList), context)
  | none => some (some (.String ("Array Id " ++ toString id ++ " (Invalid)").toList), context)

/-- `Eval_ToNumber`. -/
def Eval_ToNumber (env : EvalEnv) (_op : OperatorType) (lh : ScriptToken)
    (_rh : Option ScriptToken) (context : ExpressionEvaluator) : EvalResult :=
  some (some (.Number (env.GetNumericRepresentation context lh)), context)

/-- `Eval_In`.  The source of an iteration over a reference is the address of
the reference in the code; the model takes its form id. -/
def Eval_In (env : EvalEnv) (_op : OperatorType) (lh rh : ScriptToken)
    (context : ExpressionEvaluator) : EvalResult :=
  match lh.GetVariableType with
  | .Array =>
    let created := context.createArray env .String
    some (some (.ForEachContext (rh.GetArray context) created.1 .Array lh.GetVar), created.2)
  | .String =>
    match lh.GetVar with
    | none => none
    | some var =>
      let iterID := toUInt32 (context.vars var)
      let added : Nat × ExpressionEvaluator :=
        match context.strings iterID with
        | none =>
          ((context.addString env []).1,
            (context.addString env []).2.setVar var (context.addString env []).1)
        | some _ => (iterID, context)
      let src := added.2.addString env (rh.GetString added.2)
      some (some (.ForEachContext src.1 added.1 .String lh.GetVar), src.2)
  | .Ref =>
    match rh.GetTESForm env context with
    | some form =>
      if form.typeID == .REFR then
        some (some (.ForEachContext form.refID 0 .Ref lh.GetVar), context)
      else some (none, context.Error "Source is a base form, must be a reference")
    | none => some (none, context.Error "Source is a base form, must be a reference")
  | _ =>
    some (none, context.Error
      "Unsupported variable type, only array_Var, string_var and ref are supported")

/-- `Eval_Dereference`. -/
def Eval_Dereference (env : EvalEnv) (_op : OperatorType) (lh : ScriptToken)
    (_rh : Option ScriptToken) (context : ExpressionEvaluator) : EvalResult :=
  let arrID := lh.GetArray context
  if arrID == 0 then
    some (none, context.Error
      "Eval_Dereference: Invalid array access - the array was not initialized.")
  else if env.SizeOf context arrID == 2 && context.HasKey arrID (.str "value".toList) &&
      context.HasKey arrID (.str "key".toList) && context.HasKey arrID (.str "value".toList) then
    some (some (.ArrayElement arrID (some (.str "value".toList))), context)
  else
    match env.GetFirstElement context arrID with
    | some valueKey => some (some (.ArrayElement arrID (some valueKey)), context)
    | none =>
      some (none, context.Error
        "Eval_Dereference2: Invalid array access - the array was not initialized.")

/-- `Eval_Box_Number`. -/
def Eval_Box_Number (env : EvalEnv) (_op : OperatorType) (lh : ScriptToken)
    (_rh : Option ScriptToken) (context : ExpressionEvaluator) : EvalResult :=
  let arr := context.createArray env .Numeric
  some (some (.Array arr.1),
    arr.2.setElement arr.1 (.num 0) (.Number (lh.GetNumber context)))

/-- `Eval_Box_String`. -/
def Eval_Box_String (env : EvalEnv) (_op : OperatorType) (lh : ScriptToken)
    (_rh : Option ScriptToken) (context : ExpressionEvaluator) : EvalResult :=
  let arr := context.createArray env .Numeric
  some (some (.Array arr.1),
    arr.2.setElement arr.1 (.num 0) (.String (lh.GetString context)))

/-- `Eval_Box_Form`. -/
def Eval_Box_Form (env : EvalEnv) (_op : OperatorType) (lh : ScriptToken)
    (_rh : Option ScriptToken) (context : ExpressionEvaluator) : EvalResult :=
  let arr := context.createArray env .Numeric
  some (some (.Array arr.1),
    arr.2.setElement arr.1 (.num 0)
      (.Form (match lh.GetTESForm env context with
        | some form => form.refID
        | none => 0)))

/-- `Eval_Box_Array`. -/
def Eval_Box_Array (env : EvalEnv) (_op : OperatorType) (lh : ScriptToken)
    (_rh : Option ScriptToken) (context : ExpressionEvaluator) : EvalResult :=
  let arr := context.createArray env .Numeric
  some (some (.Array arr.1),
    arr.2.setElement arr.1 (.num 0) (.Array (lh.GetArray context)))

/-- `Eval_Pair`. -/
def Eval_Pair (_op : OperatorType) (lh rh : ScriptToken)
    (context : ExpressionEvaluator) : EvalResult :=
  some (some (.Pair lh rh), context)

/-- The call `rule->eval(type, lh, rh, context)` for every routine of the
rule tables; a routine of two operands dereferences its right operand.  The
routines of the assignment family that are not embedded are `other`. -/
def callEval (env : EvalEnv)
    (other : EvalFn → OperatorType → ScriptToken → Option ScriptToken →
      ExpressionEvaluator → EvalResult)
    (f : EvalFn) (op : OperatorType) (lh : ScriptToken) (rh : Option ScriptToken)
    (context : ExpressionEvaluator) : EvalResult :=
  match f with
  | .Eval_Comp_Number_Number => rh.bind (fun r => Eval_Comp_Number_Number op lh r context)
  | .Eval_Comp_String_String => rh.bind (fun r => Eval_Comp_String_String op lh r context)
  | .Eval_Eq_Number => rh.bind (fun r => Eval_Eq_Number env op lh r context)
  | .Eval_Eq_Array => rh.bind (fun r => Eval_Eq_Array op lh r context)
  | .Eval_Eq_String => rh.bind (fun r => Eval_Eq_String op lh r context)
  | .Eval_Eq_Form => rh.bind (fun r => Eval_Eq_Form env op lh r context)
  | .Eval_Eq_Form_Number => rh.bind (fun r => Eval_Eq_Form_Number op lh r context)
  | .Eval_Logical => rh.bind (fun r => Eval_Logical op lh r context)
  | .Eval_Add_String => rh.bind (fun r => Eval_Add_String op lh r context)
  | .Eval_Multiply_String_Number =>
    rh.bind (fun r => Eval_Multiply_String_Number op lh r context)
  | .Eval_LogicalNot => Eval_LogicalNot op lh rh context
  | .Eval_Subscript_Array_Number =>
    rh.bind (fun r => Eval_Subscript_Array_Number op lh r context)
  | .Eval_Subscript_Elem_Number => rh.bind (fun r => Eval_Subscript_Elem_Number op lh r context)
  | .Eval_Subscript_Elem_Slice => rh.bind (fun r => Eval_Subscript_Elem_Slice op lh r context)
  | .Eval_Subscript_Array_String =>
    rh.bind (fun r => Eval_Subscript_Array_String op lh r context)
  | .Eval_Subscript_Array_Slice =>
    rh.bind (fun r => Eval_Subscript_Array_Slice env op lh r context)
  | .Eval_Subscript_StringVar_Number =>
    rh.bind (fun r => Eval_Subscript_StringVar_Number op lh r context)
  | .Eval_Subscript_StringVar_Slice =>
    rh.bind (fun r => Eval_Subscript_StringVar_Slice op lh r context)
  | .Eval_Subscript_String => rh.bind (fun r => Eval_Subscript_String op lh r context)
  | .Eval_Subscript_String_Slice =>
    rh.bind (fun r => Eval_Subscript_String_Slice op lh r context)
  | .Eval_MemberAccess => rh.bind (fun r => Eval_MemberAccess op lh r context)
  | .Eval_Slice_String => rh.bind (fun r => Eval_Slice_String op lh r context)
  | .Eval_Slice_Number => rh.bind (fun r => Eval_Slice_Number op lh r context)
  | .Eval_ToString_String => Eval_ToString_String op lh rh context
  | .Eval_ToString_Number => Eval_ToString_Number env op lh rh context
  | .Eval_ToString_Form => Eval_ToString_Form env op lh rh context
  | .Eval_ToString_Array => Eval_ToString_Array op lh rh context
  | .Eval_ToNumber => Eval_ToNumber env op lh rh context
  | .Eval_In => rh.bind (fun r => Eval_In env op lh r context)
  | .Eval_Dereference => Eval_Dereference env op lh rh context
  | .Eval_Box_Number => Eval_Box_Number env op lh rh context
  | .Eval_Box_String => Eval_Box_String env op lh rh context
  | .Eval_Box_Form => Eval_Box_Form env op lh rh context
  | .Eval_Box_Array => Eval_Box_Array env op lh rh context
  | .Eval_Pair => rh.bind (fun r => Eval_Pair op lh r context)
  | f => callHandler env.pow other f op lh rh context

/-- The routines of the assignment family: those that the rules of `:=`, `+=`,
`-=`, `*=`, `/=` and `^=` point to, and `Eval_TimesEquals_String`, the routine
of `*=` for a string variable, which no rule points to. -/
def assignmentRoutines : List EvalFn :=
  ((s_operators true).filter (fun op =>
    op.type ∈ [OperatorType.Assignment, .PlusEquals, .MinusEquals, .TimesEquals,
      .DividedEquals, .ExponentEquals])).flatMap
    (fun op => op.rules.filterMap (fun rule => rule.eval)) ++ [.Eval_TimesEquals_String]

/-- The routines that create an array or a string: those of `<-`, of the unary
`&` and of the array slice. -/
def creatingRoutines : List EvalFn :=
  [.Eval_In, .Eval_Box_Number, .Eval_Box_String, .Eval_Box_Form, .Eval_Box_Array,
    .Eval_Subscript_Array_Slice]

/-- Collaborators for concrete runs: `pow` is `powInt`, two numbers are equal
when they are the same, no id denotes a form, and a new array or string gets
the id 2, which `sampleContext` does not use. -/
def sampleEvalEnv : EvalEnv :=
  { pow := powInt
    FloatEqual := fun x y => decide (x = y)
    LookupFormByID := fun _ => none
    GetFullName := fun _ => []
    GetNumericRepresentation := fun context t => t.GetNumber context
    formatG := fun _ => []
    SizeOf := fun _ _ => 0
    GetFirstElement := fun _ _ => none
    newArrayID := fun _ => 2
    newStringID := fun _ => 2
    MakeSlice := fun _ _ _ => none }

/-- The order of two strings as the specification words it: the lexicographic
order by character code. -/
def lexLt : List Char → List Char → Bool
  | [], [] => false
  | [], _ :: _ => true
  | _ :: _, [] => false
  | c :: a, d :: b => decide (c.toNat < d.toNat) || (c.toNat == d.toNat && lexLt a b)

/-- Kinds of blocks (`BlockType`). -/
inductive BlockType
  | Invalid | ScriptBlock | Loop | If
  deriving DecidableEq, Repr

/-- An entry of the block table: `{ keyword, type, function }`, where
`function` is `kFunction_Open = 1`, `kFunction_Terminate = 2` or
`kFunction_Dual = 3`. -/
structure Block where
  keyword : String
  type : BlockType
  function : Nat
  deriving DecidableEq, Repr

namespace Block

/-- `Block::IsOpener`. -/
def IsOpener (b : Block) : Bool := (b.function &&& 1) == 1

/-- `Block::IsTerminator`. -/
def IsTerminator (b : Block) : Bool := (b.function &&& 2) == 2

end Block

/-- The block table `s_blocks`. -/
def s_blocks : List Block :=
  [ ⟨"begin", .ScriptBlock, 1⟩,
    ⟨"end", .ScriptBlock, 2⟩,
    ⟨"while", .Loop, 1⟩,
    ⟨"foreach", .Loop, 1⟩,
    ⟨"loop", .Loop, 2⟩,
    ⟨"if", .If, 1⟩,
    ⟨"elseif", .If, 3⟩,
    ⟨"else", .If, 3⟩,
    ⟨"endif", .If, 2⟩ ]

/-- `Preprocessor::s_delims`. -/
def s_delims : List Char := [' ', '\t', '\r', '\n', '(', ';']

/-- `Preprocessor::BlockTypeAsString`. -/
def BlockTypeAsString : BlockType → String
  | .ScriptBlock => "Begin/End"
  | .Loop => "Loop"
  | .If => "If/EndIf"
  | .Invalid => "Unknown block type"

/-- The errors `Preprocessor::Process` shows through `g_ErrOut.Show`, with the
arguments of their format strings. -/
inductive PreprocessorMessage
  /-- "Invalid %s block structure on line %d." -/
  | InvalidBlockStructure (blockStr : String) (line : Nat)
  /-- "Error line %d:\nFunction %s must be called from within a loop." -/
  | MustBeCalledFromWithinLoop (line : Nat) (tok : List Char)
  /-- "Error line %d:\nSet may not be used to assign to an array variable" -/
  | SetArrayVariable (line : Nat)
  /-- "Error line %d:\nReturn cannot be called within the body of a loop." -/
  | ReturnWithinLoop (line : Nat)
  /-- "Error: Mismatched block structure." -/
  | MismatchedBlockStructure
  deriving DecidableEq, Repr

/-- The collaborators of the preprocessor. -/
structure PreprocessorEnv where
  /-- `GetDeclaredVariableType(varName, scriptText)`. -/
  GetDeclaredVariableType : List Char → List Char → VarType
  /-- The text of the script of the form `GetFormByID(name)`, `none` when the
  form or its script does not exist. -/
  refScriptText : List Char → Option (List Char)

/-- The members of `Preprocessor` that `Process` and `AdvanceLine` use. -/
structure Preprocessor where
  m_loopDepth : Nat
  m_curLineText : List Char
  m_curLineNo : Nat
  m_scriptText : List Char
  m_scriptTextOffset : Nat

/-- The loop of `Preprocessor::StripComments` from index `i` on; `i` grows in
each iteration. -/
def StripCommentsLoop (line : List Char) : Nat → Nat → List Char
  | 0, _ => line
  | fuel + 1, i =>
    if i < line.length then
      if charAt line i == '"' then
        if i + 1 == line.length then line
        else
          match findFrom '"' (i + 1) line with
          | none => line
          | some j => StripCommentsLoop line fuel (j + 1 + 1)
      else if charAt line i == ';' then line.take i
      else StripCommentsLoop line fuel (i + 1)
    else line

/-- `Preprocessor::StripComments(line)`. -/
def StripComments (line : List Char) : List Char :=
  StripCommentsLoop line (line.length + 1) 0

/-- `std::string::find("\r\n", pos)`: the least index at or after `pos` where
a carriage return is followed by a line feed. -/
def findCRLF (text : List Char) : Nat → Nat → Option Nat
  | 0, _ => none
  | fuel + 1, pos =>
    if pos + 1 < text.length then
      if charAt text pos == '\r' && charAt text (pos + 1) == '\n' then some pos
      else findCRLF text fuel (pos + 1)
    else none

/-- `Preprocessor::AdvanceLine()`; each recursive call skips an empty line. -/
def AdvanceLine : Nat → Preprocessor → Bool × Preprocessor
  | 0, p => (false, p)
  | fuel + 1, p =>
    if p.m_scriptTextOffset ≥ p.m_scriptText.length then (false, p)
    else
      let p := { p with m_curLineNo := p.m_curLineNo + 1 }
      match findCRLF p.m_scriptText p.m_scriptText.length p.m_scriptTextOffset with
      | none =>
        (true, { p with
          m_curLineText := StripComments (p.m_scriptText.drop p.m_scriptTextOffset)
          m_scriptTextOffset := p.m_scriptText.length })
      | some endPos =>
        if p.m_scriptTextOffset == endPos then
          AdvanceLine fuel { p with m_scriptTextOffset := p.m_scriptTextOffset + 2 }
        else
          (true, { p with
            m_curLineText := StripComments
              ((p.m_scriptText.drop p.m_scriptTextOffset).take (endPos - p.m_scriptTextOffset))
            m_scriptTextOffset := endPos + 2 })

/-- The constructor `Preprocessor::Preprocessor(buf)`; `scriptText` holds the
characters of the C string `buf->scriptText`. -/
def Preprocessor_new (scriptText : List Char) : Preprocessor :=
  (AdvanceLine (scriptText.length + 1)
    { m_loopDepth := 0, m_curLineText := [], m_curLineNo := 0, m_scriptText := scriptText,
      m_scriptTextOffset := 0 }).2

/-- Modelled from the spec: `Tokenizer::NextToken` (the class `Tokenizer` is
not part of the files): the next token of a text is its first run of
characters that are not delimiters; the result is the token and the rest of
the text, `none` when there is no token (the result -1). -/
def NextToken (delims : List Char) (text : List Char) : Option (List Char × List Char) :=
  let t := text.dropWhile (fun c => delims.contains c)
  if t.isEmpty then none
  else some (t.takeWhile (fun c => !delims.contains c), t.dropWhile (fun c => !delims.contains c))

/-- The `for` loop of `Preprocessor::Process` over the entries of the block
table not yet visited, for the token `tok` of line `lineNo`: the stack of open
blocks (top first), `m_loopDepth` and `bIsBlockKeyword`, or the error shown
before `return false`. -/
def ProcessBlocks (tok : List Char) (lineNo : Nat) :
    List Block → List BlockType → Nat → Bool →
      Except PreprocessorMessage (List BlockType × Nat × Bool)
  | [], blockStack, m_loopDepth, bIsBlockKeyword => .ok (blockStack, m_loopDepth, bIsBlockKeyword)
  | cur :: rest, blockStack, m_loopDepth, bIsBlockKeyword =>
    if stricmp tok cur.keyword.toList == 0 then
      let terminated : Except PreprocessorMessage (List BlockType × Nat) :=
        if cur.IsTerminator then
          match blockStack with
          | [] => .error (.InvalidBlockStructure (BlockTypeAsString cur.type) lineNo)
          | top :: below =>
            if top != cur.type then
              .error (.InvalidBlockStructure (BlockTypeAsString top) lineNo)
            else
              .ok (below,
                if cur.type == .Loop then (m_loopDepth + 4294967295) % 4294967296
                else m_loopDepth)
        else .ok (blockStack, m_loopDepth)
      match terminated with
      | .error msg => .error msg
      | .ok (blockStack, m_loopDepth) =>
        if cur.IsOpener then
          ProcessBlocks tok lineNo rest (cur.type :: blockStack)
            (if cur.type == .Loop then (m_loopDepth + 1) % 4294967296 else m_loopDepth) true
        else ProcessBlocks tok lineNo rest blockStack m_loopDepth true
    else ProcessBlocks tok lineNo rest blockStack m_loopDepth bIsBlockKeyword

/-- The block `if (!bIsBlockKeyword) { ... }` of `Preprocessor::Process` for
the token `tok` and the tokenizer text `rest` after it: the error shown before
`return false`, if any. -/
def ProcessStatement (env : PreprocessorEnv) (p : Preprocessor) (tok rest : List Char) :
    Option PreprocessorMessage :=
  if stricmp tok "continue".toList == 0 || stricmp tok "break".toList == 0 then
    if p.m_loopDepth == 0 then some (.MustBeCalledFromWithinLoop p.m_curLineNo tok) else none
  else if stricmp tok "set".toList == 0 then
    match NextToken s_delims rest with
    | none => none
    | some (varToken, _) =>
      let target : Option (List Char) × List Char :=
        match varToken.indexOf? '.' with
        | some dotPos => (env.refScriptText (varToken.take dotPos), varToken.drop (dotPos + 1))
        | none => (some p.m_scriptText, varToken)
      match target.1 with
      | some scriptText =>
        if env.GetDeclaredVariableType target.2 scriptText == .Array then
          some (.SetArrayVariable p.m_curLineNo)
        else none
      | none => none
  else if stricmp tok "return".toList == 0 && p.m_loopDepth != 0 then
    some (.ReturnWithinLoop p.m_curLineNo)
  else none

/-- The end of `Preprocessor::Process` after its loop. -/
def finishProcess (blockStack : List BlockType) : Except PreprocessorMessage Unit :=
  if blockStack.length != 0 then .error .MismatchedBlockStructure else .ok ()

/-- The `while` loop of `Preprocessor::Process` from one evaluation of its
condition on (with `bContinue` true), with the stack of open blocks, top
first.  The result is `none` when the fuel runs out, otherwise the error shown
before `return false` or nothing for `return true`. -/
def ProcessLoop (env : PreprocessorEnv) :
    Nat → List BlockType → Preprocessor → Option (Except PreprocessorMessage Unit)
  | 0, _, _ => none
  | fuel + 1, blockStack, p =>
    match NextToken s_delims (cstr p.m_curLineText) with
    | none =>
      if (AdvanceLine (p.m_scriptText.length + 1) p).1 then
        ProcessLoop env fuel blockStack (AdvanceLine (p.m_scriptText.length + 1) p).2
      else some (finishProcess blockStack)
    | some (token, rest) =>
      match ProcessBlocks token p.m_curLineNo s_blocks blockStack p.m_loopDepth false with
      | .error msg => some (.error msg)
      | .ok (blockStack, m_loopDepth, bIsBlockKeyword) =>
        let p := { p with m_loopDepth := m_loopDepth }
        match (if !bIsBlockKeyword then ProcessStatement env p token rest else none) with
        | some msg => some (.error msg)
        | none =>
          if (AdvanceLine (p.m_scriptText.length + 1) p).1 then
            ProcessLoop env fuel blockStack (AdvanceLine (p.m_scriptText.length + 1) p).2
          else some (finishProcess blockStack)

/-- `Preprocessor::Process()`; `HandleDirectives` does nothing and returns
true. -/
def Preprocessor.Process (env : PreprocessorEnv) (fuel : Nat) (p : Preprocessor) :
    Option (Except PreprocessorMessage Unit) :=
  ProcessLoop env fuel [] p

/-- `PrecompileScript(buf)` for a script text. -/
def PrecompileScript (env : PreprocessorEnv) (fuel : Nat) (scriptText : List Char) :
    Option (Except PreprocessorMessage Unit) :=
  (Preprocessor_new scriptText).Process env fuel

/-- The loop `ProcessBlocks` with the comparison of the keyword stated on the
case-folded token. -/
def ProcessBlocksFolded (folded : List Char) (lineNo : Nat) :
    List Block → List BlockType → Nat → Bool →
      Except PreprocessorMessage (List BlockType × Nat × Bool)
  | [], blockStack, m_loopDepth, bIsBlockKeyword => .ok (blockStack, m_loopDepth, bIsBlockKeyword)
  | cur :: rest, blockStack, m_loopDepth, bIsBlockKeyword =>
    if decide (folded = cur.keyword.toList.map tolower) then
      let terminated : Except PreprocessorMessage (List BlockType × Nat) :=
        if cur.IsTerminator then
          match blockStack with
          | [] => .error (.InvalidBlockStructure (BlockTypeAsString cur.type) lineNo)
          | top :: below =>
            if top != cur.type then
              .error (.InvalidBlockStructure (BlockTypeAsString top) lineNo)
            else
              .ok (below,
                if cur.type == .Loop then (m_loopDepth + 4294967295) % 4294967296
                else m_loopDepth)
        else .ok (blockStack, m_loopDepth)
      match terminated with
      | .error msg => .error msg
      | .ok (blockStack, m_loopDepth) =>
        if cur.IsOpener then
          ProcessBlocksFolded folded lineNo rest (cur.type :: blockStack)
            (if cur.type == .Loop then (m_loopDepth + 1) % 4294967296 else m_loopDepth) true
        else ProcessBlocksFolded folded lineNo rest blockStack m_loopDepth true
    else ProcessBlocksFolded folded lineNo rest blockStack m_loopDepth bIsBlockKeyword

/-- The outcome of one pass through the body of the `while` loop of
`Preprocessor::Process`. -/
inductive ProcessStepResult
  /-- An error was shown and `Process` returned false. -/
  | failed (msg : PreprocessorMessage)
  /-- `bContinue` is true: the loop goes on with the next line. -/
  | next (blockStack : List BlockType) (p : Preprocessor)
  /-- `bContinue` is false: the loop ends. -/
  | finished (blockStack : List BlockType)

/-- The statement `bContinue = AdvanceLine()` at the end of the body of the
loop of `Preprocessor::Process`. -/
def ProcessAdvance (blockStack : List BlockType) (p : Preprocessor) : ProcessStepResult :=
  if (AdvanceLine (p.m_scriptText.length + 1) p).1 then
    .next blockStack (AdvanceLine (p.m_scriptText.length + 1) p).2
  else .finished blockStack

/-- One pass through the body of the `while` loop of `Preprocessor::Process`
(the body of `ProcessLoop`). -/
def ProcessStep (env : PreprocessorEnv) (blockStack : List BlockType) (p : Preprocessor) :
    ProcessStepResult :=
  match NextToken s_delims (cstr p.m_curLineText) with
  | none => ProcessAdvance blockStack p
  | some (token, rest) =>
    match ProcessBlocks token p.m_curLineNo s_blocks blockStack p.m_loopDepth false with
    | .error msg => .failed msg
    | .ok (blockStack, m_loopDepth, bIsBlockKeyword) =>
      let p := { p with m_loopDepth := m_loopDepth }
      match (if !bIsBlockKeyword then ProcessStatement env p token rest else none) with
      | some msg => .failed msg
      | none => ProcessAdvance blockStack p

/-- The stack of open blocks and the members of the preprocessor when the
condition of the loop of `Preprocessor::Process` is evaluated for the
`n + 1`-th time, `none` when the loop has ended before. -/
def ProcessIter (env : PreprocessorEnv) :
    Nat → List BlockType → Preprocessor → Option (List BlockType × Preprocessor)
  | 0, blockStack, p => some (blockStack, p)
  | n + 1, blockStack, p =>
    match ProcessStep env blockStack p with
    | .next blockStack p => ProcessIter env n blockStack p
    | _ => none

/-- The text that `g_ErrOut.Show` is given by `Preprocessor::Process`: the
format string of the call with its arguments filled in. -/
def PreprocessorMessage.text : PreprocessorMessage → String
  | .InvalidBlockStructure blockStr line =>
    "Invalid " ++ blockStr ++ " block structure on line " ++ toString line ++ "."
  | .MustBeCalledFromWithinLoop line tok =>
    "Error line " ++ toString line ++ ":\nFunction " ++ String.mk tok ++
      " must be called from within a loop."
  | .SetArrayVariable line =>
    "Error line " ++ toString line ++ ":\nSet may not be used to assign to an array variable"
  | .ReturnWithinLoop line =>
    "Error line " ++ toString line ++ ":\nReturn cannot be called within the body of a loop."
  | .MismatchedBlockStructure => "Error: Mismatched block structure."

/-- The entry of `==` in the run-time operator table. -/
def opEquals : Operator := ⟨13, "==", 2, .Equals, kOpRule_Equality true⟩

/-! ## Input commands: `Commands_Input.cpp` -/

/-- What the commands `IsControl` and `SetIsControl` read of their
surroundings. -/
structure InputEnv where
  /-- `g_inputGlobal->GetControlFromKeycode(key)`: the number of the game
  control that the key is bound to, 0xFF when it is bound to none. -/
  GetControlFromKeycode : Nat → Nat
  /-- The constant `kMaxMacros`. -/
  kMaxMacros : Nat

/-- `RegisteredControlMap`: for a key code the set of the indices of the mods
that have registered the key as a custom control; a key without an entry has
the empty set, which is what `operator[]` creates for it. -/
abbrev RegisteredControlMap := Nat → List Nat

/-- `Cmd_SetIsControl_Execute`: `args` are the values `ExtractArgs` stores in
`key` and `bIsControl`, `none` when it fails; the result is the returned flag,
`*result` and the map `registeredControls`. -/
def Cmd_SetIsControl_Execute (env : InputEnv) (args : Option (Nat × Nat)) (modIndex : Nat)
    (registeredControls : RegisteredControlMap) : (Bool × ℚ) × RegisteredControlMap :=
  match args with
  | some (key, bIsControl) =>
    if key < env.kMaxMacros then
      if bIsControl != 0 then
        ((true, 0),
          Function.update registeredControls key ((registeredControls key).insert modIndex))
      else
        ((true, 0),
          Function.update registeredControls key ((registeredControls key).erase modIndex))
    else ((true, 0), registeredControls)
  | none => ((true, 0), registeredControls)

/-- `Cmd_IsControl_Execute`: `args` is the value `ExtractArgs` stores in `key`,
`none` when it fails; the result is the returned flag and `*result`. -/
def Cmd_IsControl_Execute (env : InputEnv) (args : Option Nat)
    (registeredControls : RegisteredControlMap) : Bool × ℚ :=
  match args with
  | none => (true, 0)
  | some key =>
    let control := env.GetControlFromKeycode key
    let result : ℚ := if control != 255 then (control : ℚ) else 0
    let result : ℚ :=
      if control == 255 && (registeredControls key).length != 0 then 2 else result
    (true, result)

/-- An input state for examples: key 17 is bound to control 0, key 30 to
control 3, key 57 to control 1, and no other key is bound. -/
def sampleInputEnv : InputEnv :=
  { GetControlFromKeycode := fun key =>
      if key = 17 then 0 else if key = 30 then 3 else if key = 57 then 1 else 255
    kMaxMacros := 266 }

/-! ## User function parameters: `GetUserFunctionParams` -/

/-- Modelled from the spec: a `UserFunctionParam` (declared in
`ScriptUtils.h`), the pair `{ UInt16 varIdx; UInt8 varType }` of the compiled
form of a function definition. -/
structure UserFunctionParam where
  varIdx : Nat
  varType : VarType
  deriving DecidableEq, Repr

/-- Modelled from the spec: the constructor `UserFunctionParam(varIdx,
varType)`, which stores the index in a 16-bit member. -/
def UserFunctionParam.new (varIdx : Nat) (varType : VarType) : UserFunctionParam :=
  ⟨varIdx % 65536, varType⟩

/-- The tokens that the loop `while (tokenizer.NextToken(token) != -1)` visits,
in order; each call of `NextToken` consumes at least one character. -/
def allTokens (delims : List Char) : Nat → List Char → List (List Char)
  | 0, _ => []
  | fuel + 1, text =>
    match NextToken delims text with
    | none => []
    | some (token, rest) => token :: allTokens delims fuel rest

/-- The tokens of a `Tokenizer` for a text and a set of delimiters. -/
def Tokenizer_tokens (delims : List Char) (text : List Char) : List (List Char) :=
  allTokens delims (text.length + 1) text

/-- The loop `while (argTokens.NextToken(token) != -1)` of
`GetUserFunctionParams` over the tokens not yet visited.  `GetVariableByName`
is `varList->GetVariableByName(name)`, the index `idx` of the variable or
`none` for a null result. -/
def GetUserFunctionParamsArgs (GetVariableByName : List Char → Option Nat)
    (GetDeclaredVariableType : List Char → List Char → VarType) (scriptText : List Char) :
    List (List Char) → List UserFunctionParam → Bool × List UserFunctionParam
  | [], outParams => (true, outParams)
  | token :: rest, outParams =>
    match GetVariableByName (cstr token) with
    | none => (false, outParams)
    | some idx =>
      let varType := GetDeclaredVariableType (cstr token) (cstr scriptText)
      if varType == .Invalid then (false, outParams)
      else if outParams.any (fun p => p.varIdx == idx) then (false, outParams)
      else
        GetUserFunctionParamsArgs GetVariableByName GetDeclaredVariableType scriptText rest
          (outParams ++ [UserFunctionParam.new idx varType])

/-- The text between the braces of a `begin` line: `lineText.substr(argStartPos
+ 1, argEndPos - argStartPos - 1)`. -/
def argStr (lineText : List Char) (argStartPos argEndPos : Nat) : List Char :=
  (lineText.drop (argStartPos + 1)).take (argEndPos - argStartPos - 1)

/-- The body of `if (!_stricmp(token.c_str(), "begin"))` in
`GetUserFunctionParams`, for the line `lineText`. -/
def GetUserFunctionParamsBegin (GetVariableByName : List Char → Option Nat)
    (GetDeclaredVariableType : List Char → List Char → VarType) (scriptText : List Char)
    (lineText : List Char) (outParams : List UserFunctionParam) :
    Bool × List UserFunctionParam :=
  match lineText.indexOf? '{', lineText.indexOf? '}' with
  | some argStartPos, some argEndPos =>
    if argStartPos > argEndPos then (false, outParams)
    else
      GetUserFunctionParamsArgs GetVariableByName GetDeclaredVariableType scriptText
        (Tokenizer_tokens ['\t', ' ', ','] (cstr (argStr lineText argStartPos argEndPos)))
        outParams
  | _, _ => (false, outParams)

/-- The test of a line in `GetUserFunctionParams`: its first token is `begin`,
letter case aside.  The delimiters of the tokenizer are given as the literal
`" \t\r\n\0;"`, a C string that ends at its NUL, so that they are the blank, the
tab, the carriage return and the line feed. -/
def IsBeginLine (lineText : List Char) : Bool :=
  match NextToken [' ', '\t', '\r', '\n'] (cstr lineText) with
  | some (token, _) => stricmp (cstr token) "begin".toList == 0
  | none => false

/-- The loop `while (lines.NextToken(lineText) != -1)` of
`GetUserFunctionParams` over the lines not yet visited. -/
def GetUserFunctionParamsLines (GetVariableByName : List Char → Option Nat)
    (GetDeclaredVariableType : List Char → List Char → VarType) (scriptText : List Char) :
    List (List Char) → List UserFunctionParam → Bool × List UserFunctionParam
  | [], outParams => (false, outParams)
  | lineText :: rest, outParams =>
    if IsBeginLine lineText then
      GetUserFunctionParamsBegin GetVariableByName GetDeclaredVariableType scriptText lineText
        outParams
    else
      GetUserFunctionParamsLines GetVariableByName GetDeclaredVariableType scriptText rest
        outParams

/-- `GetUserFunctionParams(scriptText, outParams, varList)`: the returned flag
and `outParams`. -/
def GetUserFunctionParams (GetVariableByName : List Char → Option Nat)
    (GetDeclaredVariableType : List Char → List Char → VarType) (scriptText : List Char)
    (outParams : List UserFunctionParam) : Bool × List UserFunctionParam :=
  GetUserFunctionParamsLines GetVariableByName GetDeclaredVariableType scriptText
    (Tokenizer_tokens ['\r', '\n'] (cstr scriptText)) outParams

/-- A variable list for examples: `a`, `b` and `c` with the indices 1, 2 and
3. -/
def sampleVarList (name : List Char) : Option Nat :=
  if name = "a".toList then some 1
  else if name = "b".toList then some 2
  else if name = "c".toList then some 3
  else none

/-- Declared types for examples: `a` and `b` are `short`, `c` has no valid
declaration. -/
def sampleDeclaredType (name : List Char) (_scriptText : List Char) : VarType :=
  if name = "a".toList ∨ name = "b".toList then .Integer else .Invalid

/-- Whether every `PopOperator` call of the loop `while (ops.size() &&
ops.top()->Precedes(op)) PopOperator(ops, operands);` returns a type other than
`kTokenType_Invalid`. -/
def popWhilePrecedesSucceeds (op : Operator) :
    List Operator → List Token_Type → ParserState → Bool
  | [], _, _ => true
  | topOp :: ops, operands, st =>
    if topOp.Precedes op then
      (PopOperator topOp operands st).1 != .Invalid &&
        popWhilePrecedesSucceeds op ops (PopOperator topOp operands st).2.1
          (PopOperator topOp operands st).2.2
    else true

/-- The outcome of one pass through the main loop of `ParseSubExpression`,
from the evaluation of its condition on. -/
inductive SubExpressionStep
  /-- A nested call ran out of fuel. -/
  | outOfFuel
  /-- A `return` statement inside the loop, with the returned type. -/
  | returned (r : Token_Type × ParserState)
  /-- The loop has ended, by its condition or by `break`. -/
  | ended (ops : List Operator) (operands : List Token_Type) (st : ParserState)
  /-- The loop goes on; `popsSucceeded` tells whether every `PopOperator` call
  of the pass returned a type other than `kTokenType_Invalid`. -/
  | next (ops : List Operator) (operands : List Token_Type) (bLastTokenWasOperand : Bool)
      (st : ParserState) (popsSucceeded : Bool)

/-- One pass through the main loop of `ParseSubExpression` (the body of
`ParseSubExpressionLoop`), with `fuel` for the nested calls. -/
def ParseSubExpressionStep (env : ParserEnv) (fuel m_len exprEnd : Nat) (ops : List Operator)
    (operands : List Token_Type) (bLastTokenWasOperand : Bool) (st : ParserState) :
    SubExpressionStep :=
  let ch := st.Peek m_len st.lineOffset
  if !(st.lineOffset < exprEnd && ch != NUL) then .ended ops operands st
  else if isspace ch then
    .next ops operands bLastTokenWasOperand { st with lineOffset := st.lineOffset + 1 } true
  else
    match ParseOperator env m_len bLastTokenWasOperand true st with
    | (some op, st) =>
      if op.IsOpenBracket then
        let pushed := pushOpenBracket op ops operands st
        match MatchOpenBracket pushed.2.2 m_len op with
        | none => .returned (.Invalid, pushed.2.2.Show .kError_MismatchedBrackets)
        | some endBracPos =>
          match ParseSubExpression env fuel m_len (endBracPos - pushed.2.2.lineOffset)
              { pushed.2.2 with paramText := pushed.2.2.paramText.set endBracPos NUL } with
          | none => .outOfFuel
          | some (operandType, st1) =>
            if operandType == .Invalid then
              .returned (.Invalid,
                ({ st1 with lineOffset := endBracPos + 1 } : ParserState).Show .kError_CantParse)
            else
              .next pushed.1 (operandType :: pushed.2.1) true
                { st1 with lineOffset := endBracPos + 1 }
                (op.numOperands == 0 || popWhilePrecedesSucceeds op ops operands st)
      else if op.IsClosingBracket then
        .returned (.Invalid, st.Show .kError_MismatchedBrackets)
      else
        .next (op :: (popWhilePrecedes op ops operands st).1)
          (popWhilePrecedes op ops operands st).2.1 false
          (popWhilePrecedes op ops operands st).2.2
          (popWhilePrecedesSucceeds op ops operands st)
    | (none, st) =>
      let delimiter : Bool × ParserState :=
        if bLastTokenWasOperand then (true, st)
        else
          ((ParseOperator env m_len (!bLastTokenWasOperand) false st).1.isSome,
            (ParseOperator env m_len (!bLastTokenWasOperand) false st).2)
      let st := delimiter.2
      if delimiter.1 then .ended ops operands st
      else
        match ParseOperand env m_len ops.head? st with
        | (none, st) => .returned (.Invalid, st)
        | (some operand, st) =>
          let st := st.write (.operand operand)
          match operand.GetCommandInfo with
          | some cmdInfo =>
            match ParseFunctionCallWith env (fun len => ParseSubExpression env fuel len)
                cmdInfo { st with s_parserDepth := st.s_parserDepth + 1 } with
            | none => .outOfFuel
            | some (bParsed, st1) =>
              if !bParsed then
                .returned (.Invalid,
                  ({ st1 with s_parserDepth := st1.s_parserDepth - 1 } : ParserState).Show
                    .kError_CantParse)
              else
                .next ops (commandOperandType env cmdInfo :: operands) true
                  { st1 with s_parserDepth := st1.s_parserDepth - 1 } true
          | none =>
            if operand.TokenType == .Invalid then .returned (.Invalid, st.Show .kError_CantParse)
            else .next ops (operand.TokenType :: operands) true st true

/-- The stacks, the flag `bLastTokenWasOperand` and the state when the
condition of the main loop of `ParseSubExpression` is evaluated for the
`n + 1`-th time, together with the flag that tells whether every `PopOperator`
call made in the loop so far returned a type other than `kTokenType_Invalid`;
`none` when the loop has ended before or the fuel has run out. -/
def ParseSubExpressionIter (env : ParserEnv) (m_len exprEnd : Nat) :
    Nat → Nat → List Operator → List Token_Type → Bool → ParserState →
      Option (List Operator × List Token_Type × Bool × ParserState × Bool)
  | _, 0, ops, operands, bLastTokenWasOperand, st =>
    some (ops, operands, bLastTokenWasOperand, st, true)
  | 0, _ + 1, _, _, _, _ => none
  | fuel + 1, n + 1, ops, operands, bLastTokenWasOperand, st =>
    match ParseSubExpressionStep env fuel m_len exprEnd ops operands bLastTokenWasOperand st with
    | .next ops operands bLastTokenWasOperand st popsSucceeded =>
      (ParseSubExpressionIter env m_len exprEnd fuel n ops operands bLastTokenWasOperand st).map
        (fun r => (r.1, r.2.1, r.2.2.1, r.2.2.2.1, popsSucceeded && r.2.2.2.2))
    | _ => none

/-- What one pass through the main loop of `ParseSubExpression` keeps, for
the state `st` and the flag `b` at its start: it has not run out of fuel, the
text has the length it had, and when the loop goes on, twice the number of
characters from the offset to the end of the text, plus one while an operand
is expected, has become smaller. -/
def StepProgress (st : ParserState) (b : Bool) : SubExpressionStep → Prop
  | .outOfFuel => False
  | .returned r => r.2.paramText.length = st.paramText.length
  | .ended _ _ st1 => st1.paramText.length = st.paramText.length
  | .next _ _ b' st' _ =>
    st'.paramText.length = st.paramText.length ∧
    2 * (st'.paramText.length - st'.lineOffset) + (if b' then 0 else 1) <
      2 * (st.paramText.length - st.lineOffset) + (if b then 0 else 1)

/-- The rewrite of format specifiers as the specification words it, from left
to right: at a `%` that is not the last character, `%%` is kept and the
character after it is not looked at again, `%r` and `%R` become a newline, `%q`
and `%Q` become a double quote, and a `%` before any other character is kept;
every other character, and a trailing `%`, is kept. -/
def FormatStringSpec : List Char → List Char
  | [] => []
  | [c] => [c]
  | c :: d :: rest =>
    if c = '%' then
      if d = '%' then '%' :: '%' :: FormatStringSpec rest
      else if d = 'r' ∨ d = 'R' then '\n' :: FormatStringSpec rest
      else if d = 'q' ∨ d = 'Q' then '"' :: FormatStringSpec rest
      else '%' :: FormatStringSpec (d :: rest)
    else c :: FormatStringSpec (d :: rest)

/-- `Eval_Assign_Numeric`. -/
def Eval_Assign_Numeric (_op : OperatorType) (lh rh : ScriptToken)
    (context : ExpressionEvaluator) : EvalResult :=
  let result := rh.GetNumber context
  let result : ℚ := if lh.GetVariableType = .Integer then ((⌊result⌋ : Int) : ℚ) else result
  match lh.GetVar with
  | none => none
  | some v => some (some (.Number result), context.setVar v result)

/-- `Eval_PlusEquals_Number`. -/
def Eval_PlusEquals_Number (_op : OperatorType) (lh rh : ScriptToken)
    (context : ExpressionEvaluator) : EvalResult :=
  match lh.GetVar with
  | none => none
  | some v =>
    let context := context.setVar v (context.vars v + rh.GetNumber context)
    some (some (.Number (context.vars v)), context)

/-- `Eval_MinusEquals_Number`. -/
def Eval_MinusEquals_Number (_op : OperatorType) (lh rh : ScriptToken)
    (context : ExpressionEvaluator) : EvalResult :=
  match lh.GetVar with
  | none => none
  | some v =>
    let context := context.setVar v (context.vars v - rh.GetNumber context)
    some (some (.Number (context.vars v)), context)

/-- `Eval_TimesEquals`. -/
def Eval_TimesEquals (_op : OperatorType) (lh rh : ScriptToken)
    (context : ExpressionEvaluator) : EvalResult :=
  match lh.GetVar with
  | none => none
  | some v =>
    let context := context.setVar v (context.vars v * rh.GetNumber context)
    some (some (.Number (context.vars v)), context)

/-- A number is integral when it is the value of an integer. -/
def IsIntegral (x : ℚ) : Prop := ∃ z : Int, x = (z : ℚ)

/-! ## The ReShade add-on: `obse_plugin_example/main.cpp` -/

/-- A technique of a ReShade effect runtime, as the add-on sees it through the
ReShade API (which is not part of the files): the name that
`get_technique_name` leaves in the 256-character buffer, read as a C string,
and the state that `get_technique_state` returns and `set_technique_state`
sets. -/
structure Technique where
  name : List Char
  state : Bool
  deriving DecidableEq, Repr

/-- The globals of `main.cpp` that the effect callbacks use, and the techniques
of the effect runtimes, by runtime handle, in the order in which
`enumerate_techniques` visits them.  A null `m_runtime` or `m_cmdlist` is
`none`; resource views are their handles. -/
structure AddonState where
  runtimes : Nat → List Technique
  m_runtime : Option Nat
  m_cmdlist : Option Nat
  m_rtv : Nat
  m_rtv_srgb : Nat
  validPass : Bool
  backupTechniques : List (List Char)

/-- `effect_runtime::enumerate_techniques(nullptr, callback)`: the callback is
called for each technique in turn; it may change what it captured by reference
(`acc`) and the state of the technique it is called for. -/
def enumerate_techniques {σ : Type} (callback : σ → Technique → σ × Technique) :
    List Technique → σ → σ × List Technique
  | [], acc => (acc, [])
  | technique :: rest, acc =>
    let r := callback acc technique
    let r2 := enumerate_techniques callback rest r.1
    (r2.1, r.2 :: r2.2)

/-- The lambda of `on_reshade_begin_effects`; `backupTechniques` is captured by
reference. -/
def beginEffectsCallback (backupTechniques : List (List Char)) (technique : Technique) :
    List (List Char) × Technique :=
  let name := technique.name
  if technique.state then (backupTechniques ++ [name], { technique with state := false })
  else (backupTechniques, technique)

/-- The lambda of `on_reshade_finish_effects`; `backupTechniques` is read. -/
def finishEffectsCallback (backupTechniques : List (List Char)) (technique : Technique) :
    List (List Char) × Technique :=
  let name := technique.name
  (backupTechniques, { technique with state := backupTechniques.contains name })

/-- The techniques of one runtime replaced after an enumeration changed them. -/
def AddonState.setTechniques (s : AddonState) (runtime : Nat) (techniques : List Technique) :
    AddonState :=
  { s with runtimes := fun r => if r = runtime then techniques else s.runtimes r }

/-- `on_reshade_begin_effects(runtime, cmd_list, rtv, rtv_srgb)`. -/
def on_reshade_begin_effects (s : AddonState) (runtime cmd_list rtv rtv_srgb : Nat) :
    AddonState :=
  let s := { s with
    m_runtime := some runtime
    m_cmdlist := some cmd_list
    m_rtv := rtv
    m_rtv_srgb := rtv_srgb
    backupTechniques := [] }
  if !s.validPass then
    let r := enumerate_techniques beginEffectsCallback (s.runtimes runtime) s.backupTechniques
    { s.setTechniques runtime r.2 with backupTechniques := r.1 }
  else s

/-- `on_reshade_finish_effects(runtime, cmd_list, rtv, rtv_srgb)`; the
techniques are those of `m_runtime`, and the result is `none` when that pointer
is null. -/
def on_reshade_finish_effects (s : AddonState) (_runtime _cmd_list _rtv _rtv_srgb : Nat) :
    Option AddonState :=
  if !s.validPass then
    match s.m_runtime with
    | none => none
    | some m_runtime =>
      let r := enumerate_techniques finishEffectsCallback (s.runtimes m_runtime)
        s.backupTechniques
      some (s.setTechniques m_runtime r.2)
  else some { s with validPass := false }

/-! # Theorems -/

/-- In the run-time table every rule of a unary operator is asymmetric. -/
theorem unary_rules_asymmetric :
    (s_operators true).all
      (fun op => !op.IsUnary || op.rules.all (fun r => r.bAsymmetric)) = true := by
  decide

/-- Rule scan of `Evaluate` agrees with the first-match description, for an
operator whose unary rules are asymmetric and whose right operand is present
when it is binary. -/
theorem Operator.EvaluateRules_eq_spec {Tok Ctx : Type}
    (CanConvertTo : Tok → Token_Type → Bool) (Error : String → Ctx → Ctx)
    (call : EvalFn → OperatorType → Tok → Option Tok → Ctx → Option (Option Tok × Ctx))
    (op : Operator) (lhs : Tok) (rhs : Option Tok) (context : Ctx)
    (hrhs : op.IsUnary = false → rhs.isSome = true)
    (rules : List OperationRule)
    (hasym : op.IsUnary = true → ∀ r ∈ rules, r.bAsymmetric = true) :
    Operator.EvaluateRules CanConvertTo Error call op lhs rhs context rules =
      Operator.resolveSpec CanConvertTo Error call op lhs rhs context rules := by
  induction rules with
  | nil => simp [Operator.EvaluateRules, Operator.resolveSpec]
  | cons rule rest ih =>
    have ih1 := ih (fun hu r hr => hasym hu r (List.mem_cons_of_mem _ hr))
    have hr := fun hu => hasym hu rule (List.mem_cons_self _ _)
    cases hev : rule.eval with
    | none => simp [Operator.EvaluateRules, Operator.resolveSpec, hev, List.filter_cons, ih1]
    | some eval =>
      cases hu : op.IsUnary with
      | true =>
        have hasy := hr hu
        cases hl : CanConvertTo lhs rule.lhs <;> cases rhs <;>
          simp [Operator.EvaluateRules, Operator.resolveSpec, Operator.matchRule, Operator.matchesDirect,
            Operator.matchesSwapped, hev, hu, hl, hasy, List.filter_cons, List.find?_cons, ih1]
      | false =>
        obtain ⟨r, rfl⟩ := Option.isSome_iff_exists.mp (hrhs hu)
        cases hl : CanConvertTo lhs rule.lhs <;> cases hrr : CanConvertTo r rule.rhs <;>
          cases hasy : rule.bAsymmetric <;> cases hsl : CanConvertTo r rule.lhs <;>
          cases hsr : CanConvertTo lhs rule.rhs <;>
          simp [Operator.EvaluateRules, Operator.resolveSpec, Operator.matchRule, Operator.matchesDirect,
            Operator.matchesSwapped, hev, hu, hl, hrr, hasy, hsl, hsr, List.filter_cons,
            List.find?_cons, ih1]

/-- C1: for every operator of the run-time table `s_operators` and all operand
tokens (the right one present when the operator is binary), `Operator::Evaluate`
returns what first-match-wins resolution prescribes: the handler of the first
rule in declaration order that has a handler and matches directly or, for a
non-asymmetric rule of a binary operator, in swapped order, called with the
operands swapped exactly when only the swapped order matched; no later rule is
consulted; and when no rule matches or the operator takes no operands the
result is no token and an error, with no handler invoked. -/
theorem Operator.Evaluate_first_match {Tok Ctx : Type}
    (CanConvertTo : Tok → Token_Type → Bool) (Error : String → Ctx → Ctx)
    (call : EvalFn → OperatorType → Tok → Option Tok → Ctx → Option (Option Tok × Ctx))
    (op : Operator) (hop : op ∈ s_operators true)
    (lhs : Tok) (rhs : Option Tok) (context : Ctx)
    (hrhs : op.numOperands = 2 → rhs.isSome = true) :
    Operator.Evaluate CanConvertTo Error call op lhs rhs context =
      Operator.EvaluateSpec CanConvertTo Error call op lhs rhs context := by
  have hall := unary_rules_asymmetric
  rw [List.all_eq_true] at hall
  have hop1 := hall op hop
  have hnum : op.numOperands = 0 ∨ op.numOperands = 1 ∨ op.numOperands = 2 := by
    have h3 : (s_operators true).all
        (fun op => op.numOperands == 0 || op.numOperands == 1 || op.numOperands == 2) = true := by
      decide
    rw [List.all_eq_true] at h3
    have := h3 op hop
    simp only [Bool.or_eq_true, beq_iff_eq] at this
    tauto
  unfold Operator.Evaluate Operator.EvaluateSpec
  by_cases h0 : op.numOperands = 0
  · simp [h0]
  · have hb : (op.numOperands == 0) = false := by simpa using h0
    rw [hb]
    simp only [h0, if_false, Bool.false_eq_true]
    apply Operator.EvaluateRules_eq_spec
    · intro hu
      apply hrhs
      rcases hnum with h | h | h
      · exact absurd h h0
      · simp [Operator.IsUnary, h] at hu
      · exact h
    · intro hu r hr
      rw [hu] at hop1
      simp only [Bool.not_true, Bool.false_or, List.all_eq_true] at hop1
      exact hop1 r hr

/-- Witness for C1: `2 + 3` on number tokens resolves to `Eval_Add_Number` by
the first rule of the addition table. -/
theorem Operator.Evaluate_first_match_witness :
    opAdd ∈ s_operators true ∧
    (opAdd.numOperands = 2 → (some (ScriptToken.Number 3)).isSome = true) ∧
    Operator.Evaluate (ScriptToken.CanConvertTo sampleContext) ExpressionEvaluator.Error
        (callHandler powInt (fun _ _ _ _ _ => none)) opAdd (.Number 2) (some (.Number 3))
        sampleContext =
      Operator.EvaluateSpec (ScriptToken.CanConvertTo sampleContext) ExpressionEvaluator.Error
        (callHandler powInt (fun _ _ _ _ _ => none)) opAdd (.Number 2) (some (.Number 3))
        sampleContext :=
  ⟨by decide, fun _ => rfl,
    Operator.Evaluate_first_match _ _ _ opAdd (by decide) _ _ _ (fun _ => rfl)⟩

/-- C4: for every left operand, `/` (`Eval_Arithmetic` with `kOpType_Divide`)
and `%` (`Eval_Integer` with `kOpType_Modulo`) with a right operand equal to 0
report "Division by zero" and return no token, leaving the stores as they
were; with a non-zero right operand `/` returns the quotient. -/
theorem division_by_zero_is_reported (pow : ℚ → ℚ → ℚ) (lh rh : ScriptToken)
    (context : ExpressionEvaluator) :
    (rh.GetNumber context = 0 →
      Eval_Arithmetic pow .Divide lh rh context =
        some (none, context.Error "Division by zero") ∧
      Eval_Integer .Modulo lh rh context =
        some (none, context.Error "Division by zero")) ∧
    (rh.GetNumber context ≠ 0 →
      Eval_Arithmetic pow .Divide lh rh context =
        some (some (.Number (lh.GetNumber context / rh.GetNumber context)), context)) := by
  constructor
  · intro h
    simp [Eval_Arithmetic, Eval_Integer, h, toSInt64, wrapSInt64]
  · intro h
    simp [Eval_Arithmetic, h]

/-- `ExpressionEvaluator::Error` changes no stored value. -/
theorem ExpressionEvaluator.Error_frame (msg : String) (context : ExpressionEvaluator) :
    (context.Error msg).vars = context.vars ∧ (context.Error msg).globals = context.globals ∧
      (context.Error msg).arrays = context.arrays :=
  ⟨rfl, rfl, rfl⟩

/-- C5 (as stated, refuted): `x ^= 0` on a numeric variable holding 2 returns the
number 1 and reports nothing, where the claim expects no token and a
division-by-zero error. -/
theorem exponent_equals_zero_returns_token :
    Eval_ExponentEquals powInt .ExponentEquals (.NumericVar 0 .Float) (.Number 0)
        sampleContext =
      some (some (.Number 1), sampleContext.setVar 0 1) ∧
    (sampleContext.setVar 0 1).errors = [] := by
  constructor
  · simp [Eval_ExponentEquals, ScriptToken.GetVar, ScriptToken.GetNumber, powInt,
      ExpressionEvaluator.setVar, sampleContext]
  · rfl

/-- C5 (amended): the exponent-assignment handlers make no zero test.  With a
right operand equal to 0, `^=` on a numeric variable, on a global and on a
numeric array element stores `pow(old, 0)` in the target, returns that number
and reports no error. -/
theorem exponent_equals_zero_stores_pow (pow : ℚ → ℚ → ℚ) (op : OperatorType)
    (rh : ScriptToken) (context : ExpressionEvaluator) (h0 : rh.GetNumber context = 0) :
    (∀ v t, Eval_ExponentEquals pow op (.NumericVar v t) rh context =
      some (some (.Number (pow (context.vars v) 0)),
        context.setVar v (pow (context.vars v) 0))) ∧
    (∀ g, Eval_ExponentEquals_Global pow op (.Global g) rh context =
      some (some (.Number (pow (context.globals g) 0)),
        context.setGlobal g (pow (context.globals g) 0))) ∧
    (∀ id key a old, context.arrays id = some a → a.elems key = some (.Number old) →
      key.KeyType = a.keyType →
      ∃ a', a'.elems key = some (.Number (pow old 0)) ∧
        Eval_ExponentEquals_Elem pow op (.ArrayElement id (some key)) rh context =
          some (some (.Number (pow old 0)), context.setArray id a')) := by
  refine ⟨?_, ?_, ?_⟩
  · intro v t
    simp [Eval_ExponentEquals, ScriptToken.GetVar, h0, ExpressionEvaluator.setVar]
  · intro g
    simp [Eval_ExponentEquals_Global, ScriptToken.GetGlobal, h0, ExpressionEvaluator.setGlobal]
  · intro id key a old ha hk hty
    refine ⟨a.store key (.Number (pow old 0)), by simp [ArrayVar.store], ?_⟩
    simp [Eval_ExponentEquals_Elem, ScriptToken.GetArrayKey, ScriptToken.GetOwningArrayID, ha,
      ArrayVar.GetElementNumber, hk, h0, ArrayVar.SetElementNumber, hty]

/-- Witness for C5 (amended): the right operand is the literal 0. -/
theorem exponent_equals_zero_stores_pow_witness :
    (ScriptToken.Number 0).GetNumber sampleContext = 0 ∧
    Eval_ExponentEquals powInt .ExponentEquals (.NumericVar 3 .Integer) (.Number 0)
        sampleContext =
      some (some (.Number (powInt (sampleContext.vars 3) 0)),
        sampleContext.setVar 3 (powInt (sampleContext.vars 3) 0)) :=
  ⟨rfl, (exponent_equals_zero_stores_pow powInt .ExponentEquals (.Number 0) sampleContext
    rfl).1 3 .Integer⟩

/-- C6: `/=` on a numeric variable, a global or a numeric array element.  With
a right operand equal to 0 the handler reports division by zero, returns no
token and leaves every stored value unchanged; with a non-zero right operand
the target becomes `old / rhs`, every other stored value is unchanged, and the
returned number is the value now stored in the target. -/
theorem divided_equals_guards_zero (op : OperatorType) (rh : ScriptToken)
    (context : ExpressionEvaluator) :
    (rh.GetNumber context = 0 →
      (∀ v t, Eval_DividedEquals op (.NumericVar v t) rh context =
        some (none, context.Error "Division by zero")) ∧
      (∀ g, Eval_DividedEquals_Global op (.Global g) rh context =
        some (none, context.Error "Division by zero.")) ∧
      (∀ id key a old, context.arrays id = some a → a.elems key = some (.Number old) →
        Eval_DividedEquals_Elem op (.ArrayElement id (some key)) rh context =
          some (none, context.Error "Division by zero"))) ∧
    (rh.GetNumber context ≠ 0 →
      (∀ v t, ∃ c', Eval_DividedEquals op (.NumericVar v t) rh context =
          some (some (.Number (c'.vars v)), c') ∧
        c'.vars v = context.vars v / rh.GetNumber context ∧
        (∀ w, w ≠ v → c'.vars w = context.vars w) ∧
        c'.globals = context.globals ∧ c'.arrays = context.arrays ∧
        c'.errors = context.errors) ∧
      (∀ g, ∃ c', Eval_DividedEquals_Global op (.Global g) rh context =
          some (some (.Number (c'.globals g)), c') ∧
        c'.globals g = context.globals g / rh.GetNumber context ∧
        (∀ w, w ≠ g → c'.globals w = context.globals w) ∧
        c'.vars = context.vars ∧ c'.arrays = context.arrays ∧
        c'.errors = context.errors) ∧
      (∀ id key a old, context.arrays id = some a → a.elems key = some (.Number old) →
        key.KeyType = a.keyType →
        ∃ c' a', Eval_DividedEquals_Elem op (.ArrayElement id (some key)) rh context =
            some (some (.Number (old / rh.GetNumber context)), c') ∧
          c'.arrays id = some a' ∧
          a'.elems key = some (.Number (old / rh.GetNumber context)) ∧
          (∀ k, k ≠ key → a'.elems k = a.elems k) ∧ a'.keyType = a.keyType ∧
          (∀ j, j ≠ id → c'.arrays j = context.arrays j) ∧
          c'.vars = context.vars ∧ c'.globals = context.globals ∧
          c'.errors = context.errors)) := by
  constructor
  · intro h
    refine ⟨?_, ?_, ?_⟩
    · intro v t
      simp [Eval_DividedEquals, h]
    · intro g
      simp [Eval_DividedEquals_Global, h]
    · intro id key a old ha hk
      simp [Eval_DividedEquals_Elem, ScriptToken.GetArrayKey, ScriptToken.GetOwningArrayID, ha,
        ArrayVar.GetElementNumber, hk, h]
  · intro h
    refine ⟨?_, ?_, ?_⟩
    · intro v t
      refine ⟨context.setVar v (context.vars v / rh.GetNumber context), ?_, ?_, ?_, rfl, rfl, rfl⟩
      · simp [Eval_DividedEquals, h, ScriptToken.GetVar]
      · simp [ExpressionEvaluator.setVar]
      · intro w hw
        simp [ExpressionEvaluator.setVar, hw]
    · intro g
      refine ⟨context.setGlobal g (context.globals g / rh.GetNumber context), ?_, ?_, ?_,
        rfl, rfl, rfl⟩
      · simp [Eval_DividedEquals_Global, h, ScriptToken.GetGlobal]
      · simp [ExpressionEvaluator.setGlobal]
      · intro w hw
        simp [ExpressionEvaluator.setGlobal, hw]
    · intro id key a old ha hk hty
      refine ⟨context.setArray id (a.store key (.Number (old / rh.GetNumber context))),
        a.store key (.Number (old / rh.GetNumber context)),
        ?_, ?_, ?_, ?_, rfl, ?_, rfl, rfl, rfl⟩
      · simp [Eval_DividedEquals_Elem, ScriptToken.GetArrayKey, ScriptToken.GetOwningArrayID, ha,
          ArrayVar.GetElementNumber, hk, h, ArrayVar.SetElementNumber, hty]
      · simp [ExpressionEvaluator.setArray]
      · simp [ArrayVar.store]
      · intro k hk'
        simp [ArrayVar.store, hk']
      · intro j hj
        simp [ExpressionEvaluator.setArray, hj]

theorem scanWindow_zero (text : List Char) (i : Nat) : scanWindow text i 0 = [] := by
  simp [scanWindow]

theorem scanWindow_nul (text : List Char) (i n : Nat) (h : charAt text i = NUL) :
    scanWindow text i n = [] := by
  unfold scanWindow charAt at *
  by_cases hi : i < text.length
  · rw [List.drop_eq_getElem_cons hi]
    cases n with
    | zero => simp
    | succ n =>
      have : text[i] = NUL := by simpa [List.getD_eq_getElem?_getD, hi] using h
      rw [List.take_succ_cons, List.takeWhile_cons, this]
      rfl
  · have : text.drop i = [] := List.drop_eq_nil_of_le (by omega)
    simp [this]

theorem scanWindow_succ (text : List Char) (i n : Nat) (h : charAt text i ≠ NUL) :
    scanWindow text i (n + 1) = charAt text i :: scanWindow text (i + 1) n := by
  unfold scanWindow charAt at *
  by_cases hi : i < text.length
  · rw [List.drop_eq_getElem_cons hi]
    have e : text.getD i NUL = text[i] := by simp [List.getD_eq_getElem?_getD, hi]
    rw [e] at h ⊢
    rw [List.take_succ_cons, List.takeWhile_cons]
    have : (text[i] != NUL) = true := by simpa using h
    rw [this]
    rfl
  · exfalso
    apply h
    simp [List.getD_eq_getElem?_getD, List.getElem?_eq_none (by omega : text.length ≤ i)]

theorem bracketCount_nil (o cl : Char) (c : Nat) : bracketCount o cl c [] = c := by
  simp [bracketCount]

theorem bracketCount_cons (o cl : Char) (hne : o ≠ cl) (c : Nat) (hc : 1 ≤ c) (x : Char)
    (s : List Char) :
    bracketCount o cl c (x :: s) =
      bracketCount o cl (if x == o then c + 1 else if x == cl then c - 1 else c) s := by
  unfold bracketCount
  by_cases h1 : x = o
  · subst h1
    have : ¬ (x = cl) := hne
    simp [List.count_cons, this]
    ring
  · by_cases h2 : x = cl
    · subst h2
      simp [List.count_cons, h1]
      omega
    · simp [List.count_cons, h1, h2]

/-- Characterisation of the bracket scan by counting. -/
theorem MatchOpenBracketLoop_spec (o cl : Char) (hne : o ≠ cl) (text : List Char) :
    ∀ (n i c : Nat), 1 ≤ c →
      match MatchOpenBracketLoop o cl text n i c with
      | some r =>
        ∃ k, r = i + k ∧ k < (scanWindow text i n).length ∧
          bracketCount o cl c ((scanWindow text i n).take (k + 1)) = 0 ∧
          ∀ j, j ≤ k → bracketCount o cl c ((scanWindow text i n).take j) ≠ 0
      | none =>
        ∀ j, j ≤ (scanWindow text i n).length →
          bracketCount o cl c ((scanWindow text i n).take j) ≠ 0 := by
  intro n
  induction n with
  | zero =>
    intro i c hc
    simp only [MatchOpenBracketLoop, scanWindow_zero]
    intro j _
    simp [bracketCount_nil]
    omega
  | succ n ih =>
    intro i c hc
    by_cases hx : charAt text i = NUL
    · simp only [MatchOpenBracketLoop, hx, beq_self_eq_true, if_true, scanWindow_nul _ _ _ hx]
      intro j _
      simp [bracketCount_nil]
      omega
    · have hx' : (charAt text i == NUL) = false := by simpa using hx
      rw [scanWindow_succ _ _ _ hx]
      simp only [MatchOpenBracketLoop, hx', Bool.false_eq_true, if_false]
      generalize hc' : (if (charAt text i == o) = true then c + 1
        else if (charAt text i == cl) = true then c - 1 else c) = c'
      have hcons : ∀ s, bracketCount o cl c (charAt text i :: s) = bracketCount o cl c' s := by
        intro s
        rw [bracketCount_cons o cl hne c hc, hc']
      by_cases hz : c' = 0
      · subst hz
        simp only [beq_self_eq_true, if_true]
        refine ⟨0, rfl, by simp, ?_, ?_⟩
        · simp [hcons, bracketCount_nil]
        · intro j hj
          have : j = 0 := by omega
          subst this
          simp [bracketCount_nil]
          omega
      · have hz' : (c' == 0) = false := by simpa using hz
        simp only [hz', Bool.false_eq_true, if_false]
        have ih' := ih (i + 1) c' (by omega)
        cases hres : MatchOpenBracketLoop o cl text n (i + 1) c' with
        | none =>
          rw [hres] at ih'
          simp only at ih' ⊢
          intro j hj
          cases j with
          | zero =>
            simp [bracketCount_nil]
            omega
          | succ j =>
            rw [List.take_succ_cons, hcons]
            exact ih' j (by simpa using hj)
        | some r =>
          rw [hres] at ih'
          simp only at ih' ⊢
          obtain ⟨k, hr, hk, hzero, hmin⟩ := ih'
          refine ⟨k + 1, by omega, by simpa using hk, ?_, ?_⟩
          · rw [List.take_succ_cons, hcons]
            exact hzero
          · intro j hj
            cases j with
            | zero =>
              simp [bracketCount_nil]
              omega
            | succ j =>
              rw [List.take_succ_cons, hcons]
              exact hmin j (by omega)

theorem secondCharScan_single (ch : Char) (hch : ch ≠ NUL) (o : Operator) (h1 : o.sym 1 = NUL) :
    secondCharScan ch [o] = (none, [o]) := by
  have : (NUL == ch) = false := by
    simp only [beq_eq_false_iff_ne, ne_eq]
    exact fun h => hch h.symm
  simp [secondCharScan, h1, this]

/-- With a single candidate whose symbol has one character, `ParseOperator`
returns it. -/
theorem ParseOperator_single (env : ParserEnv) (m_len : Nat) (b c : Bool) (st : ParserState)
    (o : Operator) (hch : st.Peek m_len st.lineOffset ≠ ',')
    (hf : env.operators.filter (fun curOp =>
      (if b then curOp.IsBinary || curOp.IsClosingBracket
       else curOp.IsUnary || curOp.IsOpenBracket) &&
        st.Peek m_len st.lineOffset == curOp.sym 0) = [o])
    (h1 : o.sym 1 = NUL) :
    ParseOperator env m_len b c st =
      (some o, if c then { st with lineOffset := st.lineOffset + o.symbol.length } else st) := by
  have hch' : (st.Peek m_len st.lineOffset == ',') = false := by simpa using hch
  unfold ParseOperator
  simp only [hch', Bool.false_eq_true, if_false, hf]
  by_cases h2 : (st.Peek m_len (st.lineOffset + 1) != NUL && ispunct (st.Peek m_len (st.lineOffset + 1))) = true
  · have hne : st.Peek m_len (st.lineOffset + 1) ≠ NUL := by
      simp only [Bool.and_eq_true, bne_iff_ne, ne_eq] at h2
      exact h2.1
    simp only [h2, if_true, secondCharScan_single _ hne o h1]
    cases c <;> simp
  · simp only [h2, if_false, List.find?_cons, h1, beq_self_eq_true]
    cases c <;> simp

/-- Without a candidate, `ParseOperator` returns null and leaves the state. -/
theorem ParseOperator_none (env : ParserEnv) (m_len : Nat) (b c : Bool) (st : ParserState)
    (hch : st.Peek m_len st.lineOffset ≠ ',')
    (hf : env.operators.filter (fun curOp =>
      (if b then curOp.IsBinary || curOp.IsClosingBracket
       else curOp.IsUnary || curOp.IsOpenBracket) &&
        st.Peek m_len st.lineOffset == curOp.sym 0) = []) :
    ParseOperator env m_len b c st = (none, st) := by
  have hch' : (st.Peek m_len st.lineOffset == ',') = false := by simpa using hch
  unfold ParseOperator
  simp only [hch', Bool.false_eq_true, if_false, hf]
  by_cases h2 : (st.Peek m_len (st.lineOffset + 1) != NUL && ispunct (st.Peek m_len (st.lineOffset + 1))) = true
  · simp [h2, secondCharScan]
  · simp [h2]

theorem candidates_open (ob : Bool) :
    (s_operators ob).filter (fun curOp => (curOp.IsUnary || curOp.IsOpenBracket) && '(' == curOp.sym 0) = [opLeftParen] ∧
    (s_operators ob).filter (fun curOp => (curOp.IsUnary || curOp.IsOpenBracket) && '[' == curOp.sym 0) = [opLeftBracket ob] ∧
    (s_operators ob).filter (fun curOp => (curOp.IsBinary || curOp.IsClosingBracket) && ')' == curOp.sym 0) = [opRightParen] ∧
    (s_operators ob).filter (fun curOp => (curOp.IsBinary || curOp.IsClosingBracket) && ']' == curOp.sym 0) = [opRightBracket] ∧
    (s_operators ob).filter (fun curOp => (curOp.IsUnary || curOp.IsOpenBracket) && ')' == curOp.sym 0) = [] ∧
    (s_operators ob).filter (fun curOp => (curOp.IsUnary || curOp.IsOpenBracket) && ']' == curOp.sym 0) = [] := by
  cases ob <;> decide

theorem candidates_bracket_binary (ob : Bool) :
    (s_operators ob).filter (fun curOp =>
      (curOp.IsBinary || curOp.IsClosingBracket) && '[' == curOp.sym 0) = [opLeftBracket ob] := by
  cases ob <;> decide

/-- `PopOperator` changes only the output and the messages. -/
theorem PopOperator_frame (topOp : Operator) (operands : List Token_Type) (st : ParserState) :
    (PopOperator topOp operands st).2.2.paramText = st.paramText ∧
    (PopOperator topOp operands st).2.2.lineOffset = st.lineOffset ∧
    (PopOperator topOp operands st).2.2.s_parserDepth = st.s_parserDepth ∧
    (PopOperator topOp operands st).2.2.assertFailed = st.assertFailed := by
  unfold PopOperator
  simp only []
  repeat' split
  all_goals simp [ParserState.Show, ParserState.write]

/-- The pops before a push change only the output and the messages. -/
theorem popWhilePrecedes_frame (op : Operator) :
    ∀ (ops : List Operator) (operands : List Token_Type) (st : ParserState),
      (popWhilePrecedes op ops operands st).2.2.paramText = st.paramText ∧
      (popWhilePrecedes op ops operands st).2.2.lineOffset = st.lineOffset ∧
      (popWhilePrecedes op ops operands st).2.2.s_parserDepth = st.s_parserDepth ∧
      (popWhilePrecedes op ops operands st).2.2.assertFailed = st.assertFailed := by
  intro ops
  induction ops with
  | nil => intro operands st; simp [popWhilePrecedes]
  | cons topOp ops ih =>
    intro operands st
    unfold popWhilePrecedes
    split
    · have h := ih (PopOperator topOp operands st).2.1 (PopOperator topOp operands st).2.2
      have h2 := PopOperator_frame topOp operands st
      exact ⟨h.1.trans h2.1, h.2.1.trans h2.2.1, h.2.2.1.trans h2.2.2.1, h.2.2.2.trans h2.2.2.2⟩
    · simp

theorem MatchOpenBracket_none_of_unmatched (st : ParserState) (m_len : Nat) (op : Operator)
    (hne : op.sym 0 ≠ op.GetMatchedBracket)
    (h : ∀ j, j ≤ (scanWindow st.paramText st.lineOffset (m_len - st.lineOffset)).length →
      bracketCount (op.sym 0) op.GetMatchedBracket 1
        ((scanWindow st.paramText st.lineOffset (m_len - st.lineOffset)).take j) ≠ 0) :
    MatchOpenBracket st m_len op = none := by
  have hs := MatchOpenBracketLoop_spec (op.sym 0) op.GetMatchedBracket hne st.paramText
    (m_len - st.lineOffset) st.lineOffset 1 (le_refl 1)
  unfold MatchOpenBracket
  cases hres : MatchOpenBracketLoop (op.sym 0) op.GetMatchedBracket st.paramText
      (m_len - st.lineOffset) st.lineOffset 1 with
  | none => rfl
  | some r =>
    rw [hres] at hs
    obtain ⟨k, _, hk, hz, _⟩ := hs
    exact absurd hz (h (k + 1) hk)

theorem opLeftBracket_facts (ob : Bool) :
    (opLeftBracket ob).sym 0 = '[' ∧ (opLeftBracket ob).sym 1 = NUL ∧
      (opLeftBracket ob).GetMatchedBracket = ']' ∧ (opLeftBracket ob).symbol.length = 1 ∧
      (opLeftBracket ob).IsOpenBracket = true ∧ (opLeftBracket ob).numOperands = 2 := by
  cases ob <;> decide

theorem opLeftParen_facts :
    opLeftParen.sym 0 = '(' ∧ opLeftParen.sym 1 = NUL ∧
      opLeftParen.GetMatchedBracket = ')' ∧ opLeftParen.symbol.length = 1 ∧
      opLeftParen.IsOpenBracket = true ∧ opLeftParen.numOperands = 0 := by
  decide

theorem pushOpenBracket_paren (ops : List Operator) (operands : List Token_Type)
    (st : ParserState) : pushOpenBracket opLeftParen ops operands st = (ops, operands, st) :=
  rfl

theorem pushOpenBracket_bracket (ob : Bool) (ops : List Operator)
    (operands : List Token_Type) (st : ParserState) :
    pushOpenBracket (opLeftBracket ob) ops operands st =
      (opLeftBracket ob :: (popWhilePrecedes (opLeftBracket ob) ops operands st).1,
        (popWhilePrecedes (opLeftBracket ob) ops operands st).2) := by
  cases ob <;> rfl

theorem pushOpenBracket_frame (op : Operator) (ops : List Operator)
    (operands : List Token_Type) (st : ParserState) :
    (pushOpenBracket op ops operands st).2.2.paramText = st.paramText ∧
    (pushOpenBracket op ops operands st).2.2.lineOffset = st.lineOffset ∧
    (pushOpenBracket op ops operands st).2.2.s_parserDepth = st.s_parserDepth ∧
    (pushOpenBracket op ops operands st).2.2.assertFailed = st.assertFailed := by
  unfold pushOpenBracket
  split
  · exact popWhilePrecedes_frame op ops operands st
  · exact ⟨rfl, rfl, rfl, rfl⟩

theorem Peek_eq_textAt (st : ParserState) (m_len i : Nat) (h : i < m_len) :
    st.Peek m_len i = st.textAt i := by
  simp [ParserState.Peek, h]

/-- One iteration of the main loop on a blank. -/
theorem ParseSubExpressionLoop_space (env : ParserEnv) (fuel m_len exprEnd : Nat)
    (ops : List Operator) (operands : List Token_Type) (bLast : Bool) (st : ParserState)
    (h1 : st.lineOffset < exprEnd) (h2 : st.lineOffset < m_len)
    (hsp : isspace (st.textAt st.lineOffset) = true) :
    ParseSubExpressionLoop env (fuel + 1) m_len exprEnd ops operands bLast st =
      ParseSubExpressionLoop env fuel m_len exprEnd ops operands bLast
        { st with lineOffset := st.lineOffset + 1 } := by
  have hne : st.textAt st.lineOffset ≠ NUL := by
    intro h
    rw [h] at hsp
    revert hsp
    decide
  rw [ParseSubExpressionLoop]
  simp [Peek_eq_textAt _ _ _ h2, h1, hne, hsp]

/-- One iteration of the main loop on an opening bracket without a match. -/
theorem ParseSubExpressionLoop_unmatched (env : ParserEnv) (fuel m_len exprEnd : Nat)
    (ops : List Operator) (operands : List Token_Type) (bLast : Bool) (st : ParserState)
    (b : Char) (hb : b = '(' ∧ bLast = false ∨ b = '[')
    (h1 : st.lineOffset < exprEnd) (h2 : st.lineOffset < m_len)
    (hbr : st.textAt st.lineOffset = b)
    (hun : ∀ j,
      j ≤ (scanWindow st.paramText (st.lineOffset + 1) (m_len - (st.lineOffset + 1))).length →
      bracketCount b (closingOf b) 1
        ((scanWindow st.paramText (st.lineOffset + 1) (m_len - (st.lineOffset + 1))).take j)
        ≠ 0) :
    ∃ st', ParseSubExpressionLoop env (fuel + 1) m_len exprEnd ops operands bLast st =
        some (.Invalid, st') ∧
      st'.messages.getLast? = some .kError_MismatchedBrackets := by
  have hpeek : st.Peek m_len st.lineOffset = b := by rw [Peek_eq_textAt _ _ _ h2, hbr]
  have hc := candidates_open env.oblivion
  have hcb := candidates_bracket_binary env.oblivion
  have hnul : (b != NUL) = true := by
    rcases hb with ⟨rfl, _⟩ | rfl <;> decide
  have hnsp : isspace b = false := by
    rcases hb with ⟨rfl, _⟩ | rfl <;> decide
  rw [ParseSubExpressionLoop]
  rcases hb with ⟨rfl, rfl⟩ | rfl
  · have hop := ParseOperator_single env m_len false true st opLeftParen
      (by rw [hpeek]; decide) (by rw [hpeek]; simpa [ParserEnv.operators] using hc.1)
      opLeftParen_facts.2.1
    have hm : MatchOpenBracket { st with lineOffset := st.lineOffset + 1 } m_len opLeftParen
        = none := by
      apply MatchOpenBracket_none_of_unmatched
      · rw [opLeftParen_facts.1, opLeftParen_facts.2.2.1]; decide
      · rw [opLeftParen_facts.1, opLeftParen_facts.2.2.1]; exact hun
    rw [opLeftParen_facts.2.2.2.1] at hop
    refine ⟨({ st with lineOffset := st.lineOffset + 1 }).Show .kError_MismatchedBrackets, ?_, ?_⟩
    · simp only [hpeek, hop, h1, hnul, hnsp, opLeftParen_facts.2.2.2.2.1,
        pushOpenBracket_paren]
      simp [hm]
    · simp [ParserState.Show]
  · have hf := opLeftBracket_facts env.oblivion
    have hop : ParseOperator env m_len bLast true st =
        (some (opLeftBracket env.oblivion),
          { st with lineOffset := st.lineOffset + 1 }) := by
      rw [← hf.2.2.2.1]
      cases bLast
      · exact ParseOperator_single env m_len false true st (opLeftBracket env.oblivion)
          (by rw [hpeek]; decide) (by rw [hpeek]; simpa [ParserEnv.operators] using hc.2.1)
          hf.2.1
      · exact ParseOperator_single env m_len true true st (opLeftBracket env.oblivion)
          (by rw [hpeek]; decide) (by rw [hpeek]; simpa [ParserEnv.operators] using hcb)
          hf.2.1
    have ht := popWhilePrecedes_frame (opLeftBracket env.oblivion) ops operands
      { st with lineOffset := st.lineOffset + 1 }
    have hm : MatchOpenBracket
        (popWhilePrecedes (opLeftBracket env.oblivion) ops operands
          { st with lineOffset := st.lineOffset + 1 }).2.2 m_len (opLeftBracket env.oblivion)
        = none := by
      apply MatchOpenBracket_none_of_unmatched
      · rw [hf.1, hf.2.2.1]; decide
      · rw [ht.1, ht.2.1, hf.1, hf.2.2.1]
        exact hun
    refine ⟨((popWhilePrecedes (opLeftBracket env.oblivion) ops operands
      { st with lineOffset := st.lineOffset + 1 }).2.2).Show .kError_MismatchedBrackets, ?_, ?_⟩
    · simp only [hpeek, hop, h1, hnul, hnsp, hf.2.2.2.2.1, pushOpenBracket_bracket]
      simp [hm]
    · simp [ParserState.Show]

theorem open_bracket_chars (ob : Bool) :
    (s_operators ob).all (fun op =>
      !op.IsOpenBracket || (op.sym 0 != op.GetMatchedBracket)) = true := by
  cases ob <;> decide

/-- C9: `MatchOpenBracket` is a counting scan that changes no state.  Over the
text it may visit (from the current offset to `m_len` or the first NUL), with
the count starting at 1, going up at every opening bracket character and down
at every closing bracket character of the same kind, it returns the least index
at which the count is 0, and `-1` (`none`) when the count is never 0.  String
literals play no part: on `("a)" + 1)` the index returned for the first
bracket is 3, the `)` between the two quotes at 1 and 4. -/
theorem MatchOpenBracket_counts (ob : Bool) (op : Operator) (hop : op ∈ s_operators ob)
    (hopen : op.IsOpenBracket = true) (st : ParserState) (m_len : Nat) :
    (match MatchOpenBracket st m_len op with
      | some r =>
        ∃ k, r = st.lineOffset + k ∧
          k < (scanWindow st.paramText st.lineOffset (m_len - st.lineOffset)).length ∧
          bracketCount (op.sym 0) op.GetMatchedBracket 1
            ((scanWindow st.paramText st.lineOffset (m_len - st.lineOffset)).take (k + 1)) = 0 ∧
          ∀ j, j ≤ k → bracketCount (op.sym 0) op.GetMatchedBracket 1
            ((scanWindow st.paramText st.lineOffset (m_len - st.lineOffset)).take j) ≠ 0
      | none =>
        ∀ j, j ≤ (scanWindow st.paramText st.lineOffset (m_len - st.lineOffset)).length →
          bracketCount (op.sym 0) op.GetMatchedBracket 1
            ((scanWindow st.paramText st.lineOffset (m_len - st.lineOffset)).take j) ≠ 0) ∧
    (MatchOpenBracket quotedBracketState 10 opLeftParen = some 3 ∧
      quotedBracketState.textAt 1 = '"' ∧ quotedBracketState.textAt 3 = ')' ∧
      quotedBracketState.textAt 4 = '"') := by
  constructor
  · have h := open_bracket_chars ob
    rw [List.all_eq_true] at h
    have hne := h op hop
    rw [hopen] at hne
    simp only [Bool.not_true, Bool.false_or, bne_iff_ne, ne_eq] at hne
    exact MatchOpenBracketLoop_spec (op.sym 0) op.GetMatchedBracket hne st.paramText
      (m_len - st.lineOffset) st.lineOffset 1 (le_refl 1)
  · decide

/-- Witness for C9: the operator `(` on the text `("a)" + 1)`. -/
theorem MatchOpenBracket_counts_witness :
    opLeftParen ∈ s_operators false ∧ opLeftParen.IsOpenBracket = true ∧
    MatchOpenBracket quotedBracketState 10 opLeftParen = some 3 :=
  ⟨by decide, by decide,
    (MatchOpenBracket_counts false opLeftParen (by decide) (by decide) quotedBracketState 10).2.1⟩

/-- C7 (as stated, refuted): in the text `1 (` the opening parenthesis has no
closing bracket, and `ParseSubExpression` returns `Number` without any
message. -/
theorem unmatched_paren_after_operand_accepted :
    (ParseSubExpression plainEnv 5 3 3 (startState "1 (")).map (fun r => (r.1, r.2.messages)) =
      some (.Number, []) := by
  decide

/-- C7 (amended): an opening bracket that the main loop of `ParseSubExpression`
reads as an operator -- a `(` where an operand may start, a `[` anywhere -- and
whose count never returns to 0 in the text that follows makes the call return
`kTokenType_Invalid`, the last message being `MismatchedBrackets`.  Blanks
before the bracket are skipped. -/
theorem unmatched_open_bracket_rejected (env : ParserEnv) (m_len exprEnd : Nat)
    (ops : List Operator) (operands : List Token_Type) (bLast : Bool) (b : Char)
    (hb : b = '(' ∧ bLast = false ∨ b = '[') :
    ∀ (k : Nat) (st : ParserState) (fuel : Nat),
      (∀ j, j < k → isspace (st.textAt (st.lineOffset + j)) = true) →
      st.textAt (st.lineOffset + k) = b →
      st.lineOffset + k < exprEnd → st.lineOffset + k < m_len →
      (∀ j, j ≤ (scanWindow st.paramText (st.lineOffset + k + 1)
            (m_len - (st.lineOffset + k + 1))).length →
        bracketCount b (closingOf b) 1
          ((scanWindow st.paramText (st.lineOffset + k + 1)
            (m_len - (st.lineOffset + k + 1))).take j) ≠ 0) →
      k + 1 ≤ fuel →
      ∃ st', ParseSubExpressionLoop env fuel m_len exprEnd ops operands bLast st =
          some (.Invalid, st') ∧
        st'.messages.getLast? = some .kError_MismatchedBrackets := by
  intro k
  induction k with
  | zero =>
    intro st fuel _ hbr h1 h2 hun hfuel
    obtain ⟨f, rfl⟩ : ∃ f, fuel = f + 1 := ⟨fuel - 1, by omega⟩
    exact ParseSubExpressionLoop_unmatched env f m_len exprEnd ops operands bLast st b hb
      (by simpa using h1) (by simpa using h2) (by simpa using hbr) (by simpa using hun)
  | succ k ih =>
    intro st fuel hws hbr h1 h2 hun hfuel
    obtain ⟨f, rfl⟩ : ∃ f, fuel = f + 1 := ⟨fuel - 1, by omega⟩
    rw [ParseSubExpressionLoop_space env f m_len exprEnd ops operands bLast st (by omega)
      (by omega) (by simpa using hws 0 (by omega))]
    apply ih { st with lineOffset := st.lineOffset + 1 } f
    · intro j hj
      have := hws (j + 1) (by omega)
      simpa [ParserState.textAt, Nat.add_assoc, Nat.add_comm 1 j] using this
    · simpa [ParserState.textAt, Nat.add_assoc, Nat.add_comm 1 k] using hbr
    · show st.lineOffset + 1 + k < exprEnd
      omega
    · show st.lineOffset + 1 + k < m_len
      omega
    · have e : st.lineOffset + 1 + k + 1 = st.lineOffset + (k + 1) + 1 := by omega
      show ∀ j, j ≤ (scanWindow st.paramText (st.lineOffset + 1 + k + 1)
            (m_len - (st.lineOffset + 1 + k + 1))).length →
        bracketCount b (closingOf b) 1
          ((scanWindow st.paramText (st.lineOffset + 1 + k + 1)
            (m_len - (st.lineOffset + 1 + k + 1))).take j) ≠ 0
      rw [e]
      exact hun
    · omega

/-- Witness for C7 (amended): the text `[1, 2`. -/
theorem unmatched_open_bracket_rejected_witness :
    ∃ st', ParseSubExpression plainEnv 2 5 5 (startState "[1, 2") = some (.Invalid, st') ∧
      st'.messages.getLast? = some .kError_MismatchedBrackets :=
  unmatched_open_bracket_rejected plainEnv 5 5 [] [] false '[' (Or.inr rfl) 0
    (startState "[1, 2") 1 (by decide) (by decide) (by decide) (by decide) (by decide)
    (by decide)

theorem opRight_facts :
    opRightParen.sym 1 = NUL ∧ opRightParen.symbol.length = 1 ∧
      opRightParen.IsOpenBracket = false ∧ opRightParen.IsClosingBracket = true ∧
    opRightBracket.sym 1 = NUL ∧ opRightBracket.symbol.length = 1 ∧
      opRightBracket.IsOpenBracket = false ∧ opRightBracket.IsClosingBracket = true := by
  decide

/-- C8 (as stated, refuted): the text `)` holds a closing bracket without an
opening one, and `ParseSubExpression` returns `kTokenType_Empty` without any
message. -/
theorem lone_closing_bracket_is_empty :
    (ParseSubExpression plainEnv 2 1 1 (startState ")")).map (fun r => (r.1, r.2.messages)) =
      some (.Empty, []) := by
  decide

/-- C8 (amended): a closing `)` or `]` met by the main loop of
`ParseSubExpression`.  Where a binary operator is expected (directly after an
operand, as the last bracket of `(1 + 2))`) it is consumed and the call
returns `kTokenType_Invalid` with `MismatchedBrackets`.  Where an operand is
expected it is not consumed and ends the expression like an argument
delimiter: the result is that of the final flush, which is `kTokenType_Empty`
without a message when nothing was parsed, and `kTokenType_Invalid` with
`TooManyOperators` when the operator on top of the stack lacks an operand. -/
theorem closing_bracket_outcomes (env : ParserEnv) (fuel m_len exprEnd : Nat)
    (ops : List Operator) (operands : List Token_Type) (st : ParserState) (b : Char)
    (hb : b = ')' ∨ b = ']') (h1 : st.lineOffset < exprEnd) (h2 : st.lineOffset < m_len)
    (hbr : st.textAt st.lineOffset = b) :
    ParseSubExpressionLoop env (fuel + 1) m_len exprEnd ops operands true st =
      some (.Invalid,
        ({ st with lineOffset := st.lineOffset + 1 }).Show .kError_MismatchedBrackets) ∧
    ParseSubExpressionLoop env (fuel + 1) m_len exprEnd ops operands false st =
      some (finishSubExpression ops operands st) ∧
    finishSubExpression [] [] st = (.Empty, st) ∧
    (∀ topOp rest, operands.length < topOp.numOperands →
      finishSubExpression (topOp :: rest) operands st =
        (.Invalid, st.Show .kError_TooManyOperators)) := by
  have hpeek : st.Peek m_len st.lineOffset = b := by rw [Peek_eq_textAt _ _ _ h2, hbr]
  have hc := candidates_open env.oblivion
  have hnul : (b != NUL) = true := by rcases hb with rfl | rfl <;> decide
  have hnsp : isspace b = false := by rcases hb with rfl | rfl <;> decide
  have hcomma : b ≠ ',' := by rcases hb with rfl | rfl <;> decide
  have hf := opRight_facts
  refine ⟨?_, ?_, rfl, ?_⟩
  · rw [ParseSubExpressionLoop]
    rcases hb with rfl | rfl
    · have hop := ParseOperator_single env m_len true true st opRightParen
        (by rw [hpeek]; exact hcomma)
        (by rw [hpeek]; simpa [ParserEnv.operators] using hc.2.2.1) hf.1
      rw [hf.2.1] at hop
      simp only [hpeek, hop, h1, hnul, hnsp, hf.2.2.1, hf.2.2.2.1]
      simp
    · have hop := ParseOperator_single env m_len true true st opRightBracket
        (by rw [hpeek]; exact hcomma)
        (by rw [hpeek]; simpa [ParserEnv.operators] using hc.2.2.2.1) hf.2.2.2.2.1
      rw [hf.2.2.2.2.2.1] at hop
      simp only [hpeek, hop, h1, hnul, hnsp, hf.2.2.2.2.2.2.1, hf.2.2.2.2.2.2.2]
      simp
  · rw [ParseSubExpressionLoop]
    rcases hb with rfl | rfl
    · have hop1 := ParseOperator_none env m_len false true st
        (by rw [hpeek]; exact hcomma)
        (by rw [hpeek]; simpa [ParserEnv.operators] using hc.2.2.2.2.1)
      have hop2 := ParseOperator_single env m_len true false st opRightParen
        (by rw [hpeek]; exact hcomma)
        (by rw [hpeek]; simpa [ParserEnv.operators] using hc.2.2.1) hf.1
      simp only [hpeek, hop1, h1, hnul, hnsp]
      simp [hop2]
    · have hop1 := ParseOperator_none env m_len false true st
        (by rw [hpeek]; exact hcomma)
        (by rw [hpeek]; simpa [ParserEnv.operators] using hc.2.2.2.2.2)
      have hop2 := ParseOperator_single env m_len true false st opRightBracket
        (by rw [hpeek]; exact hcomma)
        (by rw [hpeek]; simpa [ParserEnv.operators] using hc.2.2.2.1) hf.2.2.2.2.1
      simp only [hpeek, hop1, h1, hnul, hnsp]
      simp [hop2]
  · intro topOp rest hlt
    simp [finishSubExpression, PopOperator, hlt]

/-- Witness for C8 (amended): the last bracket of `(1 + 2))`. -/
theorem closing_bracket_outcomes_witness :
    ParseSubExpressionLoop plainEnv 1 8 8 [] [.Number] true secondClosingState =
      some (.Invalid,
        ({ secondClosingState with lineOffset := 8 }).Show .kError_MismatchedBrackets) :=
  (closing_bracket_outcomes plainEnv 0 8 8 [] [.Number] secondClosingState ')' (Or.inl rfl)
    (by decide) (by decide) (by decide)).1

/-- C3 (the code at the failing input): compiling `1 + "a" * "b" - 2` reports
`InvalidOperands` for `*` inside the main loop, where the value `PopOperator`
returns is not looked at, and `ParseSubExpression` returns `Number`, not
`kTokenType_Invalid`. -/
theorem invalid_operands_in_loop_not_propagated :
    (ParseSubExpression plainEnv 20 17 17 (startState "1 + \"a\" * \"b\" - 2")).map
        (fun r => (r.1, r.2.messages)) =
      some (.Number, [.kError_InvalidOperands "*", .kError_TooManyOperators]) := by
  decide

theorem DepthKept.of_eq {st st' : ParserState} (h1 : st'.s_parserDepth = st.s_parserDepth)
    (h2 : st'.assertFailed = st.assertFailed) : DepthKept st st' :=
  ⟨h1, fun _ => h2⟩

theorem DepthKept.refl (st : ParserState) : DepthKept st st := ⟨rfl, fun _ => rfl⟩

theorem DepthKept.trans {a b c : ParserState} (h1 : DepthKept a b) (h2 : DepthKept b c) :
    DepthKept a c :=
  ⟨h2.1.trans h1.1, fun h => (h2.2 (by rw [h1.1]; exact h)).trans (h1.2 h)⟩

theorem ParseOperator_depth (env : ParserEnv) (m_len : Nat) (b c : Bool) (st : ParserState) :
    DepthKept st (ParseOperator env m_len b c st).2 := by
  unfold ParseOperator
  simp only []
  repeat' split
  all_goals exact DepthKept.of_eq rfl rfl

theorem ParseOperandRef_depth (env : ParserEnv) (hasDot : Bool) (rv : RefVariable)
    (refIdx : Nat) (st : ParserState) (r : Option OperandToken × ParserState)
    (h : ParseOperandRef env hasDot rv refIdx st = some r) : DepthKept st r.2 := by
  unfold ParseOperandRef at h
  repeat' split at h
  all_goals first
    | (simp only [Option.some.injEq] at h; subst h; exact DepthKept.of_eq rfl rfl)
    | exact absurd h (by simp)

theorem ParseOperandName_depth (env : ParserEnv) (curOp : Option Operator) (b hasDot : Bool)
    (token : List Char) (refVar : Option RefVariable) (refIdx : Nat) (st : ParserState) :
    DepthKept st (ParseOperandName env curOp b hasDot token refVar refIdx st).2 := by
  unfold ParseOperandName
  repeat' split
  all_goals exact DepthKept.of_eq rfl rfl

theorem ParseOperandObject_depth (env : ParserEnv) (curOp : Option Operator) (b hasDot : Bool)
    (refToken token : List Char) (st : ParserState) :
    DepthKept st (ParseOperandObject env curOp b hasDot refToken token st).2 := by
  unfold ParseOperandObject
  split
  · exact DepthKept.of_eq rfl rfl
  · split
    · split
      · exact DepthKept.of_eq rfl rfl
      · exact ParseOperandName_depth _ _ _ _ _ _ _ _
    · split
      · rename_i h
        exact ParseOperandRef_depth _ _ _ _ _ _ h
      · exact ParseOperandName_depth _ _ _ _ _ _ _ _

theorem ParseOperandToken_depth (env : ParserEnv) (curOp : Option Operator) (b : Bool)
    (token : List Char) (st : ParserState) :
    DepthKept st (ParseOperandToken env curOp b token st).2 := by
  unfold ParseOperandToken
  split
  · split <;> exact DepthKept.of_eq rfl rfl
  · split
    · exact DepthKept.of_eq rfl rfl
    · split <;> exact ParseOperandObject_depth _ _ _ _ _ _ _

theorem ParseOperand_depth (env : ParserEnv) (m_len : Nat) (curOp : Option Operator)
    (st : ParserState) : DepthKept st (ParseOperand env m_len curOp st).2 := by
  unfold ParseOperand
  simp only []
  split
  · exact DepthKept.of_eq rfl rfl
  · split
    · split <;> exact DepthKept.of_eq rfl rfl
    · refine DepthKept.trans ?_ (ParseOperandToken_depth _ _ _ _ _)
      unfold GetCurToken
      split <;> exact DepthKept.of_eq rfl rfl

theorem finishSubExpression_depth :
    ∀ (ops : List Operator) (operands : List Token_Type) (st : ParserState),
      DepthKept st (finishSubExpression ops operands st).2 := by
  intro ops
  induction ops with
  | nil =>
    intro operands st
    unfold finishSubExpression
    split <;> exact DepthKept.of_eq rfl rfl
  | cons topOp ops ih =>
    intro operands st
    have hp := PopOperator_frame topOp operands st
    have hp' : DepthKept st (PopOperator topOp operands st).2.2 :=
      DepthKept.of_eq hp.2.2.1 hp.2.2.2
    unfold finishSubExpression
    split
    · exact hp'
    · exact hp'.trans (ih _ _)

theorem popWhilePrecedes_depth (op : Operator) (ops : List Operator)
    (operands : List Token_Type) (st : ParserState) :
    DepthKept st (popWhilePrecedes op ops operands st).2.2 :=
  DepthKept.of_eq (popWhilePrecedes_frame op ops operands st).2.2.1
    (popWhilePrecedes_frame op ops operands st).2.2.2

theorem finishParseArgs_depth (m_len : Nat) (params : List ParamInfo) (p n : Nat)
    (st : ParserState) : DepthKept st (finishParseArgs m_len params p n st).2 := by
  unfold finishParseArgs
  repeat' split
  all_goals exact DepthKept.of_eq rfl rfl

theorem ParseArgsLoop_depth (env : ParserEnv)
    (sub : Nat → ParserState → Option (Token_Type × ParserState))
    (hsub : ∀ len st r, sub len st = some r → DepthKept st r.2)
    (argsEndPos : Nat) (flag : Bool) :
    ∀ (params : List ParamInfo) (n dataStart : Nat) (st : ParserState) r,
      ParseArgsLoop env sub argsEndPos flag params n dataStart st = some r →
        DepthKept st r.2 := by
  intro params
  induction params with
  | nil =>
    intro n dataStart st r h
    simp only [ParseArgsLoop, Option.some.injEq] at h
    subst h
    exact DepthKept.refl _
  | cons param rest ih =>
    intro n dataStart st r h
    rw [ParseArgsLoop] at h
    split at h
    · split at h
      · exact absurd h (by simp)
      · rename_i argType st1 hs
        have h1 : DepthKept st st1 :=
          (@DepthKept.of_eq st (st.write (.len16 0)) rfl rfl).trans (hsub _ _ _ hs)
        split at h
        · simp only [Option.some.injEq] at h
          subst h
          exact h1
        · split at h
          · simp only [Option.some.injEq] at h
            subst h
            exact h1
          · split at h
            · simp only [Option.some.injEq] at h
              subst h
              exact h1.trans (DepthKept.of_eq rfl rfl)
            · exact (h1.trans (@DepthKept.of_eq st1 (env.patchLength st1 dataStart) rfl rfl)).trans
                (ih _ _ _ _ h)
    · simp only [Option.some.injEq] at h
      subst h
      exact DepthKept.refl _

theorem ParseArgsWith_depth (env : ParserEnv)
    (sub : Nat → ParserState → Option (Token_Type × ParserState))
    (hsub : ∀ len st r, sub len st = some r → DepthKept st r.2)
    (m_len : Nat) (params : List ParamInfo) (flag : Bool) (st : ParserState) r
    (h : ParseArgsWith env sub m_len params flag st = some r) : DepthKept st r.2 := by
  unfold ParseArgsWith at h
  simp only [] at h
  split at h
  · exact absurd h (by simp)
  · rename_i st1 hs
    simp only [Option.some.injEq] at h
    subst h
    exact (DepthKept.of_eq rfl rfl).trans (ParseArgsLoop_depth env sub hsub _ _ _ _ _ _ _ hs)
  · rename_i n st1 hs
    simp only [Option.some.injEq] at h
    subst h
    exact ((DepthKept.of_eq rfl rfl).trans
      (ParseArgsLoop_depth env sub hsub _ _ _ _ _ _ _ hs)).trans (finishParseArgs_depth _ _ _ _ _)

theorem ParseFunctionCallWith_depth (env : ParserEnv)
    (sub : Nat → Nat → ParserState → Option (Token_Type × ParserState))
    (hsub : ∀ m_len len st r, sub m_len len st = some r → DepthKept st r.2)
    (cmdInfo : CommandInfo) (st : ParserState) r
    (h : ParseFunctionCallWith env sub cmdInfo st = some r) : DepthKept st r.2 := by
  unfold ParseFunctionCallWith at h
  simp only [] at h
  split at h
  · exact absurd h (by simp)
  · rename_i bParsed st1 hs
    simp only [Option.some.injEq] at h
    subst h
    have h1 := ParseArgsWith_depth env _ (hsub _) _ _ _ _ _ hs
    constructor
    · simp only [ParserEnv.patchLength, ExpressionParser_leave]
      rw [h1.1]
      simp [ExpressionParser_enter, ParserState.write]
    · intro h0
      have h2 := h1.2 (by simp [ExpressionParser_enter, ParserState.write]; omega)
      simp only [ParserEnv.patchLength, ExpressionParser_leave]
      rw [h2, h1.1]
      simp only [ExpressionParser_enter, ParserState.write]
      have e1 : decide (st.s_parserDepth < 0) = false := by simp; omega
      have e2 : decide (st.s_parserDepth + 1 ≤ 0) = false := by simp; omega
      simp [e1, e2]

theorem ParseSubExpression_depth_aux (env : ParserEnv) : ∀ fuel,
    (∀ m_len exprLen st r, ParseSubExpression env fuel m_len exprLen st = some r →
      DepthKept st r.2) ∧
    (∀ m_len exprEnd ops operands b st r,
      ParseSubExpressionLoop env fuel m_len exprEnd ops operands b st = some r →
        DepthKept st r.2) := by
  intro fuel
  induction fuel with
  | zero =>
    constructor
    · intro m_len exprLen st r h
      simp [ParseSubExpression] at h
    · intro m_len exprEnd ops operands b st r h
      simp [ParseSubExpressionLoop] at h
  | succ fuel ih =>
    constructor
    · intro m_len exprLen st r h
      rw [ParseSubExpression] at h
      exact ih.2 _ _ _ _ _ _ _ h
    · intro m_len exprEnd ops operands b st r h
      rw [ParseSubExpressionLoop] at h
      simp only [] at h
      split at h
      · simp only [Option.some.injEq] at h
        subst h
        exact finishSubExpression_depth _ _ _
      · split at h
        · have h6 := ih.2 _ _ _ _ _ _ _ h
          exact (DepthKept.of_eq rfl rfl).trans h6
        · split at h
          · rename_i op st1 hop
            have h1 : DepthKept st st1 := by
              have := ParseOperator_depth env m_len b true st
              rw [hop] at this
              exact this
            split at h
            · have hp := pushOpenBracket_frame op ops operands st1
              have h2 : DepthKept st (pushOpenBracket op ops operands st1).2.2 :=
                h1.trans (DepthKept.of_eq hp.2.2.1 hp.2.2.2)
              generalize pushOpenBracket op ops operands st1 = pushed at h h2
              split at h
              · simp only [Option.some.injEq] at h
                subst h
                exact h2.trans (DepthKept.of_eq rfl rfl)
              · split at h
                · exact absurd h (by simp)
                · rename_i operandType st2 hsub
                  have h3 : DepthKept st st2 :=
                    (h2.trans (DepthKept.of_eq rfl rfl)).trans (ih.1 _ _ _ _ hsub)
                  split at h
                  · simp only [Option.some.injEq] at h
                    subst h
                    exact h3.trans (DepthKept.of_eq rfl rfl)
                  · have h6 := ih.2 _ _ _ _ _ _ _ h
                    exact (h3.trans (DepthKept.of_eq rfl rfl)).trans h6
            · split at h
              · simp only [Option.some.injEq] at h
                subst h
                exact h1.trans (DepthKept.of_eq rfl rfl)
              · have h6 := ih.2 _ _ _ _ _ _ _ h
                exact (h1.trans (popWhilePrecedes_depth _ _ _ _)).trans h6
          · rename_i st1 hop
            have h1 : DepthKept st st1 := by
              have := ParseOperator_depth env m_len b true st
              rw [hop] at this
              exact this
            have h2 : DepthKept st
                (if b = true then (true, st1)
                  else ((ParseOperator env m_len (!b) false st1).1.isSome,
                    (ParseOperator env m_len (!b) false st1).2)).2 := by
              split
              · exact h1
              · exact h1.trans (ParseOperator_depth _ _ _ _ _)
            generalize (if b = true then (true, st1)
                  else ((ParseOperator env m_len (!b) false st1).1.isSome,
                    (ParseOperator env m_len (!b) false st1).2)) = delim at h h2
            split at h
            · simp only [Option.some.injEq] at h
              subst h
              exact h2.trans (finishSubExpression_depth _ _ _)
            · split at h
              · rename_i st3 hpo
                simp only [Option.some.injEq] at h
                subst h
                have := ParseOperand_depth env m_len ops.head? delim.2
                rw [hpo] at this
                exact h2.trans this
              · rename_i operand st3 hpo
                have h3 : DepthKept st st3 := by
                  have := ParseOperand_depth env m_len ops.head? delim.2
                  rw [hpo] at this
                  exact h2.trans this
                split at h
                · rename_i cmdInfo hcmd
                  split at h
                  · exact absurd h (by simp)
                  · rename_i bParsed st4 hcall
                    have h4 := ParseFunctionCallWith_depth env _
                      (fun m_len len st r hr => ih.1 m_len len st r hr) _ _ _ hcall
                    have h5 : DepthKept st { st4 with s_parserDepth := st4.s_parserDepth - 1 } := by
                      refine h3.trans ?_
                      constructor
                      · show st4.s_parserDepth - 1 = st3.s_parserDepth
                        have := h4.1
                        simp only [ParserState.write] at this
                        omega
                      · intro h0
                        have := h4.2 (by simp only [ParserState.write]; omega)
                        simpa [ParserState.write] using this
                    split at h
                    · simp only [Option.some.injEq] at h
                      subst h
                      exact h5.trans (DepthKept.of_eq rfl rfl)
                    · have h6 := ih.2 _ _ _ _ _ _ _ h
                      exact h5.trans h6
                · split at h
                  · simp only [Option.some.injEq] at h
                    subst h
                    exact h3.trans (DepthKept.of_eq rfl rfl)
                  · have h6 := ih.2 _ _ _ _ _ _ _ h
                    exact (h3.trans (DepthKept.of_eq rfl rfl)).trans h6

/-- C10: the global depth counter across a call of `ParseSubExpression`.
Whenever the call returns -- with an expression type or, on any error path,
with `kTokenType_Invalid` -- and however deeply command arguments nest,
`s_parserDepth` has the value it had before the call.  Constructing an
`ExpressionParser` and destroying it, with or without a `ParseArgs` call in
between, also leaves the counter unchanged.  If the counter is not negative
before, it is not negative after, and none of the assertions on the counter
(`s_parserDepth >= 0` in the constructor, `s_parserDepth > 0` in the
destructor of every nested parser) fails. -/
theorem s_parserDepth_restored (env : ParserEnv) (fuel m_len exprLen : Nat)
    (st : ParserState) (r : Token_Type × ParserState)
    (h : ParseSubExpression env fuel m_len exprLen st = some r) :
    r.2.s_parserDepth = st.s_parserDepth ∧
    (0 ≤ st.s_parserDepth → 0 ≤ r.2.s_parserDepth ∧ r.2.assertFailed = st.assertFailed) ∧
    (ExpressionParser_leave (ExpressionParser_enter st)).s_parserDepth = st.s_parserDepth ∧
    (0 ≤ st.s_parserDepth →
      (ExpressionParser_leave (ExpressionParser_enter st)).assertFailed = st.assertFailed) ∧
    (∀ len params flag (a : Bool × ParserState),
      ParseArgs env fuel len params flag (ExpressionParser_enter st) = some a →
        (ExpressionParser_leave a.2).s_parserDepth = st.s_parserDepth ∧
        (0 ≤ st.s_parserDepth → (ExpressionParser_leave a.2).assertFailed = st.assertFailed)) := by
  have hk := (ParseSubExpression_depth_aux env fuel).1 m_len exprLen st r h
  refine ⟨hk.1, ?_, ?_, ?_, ?_⟩
  · intro h0
    exact ⟨by rw [hk.1]; exact h0, hk.2 h0⟩
  · simp [ExpressionParser_leave, ExpressionParser_enter]
  · intro h0
    have e1 : decide (st.s_parserDepth < 0) = false := by simp; omega
    have e2 : decide (st.s_parserDepth + 1 ≤ 0) = false := by simp; omega
    simp [ExpressionParser_leave, ExpressionParser_enter, e1, e2]
  · intro len params flag a ha
    have hsub : ∀ l s q, ParseSubExpression env fuel len l s = some q → DepthKept s q.2 :=
      fun l s q hq => (ParseSubExpression_depth_aux env fuel).1 len l s q hq
    have ha' := ParseArgsWith_depth env _ hsub len params flag _ a ha
    constructor
    · simp only [ExpressionParser_leave]
      rw [ha'.1]
      simp [ExpressionParser_enter]
    · intro h0
      have e1 : decide (st.s_parserDepth < 0) = false := by simp; omega
      have e2 : decide (st.s_parserDepth + 1 ≤ 0) = false := by simp; omega
      have := ha'.2 (by simp [ExpressionParser_enter]; omega)
      simp only [ExpressionParser_leave]
      rw [this, ha'.1]
      simp [ExpressionParser_enter, e1, e2]

/-- Witness for C10: the call compiles `foo "a"`, whose operand is a command
with an argument list compiled by a nested parser. -/
theorem s_parserDepth_restored_witness :
    ∃ r, ParseSubExpression commandEnv 10 7 7 (startState "foo \"a\"") = some r ∧
      r.1 = .Command ∧ r.2.s_parserDepth = 1 := by
  have hsome : (ParseSubExpression commandEnv 10 7 7 (startState "foo \"a\"")).isSome = true := by
    decide
  obtain ⟨r, hr⟩ := Option.isSome_iff_exists.mp hsome
  have hty : (ParseSubExpression commandEnv 10 7 7 (startState "foo \"a\"")).map Prod.fst =
      some .Command := by
    decide
  refine ⟨r, hr, ?_, (s_parserDepth_restored commandEnv 10 7 7 _ r hr).1⟩
  rw [hr] at hty
  simpa using hty

theorem char_ne_of_toNat {c d : Char} (h : c.toNat ≠ d.toNat) : c ≠ d := by
  intro e
  exact h (by rw [e])

theorem isdigit_facts (c : Char) (h : isdigit c = true) :
    ispunct c = false ∧ isspace c = false ∧ c ≠ NUL ∧ c ≠ ',' ∧ c ≠ '"' ∧ c ≠ '$' ∧
      c ≠ '_' := by
  simp only [isdigit, Bool.and_eq_true, decide_eq_true_eq] at h
  refine ⟨?_, ?_, ?_, ?_, ?_, ?_, ?_⟩
  · simp only [ispunct, Bool.or_eq_false_iff, Bool.and_eq_false_iff, decide_eq_false_iff_not]
    omega
  · simp only [isspace, Bool.or_eq_false_iff, Bool.and_eq_false_iff, decide_eq_false_iff_not,
      beq_eq_false_iff_ne]
    refine ⟨char_ne_of_toNat ?_, ?_⟩
    · have : (' ' : Char).toNat = 32 := by decide
      omega
    · omega
  all_goals
    apply char_ne_of_toNat
    first
      | (have : NUL.toNat = 0 := by decide
         omega)
      | (have : (',' : Char).toNat = 44 := by decide
         omega)
      | (have : ('"' : Char).toNat = 34 := by decide
         omega)
      | (have : ('$' : Char).toNat = 36 := by decide
         omega)
      | (have : ('_' : Char).toNat = 95 := by decide
         omega)

theorem isspace_facts (c : Char) (h : isspace c = true) :
    ispunct c = false ∧ c ≠ NUL ∧ c ≠ ',' := by
  have h' : c.toNat = 32 ∨ (9 ≤ c.toNat ∧ c.toNat ≤ 13) := by
    simp only [isspace, Bool.or_eq_true, beq_iff_eq, Bool.and_eq_true, decide_eq_true_eq] at h
    rcases h with h | h
    · left
      rw [h]
      decide
    · right
      exact h
  refine ⟨?_, ?_, ?_⟩
  · simp only [ispunct, Bool.or_eq_false_iff, Bool.and_eq_false_iff, decide_eq_false_iff_not]
    omega
  · apply char_ne_of_toNat
    have : NUL.toNat = 0 := by decide
    omega
  · apply char_ne_of_toNat
    have : (',' : Char).toNat = 44 := by decide
    omega

theorem ArithOp.char_facts (o : ArithOp) :
    ispunct o.char = true ∧ isspace o.char = false ∧ o.char ≠ NUL ∧ o.char ≠ ',' ∧
      o.char ≠ '_' ∧ o.char ≠ '.' ∧ isdigit o.char = false := by
  cases o <;> decide

theorem operators_start_punct (ob : Bool) :
    (s_operators ob).all (fun op => ispunct (op.sym 0)) = true := by
  cases ob <;> decide

/-- No operator starts with a character that is not punctuation. -/
theorem candidates_nonpunct (env : ParserEnv) (b : Bool) (c : Char) (h : ispunct c = false) :
    env.operators.filter (fun curOp =>
      (if b then curOp.IsBinary || curOp.IsClosingBracket
       else curOp.IsUnary || curOp.IsOpenBracket) && c == curOp.sym 0) = [] := by
  rw [List.filter_eq_nil_iff]
  intro op hop
  have hp := operators_start_punct env.oblivion
  rw [List.all_eq_true] at hp
  have := hp op hop
  have hne : (c == op.sym 0) = false := by
    rw [beq_eq_false_iff_ne]
    intro e
    rw [e, this] at h
    exact absurd h (by simp)
  simp [hne]

theorem candidates_arith (ob : Bool) (o : ArithOp) :
    ((s_operators ob).filter (fun curOp =>
      (curOp.IsBinary || curOp.IsClosingBracket) && o.char == curOp.sym 0)).find?
        (fun x => x.sym 1 == NUL) = some (o.operator ob) := by
  cases ob <;> cases o <;> decide

/-- When the next character is not punctuation `ParseOperator` returns the
first candidate with a one-character symbol. -/
theorem ParseOperator_plain (env : ParserEnv) (m_len : Nat) (b c : Bool) (st : ParserState)
    (o : Operator) (hch : st.Peek m_len st.lineOffset ≠ ',')
    (hnext : ispunct (st.Peek m_len (st.lineOffset + 1)) = false)
    (hf : (env.operators.filter (fun curOp =>
      (if b then curOp.IsBinary || curOp.IsClosingBracket
       else curOp.IsUnary || curOp.IsOpenBracket) &&
        st.Peek m_len st.lineOffset == curOp.sym 0)).find? (fun x => x.sym 1 == NUL) = some o) :
    ParseOperator env m_len b c st =
      (some o, if c then { st with lineOffset := st.lineOffset + o.symbol.length } else st) := by
  have hch' : (st.Peek m_len st.lineOffset == ',') = false := by simpa using hch
  unfold ParseOperator
  simp only [hch', Bool.false_eq_true, if_false, hnext, Bool.and_false, hf]
  cases c <;> simp

theorem ArithOp.operator_facts (ob : Bool) (o : ArithOp) :
    (o.operator ob).symbol.length = 1 ∧ (o.operator ob).IsOpenBracket = false ∧
      (o.operator ob).IsClosingBracket = false ∧ (o.operator ob).numOperands = 2 ∧
      (o.operator ob).ExpectsStringLiteral = false ∧
      (o.operator ob).precedence = o.precedence ∧
      (o.operator ob).GetResult .Number .Number = .Number ∧
      (o.operator ob).type = (o.operator true).type := by
  cases ob <;> cases o <;> decide

theorem charAt_append_right (pre rest : List Char) (i : Nat) :
    charAt (pre ++ rest) (pre.length + i) = charAt rest i := by
  simp [charAt, List.getD_eq_getElem?_getD, List.getElem?_append_right]

theorem Cursor.peek_at {st : ParserState} {m : Nat} {pre rest : List Char}
    (h : Cursor st m pre rest) (i : Nat) (hi : i < rest.length) :
    st.Peek m (st.lineOffset + i) = charAt rest i := by
  obtain ⟨h1, h2, h3⟩ := h
  have hlt : st.lineOffset + i < m := by
    rw [h3, h1, h2, List.length_append]
    omega
  simp only [ParserState.Peek, hlt, if_true, ParserState.textAt]
  rw [h1, h2, charAt_append_right]

theorem Cursor.peek_past {st : ParserState} {m : Nat} {pre rest : List Char}
    (h : Cursor st m pre rest) (i : Nat) (hi : rest.length ≤ i) :
    st.Peek m (st.lineOffset + i) = NUL := by
  obtain ⟨h1, h2, h3⟩ := h
  have hlt : ¬ st.lineOffset + i < m := by
    rw [h3, h1, h2, List.length_append]
    omega
  simp [ParserState.Peek, hlt]

theorem Cursor.peek {st : ParserState} {m : Nat} {pre rest : List Char} {c : Char}
    (h : Cursor st m pre (c :: rest)) : st.Peek m st.lineOffset = c := by
  have := h.peek_at 0 (by simp)
  simpa [charAt] using this

theorem Cursor.textAt {st : ParserState} {m : Nat} {pre rest : List Char} {c : Char}
    (h : Cursor st m pre (c :: rest)) : st.textAt st.lineOffset = c := by
  obtain ⟨h1, h2, _⟩ := h
  simp only [ParserState.textAt]
  rw [h1, h2]
  have := charAt_append_right pre (c :: rest) 0
  simpa [charAt] using this

theorem Cursor.lt {st : ParserState} {m : Nat} {pre rest : List Char} {c : Char}
    (h : Cursor st m pre (c :: rest)) : st.lineOffset < m := by
  obtain ⟨h1, h2, h3⟩ := h
  rw [h3, h1, h2, List.length_append, List.length_cons]
  omega

theorem Cursor.peek_next {st : ParserState} {m : Nat} {pre rest : List Char} {c : Char}
    (h : Cursor st m pre (c :: rest)) : st.Peek m (st.lineOffset + 1) = rest.headD NUL := by
  cases rest with
  | nil => simpa using h.peek_past 1 (by simp)
  | cons d rest =>
    have := h.peek_at 1 (by simp)
    simpa [charAt] using this

theorem Cursor.advance {st : ParserState} {m : Nat} {pre rest : List Char} (a : List Char)
    (h : Cursor st m pre (a ++ rest)) (st' : ParserState)
    (ht : st'.paramText = st.paramText) (ho : st'.lineOffset = st.lineOffset + a.length) :
    Cursor st' m (pre ++ a) rest := by
  obtain ⟨h1, h2, h3⟩ := h
  refine ⟨?_, ?_, ?_⟩
  · rw [ht, h1, List.append_assoc]
  · rw [ho, h2, List.length_append]
  · rw [ht, h3]

theorem Cursor.same {st : ParserState} {m : Nat} {pre rest : List Char}
    (h : Cursor st m pre rest) (st' : ParserState)
    (ht : st'.paramText = st.paramText) (ho : st'.lineOffset = st.lineOffset) :
    Cursor st' m pre rest := by
  obtain ⟨h1, h2, h3⟩ := h
  exact ⟨by rw [ht, h1], by rw [ho, h2], by rw [ht, h3]⟩

/-- The main loop skips a run of blanks, one iteration for each. -/
theorem ParseSubExpressionLoop_blanks (env : ParserEnv) (m : Nat) (ops : List Operator)
    (operands : List Token_Type) (b : Bool) :
    ∀ (ws : List Char) (fuel : Nat) (st : ParserState) (pre rest : List Char),
      Cursor st m pre (ws ++ rest) → (∀ c ∈ ws, isspace c = true) →
      ParseSubExpressionLoop env (fuel + ws.length) m m ops operands b st =
        ParseSubExpressionLoop env fuel m m ops operands b
          { st with lineOffset := st.lineOffset + ws.length } := by
  intro ws
  induction ws with
  | nil => intro fuel st pre rest _ _; rfl
  | cons c ws ih =>
    intro fuel st pre rest hc hws
    have hc' : Cursor st m pre (c :: (ws ++ rest)) := hc
    have e : fuel + (c :: ws).length = (fuel + ws.length) + 1 := by
      simp only [List.length_cons]
      omega
    rw [e, ParseSubExpressionLoop_space env _ m m ops operands b st hc'.lt hc'.lt
      (by rw [hc'.textAt]; exact hws c (List.mem_cons_self _ _))]
    have hadv : Cursor { st with lineOffset := st.lineOffset + 1 } m (pre ++ [c]) (ws ++ rest) :=
      Cursor.advance [c] hc' _ rfl rfl
    rw [ih fuel _ (pre ++ [c]) rest hadv (fun d hd => hws d (List.mem_cons_of_mem _ hd))]
    simp only [List.length_cons]
    congr 2
    omega

theorem Peek_of_text (st : ParserState) (m : Nat) (pre rest : List Char) (i : Nat)
    (h1 : st.paramText = pre ++ rest) (h3 : m = st.paramText.length) :
    st.Peek m (pre.length + i) = if i < rest.length then charAt rest i else NUL := by
  have hc : Cursor { st with lineOffset := pre.length } m pre rest := ⟨h1, rfl, h3⟩
  split
  · rename_i hi
    exact hc.peek_at i hi
  · rename_i hi
    exact hc.peek_past i (by omega)

theorem GetCurTokenEnd_literal (st : ParserState) (m : Nat) (post : List Char)
    (hpost : Stops post) :
    ∀ (t pre : List Char), st.paramText = pre ++ (t ++ post) → m = st.paramText.length →
      (∀ c ∈ t, isdigit c = true ∨ c = '.') →
      GetCurTokenEnd st m (m - pre.length) pre.length = pre.length + t.length := by
  intro t
  induction t with
  | nil =>
    intro pre h1 h3 _
    cases hf : m - pre.length with
    | zero => simp [GetCurTokenEnd]
    | succ f =>
      cases post with
      | nil =>
        exfalso
        rw [h3, h1] at hf
        simp at hf
      | cons c rest =>
        have hp := Peek_of_text st m pre ([] ++ c :: rest) 0 h1 h3
        simp only [List.nil_append, List.length_cons, Nat.zero_lt_succ, if_true, charAt,
          List.getD_cons_zero, Nat.add_zero] at hp
        have hstop := hpost c (by simp)
        simp only [GetCurTokenEnd, hp, List.length_nil, Nat.add_zero]
        split
        · rfl
        · rcases hstop with hs | ⟨hpu, h1', h2'⟩
          · simp [hs]
          · simp [hpu, h1', h2']
  | cons d t ih =>
    intro pre h1 h3 ht
    have hlen : m - pre.length = (m - (pre ++ [d]).length) + 1 := by
      rw [h3, h1]
      simp only [List.length_append, List.length_cons, List.length_nil]
      omega
    have hp := Peek_of_text st m pre (d :: t ++ post) 0 h1 h3
    simp only [List.cons_append, List.length_cons, Nat.zero_lt_succ, if_true, charAt,
      List.getD_cons_zero, Nat.add_zero] at hp
    have hd : isdigit d = true ∨ d = '.' := ht d (List.mem_cons_self _ _)
    have hnn : (d == NUL) = false := by
      rcases hd with hd | rfl
      · simpa using (isdigit_facts d hd).2.2.1
      · decide
    have hcont : (isspace d || (ispunct d && d != '_' && d != '.')) = false := by
      rcases hd with hd | rfl
      · have := isdigit_facts d hd
        simp [this.1, this.2.1]
      · decide
    rw [hlen]
    simp only [GetCurTokenEnd, hp, hnn, hcont, Bool.false_eq_true, if_false]
    have := ih (pre ++ [d]) (by simpa using h1) h3 (fun c hc => ht c (List.mem_cons_of_mem _ hc))
    simp only [List.length_append, List.length_cons, List.length_nil, Nat.zero_add] at this ⊢
    rw [this]
    omega

/-- `ParseOperand` on a numeric literal: the number token, the offset after
the literal. -/
theorem ParseOperand_literal (env : ParserEnv) (m : Nat) (curOp : Option Operator)
    (st : ParserState) (pre t post : List Char) (hc : Cursor st m pre (t ++ post))
    (hpost : Stops post) (ht : ∀ c ∈ t, isdigit c = true ∨ c = '.')
    (hfirst : ∃ d t', t = d :: t' ∧ isdigit d = true) (hnum : (strtod t).2 = [])
    (hop : curOp.any Operator.ExpectsStringLiteral = false) :
    ParseOperand env m curOp st =
      (some (.Number (strtod t).1), { st with lineOffset := st.lineOffset + t.length }) := by
  obtain ⟨d, t', rfl, hd⟩ := hfirst
  have hpeek : st.Peek m st.lineOffset = d := @Cursor.peek st m pre (t' ++ post) d hc
  have hf := isdigit_facts d hd
  have e1 : (d == NUL) = false := by simpa using hf.2.2.1
  have e2 : (d == '"') = false := by simpa using hf.2.2.2.2.1
  have e3 : (d == '$') = false := by simpa using hf.2.2.2.2.2.1
  obtain ⟨h1, h2, h3⟩ := hc
  have hend := GetCurTokenEnd_literal st m post hpost (d :: t') pre h1 h3 ht
  unfold ParseOperand
  simp only [hpeek, e1, e2, e3, Bool.false_eq_true, if_false, GetCurToken]
  rw [h2, hend]
  have htok : List.take (pre.length + (d :: t').length - pre.length)
      (List.drop pre.length st.paramText) = d :: t' := by
    rw [h1, List.drop_left, Nat.add_sub_cancel_left, List.take_left]
  rw [htok]
  unfold ParseOperandToken
  simp [hop, hnum]

/-- One iteration of the main loop on a numeric literal, where an operand is
expected. -/
theorem ParseSubExpressionLoop_literal (env : ParserEnv) (fuel m : Nat) (ops : List Operator)
    (operands : List Token_Type) (st : ParserState) (pre t post : List Char)
    (hc : Cursor st m pre (t ++ post)) (hpost : Stops post)
    (ht : ∀ c ∈ t, isdigit c = true ∨ c = '.')
    (hfirst : ∃ d t', t = d :: t' ∧ isdigit d = true) (hnum : (strtod t).2 = [])
    (hop : ops.head?.any Operator.ExpectsStringLiteral = false) :
    ParseSubExpressionLoop env (fuel + 1) m m ops operands false st =
      ParseSubExpressionLoop env fuel m m ops (.Number :: operands) true
        { st with lineOffset := st.lineOffset + t.length,
                  dataBuf := st.dataBuf ++ [.operand (.Number (strtod t).1)] } := by
  have hpo := ParseOperand_literal env m ops.head? st pre t post hc hpost ht hfirst hnum hop
  obtain ⟨d, t', rfl, hd⟩ := hfirst
  have hc' : Cursor st m pre (d :: (t' ++ post)) := hc
  have hpeek : st.Peek m st.lineOffset = d := hc'.peek
  have hf := isdigit_facts d hd
  have e1 : (d != NUL) = true := by simpa using hf.2.2.1
  have hlt : st.lineOffset < m := hc'.lt
  have hno1 := ParseOperator_none env m false true st (by rw [hpeek]; exact hf.2.2.2.1)
    (by rw [hpeek]; exact candidates_nonpunct env false d hf.1)
  have hno2 := ParseOperator_none env m true false st (by rw [hpeek]; exact hf.2.2.2.1)
    (by rw [hpeek]; exact candidates_nonpunct env true d hf.1)
  rw [ParseSubExpressionLoop]
  simp only [hpeek, hlt, e1, hf.2.1, hno1]
  simp [hno2, hpo, OperandToken.GetCommandInfo, OperandToken.TokenType, ParserState.write]

/-- One iteration of the main loop on an arithmetic operator that is followed
by a blank or a digit, where a binary operator is expected. -/
theorem ParseSubExpressionLoop_operator (env : ParserEnv) (fuel m : Nat) (ops : List Operator)
    (operands : List Token_Type) (st : ParserState) (pre rest : List Char) (o : ArithOp)
    (hc : Cursor st m pre (o.char :: rest))
    (hnext : ispunct (rest.headD NUL) = false) :
    ParseSubExpressionLoop env (fuel + 1) m m ops operands true st =
      ParseSubExpressionLoop env fuel m m
        (o.operator env.oblivion ::
          (popWhilePrecedes (o.operator env.oblivion) ops operands
            { st with lineOffset := st.lineOffset + 1 }).1)
        (popWhilePrecedes (o.operator env.oblivion) ops operands
            { st with lineOffset := st.lineOffset + 1 }).2.1 false
        (popWhilePrecedes (o.operator env.oblivion) ops operands
            { st with lineOffset := st.lineOffset + 1 }).2.2 := by
  have hpeek : st.Peek m st.lineOffset = o.char := hc.peek
  have hf := o.char_facts
  have hof := ArithOp.operator_facts env.oblivion o
  have e1 : (o.char != NUL) = true := by simpa using hf.2.2.1
  have hlt : st.lineOffset < m := hc.lt
  have hop := ParseOperator_plain env m true true st (o.operator env.oblivion)
    (by rw [hpeek]; exact hf.2.2.2.1) (by rw [hc.peek_next]; exact hnext)
    (by rw [hpeek]; exact candidates_arith env.oblivion o)
  rw [hof.1] at hop
  rw [ParseSubExpressionLoop]
  simp only [hpeek, hlt, e1, hf.2.1, hop]
  simp [hof.2.1, hof.2.2.1]

/-- An arriving operator pops pending operators that bind at least as tightly
and stops at the first that binds less tightly. -/
theorem popWhilePrecedes_pending (ob : Bool) (o : ArithOp) (ops : List Operator)
    (hstop : ∀ top ∈ ops.head?, top.precedence < o.precedence) :
    ∀ (pend : List ArithOp) (operands : List Token_Type) (st : ParserState),
      (∀ p ∈ pend, o.precedence ≤ p.precedence) →
      popWhilePrecedes (o.operator ob) (pend.map (ArithOp.operator ob) ++ ops)
          (List.replicate (pend.length + 1) .Number ++ operands) st =
        (ops, .Number :: operands,
          { st with dataBuf := st.dataBuf ++ pendingItems pend }) := by
  intro pend
  induction pend with
  | nil =>
    intro operands st _
    simp only [List.map_nil, List.nil_append, List.length_nil, Nat.zero_add, pendingItems,
      List.append_nil, List.replicate_one, List.singleton_append]
    cases ops with
    | nil => rfl
    | cons top ops =>
      have := hstop top (by simp)
      have hof := ArithOp.operator_facts ob o
      have hp : top.Precedes (o.operator ob) = false := by
        simp only [Operator.Precedes, hof.2.2.2.2.2.1, decide_eq_false_iff_not]
        omega
      simp [popWhilePrecedes, hp]
  | cons p pend ih =>
    intro operands st hge
    have hofp := ArithOp.operator_facts ob p
    have hof := ArithOp.operator_facts ob o
    have hp : (p.operator ob).Precedes (o.operator ob) = true := by
      simp only [Operator.Precedes, hof.2.2.2.2.2.1, hofp.2.2.2.2.2.1, decide_eq_true_eq]
      exact hge p (List.mem_cons_self _ _)
    have hpop : PopOperator (p.operator ob)
        (List.replicate ((p :: pend).length + 1) .Number ++ operands) st =
        (.Number, List.replicate (pend.length + 1) .Number ++ operands,
          st.write (.operator (p.operator true).type)) := by
      simp only [List.length_cons, List.replicate_succ, List.cons_append]
      unfold PopOperator
      simp [hofp.2.2.2.1, hofp.2.2.2.2.2.2.1, hofp.2.2.2.2.2.2.2, List.replicate_succ]
    simp only [List.map_cons, List.cons_append]
    rw [popWhilePrecedes]
    simp only [hp, if_true, hpop]
    rw [ih operands _ (fun q hq => hge q (List.mem_cons_of_mem _ hq))]
    simp [pendingItems, ParserState.write]

theorem ArithExpr.rootGt_of_rootGe (E : ArithExpr) (p q : Nat) (h : E.rootGe p) (hq : q < p) :
    E.rootGt q := by
  cases E with
  | lit ws t => trivial
  | bin l ws o r =>
    simp only [ArithExpr.rootGe, ArithExpr.rootGt] at h ⊢
    omega

theorem ArithExpr.rootGe_of_rootGt (E : ArithExpr) (p : Nat) (h : E.rootGt p) : E.rootGe p := by
  cases E with
  | lit ws t => trivial
  | bin l ws o r =>
    simp only [ArithExpr.rootGe, ArithExpr.rootGt] at h ⊢
    omega

theorem ArithExpr.pending_ge (E : ArithExpr) :
    ∀ p, E.Grouped → E.rootGe p → ∀ q ∈ E.pending, p ≤ q.precedence := by
  induction E with
  | lit ws t => intro p _ _ q hq; simp [ArithExpr.pending] at hq
  | bin l ws o r _ ihr =>
    intro p hg hp q hq
    simp only [ArithExpr.pending, List.mem_append, List.mem_singleton] at hq
    simp only [ArithExpr.rootGe] at hp
    rcases hq with hq | rfl
    · have := ihr o.precedence hg.2.1 (r.rootGe_of_rootGt _ hg.2.2.2) q hq
      omega
    · exact hp

theorem ArithExpr.postorder_eq (E : ArithExpr) :
    E.postorder = E.emitted ++ pendingItems E.pending := by
  induction E with
  | lit ws t => simp [ArithExpr.postorder, ArithExpr.emitted, ArithExpr.pending, pendingItems]
  | bin l ws o r _ ihr =>
    simp only [ArithExpr.postorder, ArithExpr.emitted, ArithExpr.pending, ihr, pendingItems,
      List.map_append, List.map_cons, List.map_nil, List.append_assoc]

theorem ArithExpr.text_starts (E : ArithExpr) :
    E.WellFormed → ∀ post, ∃ c rest, E.text ++ post = c :: rest ∧
      (isspace c = true ∨ isdigit c = true) := by
  induction E with
  | lit ws t =>
    intro h post
    obtain ⟨hws, _, ⟨d, t', rfl, hd⟩, _⟩ := h
    cases ws with
    | nil => exact ⟨d, t' ++ post, by simp [ArithExpr.text], Or.inr hd⟩
    | cons c ws =>
      exact ⟨c, ws ++ d :: t' ++ post, by simp [ArithExpr.text],
        Or.inl (hws c (List.mem_cons_self _ _))⟩
  | bin l ws o r ihl _ =>
    intro h post
    obtain ⟨c, rest, hc, hcc⟩ := ihl h.1 (ws ++ o.char :: r.text ++ post)
    exact ⟨c, rest, by simpa [ArithExpr.text, List.append_assoc] using hc, hcc⟩

theorem ispunct_head_of_starts (s : List Char)
    (h : ∃ c rest, s = c :: rest ∧ (isspace c = true ∨ isdigit c = true)) :
    ispunct (s.headD NUL) = false := by
  obtain ⟨c, rest, rfl, hc | hc⟩ := h
  · exact (isspace_facts c hc).1
  · exact (isdigit_facts c hc).1

theorem Stops_blanks_op (ws : List Char) (hws : ∀ c ∈ ws, isspace c = true) (o : ArithOp)
    (rest : List Char) : Stops (ws ++ o.char :: rest) := by
  intro c hc
  cases ws with
  | nil =>
    simp only [List.nil_append, List.head?_cons, Option.mem_def, Option.some.injEq] at hc
    subst hc
    exact Or.inr ⟨o.char_facts.1, o.char_facts.2.2.2.2.1, o.char_facts.2.2.2.2.2.1⟩
  | cons d ws =>
    simp only [List.cons_append, List.head?_cons, Option.mem_def, Option.some.injEq] at hc
    subst hc
    exact Or.inl (hws _ (List.mem_cons_self _ _))

/-- The main loop on a written, grouped expression: after the last token the
pending operators of the right spine are on the operator stack, one `Number`
for each of them and one more are on the operand stack, and the rest of the
postfix form has been written. -/
theorem ArithExpr.run (env : ParserEnv) (m : Nat) :
    ∀ (E : ArithExpr), E.WellFormed → E.Grouped →
    ∀ (fuel : Nat) (ops : List Operator) (operands : List Token_Type) (st : ParserState)
      (pre post : List Char),
      Cursor st m pre (E.text ++ post) → Stops post →
      (∀ top ∈ ops.head?, E.rootGt top.precedence) →
      ops.head?.any Operator.ExpectsStringLiteral = false →
      ParseSubExpressionLoop env (fuel + E.steps) m m ops operands false st =
        ParseSubExpressionLoop env fuel m m
          (E.pending.map (ArithOp.operator env.oblivion) ++ ops)
          (List.replicate (E.pending.length + 1) .Number ++ operands) true
          { st with lineOffset := st.lineOffset + E.text.length,
                    dataBuf := st.dataBuf ++ E.emitted } := by
  intro E
  induction E with
  | lit ws t =>
    intro hwf _ fuel ops operands st pre post hc hpost _ hops
    obtain ⟨hws, ht, hfirst, hnum⟩ := hwf
    have hc1 : Cursor st m pre (ws ++ (t ++ post)) := by
      simpa [ArithExpr.text, List.append_assoc] using hc
    have e : fuel + (ArithExpr.lit ws t).steps = (fuel + 1) + ws.length := by
      simp only [ArithExpr.steps]
      omega
    rw [e, ParseSubExpressionLoop_blanks env m ops operands false ws (fuel + 1) st pre
      (t ++ post) hc1 hws]
    have hc2 : Cursor { st with lineOffset := st.lineOffset + ws.length } m (pre ++ ws)
        (t ++ post) := Cursor.advance ws hc1 _ rfl rfl
    rw [ParseSubExpressionLoop_literal env fuel m ops operands _ (pre ++ ws) t post hc2 hpost ht
      hfirst hnum hops]
    simp only [ArithExpr.pending, List.map_nil, List.nil_append, List.length_nil, Nat.zero_add,
      List.replicate_one, List.singleton_append, ArithExpr.text, ArithExpr.emitted,
      List.length_append, Nat.add_assoc]
  | bin l ws o r ihl ihr =>
    intro hwf hg fuel ops operands st pre post hc hpost htop hops
    obtain ⟨hwl, hws, hwr⟩ := hwf
    obtain ⟨hgl, hgr, hrl, hrr⟩ := hg
    have hof := ArithOp.operator_facts env.oblivion o
    -- the left operand
    have e : fuel + (ArithExpr.bin l ws o r).steps =
        (((fuel + r.steps) + 1) + ws.length) + l.steps := by
      simp only [ArithExpr.steps]
      omega
    have hc1 : Cursor st m pre (l.text ++ (ws ++ o.char :: (r.text ++ post))) := by
      simpa [ArithExpr.text, List.append_assoc] using hc
    have htopl : ∀ top ∈ ops.head?, l.rootGt top.precedence := by
      intro top ht
      have := htop top ht
      simp only [ArithExpr.rootGt] at this
      exact l.rootGt_of_rootGe _ _ hrl this
    rw [e, ihl hwl hgl _ ops operands st pre _ hc1 (Stops_blanks_op ws hws o _) htopl hops]
    -- the blanks before the operator
    have hc2 : Cursor { st with lineOffset := st.lineOffset + l.text.length,
                                dataBuf := st.dataBuf ++ l.emitted } m (pre ++ l.text)
        (ws ++ o.char :: (r.text ++ post)) := Cursor.advance l.text hc1 _ rfl rfl
    rw [ParseSubExpressionLoop_blanks env m _ _ true ws _ _ _ _ hc2 hws]
    -- the operator
    have hc3 : Cursor { st with lineOffset := st.lineOffset + l.text.length + ws.length,
                                dataBuf := st.dataBuf ++ l.emitted } m (pre ++ l.text ++ ws)
        (o.char :: (r.text ++ post)) := Cursor.advance ws hc2 _ rfl rfl
    rw [ParseSubExpressionLoop_operator env _ m _ _ _ _ _ o hc3
      (ispunct_head_of_starts _ (r.text_starts hwr post))]
    have hstop : ∀ top ∈ ops.head?, top.precedence < o.precedence := by
      intro top ht
      exact htop top ht
    rw [popWhilePrecedes_pending env.oblivion o ops hstop l.pending operands _
      (l.pending_ge o.precedence hgl hrl)]
    -- the right operand
    have hc4 : Cursor { st with lineOffset := st.lineOffset + l.text.length + ws.length + 1,
                                dataBuf := st.dataBuf ++ l.emitted ++ pendingItems l.pending }
        m (pre ++ l.text ++ ws ++ [o.char]) (r.text ++ post) :=
      Cursor.advance [o.char] hc3 _ rfl rfl
    have htopr : ∀ top ∈ (o.operator env.oblivion :: ops).head?, r.rootGt top.precedence := by
      intro top ht
      simp only [List.head?_cons, Option.mem_def, Option.some.injEq] at ht
      subst ht
      rw [hof.2.2.2.2.2.1]
      exact hrr
    rw [ihr hwr hgr fuel _ _ _ _ post hc4 hpost htopr (by simp [hof.2.2.2.2.1])]
    congr 1
    · simp [ArithExpr.pending]
    · simp only [ArithExpr.pending, List.length_append, List.length_cons, List.length_nil]
      rw [List.replicate_succ' (r.pending.length + 0 + 1)]
      simp
    · simp only [ArithExpr.text, ArithExpr.emitted, ArithExpr.postorder_eq, List.length_append,
        List.length_cons, List.append_assoc]
      congr 1
      omega

theorem finishSubExpression_pending (ob : Bool) :
    ∀ (pend : List ArithOp) (st : ParserState),
      finishSubExpression (pend.map (ArithOp.operator ob))
          (List.replicate (pend.length + 1) .Number) st =
        (.Number, { st with dataBuf := st.dataBuf ++ pendingItems pend }) := by
  intro pend
  induction pend with
  | nil => intro st; simp [finishSubExpression, pendingItems]
  | cons p pend ih =>
    intro st
    have hofp := ArithOp.operator_facts ob p
    have hpop : PopOperator (p.operator ob)
        (List.replicate ((p :: pend).length + 1) .Number) st =
        (.Number, List.replicate (pend.length + 1) .Number,
          st.write (.operator (p.operator true).type)) := by
      simp only [List.length_cons, List.replicate_succ]
      unfold PopOperator
      simp [hofp.2.2.2.1, hofp.2.2.2.2.2.2.1, hofp.2.2.2.2.2.2.2, List.replicate_succ]
    simp only [List.map_cons]
    rw [finishSubExpression]
    simp only [hpop]
    rw [ih]
    simp [pendingItems, ParserState.write]

/-- At the end of the text the main loop ends. -/
theorem ParseSubExpressionLoop_end (env : ParserEnv) (fuel m : Nat) (ops : List Operator)
    (operands : List Token_Type) (b : Bool) (st : ParserState) (pre : List Char)
    (hc : Cursor st m pre []) :
    ParseSubExpressionLoop env (fuel + 1) m m ops operands b st =
      some (finishSubExpression ops operands st) := by
  have hp : st.Peek m st.lineOffset = NUL := by simpa using hc.peek_past 0 (by simp)
  rw [ParseSubExpressionLoop]
  simp [hp]

theorem ArithExpr.extend_spec (ws1 : List Char) (o : ArithOp) (ws2 t2 : List Char) :
    ∀ (E : ArithExpr), E.Grouped →
      (E.extend ws1 o ws2 t2).Grouped ∧
      (E.extend ws1 o ws2 t2).text = E.text ++ (ws1 ++ o.char :: (ws2 ++ t2)) ∧
      (E.extend ws1 o ws2 t2).tokens = E.tokens ++ [.inr o, .inl t2] ∧
      (E.WellFormed → (∀ c ∈ ws1, isspace c = true) → (ArithExpr.lit ws2 t2).WellFormed →
        (E.extend ws1 o ws2 t2).WellFormed) ∧
      (∀ q, E.rootGt q → q < o.precedence → (E.extend ws1 o ws2 t2).rootGt q) := by
  intro E
  induction E with
  | lit ws t =>
    intro _
    refine ⟨⟨trivial, trivial, trivial, trivial⟩, by simp [ArithExpr.extend, ArithExpr.text],
      by simp [ArithExpr.extend, ArithExpr.tokens], ?_, ?_⟩
    · intro h1 h2 h3
      exact ⟨h1, h2, h3⟩
    · intro q _ hq
      exact hq
  | bin l ws p r _ ihr =>
    intro hg
    obtain ⟨hgl, hgr, hrl, hrr⟩ := hg
    obtain ⟨i1, i2, i3, i4, i5⟩ := ihr hgr
    by_cases hp : p.precedence < o.precedence
    · simp only [ArithExpr.extend, hp, if_true]
      refine ⟨⟨hgl, i1, hrl, i5 _ hrr hp⟩, ?_, ?_, ?_, ?_⟩
      · simp [ArithExpr.text, i2, List.append_assoc]
      · simp [ArithExpr.tokens, i3, List.append_assoc]
      · intro h1 h2 h3
        exact ⟨h1.1, h1.2.1, i4 h1.2.2 h2 h3⟩
      · intro q hq _
        exact hq
    · simp only [ArithExpr.extend, hp, if_false]
      refine ⟨⟨⟨hgl, hgr, hrl, hrr⟩, trivial, by simp only [ArithExpr.rootGe]; omega, trivial⟩,
        ?_, ?_, ?_, ?_⟩
      · simp [ArithExpr.text, List.append_assoc]
      · simp [ArithExpr.tokens, List.append_assoc]
      · intro h1 h2 h3
        exact ⟨h1, h2, h3⟩
      · intro q _ hq
        exact hq

theorem ArithExpr.group_spec :
    ∀ (rest : List (List Char × ArithOp × List Char × List Char)) (E : ArithExpr),
      E.Grouped → E.WellFormed → pairsWellFormed rest →
      (E.group rest).Grouped ∧ (E.group rest).WellFormed ∧
      (E.group rest).text = E.text ++ pairsText rest ∧
      (E.group rest).tokens = E.tokens ++ pairsTokens rest := by
  intro rest
  induction rest with
  | nil => intro E hg hw _; simp [ArithExpr.group, pairsText, pairsTokens, hg, hw]
  | cons item rest ih =>
    intro E hg hw hp
    obtain ⟨ws1, o, ws2, t2⟩ := item
    obtain ⟨h1, h2, h3⟩ := hp
    obtain ⟨e1, e2, e3, e4, _⟩ := ArithExpr.extend_spec ws1 o ws2 t2 E hg
    obtain ⟨g1, g2, g3, g4⟩ := ih (E.extend ws1 o ws2 t2) e1 (e4 hw h1 h2) h3
    refine ⟨g1, g2, ?_, ?_⟩
    · simp [ArithExpr.group, g3, e2, pairsText]
    · simp [ArithExpr.group, g4, e3, pairsTokens]

/-- The parse of a written grouped expression followed by blanks. -/
theorem ParseSubExpression_grouped (env : ParserEnv) (E : ArithExpr) (trail : List Char)
    (st : ParserState) (fuel : Nat)
    (hw : E.WellFormed) (hg : E.Grouped) (ht : ∀ c ∈ trail, isspace c = true)
    (htext : st.paramText = E.text ++ trail) (hoff : st.lineOffset = 0) :
    ParseSubExpression env (fuel + E.steps + trail.length + 2)
        st.paramText.length st.paramText.length st =
      some (.Number, { st with lineOffset := st.paramText.length,
                               dataBuf := st.dataBuf ++ E.postorder }) := by
  have hc : Cursor st st.paramText.length [] (E.text ++ trail) :=
    ⟨by simpa using htext, by simpa using hoff, rfl⟩
  have hstop : Stops trail := by
    intro c hc'
    cases trail with
    | nil => simp at hc'
    | cons d tl =>
      simp only [List.head?_cons, Option.mem_def, Option.some.injEq] at hc'
      subst hc'
      exact Or.inl (ht _ (List.mem_cons_self _ _))
  have e : fuel + E.steps + trail.length + 2 = ((fuel + 1 + trail.length) + E.steps) + 1 := by
    omega
  rw [e, ParseSubExpression, hoff, Nat.zero_add]
  rw [ArithExpr.run env _ E hw hg _ [] [] st [] trail hc hstop (by simp) (by simp)]
  have hc2' := hc.advance E.text
    { st with lineOffset := st.lineOffset + E.text.length, dataBuf := st.dataBuf ++ E.emitted }
    rfl rfl
  rw [← List.append_nil trail] at hc2'
  rw [ParseSubExpressionLoop_blanks env _ _ _ true trail (fuel + 1) _ _ [] hc2' ht]
  have hc3 := hc2'.advance trail
    { st with lineOffset := st.lineOffset + E.text.length + trail.length, dataBuf := st.dataBuf ++ E.emitted }
    rfl rfl
  rw [ParseSubExpressionLoop_end env fuel _ _ _ true _ _ hc3]
  simp only [List.append_nil]
  rw [finishSubExpression_pending]
  simp [ArithExpr.postorder_eq, htext, hoff, List.append_assoc]

/-- C2: for every well-formed bracket-free expression over numeric literals
and the binary operators `+ - * / % ^` (a literal, then pairs of an operator
and a literal, every token after any number of blanks, and blanks at the end),
`ExpressionParser::ParseSubExpression` returns `Number` at the end of the text
and has written the postfix form of the fully parenthesised expression that
the precedences of `s_operators` determine, operators of equal precedence
grouped left to right.  That expression exists for every such sequence of
tokens (`ArithExpr.group`), and every grouped tree with the same text has the
postfix form the parser writes.  In particular `2 + 3 * 4` is emitted as
`2 3 4 * +`, which evaluates to 14. -/
theorem ParseSubExpression_emits_postfix (env : ParserEnv) (blanks digits : List Char)
    (rest : List (List Char × ArithOp × List Char × List Char)) (trail : List Char)
    (st : ParserState) (fuel : Nat)
    (hfirst : (ArithExpr.lit blanks digits).WellFormed) (hrest : pairsWellFormed rest)
    (htrail : ∀ c ∈ trail, isspace c = true)
    (htext : st.paramText = blanks ++ digits ++ pairsText rest ++ trail)
    (hoff : st.lineOffset = 0) :
    ((ArithExpr.lit blanks digits).group rest).Grouped ∧
    ((ArithExpr.lit blanks digits).group rest).tokens = .inl digits :: pairsTokens rest ∧
    ((ArithExpr.lit blanks digits).group rest).text = blanks ++ digits ++ pairsText rest ∧
    (∀ E : ArithExpr, E.WellFormed → E.Grouped → E.text = blanks ++ digits ++ pairsText rest →
      ParseSubExpression env (fuel + E.steps + trail.length + 2)
          st.paramText.length st.paramText.length st =
        some (.Number, { st with lineOffset := st.paramText.length,
                                 dataBuf := st.dataBuf ++ E.postorder })) ∧
    ParseSubExpression env
        (fuel + ((ArithExpr.lit blanks digits).group rest).steps + trail.length + 2)
        st.paramText.length st.paramText.length st =
      some (.Number, { st with lineOffset := st.paramText.length,
                               dataBuf := st.dataBuf ++
                                 ((ArithExpr.lit blanks digits).group rest).postorder }) ∧
    (∀ n, ParseSubExpression plainEnv (n + 11) 9 9 (startState "2 + 3 * 4") =
      some (.Number, { startState "2 + 3 * 4" with
        lineOffset := 9
        dataBuf := [.operand (.Number 2), .operand (.Number 3), .operand (.Number 4),
          .operator .Multiply, .operator .Add] })) ∧
    evalPostfix powInt [.operand (.Number 2), .operand (.Number 3), .operand (.Number 4),
      .operator .Multiply, .operator .Add] sampleContext [] = some [.Number 14] := by
  obtain ⟨g1, g2, g3, g4⟩ :=
    ArithExpr.group_spec rest (.lit blanks digits) trivial hfirst hrest
  have hall : ∀ E : ArithExpr, E.WellFormed → E.Grouped →
      E.text = blanks ++ digits ++ pairsText rest →
      ParseSubExpression env (fuel + E.steps + trail.length + 2)
          st.paramText.length st.paramText.length st =
        some (.Number, { st with lineOffset := st.paramText.length,
                                 dataBuf := st.dataBuf ++ E.postorder }) := by
    intro E hw hg ht
    exact ParseSubExpression_grouped env E trail st fuel hw hg htrail (by rw [htext, ht]) hoff
  refine ⟨g1, by simpa [ArithExpr.tokens] using g4, by simpa [ArithExpr.text] using g3, hall,
    hall _ g2 g1 (by simpa [ArithExpr.text] using g3), ?_, ?_⟩
  · intro n
    have hw : twoPlusThreeTimesFour.WellFormed := by
      simp [twoPlusThreeTimesFour, ArithExpr.WellFormed, isspace, isdigit, strtod]
    have hg : twoPlusThreeTimesFour.Grouped := by
      simp [twoPlusThreeTimesFour, ArithExpr.Grouped, ArithExpr.rootGe, ArithExpr.rootGt]
      decide
    have h := ParseSubExpression_grouped plainEnv twoPlusThreeTimesFour [] (startState "2 + 3 * 4")
      n hw hg (by simp) (by decide) rfl
    have e : n + twoPlusThreeTimesFour.steps + ([] : List Char).length + 2 = n + 11 := by
      simp [twoPlusThreeTimesFour, ArithExpr.steps]
    rw [e] at h
    have e2 : (startState "2 + 3 * 4").paramText.length = 9 := by decide
    rw [e2] at h
    rw [h]
    simp [twoPlusThreeTimesFour, ArithExpr.postorder, strtod, digitsValue, isdigit, startState,
      ArithOp.operator]
  · have hM : (s_operators true).find? (fun op => op.type == OperatorType.Multiply) =
        some ⟨21, "*", 2, .Multiply, kOpRule_Multiply true⟩ := rfl
    have hA : (s_operators true).find? (fun op => op.type == OperatorType.Add) =
        some ⟨19, "+", 2, .Add, kOpRule_Addition true⟩ := rfl
    simp only [evalPostfix, hM, hA]
    norm_num [Operator.Evaluate, Operator.EvaluateRules,
      Operator.matchRule, kOpRule_Multiply, kOpRule_Addition, OP_HANDLER, editorOnly,
      ScriptToken.CanConvertTo, ScriptToken.TokenType, callHandler, Eval_Arithmetic,
      Eval_Add_Number, ScriptToken.GetNumber, evalPostfix, Operator.IsUnary]

/-- Witness for C2: the text `2 + 3 * 4`, whose tokens group to
`2 + (3 * 4)`. -/
theorem ParseSubExpression_emits_postfix_witness :
    (ArithExpr.lit [] ['2']).WellFormed ∧ pairsWellFormed plusThreeTimesFour ∧
    (startState "2 + 3 * 4").paramText = [] ++ ['2'] ++ pairsText plusThreeTimesFour ++ [] ∧
    (ArithExpr.lit [] ['2']).group plusThreeTimesFour = twoPlusThreeTimesFour ∧
    ((ArithExpr.lit [] ['2']).group plusThreeTimesFour).Grouped ∧
    ParseSubExpression plainEnv 11 9 9 (startState "2 + 3 * 4") =
      some (.Number, { startState "2 + 3 * 4" with
        lineOffset := 9
        dataBuf := [.operand (.Number 2), .operand (.Number 3), .operand (.Number 4),
          .operator .Multiply, .operator .Add] }) := by
  have hw : (ArithExpr.lit [] ['2']).WellFormed := by
    simp [ArithExpr.WellFormed, isdigit, strtod]
  have hp : pairsWellFormed plusThreeTimesFour := by
    simp [plusThreeTimesFour, pairsWellFormed, ArithExpr.WellFormed, isspace, isdigit, strtod]
  have h := ParseSubExpression_emits_postfix plainEnv [] ['2'] plusThreeTimesFour []
    (startState "2 + 3 * 4") 0 hw hp (by simp) (by decide) rfl
  exact ⟨hw, hp, by decide, rfl, h.1, h.2.2.2.2.2.1 0⟩

/-- C12: for the addition operator `+` of the run-time table and any two
operand tokens `a` and `b` that both convert to `Number` (whatever the
conversion predicate says of the other types), `Evaluate(+, a, b)` and
`Evaluate(+, b, a)` both succeed, leave the state as it was and return the same
`Number`, the sum of the numeric values of the two tokens. -/
theorem addition_is_symmetric (CanConvertTo : ScriptToken → Token_Type → Bool)
    (pow : ℚ → ℚ → ℚ)
    (other : EvalFn → OperatorType → ScriptToken → Option ScriptToken →
      ExpressionEvaluator → EvalResult)
    (a b : ScriptToken) (context : ExpressionEvaluator)
    (ha : CanConvertTo a .Number = true) (hb : CanConvertTo b .Number = true) :
    opAdd ∈ s_operators true ∧
    Operator.Evaluate CanConvertTo ExpressionEvaluator.Error (callHandler pow other) opAdd
        a (some b) context =
      some (some (.Number (a.GetNumber context + b.GetNumber context)), context) ∧
    Operator.Evaluate CanConvertTo ExpressionEvaluator.Error (callHandler pow other) opAdd
        b (some a) context =
      some (some (.Number (a.GetNumber context + b.GetNumber context)), context) := by
  refine ⟨by decide, ?_, ?_⟩
  · simp [Operator.Evaluate, opAdd, kOpRule_Addition, editorOnly, OP_HANDLER,
      Operator.EvaluateRules, Operator.matchRule, Operator.IsUnary, ha, hb, callHandler,
      Eval_Add_Number]
  · simp [Operator.Evaluate, opAdd, kOpRule_Addition, editorOnly, OP_HANDLER,
      Operator.EvaluateRules, Operator.matchRule, Operator.IsUnary, ha, hb, callHandler,
      Eval_Add_Number, add_comm]

/-- Witness for C12: the number 2 and a numeric variable that holds 2 both
convert to `Number`; a string literal does not. -/
theorem addition_is_symmetric_witness :
    ScriptToken.CanConvertTo sampleContext (.Number 2) .Number = true ∧
    ScriptToken.CanConvertTo sampleContext (.NumericVar 0 .Float) .Number = true ∧
    ScriptToken.CanConvertTo sampleContext (.String ['3']) .Number = false ∧
    Operator.Evaluate (ScriptToken.CanConvertTo sampleContext) ExpressionEvaluator.Error
        (callHandler powInt (fun _ _ _ _ _ => none)) opAdd
        (.NumericVar 0 .Float) (some (.Number 2)) sampleContext =
      some (some (.Number 4), sampleContext) := by
  refine ⟨by decide, by decide, by decide, ?_⟩
  have h := (addition_is_symmetric (ScriptToken.CanConvertTo sampleContext) powInt
    (fun _ _ _ _ _ => none) (.Number 2) (.NumericVar 0 .Float) sampleContext
    (by decide) (by decide)).2.2
  rw [h]
  norm_num [ScriptToken.GetNumber, sampleContext]

theorem wrapSInt64_of_range (z : Int) (h1 : -2 ^ 63 ≤ z) (h2 : z < 2 ^ 63) :
    wrapSInt64 z = z := by
  unfold wrapSInt64
  norm_num at h1 h2 ⊢
  omega

theorem tdiv_eq_truncTowardZero (x : ℚ) : x.num.tdiv x.den = truncTowardZero x := by
  unfold truncTowardZero
  split
  · rename_i h
    rw [Rat.floor_def]
    exact Int.tdiv_eq_ediv (Rat.num_nonneg.mpr h) (by positivity)
  · rename_i h
    have hneg : 0 ≤ -x := by linarith [not_le.mp h]
    have e : ⌈x⌉ = -⌊-x⌋ := by rw [Int.floor_neg, neg_neg]
    rw [e, Rat.floor_def]
    simp only [Rat.neg_num, Rat.neg_den]
    rw [← Int.tdiv_eq_ediv (by simpa using Rat.num_nonneg.mpr hneg) (by positivity)]
    rw [Int.neg_tdiv, neg_neg]

theorem toSInt64_of_range (x : ℚ) (h1 : -2 ^ 63 ≤ truncTowardZero x)
    (h2 : truncTowardZero x < 2 ^ 63) : toSInt64 x = truncTowardZero x := by
  unfold toSInt64
  rw [tdiv_eq_truncTowardZero]
  exact wrapSInt64_of_range _ h1 h2

/-- C19: applying unary negation twice returns the original number:
`Eval_Negation` returns the number `-x` for every token of numeric value `x`
and leaves the state as it was, so two applications to the number `x` return
`x`, also through `Operator::Evaluate` with the unary operator `-` of the
table.  The text `-(-5)` compiles, in either build, to the postfix form
`5 - -` with both minus signs read as the unary operator `kOpType_Negation`,
without a message, and that form evaluates to 5. -/
theorem negation_twice_is_identity (op : OperatorType) (x : ℚ) (rh : Option ScriptToken)
    (lh : ScriptToken) (context : ExpressionEvaluator)
    (CanConvertTo : ScriptToken → Token_Type → Bool)
    (other : EvalFn → OperatorType → ScriptToken → Option ScriptToken →
      ExpressionEvaluator → EvalResult) :
    Eval_Negation op lh rh context = some (some (.Number (-(lh.GetNumber context))), context) ∧
    Eval_Negation op (.Number x) rh context = some (some (.Number (-x)), context) ∧
    Eval_Negation op (.Number (-x)) rh context = some (some (.Number x), context) ∧
    ((∀ n, CanConvertTo (.Number n) .Number = true) →
      Operator.Evaluate CanConvertTo ExpressionEvaluator.Error (callHandler powInt other)
          ⟨25, "-", 1, .Negation, kOpRule_Negation true⟩ (.Number x) none context =
        some (some (.Number (-x)), context) ∧
      Operator.Evaluate CanConvertTo ExpressionEvaluator.Error (callHandler powInt other)
          ⟨25, "-", 1, .Negation, kOpRule_Negation true⟩ (.Number (-x)) none context =
        some (some (.Number x), context)) ∧
    (ParseSubExpression plainEnv 20 5 5 (startState "-(-5)")).map
        (fun r => (r.1, r.2.dataBuf, r.2.messages, r.2.lineOffset)) =
      some (.Number, [.operand (.Number 5), .operator .Negation, .operator .Negation], [], 5) ∧
    (ParseSubExpression { plainEnv with oblivion := true } 20 5 5 (startState "-(-5)")).map
        (fun r => (r.1, r.2.dataBuf, r.2.messages, r.2.lineOffset)) =
      some (.Number, [.operand (.Number 5), .operator .Negation, .operator .Negation], [], 5) ∧
    evalPostfix powInt [.operand (.Number 5), .operator .Negation, .operator .Negation]
      sampleContext [] = some [.Number 5] := by
  have h5 : (strtod ['5']).1 = 5 := by
    simp [strtod, digitsValue, isdigit]
  have hN : (s_operators true).find? (fun op => op.type == OperatorType.Negation) =
      some ⟨25, "-", 1, .Negation, kOpRule_Negation true⟩ := rfl
  refine ⟨by simp [Eval_Negation], by simp [Eval_Negation, ScriptToken.GetNumber],
    by simp [Eval_Negation, ScriptToken.GetNumber], ?_, ?_, ?_, ?_⟩
  · intro hconv
    constructor <;>
    simp [Operator.Evaluate, Operator.EvaluateRules, Operator.matchRule, kOpRule_Negation,
      OP_HANDLER, editorOnly, Operator.IsUnary, hconv, callHandler, Eval_Negation,
      ScriptToken.GetNumber]
  · rw [← h5]
    rfl
  · rw [← h5]
    rfl
  · simp only [evalPostfix, hN]
    norm_num [Operator.Evaluate, Operator.EvaluateRules, Operator.matchRule, kOpRule_Negation,
      OP_HANDLER, editorOnly, Operator.IsUnary, ScriptToken.CanConvertTo,
      ScriptToken.TokenType, callHandler, Eval_Negation, ScriptToken.GetNumber, evalPostfix]

theorem routines_are_pure_aux (env : EvalEnv)
    (other : EvalFn → OperatorType → ScriptToken → Option ScriptToken →
      ExpressionEvaluator → EvalResult)
    (f : EvalFn) (op : OperatorType) (lh : ScriptToken) (rh : Option ScriptToken)
    (context : ExpressionEvaluator) (r : Option ScriptToken × ExpressionEvaluator)
    (hf : f ∉ assignmentRoutines) (hc : f ∉ creatingRoutines)
    (h : callEval env other f op lh rh context = some r) :
    r.2.vars = context.vars ∧ r.2.globals = context.globals ∧
      r.2.strings = context.strings ∧ r.2.arrays = context.arrays := by
  have key : ∀ (res : EvalResult), res = some r →
      (∀ q, res = some q → q.2.vars = context.vars ∧ q.2.globals = context.globals ∧
        q.2.strings = context.strings ∧ q.2.arrays = context.arrays) →
      r.2.vars = context.vars ∧ r.2.globals = context.globals ∧
        r.2.strings = context.strings ∧ r.2.arrays = context.arrays :=
    fun res h1 h2 => h2 r h1
  refine key _ h ?_
  clear h key r
  intro q h
  cases f
  all_goals first
    | exact absurd (by decide) hf
    | exact absurd (by decide) hc
    | skip
  all_goals cases rh
  all_goals simp only [callEval, callHandler, Option.bind] at h
  all_goals first
    | contradiction
    | skip
  all_goals simp only [Eval_Comp_Number_Number, Eval_Comp_String_String, Eval_Eq_Number,
    Eval_Eq_Array, Eval_Eq_String, Eval_Eq_Form, Eval_Eq_Form_Number, Eval_Logical,
    Eval_Add_String, Eval_Multiply_String_Number, Eval_LogicalNot, Eval_Subscript_Array_Number,
    Eval_Subscript_Elem_Number, Eval_Subscript_Elem_Slice, Eval_Subscript_Array_String,
    Eval_Subscript_StringVar_Number, Eval_Subscript_StringVar_Slice, Eval_Subscript_String,
    Eval_Subscript_String_Slice, Eval_MemberAccess, Eval_Slice_String, Eval_Slice_Number,
    Eval_ToString_String, Eval_ToString_Number, Eval_ToString_Form, Eval_ToString_Array,
    Eval_ToNumber, Eval_Dereference, Eval_Pair, Eval_Negation, Eval_Add_Number,
    Eval_Arithmetic, Eval_Integer, unhandledOperator] at h
  all_goals repeat' split at h
  all_goals first
    | contradiction
    | (cases h; exact ⟨rfl, rfl, rfl, rfl⟩)

theorem cstr_of_no_nul (s : List Char) (h : NUL ∉ s) : cstr s = s := by
  unfold cstr
  rw [List.takeWhile_eq_self_iff]
  intro c hc
  simp only [bne_iff_ne, ne_eq]
  intro e
  exact h (e ▸ hc)

theorem cstr_no_nul (s : List Char) : NUL ∉ cstr s := by
  unfold cstr
  intro h
  have := List.mem_takeWhile_imp h
  simp at this

theorem toNat_ofNat_of_lt (n : Nat) (h : n < 55296) : (Char.ofNat n).toNat = n := by
  have hv : n.isValidChar := Or.inl h
  unfold Char.ofNat
  rw [dif_pos hv]
  rfl

theorem toNat_ne_zero_of_ne_NUL (c : Char) (h : c ≠ NUL) : c.toNat ≠ 0 := by
  intro e
  apply h
  rw [← Char.ofNat_toNat c, e]
  rfl

theorem tolower_toNat (c : Char) :
    (tolower c).toNat = if 65 ≤ c.toNat ∧ c.toNat ≤ 90 then c.toNat + 32 else c.toNat := by
  unfold tolower
  split
  · rename_i h
    exact toNat_ofNat_of_lt _ (by omega)
  · rfl

theorem tolower_toNat_pos (c : Char) (h : c ≠ NUL) : 0 < (tolower c).toNat := by
  have := toNat_ne_zero_of_ne_NUL c h
  rw [tolower_toNat]
  split <;> omega

theorem char_eq_iff_toNat (c d : Char) : c = d ↔ c.toNat = d.toNat := by
  constructor
  · intro h
    rw [h]
  · intro h
    rw [← Char.ofNat_toNat c, ← Char.ofNat_toNat d, h]

theorem char_lt_iff_toNat (c d : Char) : c < d ↔ c.toNat < d.toNat := Iff.rfl

theorem stricmp_spec :
    ∀ (a b : List Char), NUL ∉ a → NUL ∉ b →
      (stricmp a b = 0 ↔ a.map tolower = b.map tolower) ∧
      (stricmp a b < 0 ↔ lexLt (a.map tolower) (b.map tolower) = true) ∧
      (0 < stricmp a b ↔ lexLt (b.map tolower) (a.map tolower) = true) := by
  intro a
  induction a with
  | nil =>
    intro b _ hb
    cases b with
    | nil => simp [stricmp, lexLt]
    | cons d b =>
      have hd : d ≠ NUL := fun e => hb (e ▸ List.mem_cons_self _ _)
      have := tolower_toNat_pos d hd
      simp only [stricmp, List.map_nil, List.map_cons, lexLt]
      refine ⟨?_, ?_, ?_⟩
      · constructor
        · intro h; omega
        · intro h; cases h
      · constructor
        · intro _; trivial
        · intro _; omega
      · constructor
        · intro h; omega
        · intro h; cases h
  | cons c a ih =>
    intro b ha hb
    have hc : c ≠ NUL := fun e => ha (e ▸ List.mem_cons_self _ _)
    have ha' : NUL ∉ a := fun h => ha (List.mem_cons_of_mem _ h)
    have hcp := tolower_toNat_pos c hc
    cases b with
    | nil =>
      simp only [stricmp, List.map_nil, List.map_cons, lexLt]
      refine ⟨?_, ?_, ?_⟩
      · constructor
        · intro h; omega
        · intro h; cases h
      · constructor
        · intro h; omega
        · intro h; cases h
      · constructor
        · intro _; trivial
        · intro _; omega
    | cons d b =>
      have hb' : NUL ∉ b := fun h => hb (List.mem_cons_of_mem _ h)
      obtain ⟨i1, i2, i3⟩ := ih b ha' hb'
      by_cases e : tolower c = tolower d
      · simp only [stricmp, e, if_true, List.map_cons, lexLt, lt_self_iff_false, decide_False,
          beq_self_eq_true, Bool.true_and, Bool.false_or]
        refine ⟨?_, i2, i3⟩
        rw [i1]
        simp
      · have en : (tolower c).toNat ≠ (tolower d).toNat := by
          intro h
          exact e ((char_eq_iff_toNat _ _).mpr h)
        have en' : (tolower d).toNat ≠ (tolower c).toNat := fun h => en h.symm
        have eb : ((tolower c).toNat == (tolower d).toNat) = false := by simpa using en
        have eb' : ((tolower d).toNat == (tolower c).toNat) = false := by simpa using en'
        simp only [stricmp, e, if_false, List.map_cons, lexLt, eb, eb',
          Bool.false_and, Bool.or_false, decide_eq_true_eq]
        refine ⟨?_, ?_, ?_⟩
        · constructor
          · intro h; omega
          · intro h
            injection h with h1 _
            exact absurd h1 e
        · constructor <;> intro h <;> omega
        · constructor <;> intro h <;> omega

theorem lexLt_iff_lt : ∀ (a b : List Char), lexLt a b = true ↔ a < b := by
  intro a
  induction a with
  | nil =>
    intro b
    cases b with
    | nil => simp [lexLt]
    | cons d b => exact ⟨fun _ => List.Lex.nil, fun _ => rfl⟩
  | cons c a ih =>
    intro b
    cases b with
    | nil => simp [lexLt]
    | cons d b =>
      simp only [lexLt, Bool.or_eq_true, decide_eq_true_eq, Bool.and_eq_true, beq_iff_eq, ih]
      constructor
      · rintro (h | ⟨h1, h2⟩)
        · exact List.Lex.rel ((char_lt_iff_toNat _ _).mpr h)
        · have : c = d := (char_eq_iff_toNat _ _).mpr h1
          subst this
          exact List.Lex.cons h2
      · intro h
        cases h with
        | cons h => exact Or.inr ⟨rfl, h⟩
        | rel h => exact Or.inl ((char_lt_iff_toNat _ _).mp h)

/-- C14: the string comparison routines ignore letter case.  For all strings
`a` and `b` (C strings, so without a NUL), `==` (`Eval_Eq_String`) is true
exactly when `a` and `b` are equal after every ASCII capital letter is replaced
by its small letter, `!=` is its negation, and `<`, `>`, `<=`, `>=`
(`Eval_Comp_String_String`) are the lexicographic order by character code of
the two folded strings; the state is left as it was, and the operators `==`
and `<` of the table resolve to these routines for two strings.  So
`"ABC" == "abc"` and `"ABC" < "abd"` are true. -/
theorem string_comparison_ignores_case (a b : List Char) (context : ExpressionEvaluator)
    (env : EvalEnv)
    (other : EvalFn → OperatorType → ScriptToken → Option ScriptToken →
      ExpressionEvaluator → EvalResult)
    (ha : NUL ∉ a) (hb : NUL ∉ b) :
    Eval_Eq_String .Equals (.String a) (.String b) context =
      some (some (.Boolean (decide (a.map tolower = b.map tolower))), context) ∧
    Eval_Eq_String .NotEqual (.String a) (.String b) context =
      some (some (.Boolean (!decide (a.map tolower = b.map tolower))), context) ∧
    Eval_Comp_String_String .LessThan (.String a) (.String b) context =
      some (some (.Boolean (lexLt (a.map tolower) (b.map tolower))), context) ∧
    Eval_Comp_String_String .GreaterThan (.String a) (.String b) context =
      some (some (.Boolean (lexLt (b.map tolower) (a.map tolower))), context) ∧
    Eval_Comp_String_String .LessOrEqual (.String a) (.String b) context =
      some (some (.Boolean (!lexLt (b.map tolower) (a.map tolower))), context) ∧
    Eval_Comp_String_String .GreaterOrEqual (.String a) (.String b) context =
      some (some (.Boolean (!lexLt (a.map tolower) (b.map tolower))), context) ∧
    (∀ x y : List Char, lexLt x y = true ↔ x < y) ∧
    Operator.Evaluate (ScriptToken.CanConvertTo context) ExpressionEvaluator.Error
        (callEval env other) ⟨13, "==", 2, .Equals, kOpRule_Equality true⟩
        (.String a) (some (.String b)) context =
      some (some (.Boolean (decide (a.map tolower = b.map tolower))), context) ∧
    Operator.Evaluate (ScriptToken.CanConvertTo context) ExpressionEvaluator.Error
        (callEval env other) ⟨15, "<", 2, .LessThan, kOpRule_Comparison true⟩
        (.String a) (some (.String b)) context =
      some (some (.Boolean (lexLt (a.map tolower) (b.map tolower))), context) ∧
    Eval_Eq_String .Equals (.String "ABC".toList) (.String "abc".toList) context =
      some (some (.Boolean true), context) ∧
    Eval_Comp_String_String .LessThan (.String "ABC".toList) (.String "abd".toList) context =
      some (some (.Boolean true), context) := by
  obtain ⟨s1, s2, s3⟩ := stricmp_spec a b ha hb
  have ea : cstr a = a := cstr_of_no_nul a ha
  have eb : cstr b = b := cstr_of_no_nul b hb
  have e1 : decide (stricmp a b = 0) = decide (a.map tolower = b.map tolower) :=
    decide_eq_decide.mpr s1
  have e2 : decide (stricmp a b ≠ 0) = !decide (a.map tolower = b.map tolower) := by
    rw [← e1]
    simp
  have e3 : decide (stricmp a b < 0) = lexLt (a.map tolower) (b.map tolower) := by
    rw [Bool.eq_iff_iff]
    simpa using s2
  have e4 : decide (stricmp a b > 0) = lexLt (b.map tolower) (a.map tolower) := by
    rw [Bool.eq_iff_iff]
    simpa using s3
  have e5 : decide (stricmp a b ≤ 0) = !lexLt (b.map tolower) (a.map tolower) := by
    rw [← e4, Bool.eq_iff_iff]
    simp only [decide_eq_true_eq, Bool.not_eq_true', decide_eq_false_iff_not]
    omega
  have e6 : decide (stricmp a b ≥ 0) = !lexLt (a.map tolower) (b.map tolower) := by
    rw [← e3, Bool.eq_iff_iff]
    simp only [decide_eq_true_eq, Bool.not_eq_true', decide_eq_false_iff_not]
    omega
  have h1 : Eval_Eq_String .Equals (.String a) (.String b) context =
      some (some (.Boolean (decide (a.map tolower = b.map tolower))), context) := by
    simp only [Eval_Eq_String, ScriptToken.GetString, ea, eb, e1]
  have h3 : Eval_Comp_String_String .LessThan (.String a) (.String b) context =
      some (some (.Boolean (lexLt (a.map tolower) (b.map tolower))), context) := by
    simp only [Eval_Comp_String_String, ScriptToken.GetString, ea, eb, e3]
  refine ⟨h1, ?_, h3, ?_, ?_, ?_, lexLt_iff_lt, ?_, ?_, ?_, ?_⟩
  · simp only [Eval_Eq_String, ScriptToken.GetString, ea, eb, e2]
  · simp only [Eval_Comp_String_String, ScriptToken.GetString, ea, eb, e4]
  · simp only [Eval_Comp_String_String, ScriptToken.GetString, ea, eb, e5]
  · simp only [Eval_Comp_String_String, ScriptToken.GetString, ea, eb, e6]
  · rw [← h1]
    simp [Operator.Evaluate, Operator.EvaluateRules, Operator.matchRule, kOpRule_Equality,
      OP_HANDLER, editorOnly, Operator.IsUnary, ScriptToken.CanConvertTo,
      ScriptToken.TokenType, callEval]
  · rw [← h3]
    simp [Operator.Evaluate, Operator.EvaluateRules, Operator.matchRule, kOpRule_Comparison,
      OP_HANDLER, editorOnly, Operator.IsUnary, ScriptToken.CanConvertTo,
      ScriptToken.TokenType, callEval]
  · rfl
  · rfl

/-- Witness for C14: `"Hello" == "hELLO"`. -/
theorem string_comparison_ignores_case_witness :
    Eval_Eq_String .Equals (.String "Hello".toList) (.String "hELLO".toList) sampleContext =
      some (some (.Boolean true), sampleContext) :=
  (string_comparison_ignores_case "Hello".toList "hELLO".toList sampleContext sampleEvalEnv
    (fun _ _ _ _ _ => none) (by decide) (by decide)).1

theorem cstr_append (x y : List Char) (h : NUL ∉ x) : cstr (x ++ y) = x ++ cstr y := by
  unfold cstr
  apply List.takeWhile_append_of_pos
  intro c hc
  simp only [bne_iff_ne, ne_eq]
  intro e
  exact h (e ▸ hc)

theorem cstr_cstr_append (x y : List Char) : cstr (cstr x ++ cstr y) = cstr x ++ cstr y := by
  rw [cstr_append _ _ (cstr_no_nul x), cstr_of_no_nul _ (cstr_no_nul y)]

/-- C18: string concatenation by `+` is associative.  For all strings `a`,
`b`, `c`, `Eval_Add_String` applied to the result of `Eval_Add_String(a, b)`
and `c`, and applied to `a` and the result of `Eval_Add_String(b, c)`, return
the same `String`, the concatenation of the three C strings, which is
`a ++ b ++ c` for strings without a NUL; the state is left as it was, and the
operator `+` of the table resolves to this routine for two strings.  So `"a"`,
`"b"`, `"c"` give `"abc"` either way. -/
theorem string_concatenation_is_associative (op : OperatorType) (a b c : List Char)
    (context : ExpressionEvaluator) (env : EvalEnv)
    (other : EvalFn → OperatorType → ScriptToken → Option ScriptToken →
      ExpressionEvaluator → EvalResult) :
    Eval_Add_String op (.String a) (.String b) context =
      some (some (.String (cstr a ++ cstr b)), context) ∧
    Eval_Add_String op (.String (cstr a ++ cstr b)) (.String c) context =
      some (some (.String (cstr a ++ cstr b ++ cstr c)), context) ∧
    Eval_Add_String op (.String b) (.String c) context =
      some (some (.String (cstr b ++ cstr c)), context) ∧
    Eval_Add_String op (.String a) (.String (cstr b ++ cstr c)) context =
      some (some (.String (cstr a ++ cstr b ++ cstr c)), context) ∧
    (NUL ∉ a → NUL ∉ b → NUL ∉ c → cstr a ++ cstr b ++ cstr c = a ++ b ++ c) ∧
    Operator.Evaluate (ScriptToken.CanConvertTo context) ExpressionEvaluator.Error
        (callEval env other) opAdd (.String a) (some (.String b)) context =
      some (some (.String (cstr a ++ cstr b)), context) ∧
    Eval_Add_String op (.String "a".toList) (.String "b".toList) context =
      some (some (.String "ab".toList), context) ∧
    Eval_Add_String op (.String "ab".toList) (.String "c".toList) context =
      some (some (.String "abc".toList), context) ∧
    Eval_Add_String op (.String "b".toList) (.String "c".toList) context =
      some (some (.String "bc".toList), context) ∧
    Eval_Add_String op (.String "a".toList) (.String "bc".toList) context =
      some (some (.String "abc".toList), context) := by
  refine ⟨rfl, ?_, rfl, ?_, ?_, ?_, rfl, rfl, rfl, rfl⟩
  · simp only [Eval_Add_String, ScriptToken.GetString, cstr_cstr_append]
  · simp only [Eval_Add_String, ScriptToken.GetString, cstr_cstr_append, List.append_assoc]
  · intro ha hb hc
    rw [cstr_of_no_nul a ha, cstr_of_no_nul b hb, cstr_of_no_nul c hc]
  · simp [Operator.Evaluate, Operator.EvaluateRules, Operator.matchRule, opAdd,
      kOpRule_Addition, OP_HANDLER, editorOnly, Operator.IsUnary, ScriptToken.CanConvertTo,
      ScriptToken.TokenType, callEval, Eval_Add_String, ScriptToken.GetString]

/-- Counterexample to C15: the routine `Eval_Box_Number` of the unary box
operator `&` is not of the assignment family, and applied to the number 7 it
adds an array to the array store.  So do `Eval_In` of `<-`, applied to an array
variable, and `Eval_Subscript_Array_Slice`, when `MakeSlice` succeeds. -/
theorem box_changes_the_array_store :
    EvalFn.Eval_Box_Number ∉ assignmentRoutines ∧
    (∃ r, callEval sampleEvalEnv (fun _ _ _ _ _ => none) .Eval_Box_Number .Box (.Number 7) none
        sampleContext = some r ∧
      r.1 = some (.Array 2) ∧ sampleContext.arrays 2 = none ∧
      (r.2.arrays 2).isSome = true ∧ r.2.arrays ≠ sampleContext.arrays) ∧
    EvalFn.Eval_In ∉ assignmentRoutines ∧
    (∃ r, callEval sampleEvalEnv (fun _ _ _ _ _ => none) .Eval_In .In (.ArrayVar 0)
        (some (.Array 1)) sampleContext = some r ∧
      (r.2.arrays 2).isSome = true ∧ r.2.arrays ≠ sampleContext.arrays) ∧
    EvalFn.Eval_Subscript_Array_Slice ∉ assignmentRoutines ∧
    (∃ r, callEval { sampleEvalEnv with MakeSlice := fun _ _ _ => some (2, ⟨.Numeric, fun _ => none⟩) }
        (fun _ _ _ _ _ => none) .Eval_Subscript_Array_Slice .LeftBracket (.Array 1)
        (some (.Slice ⟨false, 0, 0, [], []⟩)) sampleContext = some r ∧
      (r.2.arrays 2).isSome = true ∧ r.2.arrays ≠ sampleContext.arrays) := by
  have e : sampleContext.arrays 2 = none := rfl
  have hne : ∀ c : ExpressionEvaluator, (c.arrays 2).isSome = true →
      c.arrays ≠ sampleContext.arrays := by
    intro c hc h
    rw [h, e] at hc
    cases hc
  exact ⟨by decide, ⟨_, rfl, rfl, rfl, rfl, hne _ rfl⟩, by decide, ⟨_, rfl, rfl, hne _ rfl⟩,
    by decide, ⟨_, rfl, rfl, hne _ rfl⟩⟩

/-- C15, amended: every operator routine other than those of the assignment
family and those that create an array or a string (`Eval_In` of `<-`, the four
`Eval_Box_*` routines of the unary `&` and `Eval_Subscript_Array_Slice`)
leaves the variables, the globals, the string store and the array store as
they were, for all operands and whatever it returns.  The assignment family is
the set of routines named `Eval_Assign_*`, `Eval_PlusEquals_*`,
`Eval_MinusEquals_*`, `Eval_TimesEquals*`, `Eval_DividedEquals*` and
`Eval_ExponentEquals*`.  A box routine leaves the variables, the globals and
the string store as they were and changes the array store only at the id of
the array it creates. -/
theorem routines_without_assignment_or_creation_are_pure (env : EvalEnv)
    (other : EvalFn → OperatorType → ScriptToken → Option ScriptToken →
      ExpressionEvaluator → EvalResult)
    (f : EvalFn) (op : OperatorType) (lh : ScriptToken) (rh : Option ScriptToken)
    (context : ExpressionEvaluator) (r : Option ScriptToken × ExpressionEvaluator)
    (hf : f ∉ assignmentRoutines) (hc : f ∉ creatingRoutines)
    (h : callEval env other f op lh rh context = some r) :
    (r.2.vars = context.vars ∧ r.2.globals = context.globals ∧
      r.2.strings = context.strings ∧ r.2.arrays = context.arrays) ∧
    (∀ g : EvalFn, g ∈ assignmentRoutines ↔
      g ∈ [EvalFn.Eval_Assign_Numeric, .Eval_Assign_String, .Eval_Assign_AssignableString,
        .Eval_Assign_Form, .Eval_Assign_Form_Number, .Eval_Assign_Global, .Eval_Assign_Array,
        .Eval_Assign_Elem_Number, .Eval_Assign_Elem_String, .Eval_Assign_Elem_Form,
        .Eval_Assign_Elem_Array, .Eval_PlusEquals_Number, .Eval_MinusEquals_Number,
        .Eval_TimesEquals, .Eval_DividedEquals, .Eval_ExponentEquals, .Eval_PlusEquals_Global,
        .Eval_MinusEquals_Global, .Eval_TimesEquals_Global, .Eval_DividedEquals_Global,
        .Eval_ExponentEquals_Global, .Eval_PlusEquals_String, .Eval_TimesEquals_String,
        .Eval_PlusEquals_Elem_Number, .Eval_MinusEquals_Elem_Number, .Eval_TimesEquals_Elem,
        .Eval_DividedEquals_Elem, .Eval_ExponentEquals_Elem, .Eval_PlusEquals_Elem_String]) ∧
    (∀ (g : EvalFn) (q : Option ScriptToken × ExpressionEvaluator),
      g ∈ [EvalFn.Eval_Box_Number, .Eval_Box_String, .Eval_Box_Form, .Eval_Box_Array] →
      callEval env other g op lh rh context = some q →
      q.1 = some (.Array (env.newArrayID context)) ∧
      q.2.vars = context.vars ∧ q.2.globals = context.globals ∧
      q.2.strings = context.strings ∧
      (∀ i, i ≠ env.newArrayID context → q.2.arrays i = context.arrays i) ∧
      (q.2.arrays (env.newArrayID context)).isSome = true) := by
  refine ⟨routines_are_pure_aux env other f op lh rh context r hf hc h,
    fun g => by cases g <;> decide, ?_⟩
  intro g q hg hq
  simp only [List.mem_cons, List.mem_singleton, List.not_mem_nil, or_false] at hg
  rcases hg with rfl | rfl | rfl | rfl <;>
  · simp only [callEval, Eval_Box_Number, Eval_Box_String, Eval_Box_Form, Eval_Box_Array,
      ExpressionEvaluator.createArray, ExpressionEvaluator.setElement,
      ExpressionEvaluator.setArray, ArrayKey.KeyType, if_true, Option.some.injEq] at hq
    subst hq
    refine ⟨rfl, rfl, rfl, rfl, ?_, ?_⟩
    · intro i hi
      simp [hi]
    · simp

/-- Witness for C15: the comparison `"ABC" < "abd"` by the routine
`Eval_Comp_String_String`. -/
theorem routines_without_assignment_or_creation_are_pure_witness :
    EvalFn.Eval_Comp_String_String ∉ assignmentRoutines ∧
    EvalFn.Eval_Comp_String_String ∉ creatingRoutines ∧
    callEval sampleEvalEnv (fun _ _ _ _ _ => none) .Eval_Comp_String_String .LessThan
        (.String "ABC".toList) (some (.String "abd".toList)) sampleContext =
      some (some (.Boolean true), sampleContext) ∧
    sampleContext.arrays = sampleContext.arrays :=
  ⟨by decide, by decide, rfl,
    (routines_without_assignment_or_creation_are_pure sampleEvalEnv (fun _ _ _ _ _ => none)
      .Eval_Comp_String_String .LessThan (.String "ABC".toList) (some (.String "abd".toList))
      sampleContext (some (.Boolean true), sampleContext) (by decide) (by decide) rfl).1.2.2.2⟩

theorem secondCharScan_mem (ch : Char) :
    ∀ (ops : List Operator),
      (∀ o, (secondCharScan ch ops).1 = some o → o ∈ ops) ∧
      (∀ o ∈ (secondCharScan ch ops).2, o ∈ ops) := by
  intro ops
  induction ops with
  | nil => simp [secondCharScan]
  | cons cur rest ih =>
    unfold secondCharScan
    split
    · refine ⟨?_, fun o ho => ho⟩
      intro o ho
      simp only [Option.some.injEq] at ho
      subst ho
      exact List.mem_cons_self _ _
    · split
      · exact ⟨fun o ho => List.mem_cons_of_mem _ (ih.1 o ho),
          fun o ho => List.mem_cons_of_mem _ (ih.2 o ho)⟩
      · refine ⟨fun o ho => List.mem_cons_of_mem _ (ih.1 o ho), ?_⟩
        intro o ho
        rcases List.mem_cons.mp ho with rfl | h
        · exact List.mem_cons_self _ _
        · exact List.mem_cons_of_mem _ (ih.2 o h)

/-- What `ParseOperator` returns is one of its candidates. -/
theorem ParseOperator_mem (env : ParserEnv) (m_len : Nat) (b c : Bool) (st : ParserState)
    (op : Operator) (h : (ParseOperator env m_len b c st).1 = some op) :
    op ∈ env.operators.filter (fun curOp =>
      (if b then curOp.IsBinary || curOp.IsClosingBracket
       else curOp.IsUnary || curOp.IsOpenBracket) &&
        st.Peek m_len st.lineOffset == curOp.sym 0) := by
  unfold ParseOperator at h
  simp only [] at h
  split at h
  · simp at h
  · generalize hops : env.operators.filter (fun curOp =>
      (if b then curOp.IsBinary || curOp.IsClosingBracket
       else curOp.IsUnary || curOp.IsOpenBracket) &&
        st.Peek m_len st.lineOffset == curOp.sym 0) = ops at h ⊢
    generalize hfound : (if (st.Peek m_len (st.lineOffset + 1) != NUL &&
        ispunct (st.Peek m_len (st.lineOffset + 1))) = true then
          secondCharScan (st.Peek m_len (st.lineOffset + 1)) ops
        else (ops.find? (fun o => o.sym 1 == NUL), ops)) = found at h
    have hfm : (∀ o, found.1 = some o → o ∈ ops) ∧ (∀ o ∈ found.2, o ∈ ops) := by
      rw [← hfound]
      split
      · exact secondCharScan_mem _ ops
      · exact ⟨fun o ho => List.mem_of_find?_eq_some ho, fun o ho => ho⟩
    have hop : ∀ o, (match found.1, found.2 with
        | none, [only] => some only
        | op, _ => op) = some o → o ∈ ops := by
      intro o ho
      split at ho
      · rename_i only h1 h2
        simp only [Option.some.injEq] at ho
        subst ho
        exact hfm.2 _ (by rw [h2]; exact List.mem_cons_self _ _)
      · exact hfm.1 o ho
    generalize hsel : (match found.1, found.2 with
        | none, [only] => some only
        | op, _ => op) = sel at h hop
    cases sel with
    | none => simp at h
    | some o =>
      have : o = op := by
        cases c <;> simpa using h
      subst this
      exact hop o rfl

theorem candidates_overloaded (ob : Bool) :
    ((s_operators ob).filter (fun curOp =>
      (curOp.IsBinary || curOp.IsClosingBracket) && '-' == curOp.sym 0)).find?
        (fun x => x.sym 1 == NUL) = some ⟨19, "-", 2, .Subtract, kOpRule_Arithmetic ob⟩ ∧
    ((s_operators ob).filter (fun curOp =>
      (curOp.IsUnary || curOp.IsOpenBracket) && '-' == curOp.sym 0)).find?
        (fun x => x.sym 1 == NUL) = some ⟨25, "-", 1, .Negation, kOpRule_Negation ob⟩ ∧
    ((s_operators ob).filter (fun curOp =>
      (curOp.IsBinary || curOp.IsClosingBracket) && '*' == curOp.sym 0)).find?
        (fun x => x.sym 1 == NUL) = some ⟨21, "*", 2, .Multiply, kOpRule_Multiply ob⟩ ∧
    ((s_operators ob).filter (fun curOp =>
      (curOp.IsUnary || curOp.IsOpenBracket) && '*' == curOp.sym 0)).find?
        (fun x => x.sym 1 == NUL) = some ⟨25, "*", 1, .Dereference, kOpRule_Dereference ob⟩ ∧
    ((s_operators ob).filter (fun curOp =>
      (curOp.IsBinary || curOp.IsClosingBracket) && '&' == curOp.sym 0)).find?
        (fun x => x.sym 1 == NUL) = some ⟨17, "&", 2, .BitwiseAnd, kOpRule_Integer ob⟩ ∧
    ((s_operators ob).filter (fun curOp =>
      (curOp.IsUnary || curOp.IsOpenBracket) && '&' == curOp.sym 0)).find?
        (fun x => x.sym 1 == NUL) = some ⟨25, "&", 1, .Box, kOpRule_Box ob⟩ := by
  cases ob <;> decide

/-- C16: `ExpressionParser::ParseOperator` resolves the overloaded symbols by
the flag that tells whether the previous token was an operand.  For text that
starts with `-`, `*` or `&` followed by a character that is not punctuation
(or by the end of the text) it returns the binary operator (`kOpType_Subtract`,
`kOpType_Multiply`, `kOpType_BitwiseAnd`) when a binary operator is expected
and the unary operator (`kOpType_Negation`, `kOpType_Dereference`,
`kOpType_Box`) when it is not, and the offset moves past the one character
when the operator is to be consumed.  In general, an operator it returns is an
entry of `s_operators` that starts with the character at the offset and is
binary or a closing bracket when a binary operator is expected, unary or an
opening bracket when it is not. -/
theorem ParseOperator_resolves_overloads (env : ParserEnv) (m_len : Nat) (c : Bool)
    (st : ParserState) :
    (ispunct (st.Peek m_len (st.lineOffset + 1)) = false →
      (st.Peek m_len st.lineOffset = '-' →
        ParseOperator env m_len true c st =
          (some ⟨19, "-", 2, .Subtract, kOpRule_Arithmetic env.oblivion⟩,
            if c then { st with lineOffset := st.lineOffset + 1 } else st) ∧
        ParseOperator env m_len false c st =
          (some ⟨25, "-", 1, .Negation, kOpRule_Negation env.oblivion⟩,
            if c then { st with lineOffset := st.lineOffset + 1 } else st)) ∧
      (st.Peek m_len st.lineOffset = '*' →
        ParseOperator env m_len true c st =
          (some ⟨21, "*", 2, .Multiply, kOpRule_Multiply env.oblivion⟩,
            if c then { st with lineOffset := st.lineOffset + 1 } else st) ∧
        ParseOperator env m_len false c st =
          (some ⟨25, "*", 1, .Dereference, kOpRule_Dereference env.oblivion⟩,
            if c then { st with lineOffset := st.lineOffset + 1 } else st)) ∧
      (st.Peek m_len st.lineOffset = '&' →
        ParseOperator env m_len true c st =
          (some ⟨17, "&", 2, .BitwiseAnd, kOpRule_Integer env.oblivion⟩,
            if c then { st with lineOffset := st.lineOffset + 1 } else st) ∧
        ParseOperator env m_len false c st =
          (some ⟨25, "&", 1, .Box, kOpRule_Box env.oblivion⟩,
            if c then { st with lineOffset := st.lineOffset + 1 } else st))) ∧
    (∀ (b : Bool) (op : Operator), (ParseOperator env m_len b c st).1 = some op →
      op ∈ s_operators env.oblivion ∧ st.Peek m_len st.lineOffset = op.sym 0 ∧
      (b = true → (op.IsBinary || op.IsClosingBracket) = true) ∧
      (b = false → (op.IsUnary || op.IsOpenBracket) = true)) ∧
    (ParseOperator plainEnv 3 true true (startState "1-x")).1 = none ∧
    ((ParseOperator plainEnv 3 true true { startState "1-x" with lineOffset := 1 }).1.map
      (fun o => o.type)) = some .Subtract ∧
    ((ParseOperator plainEnv 2 false true (startState "-x")).1.map (fun o => o.type)) =
      some .Negation := by
  refine ⟨?_, ?_, by decide, by decide, by decide⟩
  · intro hnext
    have hc := candidates_overloaded env.oblivion
    refine ⟨?_, ?_, ?_⟩
    · intro hch
      have h1 := ParseOperator_plain env m_len true c st _ (by rw [hch]; decide) hnext
        (by rw [hch]; exact hc.1)
      have h2 := ParseOperator_plain env m_len false c st _ (by rw [hch]; decide) hnext
        (by rw [hch]; exact hc.2.1)
      exact ⟨h1, h2⟩
    · intro hch
      have h1 := ParseOperator_plain env m_len true c st _ (by rw [hch]; decide) hnext
        (by rw [hch]; exact hc.2.2.1)
      have h2 := ParseOperator_plain env m_len false c st _ (by rw [hch]; decide) hnext
        (by rw [hch]; exact hc.2.2.2.1)
      exact ⟨h1, h2⟩
    · intro hch
      have h1 := ParseOperator_plain env m_len true c st _ (by rw [hch]; decide) hnext
        (by rw [hch]; exact hc.2.2.2.2.1)
      have h2 := ParseOperator_plain env m_len false c st _ (by rw [hch]; decide) hnext
        (by rw [hch]; exact hc.2.2.2.2.2)
      exact ⟨h1, h2⟩
  · intro b op h
    have hm := ParseOperator_mem env m_len b c st op h
    rw [List.mem_filter] at hm
    obtain ⟨h1, h2⟩ := hm
    simp only [Bool.and_eq_true, beq_iff_eq] at h2
    refine ⟨h1, h2.2, ?_, ?_⟩
    · intro hb
      subst hb
      simpa using h2.1
    · intro hb
      subst hb
      simpa using h2.1

theorem indexOf?_append_of_not_mem (ch : Char) :
    ∀ (s rest : List Char), ch ∉ s → (s ++ ch :: rest).indexOf? ch = some s.length := by
  intro s
  induction s with
  | nil => intro rest _; simp [List.indexOf?, List.findIdx?_cons]
  | cons c s ih =>
    intro rest h
    have hc : c ≠ ch := fun e => h (e ▸ List.mem_cons_self _ _)
    have hs : ch ∉ s := fun hm => h (List.mem_cons_of_mem _ hm)
    have := ih rest hs
    simp only [List.indexOf?] at this ⊢
    simp [List.findIdx?_cons, hc, this]

theorem indexOf?_none_of_not_mem (ch : Char) :
    ∀ (s : List Char), ch ∉ s → s.indexOf? ch = none := by
  intro s h
  simp only [List.indexOf?, List.findIdx?_eq_none_iff]
  intro x hx
  rw [beq_eq_false_iff_ne]
  intro e
  exact h (e ▸ hx)

theorem FormatStringLoop_of_no_percent (s : List Char) (h : '%' ∉ s) :
    ∀ fuel pos, FormatStringLoop fuel pos s = s := by
  intro fuel pos
  cases fuel with
  | zero => rfl
  | succ fuel =>
    have : findFrom '%' pos s = none := by
      unfold findFrom
      rw [indexOf?_none_of_not_mem '%' _ (fun hm => h (List.mem_of_mem_drop hm))]
    simp [FormatStringLoop, this]

theorem strchrFrom_quote (pre s post : List Char) (hq : '"' ∉ s) (hn : NUL ∉ s) :
    strchrFrom (pre ++ '"' :: (s ++ '"' :: post)) (pre.length + 1) '"' =
      some (pre.length + 1 + s.length) := by
  unfold strchrFrom
  have hd : (pre ++ '"' :: (s ++ '"' :: post)).drop (pre.length + 1) = s ++ '"' :: post := by
    rw [List.drop_append_eq_append_drop]
    simp
  rw [hd]
  have ht : (s ++ '"' :: post).takeWhile (fun c => c != NUL) =
      s ++ '"' :: post.takeWhile (fun c => c != NUL) := by
    rw [List.takeWhile_append_of_pos]
    · rw [List.takeWhile_cons]
      simp [NUL]
    · intro c hc
      simp only [bne_iff_ne, ne_eq]
      intro e
      exact hn (e ▸ hc)
  rw [ht, indexOf?_append_of_not_mem '"' s _ hq]

/-- Counterexample to C17: the string `%q`, written as the literal `"%q"`, is
read back as the string that holds one double quote; and the string `a"b`,
written as the literal `"a"b"`, is read back as the string `a`. -/
theorem format_specifier_breaks_round_trip :
    (ParseOperand plainEnv 4 none (startState "\"%q\"")).1 = some (.String ['"']) ∧
    (ParseOperand plainEnv 4 none (startState "\"%q\"")).1 ≠ some (.String ['%', 'q']) ∧
    (ParseOperand plainEnv 5 none (startState "\"a\"b\"")).1 = some (.String ['a']) ∧
    (ParseOperand plainEnv 5 none (startState "\"a\"b\"")).1 ≠
      some (.String ['a', '"', 'b']) := by
  have e1 : (ParseOperand plainEnv 4 none (startState "\"%q\"")).1 = some (.String ['"']) := rfl
  have e2 : (ParseOperand plainEnv 5 none (startState "\"a\"b\"")).1 = some (.String ['a']) :=
    rfl
  refine ⟨e1, ?_, e2, ?_⟩
  · intro h
    rw [e1] at h
    cases h
  · intro h
    rw [e2] at h
    cases h

/-- C17, amended: for every string `s` without a double quote (and, as a C
string, without a NUL), the literal `"s"` is read by
`ExpressionParser::ParseOperand` as the `String` token of value
`FormatString(s)`, the offset moving past the closing quote; this value is `s`
for every `s` without a `%`. -/
theorem string_literal_round_trip (env : ParserEnv) (m_len : Nat) (curOp : Option Operator)
    (st : ParserState) (pre s post : List Char)
    (hc : Cursor st m_len pre ('"' :: (s ++ '"' :: post)))
    (hq : '"' ∉ s) (hn : NUL ∉ s) :
    ParseOperand env m_len curOp st =
      (some (.String (FormatString s)),
        { st with lineOffset := st.lineOffset + s.length + 2 }) ∧
    ('%' ∉ s → FormatString s = s ∧
      ParseOperand env m_len curOp st =
        (some (.String s), { st with lineOffset := st.lineOffset + s.length + 2 })) := by
  have hpeek : st.Peek m_len st.lineOffset = '"' := hc.peek
  obtain ⟨h1, h2, h3⟩ := hc
  have hmain : ParseOperand env m_len curOp st =
      (some (.String (FormatString s)),
        { st with lineOffset := st.lineOffset + s.length + 2 }) := by
    unfold ParseOperand
    have e1 : ('"' == NUL) = false := by decide
    simp only [hpeek, e1, Bool.false_eq_true, if_false, beq_self_eq_true, if_true]
    rw [h1, h2, strchrFrom_quote pre s post hq hn]
    have hd : (pre ++ '"' :: (s ++ '"' :: post)).drop (pre.length + 1) = s ++ '"' :: post := by
      rw [List.drop_append_eq_append_drop]
      simp
    simp only [hd, Nat.add_sub_cancel_left, List.take_left']
    have hl : pre.length + 1 + s.length + 1 = pre.length + s.length + 2 := by omega
    rw [hl]
  refine ⟨hmain, ?_⟩
  intro hp
  have hf : FormatString s = s := FormatStringLoop_of_no_percent s hp _ _
  exact ⟨hf, by rw [hmain, hf]⟩

/-- Witness for C17: the literal `"abc"`. -/
theorem string_literal_round_trip_witness :
    ParseOperand plainEnv 5 none (startState "\"abc\"") =
      (some (.String "abc".toList), { startState "\"abc\"" with lineOffset := 5 }) :=
  ((string_literal_round_trip plainEnv 5 none (startState "\"abc\"") [] "abc".toList []
    ⟨rfl, rfl, rfl⟩ (by decide) (by decide)).2 (by decide)).2

/-- C11 at the argument text `1, ` with two optional parameters: `ParseArgs`
succeeds with the count byte 1, but after the one block of 3 bytes (the length
field and the number) the output holds the two bytes reserved for the length
of a second argument, which the text does not have.  Without the blank after
the comma, the output is the count byte and the block. -/
theorem ParseArgs_leaves_reserved_length_bytes :
    (ParseArgs plainEnv 10 3 [⟨"a", 0, true⟩, ⟨"b", 0, true⟩] true (startState "1, ")).map
        (fun r => (r.1, r.2.dataBuf, r.2.messages, r.2.lineOffset)) =
      some (true, [.byte 1, .len16 3, .operand (.Number 1), .len16 0], [], 3) ∧
    plainEnv.bytesFrom [.byte 1, .len16 3, .operand (.Number 1), .len16 0] 1 = 5 ∧
    (ParseArgs plainEnv 10 2 [⟨"a", 0, true⟩, ⟨"b", 0, true⟩] true (startState "1,")).map
        (fun r => (r.1, r.2.dataBuf, r.2.messages, r.2.lineOffset)) =
      some (true, [.byte 1, .len16 3, .operand (.Number 1)], [], 2) := by
  have h1 : (strtod ['1']).1 = 1 := by
    simp [strtod, digitsValue, isdigit]
  refine ⟨?_, rfl, ?_⟩
  · rw [← h1]
    rfl
  · rw [← h1]
    rfl

theorem ProcessBlocks_eq_folded (tok : List Char) (lineNo : Nat) (htok : NUL ∉ tok) :
    ∀ (blocks : List Block), (∀ b ∈ blocks, NUL ∉ b.keyword.toList) →
      ∀ (blockStack : List BlockType) (m_loopDepth : Nat) (bIsBlockKeyword : Bool),
        ProcessBlocks tok lineNo blocks blockStack m_loopDepth bIsBlockKeyword =
          ProcessBlocksFolded (tok.map tolower) lineNo blocks blockStack m_loopDepth
            bIsBlockKeyword := by
  intro blocks
  induction blocks with
  | nil => intro _ _ _ _; rfl
  | cons cur rest ih =>
    intro hk blockStack m_loopDepth bIsBlockKeyword
    have hcur : NUL ∉ cur.keyword.toList := hk cur (List.mem_cons_self _ _)
    have hrest : ∀ b ∈ rest, NUL ∉ b.keyword.toList :=
      fun b hb => hk b (List.mem_cons_of_mem _ hb)
    have e : (stricmp tok cur.keyword.toList == 0) =
        decide (tok.map tolower = cur.keyword.toList.map tolower) := by
      rw [Bool.eq_iff_iff]
      simp only [beq_iff_eq, decide_eq_true_eq]
      exact (stricmp_spec tok cur.keyword.toList htok hcur).1
    unfold ProcessBlocks ProcessBlocksFolded
    simp only [e, ih hrest]

theorem s_blocks_keywords :
    (∀ b ∈ s_blocks, NUL ∉ b.keyword.toList) ∧
    (∀ b ∈ s_blocks, b.keyword.toList.map tolower = b.keyword.toList) := by
  constructor <;> decide

theorem NextToken_no_nul (delims text token rest : List Char)
    (h : NextToken delims (cstr text) = some (token, rest)) : NUL ∉ token := by
  unfold NextToken at h
  simp only [] at h
  split at h
  · simp at h
  · simp only [Option.some.injEq, Prod.mk.injEq] at h
    intro hm
    rw [← h.1] at hm
    have h1 := (List.takeWhile_sublist _).subset hm
    have h2 := (List.dropWhile_sublist _).subset h1
    exact cstr_no_nul text h2

/-- C20: `Preprocessor::Process` rejects a mismatched terminator.  Whenever the
first token of the current line is, letter case aside, the keyword of a
terminating entry of the block table (`end`, `loop`, `elseif`, `else`,
`endif`) and the stack of open blocks is empty or has a block of another kind
on top, `Process` returns false after the error "Invalid ... block structure"
for the current line, which names the kind on top of the stack, or the kind of
the terminator when the stack is empty.  So `loop` alone is rejected naming
`Loop`, and `ENDIF` on the line after `begin` naming `Begin/End`. -/
theorem Process_rejects_mismatched_terminator (env : PreprocessorEnv) (fuel : Nat)
    (blockStack : List BlockType) (p : Preprocessor) (token rest : List Char) (cur : Block)
    (htok : NextToken s_delims (cstr p.m_curLineText) = some (token, rest))
    (hcur : cur ∈ s_blocks) (hterm : cur.IsTerminator = true)
    (hkw : token.map tolower = cur.keyword.toList)
    (hstack : blockStack.head? ≠ some cur.type) :
    ProcessLoop env (fuel + 1) blockStack p =
      some (.error (.InvalidBlockStructure
        (BlockTypeAsString (blockStack.head?.getD cur.type)) p.m_curLineNo)) ∧
    (s_blocks.filter Block.IsTerminator).map (fun b => b.keyword) =
      ["end", "loop", "elseif", "else", "endif"] ∧
    PrecompileScript env 10 "loop".toList = some (.error (.InvalidBlockStructure "Loop" 1)) ∧
    PrecompileScript env 10 "begin\r\nENDIF".toList =
      some (.error (.InvalidBlockStructure "Begin/End" 2)) := by
  refine ⟨?_, by decide, rfl, rfl⟩
  have hn : NUL ∉ token := NextToken_no_nul _ _ _ _ htok
  unfold ProcessLoop
  simp only [htok]
  rw [ProcessBlocks_eq_folded token _ hn s_blocks s_blocks_keywords.1, hkw]
  simp only [s_blocks, List.mem_cons, List.mem_singleton, List.not_mem_nil, or_false] at hcur
  rcases hcur with rfl | rfl | rfl | rfl | rfl | rfl | rfl | rfl | rfl
  all_goals first
    | exact absurd hterm (by decide)
    | (cases blockStack with
       | nil => rfl
       | cons top below =>
         cases top
         all_goals first
           | exact absurd rfl hstack
           | rfl)

/-- Witness for C20: the line `EndIf` while a loop is the innermost open
block. -/
theorem Process_rejects_mismatched_terminator_witness :
    ProcessLoop ⟨fun _ _ => .Invalid, fun _ => none⟩ 1 [.Loop, .ScriptBlock]
        ⟨1, "EndIf".toList, 3, [], 0⟩ =
      some (.error (.InvalidBlockStructure "Loop" 3)) :=
  (Process_rejects_mismatched_terminator ⟨fun _ _ => .Invalid, fun _ => none⟩ 0
    [.Loop, .ScriptBlock] ⟨1, "EndIf".toList, 3, [], 0⟩ "EndIf".toList []
    ⟨"endif", .If, 2⟩ rfl (by decide) rfl rfl (by decide)).1

/-- C24 at the lines `"a";x` and `"a""b;c"`: `StripComments` leaves the first
line as it is, although its `;` follows the closed literal `"a"`, and cuts the
second line at the `;` that lies inside the literal `"b;c"`.  After a closing
quote the loop skips one character: a `;` there is not seen, and an opening
quote there is not seen either, so that the text of the next literal is read
as if it were outside.  With a blank after the closing quote (`"a" ;x`) the
comment is cut off. -/
theorem StripComments_skips_after_closing_quote :
    StripComments "\"a\";x".toList = "\"a\";x".toList ∧
    StripComments "\"a\"\"b;c\"".toList = "\"a\"\"b".toList ∧
    StripComments "\"a\" ;x".toList = "\"a\" ".toList ∧
    StripComments "x;y".toList = "x".toList ∧
    StripComments "\"b;c\"".toList = "\"b;c\"".toList := by
  refine ⟨by decide, by decide, by decide, by decide, by decide⟩

theorem ProcessLoop_succ (env : PreprocessorEnv) (fuel : Nat) (blockStack : List BlockType)
    (p : Preprocessor) :
    ProcessLoop env (fuel + 1) blockStack p =
      match ProcessStep env blockStack p with
      | .failed msg => some (.error msg)
      | .next blockStack p => ProcessLoop env fuel blockStack p
      | .finished blockStack => some (finishProcess blockStack) := by
  rw [ProcessLoop]
  unfold ProcessStep ProcessAdvance
  cases NextToken s_delims (cstr p.m_curLineText) with
  | none =>
    simp only []
    split <;> simp_all
  | some tr =>
    obtain ⟨token, rest⟩ := tr
    simp only []
    cases ProcessBlocks token p.m_curLineNo s_blocks blockStack p.m_loopDepth false with
    | error msg => rfl
    | ok r =>
      obtain ⟨bs, d, kw⟩ := r
      simp only []
      cases (if (!kw) = true then ProcessStatement env { p with m_loopDepth := d } token rest
        else none) with
      | some msg => rfl
      | none =>
        simp only []
        split <;> simp_all

theorem ProcessLoop_iter (env : PreprocessorEnv) (fuel : Nat) :
    ∀ (n : Nat) (blockStack : List BlockType) (p : Preprocessor)
      (blockStack' : List BlockType) (p' : Preprocessor),
      ProcessIter env n blockStack p = some (blockStack', p') →
      ProcessLoop env (n + fuel) blockStack p = ProcessLoop env fuel blockStack' p' := by
  intro n
  induction n with
  | zero =>
    intro blockStack p blockStack' p' h
    simp only [ProcessIter, Option.some.injEq, Prod.mk.injEq] at h
    rw [h.1, h.2, Nat.zero_add]
  | succ n ih =>
    intro blockStack p blockStack' p' h
    rw [show n + 1 + fuel = (n + fuel) + 1 by omega, ProcessLoop_succ]
    unfold ProcessIter at h
    cases hs : ProcessStep env blockStack p with
    | failed msg => rw [hs] at h; simp at h
    | finished bs => rw [hs] at h; simp at h
    | next bs q =>
      rw [hs] at h
      exact ih bs q blockStack' p' h

theorem findCRLF_bounds (text : List Char) :
    ∀ (fuel pos e : Nat), findCRLF text fuel pos = some e → pos ≤ e ∧ e + 1 < text.length := by
  intro fuel
  induction fuel with
  | zero => intro pos e h; simp [findCRLF] at h
  | succ fuel ih =>
    intro pos e h
    unfold findCRLF at h
    split at h
    · split at h
      · simp only [Option.some.injEq] at h
        omega
      · have := ih _ _ h
        omega
    · simp at h

/-- `AdvanceLine` changes neither the text nor `m_loopDepth`, keeps the
line number at most the offset and the offset within the text, and counts at
least one line when it returns true. -/
theorem AdvanceLine_spec :
    ∀ (fuel : Nat) (p : Preprocessor),
      (AdvanceLine fuel p).2.m_scriptText = p.m_scriptText ∧
      (AdvanceLine fuel p).2.m_loopDepth = p.m_loopDepth ∧
      (p.m_curLineNo ≤ p.m_scriptTextOffset →
        (AdvanceLine fuel p).2.m_curLineNo ≤ (AdvanceLine fuel p).2.m_scriptTextOffset) ∧
      (p.m_scriptTextOffset ≤ p.m_scriptText.length →
        (AdvanceLine fuel p).2.m_scriptTextOffset ≤ p.m_scriptText.length) ∧
      ((AdvanceLine fuel p).1 = true → p.m_curLineNo + 1 ≤ (AdvanceLine fuel p).2.m_curLineNo) := by
  intro fuel
  induction fuel with
  | zero => intro p; simp [AdvanceLine]
  | succ fuel ih =>
    intro p
    unfold AdvanceLine
    split
    · simp
    · rename_i hlt
      simp only []
      cases hf : findCRLF p.m_scriptText p.m_scriptText.length p.m_scriptTextOffset with
      | none =>
        simp only [true_and, implies_true, and_true, le_refl]
        intro h; omega
      | some endPos =>
        have hb := findCRLF_bounds _ _ _ _ hf
        simp only []
        split
        · rename_i heq
          have ih' := ih { m_loopDepth := p.m_loopDepth, m_curLineText := p.m_curLineText, m_curLineNo := p.m_curLineNo + 1, m_scriptText := p.m_scriptText, m_scriptTextOffset := p.m_scriptTextOffset + 2 }
          simp only [] at ih'
          have heq' : p.m_scriptTextOffset = endPos := by simpa using heq
          refine ⟨ih'.1, ih'.2.1, ?_, ?_, ?_⟩
          · intro h; exact ih'.2.2.1 (by omega)
          · intro h; exact ih'.2.2.2.1 (by omega)
          · intro h; have := ih'.2.2.2.2 h; omega
        · rename_i hne
          have hne' : p.m_scriptTextOffset ≠ endPos := by simpa using hne
          refine ⟨rfl, rfl, ?_, ?_, ?_⟩
          · intro h; simp only []; omega
          · intro _; simp only []; omega
          · intro _; exact Nat.le_refl _

/-- The loop over the block table keeps `m_loopDepth` equal to the number of
loops on the stack of open blocks, as long as that number stays below 2^32;
the stack grows by at most one entry for each entry of the table that has the
token as its keyword. -/
theorem ProcessBlocksFolded_loopDepth (f : List Char) (lineNo : Nat) :
    ∀ (blocks : List Block) (stack : List BlockType) (d : Nat) (kw : Bool)
      (stack' : List BlockType) (d' : Nat) (kw' : Bool),
      d = stack.count .Loop →
      stack.length + blocks.countP (fun b => decide (f = b.keyword.toList.map tolower))
        < 4294967296 →
      ProcessBlocksFolded f lineNo blocks stack d kw = .ok (stack', d', kw') →
      d' = stack'.count .Loop ∧
      stack'.length ≤
        stack.length + blocks.countP (fun b => decide (f = b.keyword.toList.map tolower)) := by
  intro blocks
  induction blocks with
  | nil =>
    intro stack d kw stack' d' kw' hd _ h
    simp only [ProcessBlocksFolded, Except.ok.injEq, Prod.mk.injEq] at h
    obtain ⟨rfl, rfl, rfl⟩ := h
    exact ⟨hd, by simp⟩
  | cons cur rest ih =>
    intro stack d kw stack' d' kw' hd hlt h
    unfold ProcessBlocksFolded at h
    have hc := List.count_le_length BlockType.Loop stack
    by_cases hm : f = cur.keyword.toList.map tolower
    · have hcp : (cur :: rest).countP (fun b => decide (f = b.keyword.toList.map tolower)) =
          rest.countP (fun b => decide (f = b.keyword.toList.map tolower)) + 1 := by
        rw [List.countP_cons_of_pos]; simpa using hm
      rw [hcp] at hlt ⊢
      simp only [hm, decide_True, if_true] at h
      -- the terminating part
      have key : ∀ (s1 : List BlockType) (d1 : Nat), d1 = s1.count .Loop →
          s1.length ≤ stack.length →
          (if cur.IsOpener = true then
            ProcessBlocksFolded (cur.keyword.toList.map tolower) lineNo rest (cur.type :: s1)
              (if (cur.type == BlockType.Loop) = true then (d1 + 1) % 4294967296 else d1) true
          else ProcessBlocksFolded (cur.keyword.toList.map tolower) lineNo rest s1 d1 true) =
            .ok (stack', d', kw') →
          d' = stack'.count .Loop ∧
            stack'.length ≤ stack.length +
              (rest.countP (fun b => decide (f = b.keyword.toList.map tolower)) + 1) := by
        intro s1 d1 hd1 hl1 h1
        have hc1 := List.count_le_length BlockType.Loop s1
        split at h1
        · have := ih (cur.type :: s1)
            (if (cur.type == BlockType.Loop) = true then (d1 + 1) % 4294967296 else d1) true
            stack' d' kw' (by
              cases hty : cur.type <;> simp [hd1]
              omega) (by
              simp only [List.length_cons]; omega) (hm ▸ h1)
          simp only [List.length_cons] at this
          exact ⟨this.1, by omega⟩
        · have := ih s1 d1 true stack' d' kw' hd1 (by omega) (hm ▸ h1)
          exact ⟨this.1, by omega⟩
      by_cases ht : cur.IsTerminator = true
      · simp only [ht, if_true] at h
        cases stack with
        | nil => simp at h
        | cons top below =>
          simp only [] at h
          by_cases htop : top = cur.type
          · subst htop
            simp only [bne_self_eq_false, Bool.false_eq_true, if_false] at h
            refine key below _ ?_ (by simp) h
            subst hd
            simp only [List.length_cons] at hlt
            cases hty : cur.type <;> simp [hty] at hc ⊢
            omega
          · have : (top != cur.type) = true := by simpa using htop
            simp [this] at h
      · simp only [ht, if_false] at h
        exact key stack d hd (Nat.le_refl _) h
    · have hcp : (cur :: rest).countP (fun b => decide (f = b.keyword.toList.map tolower)) =
          rest.countP (fun b => decide (f = b.keyword.toList.map tolower)) := by
        rw [List.countP_cons_of_neg]; simpa using hm
      rw [hcp] at hlt ⊢
      simp only [hm, decide_False, Bool.false_eq_true, if_false] at h
      exact ih stack d kw stack' d' kw' hd hlt h

/-- No token is the keyword of two entries of the block table. -/
theorem s_blocks_countP_le_one (f : List Char) :
    s_blocks.countP (fun b => decide (f = b.keyword.toList.map tolower)) ≤ 1 := by
  by_cases h : ∃ b ∈ s_blocks, f = b.keyword.toList.map tolower
  · obtain ⟨b, hb, rfl⟩ := h
    revert b
    decide
  · have : s_blocks.countP (fun b => decide (f = b.keyword.toList.map tolower)) = 0 := by
      rw [List.countP_eq_zero]
      intro b hb hf
      exact h ⟨b, hb, by simpa using hf⟩
    omega

/-- The state of the loop of `Preprocessor::Process` that C21 and the
loop-depth property rest on: the text is that of the script, `m_loopDepth` is
the number of loops on the stack of open blocks, and the stack is not higher
than the number of lines read. -/
theorem ProcessIter_invariant (env : PreprocessorEnv) (scriptText : List Char)
    (hlen : scriptText.length < 4294967295) :
    ∀ (n : Nat) (blockStack : List BlockType) (p : Preprocessor)
      (blockStack' : List BlockType) (p' : Preprocessor),
      (p.m_scriptText = scriptText ∧ p.m_loopDepth = blockStack.count .Loop ∧
        blockStack.length ≤ p.m_curLineNo ∧ p.m_curLineNo ≤ p.m_scriptTextOffset ∧
        p.m_scriptTextOffset ≤ p.m_scriptText.length) →
      ProcessIter env n blockStack p = some (blockStack', p') →
      (p'.m_scriptText = scriptText ∧ p'.m_loopDepth = blockStack'.count .Loop ∧
        blockStack'.length ≤ p'.m_curLineNo ∧ p'.m_curLineNo ≤ p'.m_scriptTextOffset ∧
        p'.m_scriptTextOffset ≤ p'.m_scriptText.length) := by
  intro n
  induction n with
  | zero =>
    intro blockStack p blockStack' p' hinv h
    simp only [ProcessIter, Option.some.injEq, Prod.mk.injEq] at h
    rw [← h.1, ← h.2]
    exact hinv
  | succ n ih =>
    intro blockStack p blockStack' p' hinv h
    obtain ⟨htext, hdepth, hstack, hline, hoff⟩ := hinv
    unfold ProcessIter at h
    cases hs : ProcessStep env blockStack p with
    | failed msg => rw [hs] at h; simp at h
    | finished bs => rw [hs] at h; simp at h
    | next bs q =>
      rw [hs] at h
      simp only [] at h
      refine ih bs q blockStack' p' ?_ h
      -- the statement `bContinue = AdvanceLine()`
      have adv : ∀ (s1 : List BlockType) (p1 : Preprocessor),
          p1.m_scriptText = scriptText → p1.m_loopDepth = s1.count .Loop →
          s1.length ≤ p1.m_curLineNo + 1 → p1.m_curLineNo ≤ p1.m_scriptTextOffset →
          p1.m_scriptTextOffset ≤ p1.m_scriptText.length →
          ProcessAdvance s1 p1 = .next bs q →
          (q.m_scriptText = scriptText ∧ q.m_loopDepth = bs.count .Loop ∧
            bs.length ≤ q.m_curLineNo ∧ q.m_curLineNo ≤ q.m_scriptTextOffset ∧
            q.m_scriptTextOffset ≤ q.m_scriptText.length) := by
        intro s1 p1 h1 h2 h3 h4 h5 ha
        unfold ProcessAdvance at ha
        have hsp := AdvanceLine_spec (p1.m_scriptText.length + 1) p1
        split at ha
        · rename_i htrue
          simp only [ProcessStepResult.next.injEq] at ha
          obtain ⟨rfl, rfl⟩ := ha
          have h6 := hsp.2.2.2.2 htrue
          refine ⟨hsp.1.trans h1, hsp.2.1.trans h2, by omega, hsp.2.2.1 h4, ?_⟩
          rw [hsp.1]
          exact hsp.2.2.2.1 h5
        · simp at ha
      unfold ProcessStep at hs
      cases htok : NextToken s_delims (cstr p.m_curLineText) with
      | none =>
        rw [htok] at hs
        exact adv blockStack p htext hdepth (by omega) hline hoff hs
      | some tr =>
        obtain ⟨token, rest⟩ := tr
        rw [htok] at hs
        simp only [] at hs
        have hn : NUL ∉ token := NextToken_no_nul _ _ _ _ htok
        cases hb : ProcessBlocks token p.m_curLineNo s_blocks blockStack p.m_loopDepth false with
        | error msg => rw [hb] at hs; simp at hs
        | ok r =>
          obtain ⟨s1, d1, kw⟩ := r
          rw [hb] at hs
          simp only [] at hs
          rw [ProcessBlocks_eq_folded token _ hn s_blocks s_blocks_keywords.1] at hb
          have h1 := s_blocks_countP_le_one (token.map tolower)
          have h2 := ProcessBlocksFolded_loopDepth (token.map tolower) p.m_curLineNo s_blocks
            blockStack p.m_loopDepth false s1 d1 kw hdepth (by rw [htext] at hoff; omega) hb
          split at hs
          · simp at hs
          · exact adv s1 { p with m_loopDepth := d1 } htext h2.1 (by simp only []; omega)
              hline hoff hs

/-- The invariant holds when `Process` starts. -/
theorem Preprocessor_new_invariant (scriptText : List Char) :
    (Preprocessor_new scriptText).m_scriptText = scriptText ∧
    (Preprocessor_new scriptText).m_loopDepth = ([] : List BlockType).count .Loop ∧
    ([] : List BlockType).length ≤ (Preprocessor_new scriptText).m_curLineNo ∧
    (Preprocessor_new scriptText).m_curLineNo ≤ (Preprocessor_new scriptText).m_scriptTextOffset ∧
    (Preprocessor_new scriptText).m_scriptTextOffset ≤
      (Preprocessor_new scriptText).m_scriptText.length := by
  have hsp := AdvanceLine_spec (scriptText.length + 1)
    { m_loopDepth := 0, m_curLineText := [], m_curLineNo := 0, m_scriptText := scriptText, m_scriptTextOffset := 0 }
  unfold Preprocessor_new
  refine ⟨hsp.1, hsp.2.1, Nat.zero_le _, hsp.2.2.1 (Nat.le_refl _), ?_⟩
  rw [hsp.1]
  exact hsp.2.2.2.1 (Nat.zero_le _)

theorem stricmp_eq_zero_iff (tok : List Char) (k : String) (htok : NUL ∉ tok)
    (hk : NUL ∉ k.toList) :
    (stricmp tok k.toList == 0) = decide (tok.map tolower = k.toList.map tolower) := by
  rw [Bool.eq_iff_iff]
  simp only [beq_iff_eq, decide_eq_true_eq]
  exact (stricmp_spec tok k.toList htok hk).1

/-- C21: `continue`, `break` and `return` lines.  At any line that the loop
of `Preprocessor::Process` arrives at (after `n` lines passed without error)
whose first token is, letter case aside, `continue` or `break`: when no loop
is on the stack of open blocks, `Process` returns false after the error
"Function ... must be called from within a loop" for that line; when a loop is
open (at any depth of the stack), the line is accepted and `Process` goes on
with the next line, the stack unchanged.  For a `return` line it is the other
way round: with a loop open anywhere on the stack `Process` returns false after
"Return cannot be called within the body of a loop", with none the line is
accepted.  The script is shorter than 2^32 - 1 characters, so that the 32-bit
counter `m_loopDepth` cannot wrap. -/
theorem Process_checks_loop_statements (env : PreprocessorEnv) (scriptText : List Char)
    (hlen : scriptText.length < 4294967295) (n fuel : Nat)
    (blockStack : List BlockType) (p : Preprocessor) (token rest : List Char)
    (hreach : ProcessIter env n [] (Preprocessor_new scriptText) = some (blockStack, p))
    (htok : NextToken s_delims (cstr p.m_curLineText) = some (token, rest)) :
    ((token.map tolower = "continue".toList ∨ token.map tolower = "break".toList) →
      (BlockType.Loop ∉ blockStack →
        PrecompileScript env (n + (fuel + 1)) scriptText =
          some (.error (.MustBeCalledFromWithinLoop p.m_curLineNo token))) ∧
      (BlockType.Loop ∈ blockStack →
        PrecompileScript env (n + (fuel + 1)) scriptText =
          if (AdvanceLine (p.m_scriptText.length + 1) p).1 then
            ProcessLoop env fuel blockStack (AdvanceLine (p.m_scriptText.length + 1) p).2
          else some (finishProcess blockStack))) ∧
    (token.map tolower = "return".toList →
      (BlockType.Loop ∈ blockStack →
        PrecompileScript env (n + (fuel + 1)) scriptText =
          some (.error (.ReturnWithinLoop p.m_curLineNo))) ∧
      (BlockType.Loop ∉ blockStack →
        PrecompileScript env (n + (fuel + 1)) scriptText =
          if (AdvanceLine (p.m_scriptText.length + 1) p).1 then
            ProcessLoop env fuel blockStack (AdvanceLine (p.m_scriptText.length + 1) p).2
          else some (finishProcess blockStack))) := by
  have hinv := ProcessIter_invariant env scriptText hlen n [] (Preprocessor_new scriptText)
    blockStack p (Preprocessor_new_invariant scriptText) hreach
  have hdepth : p.m_loopDepth = blockStack.count .Loop := hinv.2.1
  have hrun : PrecompileScript env (n + (fuel + 1)) scriptText =
      ProcessLoop env (fuel + 1) blockStack p :=
    ProcessLoop_iter env (fuel + 1) n [] (Preprocessor_new scriptText) blockStack p hreach
  have hn : NUL ∉ token := NextToken_no_nul _ _ _ _ htok
  have hzero : BlockType.Loop ∉ blockStack ↔ p.m_loopDepth = 0 := by
    rw [hdepth, List.count_eq_zero]
  have hblocks : ProcessBlocks token p.m_curLineNo s_blocks blockStack p.m_loopDepth false =
      ProcessBlocksFolded (token.map tolower) p.m_curLineNo s_blocks blockStack p.m_loopDepth
        false :=
    ProcessBlocks_eq_folded token _ hn s_blocks s_blocks_keywords.1 _ _ _
  have e1 := stricmp_eq_zero_iff token "continue" hn (by decide)
  have e2 := stricmp_eq_zero_iff token "break" hn (by decide)
  have e3 := stricmp_eq_zero_iff token "set" hn (by decide)
  have e4 := stricmp_eq_zero_iff token "return" hn (by decide)
  rw [hrun, ProcessLoop]
  simp only [htok, hblocks]
  constructor
  · intro hcb
    have hb : ProcessBlocksFolded (token.map tolower) p.m_curLineNo s_blocks blockStack
        p.m_loopDepth false = .ok (blockStack, p.m_loopDepth, false) := by
      rcases hcb with h | h <;> rw [h] <;> rfl
    have hc : (stricmp token "continue".toList == 0 || stricmp token "break".toList == 0) =
        true := by
      rw [e1, e2]
      rcases hcb with h | h <;> rw [h] <;> rfl
    rw [hb]
    simp only [ProcessStatement, hc, if_true, Bool.not_false]
    constructor
    · intro hl
      have : p.m_loopDepth = 0 := hzero.mp hl
      simp [this]
    · intro hl
      have : p.m_loopDepth ≠ 0 := fun h => (hzero.mpr h) hl
      simp [this]
  · intro hr
    have hb : ProcessBlocksFolded (token.map tolower) p.m_curLineNo s_blocks blockStack
        p.m_loopDepth false = .ok (blockStack, p.m_loopDepth, false) := by
      rw [hr]; rfl
    have hc : (stricmp token "continue".toList == 0 || stricmp token "break".toList == 0) =
        false := by
      rw [e1, e2, hr]; rfl
    have hs : (stricmp token "set".toList == 0) = false := by
      rw [e3, hr]; rfl
    have hret : (stricmp token "return".toList == 0) = true := by
      rw [e4, hr]; rfl
    rw [hb]
    simp only [ProcessStatement, hc, hs, hret, Bool.not_false, if_true, Bool.true_and]
    constructor
    · intro hl
      have : p.m_loopDepth ≠ 0 := fun h => (hzero.mpr h) hl
      simp [this]
    · intro hl
      have : p.m_loopDepth = 0 := hzero.mp hl
      have hp : (⟨0, p.m_curLineText, p.m_curLineNo, p.m_scriptText, p.m_scriptTextOffset⟩ :
          Preprocessor) = p := by rw [← this]
      simp [this, hp]

/-- Witness for C21: the line `return` inside an `if` block inside a `while`
loop. -/
theorem Process_checks_loop_statements_witness :
    PrecompileScript ⟨fun _ _ => .Invalid, fun _ => none⟩ (2 + (0 + 1))
        "while 1\r\nif 1\r\nreturn".toList = some (.error (.ReturnWithinLoop 3)) :=
  ((Process_checks_loop_statements ⟨fun _ _ => .Invalid, fun _ => none⟩
    "while 1\r\nif 1\r\nreturn".toList (by decide) 2 0 [.If, .Loop]
    ⟨1, "return".toList, 3, "while 1\r\nif 1\r\nreturn".toList, 21⟩ "return".toList []
    rfl rfl).2 rfl).1 (by decide)

/-- Counterexample for C22: for the script `begin`, `if 1`, `endif` without
`end`, with line feeds or with carriage return and line feed between the lines,
`Process` returns false after the error "Error: Mismatched block structure.";
the text of that error does not contain `Begin/End`: it names no kind of
block. -/
theorem end_of_input_error_names_no_block :
    PrecompileScript ⟨fun _ _ => .Invalid, fun _ => none⟩ 2 "begin\n if 1\n endif\n".toList =
      some (.error .MismatchedBlockStructure) ∧
    PrecompileScript ⟨fun _ _ => .Invalid, fun _ => none⟩ 3
        "begin\r\n if 1\r\n endif\r\n".toList = some (.error .MismatchedBlockStructure) ∧
    PreprocessorMessage.text .MismatchedBlockStructure = "Error: Mismatched block structure." ∧
    ¬ ("Begin/End".toList <:+: (PreprocessorMessage.text .MismatchedBlockStructure).toList) := by
  refine ⟨rfl, rfl, rfl, by decide⟩

/-- C22, amended: a script that leaves a block open at the end of the input
fails preprocessing with the error "Error: Mismatched block structure.".  When
the loop of `Process` ends (`AdvanceLine` returns false after the line that the
loop arrived at after `n` lines) and the stack of open blocks is not empty,
`Process` returns false after that error, whatever the kinds of the open
blocks.  So it does for the script `begin`, `if 1`, `endif` with line feeds
between the lines. -/
theorem Process_reports_open_block_at_end (env : PreprocessorEnv) (scriptText : List Char)
    (n fuel : Nat) (blockStack blockStack' : List BlockType) (p : Preprocessor)
    (hreach : ProcessIter env n [] (Preprocessor_new scriptText) = some (blockStack, p))
    (hend : ProcessStep env blockStack p = .finished blockStack')
    (hopen : blockStack' ≠ []) :
    PrecompileScript env (n + (fuel + 1)) scriptText = some (.error .MismatchedBlockStructure) ∧
    PreprocessorMessage.text .MismatchedBlockStructure =
      "Error: Mismatched block structure." ∧
    PrecompileScript env (fuel + 1) "begin\n if 1\n endif\n".toList =
      some (.error .MismatchedBlockStructure) := by
  refine ⟨?_, rfl, rfl⟩
  have hrun : PrecompileScript env (n + (fuel + 1)) scriptText =
      ProcessLoop env (fuel + 1) blockStack p :=
    ProcessLoop_iter env (fuel + 1) n [] (Preprocessor_new scriptText) blockStack p hreach
  rw [hrun, ProcessLoop_succ, hend]
  cases blockStack' with
  | nil => exact absurd rfl hopen
  | cons top below => rfl

/-- Witness for C22: the script `begin`, `if 1`, `endif` with carriage return
and line feed after each line; the loop ends after the third line with the
`begin` block open. -/
theorem Process_reports_open_block_at_end_witness :
    PrecompileScript ⟨fun _ _ => .Invalid, fun _ => none⟩ (2 + (0 + 1))
        "begin\r\n if 1\r\n endif\r\n".toList = some (.error .MismatchedBlockStructure) :=
  (Process_reports_open_block_at_end ⟨fun _ _ => .Invalid, fun _ => none⟩
    "begin\r\n if 1\r\n endif\r\n".toList 2 0 [.If, .ScriptBlock] [.ScriptBlock]
    ⟨0, " endif".toList, 3, "begin\r\n if 1\r\n endif\r\n".toList, 22⟩ rfl rfl (by decide)).1

/-- Counterexample for C23: the script `while 1`, `continue`, `loop` with line
feeds between the lines (and likewise with the two characters backslash and
`n`) is a single line for `AdvanceLine`, which looks for a carriage return
followed by a line feed; only the token `while` is looked at, the loop stays
open and `Process` returns false after "Error: Mismatched block structure.". -/
theorem line_feed_script_fails :
    PrecompileScript ⟨fun _ _ => .Invalid, fun _ => none⟩ 2
        "while 1\n continue\n loop\n".toList = some (.error .MismatchedBlockStructure) ∧
    PrecompileScript ⟨fun _ _ => .Invalid, fun _ => none⟩ 2
        "while 1\\n continue\\n loop\\n".toList = some (.error .MismatchedBlockStructure) ∧
    (Preprocessor_new "while 1\n continue\n loop\n".toList).m_curLineText =
      "while 1\n continue\n loop\n".toList ∧
    (AdvanceLine 100 (Preprocessor_new "while 1\n continue\n loop\n".toList)).1 = false := by
  refine ⟨rfl, rfl, by decide, by decide⟩

/-- C23, amended: the script `while 1`, `continue`, `loop` with a carriage
return and a line feed after each line passes preprocessing: `Process` returns
true, for all collaborators and with fuel for three passes of its loop or more;
the last line may also end without the line end. -/
theorem while_continue_loop_passes (env : PreprocessorEnv) (fuel : Nat) :
    PrecompileScript env (fuel + 3) "while 1\r\n continue\r\n loop\r\n".toList = some (.ok ()) ∧
    PrecompileScript env (fuel + 3) "while 1\r\n continue\r\n loop".toList = some (.ok ()) :=
  ⟨rfl, rfl⟩

/-- The parameters that `numExpectedArgs` counts are those that no optional
parameter precedes and that are not optional themselves. -/
theorem numExpectedArgs_spec :
    ∀ (params : List ParamInfo) (i : Nat),
      i < numExpectedArgs params ↔
        i < params.length ∧
          ∀ j, j ≤ i → ∀ p, params.get? j = some p → p.isOptional = false := by
  intro params
  induction params with
  | nil => intro i; simp [numExpectedArgs]
  | cons q rest ih =>
    intro i
    unfold numExpectedArgs at ih ⊢
    cases hq : q.isOptional with
    | true =>
      simp only [List.takeWhile_cons, hq, Bool.not_true, Bool.false_eq_true, if_false,
        List.length_nil, Nat.not_lt_zero, List.length_cons, false_iff, not_and, not_forall]
      intro _
      exact ⟨0, Nat.zero_le _, q, rfl, by simp [hq]⟩
    | false =>
      simp only [List.takeWhile_cons, hq, Bool.not_false, if_true, List.length_cons]
      cases i with
      | zero =>
        simp only [Nat.zero_lt_succ, Nat.le_zero_eq, true_and, true_iff]
        intro j hj p hp
        subst hj
        simp only [List.get?_cons_zero, Option.some.injEq] at hp
        rw [← hp, hq]
      | succ i =>
        rw [Nat.succ_lt_succ_iff, Nat.succ_lt_succ_iff, ih i]
        constructor
        · rintro ⟨h1, h2⟩
          refine ⟨h1, ?_⟩
          intro j hj p hp
          cases j with
          | zero =>
            simp only [List.get?_cons_zero, Option.some.injEq] at hp
            rw [← hp, hq]
          | succ j => exact h2 j (by omega) p (by simpa using hp)
        · rintro ⟨h1, h2⟩
          exact ⟨h1, fun j hj p hp => h2 (j + 1) (by omega) p (by simpa using hp)⟩

/-- Counterexample for C26: with the parameters `a` (optional) and `b`
(required), `ParseArgs` returns true and shows no message for the empty
argument text and for the text `1`, although `b` receives no argument; with the
required parameter `c` after the optional `b` the text `1` passes as well.
And with two required parameters the text `)` fails with TooManyArgs, not with
MissingParam. -/
theorem ParseArgs_accepts_missing_late_required :
    (ParseArgs plainEnv 10 0 [⟨"a", 0, true⟩, ⟨"b", 0, false⟩] true (startState "")).map
        (fun r => (r.1, r.2.dataBuf, r.2.messages)) = some (true, [.byte 0], []) ∧
    (ParseArgs plainEnv 10 1 [⟨"a", 0, true⟩, ⟨"b", 0, false⟩] true (startState "1")).map
        (fun r => (r.1, r.2.messages)) = some (true, []) ∧
    (ParseArgs plainEnv 10 1 [⟨"a", 0, false⟩, ⟨"b", 0, true⟩, ⟨"c", 0, false⟩] true
        (startState "1")).map (fun r => (r.1, r.2.messages)) = some (true, []) ∧
    (ParseArgs plainEnv 10 1 [⟨"a", 0, false⟩, ⟨"b", 0, false⟩] true (startState ")")).map
        (fun r => (r.1, r.2.messages)) = some (false, [.kError_TooManyArgs]) := by
  refine ⟨by decide, by decide, by decide, by decide⟩

/-- C26, amended: the check for required arguments of `ParseArgs` counts the
parameters before the first optional one.  When the loop over the arguments has
ended with `k` arguments parsed and the check for left-over text has passed,
`ParseArgs` returns false after the error MissingParam, with the type string
of parameter `k` and the index `k + 1`, if `k` is smaller than the number of
parameters before the first optional one, and otherwise returns true and stores
`k` in the count byte.  Parameter `i` is counted exactly when neither it nor
any parameter before it is optional; a required parameter after an optional
one is not counted. -/
theorem ParseArgs_checks_leading_required (env : ParserEnv) (fuel m_len : Nat)
    (params : List ParamInfo) (bUsesOBSEParamTypes : Bool) (st st' : ParserState) (k : Nat)
    (hloop : ParseArgsLoop env (ParseSubExpression env fuel m_len) m_len bUsesOBSEParamTypes
        params 0 (st.write (.byte 0)).dataBuf.length
        { st.write (.byte 0) with lineOffset := skipSpaces (st.write (.byte 0)) m_len (m_len - st.lineOffset) st.lineOffset } =
      some (some k, st'))
    (hleft : (decide (st'.lineOffset < m_len) && st'.s_parserDepth == 1) = false) :
    (k < numExpectedArgs params →
      ParseArgs env fuel m_len params bUsesOBSEParamTypes st =
        some (false, st'.Show (.kError_MissingParam
          (((params.get? k).map (fun p => p.typeStr)).getD "") (k + 1)))) ∧
    (numExpectedArgs params ≤ k →
      ParseArgs env fuel m_len params bUsesOBSEParamTypes st =
        some (true, { st' with dataBuf := st'.dataBuf.set st.dataBuf.length (.byte k) })) ∧
    (∀ i, i < numExpectedArgs params ↔
      i < params.length ∧ ∀ j, j ≤ i → ∀ p, params.get? j = some p → p.isOptional = false) := by
  have e : ParseArgs env fuel m_len params bUsesOBSEParamTypes st =
      some (finishParseArgs m_len params st.dataBuf.length k st') := by
    unfold ParseArgs ParseArgsWith
    simp only []
    exact (congrArg (fun r => match r with
      | none => none
      | some (none, st1) => some (false, st1)
      | some (some m_numArgsParsed, st1) =>
        some (finishParseArgs m_len params st.dataBuf.length m_numArgsParsed st1)) hloop : _)
  refine ⟨?_, ?_, numExpectedArgs_spec params⟩
  · intro hk
    rw [e]
    unfold finishParseArgs
    simp [hleft, hk]
  · intro hk
    rw [e]
    unfold finishParseArgs
    have : ¬ numExpectedArgs params > k := by omega
    simp [hleft, this]

/-- Witness for C26: the empty argument text with the parameters `a`
(required), `b` (optional) and `c` (required). -/
theorem ParseArgs_checks_leading_required_witness :
    ParseArgs plainEnv 10 0 [⟨"a", 0, false⟩, ⟨"b", 0, true⟩, ⟨"c", 0, false⟩] true
        (startState "") =
      some (false, ((startState "").write (.byte 0)).Show (.kError_MissingParam "a" 1)) :=
  (ParseArgs_checks_leading_required plainEnv 10 0
    [⟨"a", 0, false⟩, ⟨"b", 0, true⟩, ⟨"c", 0, false⟩] true (startState "")
    ((startState "").write (.byte 0)) 0 rfl rfl).1 (by decide)

/-- Shape of the run-time rule tables: every rule has a handler, and a rule
that is not asymmetric and has two different operand types is a rule with the
right type `Number` that only rules with the left type `Array` follow. -/
theorem runtime_rules_swap_shape :
    ∀ op ∈ s_operators true,
      (∀ r ∈ op.rules, r.eval.isSome = true) ∧
      op.rules.Pairwise (fun r r' =>
        r.bAsymmetric = true ∨ r.lhs = r.rhs ∨ (r.rhs = .Number ∧ r'.lhs = .Array)) := by
  decide

/-- Modelled conversions: no token converts both to `Number` and to `Array`. -/
theorem CanConvertTo_Number_not_Array (context : ExpressionEvaluator) (t : ScriptToken) :
    t.CanConvertTo context .Number = true → t.CanConvertTo context .Array = false := by
  cases t <;> simp [ScriptToken.CanConvertTo, ScriptToken.TokenType]
  rename_i arrID key
  cases key with
  | none => simp
  | some key =>
    simp only []
    cases context.arrays arrID with
    | none => simp
    | some a =>
      simp only []
      cases a.elems key with
      | none => simp
      | some v => cases v <;> simp

/-- For a binary operator whose rules have the shape of the run-time tables, a
rule that matches in swapped order only is followed by no rule that matches
directly. -/
theorem Operator.swapped_only_when_no_direct {Tok : Type}
    (CanConvertTo : Tok → Token_Type → Bool) (op : Operator) (hbin : op.IsUnary = false)
    (lhs rhs : Tok)
    (hconv : ∀ t, CanConvertTo t .Number = true → CanConvertTo t .Array = false)
    (r r' : OperationRule)
    (hshape : r.bAsymmetric = true ∨ r.lhs = r.rhs ∨ (r.rhs = .Number ∧ r'.lhs = .Array))
    (hd : Operator.matchesDirect CanConvertTo op r lhs (some rhs) = false)
    (hs : Operator.matchesSwapped CanConvertTo op r lhs (some rhs) = true) :
    Operator.matchesDirect CanConvertTo op r' lhs (some rhs) = false := by
  simp only [Operator.matchesDirect, Operator.matchesSwapped, hbin, Bool.false_eq_true,
    if_false, Option.any_some, Bool.not_false, Bool.true_and, Bool.and_eq_true,
    Bool.not_eq_true', Bool.and_eq_false_iff] at hd hs ⊢
  obtain ⟨⟨hasym, h1⟩, h2⟩ := hs
  rcases hshape with h | h | ⟨h, h'⟩
  · rw [h] at hasym; cases hasym
  · rw [h] at hd h1
    rcases hd with hd | hd
    · rw [h2] at hd; cases hd
    · rw [h1] at hd; cases hd
  · rw [h] at h2
    rw [h']
    exact Or.inl (hconv lhs h2)

/-- The rule scan of `Operator::Evaluate` for a binary operator over rules
of the shape of the run-time tables: when a rule matches directly the handler of
the first such rule is called with the operands in their order; when the first
rule that matches at all matches in swapped order only, no rule matches
directly and its handler is called with the operands swapped. -/
theorem Operator.EvaluateRules_direct_first {Tok Ctx : Type}
    (CanConvertTo : Tok → Token_Type → Bool) (Error : String → Ctx → Ctx)
    (call : EvalFn → OperatorType → Tok → Option Tok → Ctx → Option (Option Tok × Ctx))
    (op : Operator) (hbin : op.IsUnary = false) (lhs rhs : Tok) (context : Ctx)
    (hconv : ∀ t, CanConvertTo t .Number = true → CanConvertTo t .Array = false) :
    ∀ (rules : List OperationRule), (∀ r ∈ rules, r.eval.isSome = true) →
      rules.Pairwise (fun r r' =>
        r.bAsymmetric = true ∨ r.lhs = r.rhs ∨ (r.rhs = .Number ∧ r'.lhs = .Array)) →
      (∀ rule, rules.find? (fun r => Operator.matchesDirect CanConvertTo op r lhs (some rhs)) =
          some rule →
        ∃ eval, rule.eval = some eval ∧
          Operator.EvaluateRules CanConvertTo Error call op lhs (some rhs) context rules =
            call eval op.type lhs (some rhs) context) ∧
      (∀ rule, rules.find? (fun r => Operator.matchesDirect CanConvertTo op r lhs (some rhs) ||
            Operator.matchesSwapped CanConvertTo op r lhs (some rhs)) = some rule →
        Operator.matchesDirect CanConvertTo op rule lhs (some rhs) = false →
        (∀ r ∈ rules, Operator.matchesDirect CanConvertTo op r lhs (some rhs) = false) ∧
        ∃ eval, rule.eval = some eval ∧
          Operator.EvaluateRules CanConvertTo Error call op lhs (some rhs) context rules =
            call eval op.type rhs (some lhs) context) := by
  intro rules
  induction rules with
  | nil =>
    intro _ _
    exact ⟨fun rule h => by simp at h, fun rule h => by simp at h⟩
  | cons r rest ih =>
    intro heval hpair
    rw [List.pairwise_cons] at hpair
    obtain ⟨hr, hrest⟩ := hpair
    have ih' := ih (fun x hx => heval x (List.mem_cons_of_mem _ hx)) hrest
    have hre : r.eval.isSome = true := heval r (List.mem_cons_self _ _)
    obtain ⟨eval, he⟩ := Option.isSome_iff_exists.mp hre
    -- what `matchRule` gives in terms of the two ways to match
    have hm : Operator.matchRule CanConvertTo op r lhs (some rhs) =
        some (Operator.matchesDirect CanConvertTo op r lhs (some rhs) ||
            Operator.matchesSwapped CanConvertTo op r lhs (some rhs),
          !Operator.matchesDirect CanConvertTo op r lhs (some rhs) &&
            Operator.matchesSwapped CanConvertTo op r lhs (some rhs)) := by
      simp only [Operator.matchRule, Operator.matchesDirect, Operator.matchesSwapped, hbin,
        Bool.false_and, Bool.false_eq_true, if_false, Option.map_some', Option.any_some,
        Bool.not_false, Bool.true_and]
      cases CanConvertTo lhs r.lhs <;> cases CanConvertTo rhs r.rhs <;>
        cases r.bAsymmetric <;> cases CanConvertTo rhs r.lhs <;>
        cases CanConvertTo lhs r.rhs <;> rfl
    constructor
    · intro rule hf
      rw [List.find?_cons] at hf
      cases hd : Operator.matchesDirect CanConvertTo op r lhs (some rhs) with
      | true =>
        rw [hd] at hf
        simp only [Option.some.injEq] at hf
        subst hf
        refine ⟨eval, he, ?_⟩
        rw [Operator.EvaluateRules, he]
        simp only [hm, hd, Bool.true_or, Bool.not_true, Bool.false_and]
        rfl
      | false =>
        rw [hd] at hf
        simp only [] at hf
        obtain ⟨eval', he', hres⟩ := ih'.1 rule hf
        refine ⟨eval', he', ?_⟩
        have hmem : rule ∈ rest := List.mem_of_find?_eq_some hf
        have hdr : Operator.matchesDirect CanConvertTo op rule lhs (some rhs) = true := by
          have := List.find?_some hf
          simpa using this
        have hs : Operator.matchesSwapped CanConvertTo op r lhs (some rhs) = false := by
          cases hs : Operator.matchesSwapped CanConvertTo op r lhs (some rhs) with
          | false => rfl
          | true =>
            have := Operator.swapped_only_when_no_direct CanConvertTo op hbin lhs rhs hconv r
              rule (hr rule hmem) hd hs
            rw [this] at hdr
            cases hdr
        rw [Operator.EvaluateRules, he]
        simp only [hm, hd, hs, Bool.or_false]
        exact hres
    · intro rule hf hdrule
      rw [List.find?_cons] at hf
      cases hds : (Operator.matchesDirect CanConvertTo op r lhs (some rhs) ||
          Operator.matchesSwapped CanConvertTo op r lhs (some rhs)) with
      | true =>
        rw [hds] at hf
        simp only [Option.some.injEq] at hf
        subst hf
        have hs : Operator.matchesSwapped CanConvertTo op r lhs (some rhs) = true := by
          rw [hdrule] at hds
          simpa using hds
        refine ⟨?_, eval, he, ?_⟩
        · intro x hx
          rw [List.mem_cons] at hx
          rcases hx with rfl | hx
          · exact hdrule
          · exact Operator.swapped_only_when_no_direct CanConvertTo op hbin lhs rhs hconv r x
              (hr x hx) hdrule hs
        · rw [Operator.EvaluateRules, he]
          simp only [hm, hdrule, hs, Bool.false_or, Bool.not_false, Bool.true_and]
          rfl
      | false =>
        rw [hds] at hf
        simp only [] at hf
        have hd : Operator.matchesDirect CanConvertTo op r lhs (some rhs) = false := by
          cases h : Operator.matchesDirect CanConvertTo op r lhs (some rhs) with
          | false => rfl
          | true => rw [h] at hds; simp at hds
        obtain ⟨hall, eval', he', hres⟩ := ih'.2 rule hf hdrule
        refine ⟨?_, eval', he', ?_⟩
        · intro x hx
          rw [List.mem_cons] at hx
          rcases hx with rfl | hx
          · exact hd
          · exact hall x hx
        · rw [Operator.EvaluateRules, he]
          simp only [hm, hds]
          exact hres

/-- C28: for every binary operator of the run-time table and every pair of
operands, when at least one rule of the operator matches the operands in their
order, `Operator::Evaluate` calls the handler of the first such rule with the
operands unswapped; and when the rule it applies matches in swapped order only,
no rule of the operator matches the operands directly.  The loop of `Evaluate`
tries both orders rule by rule; the two descriptions agree because, in these
tables, a rule that can match in swapped order only is followed only by rules
with the left type `Array`, and no token converts both to `Number` and to
`Array`. -/
theorem Evaluate_prefers_direct_match {Tok Ctx : Type}
    (CanConvertTo : Tok → Token_Type → Bool) (Error : String → Ctx → Ctx)
    (call : EvalFn → OperatorType → Tok → Option Tok → Ctx → Option (Option Tok × Ctx))
    (op : Operator) (hop : op ∈ s_operators true) (hbin : op.numOperands = 2)
    (lhs rhs : Tok) (context : Ctx)
    (hconv : ∀ t, CanConvertTo t .Number = true → CanConvertTo t .Array = false) :
    (∀ rule, op.rules.find? (fun r => Operator.matchesDirect CanConvertTo op r lhs (some rhs)) =
        some rule →
      ∃ eval, rule.eval = some eval ∧
        Operator.Evaluate CanConvertTo Error call op lhs (some rhs) context =
          call eval op.type lhs (some rhs) context) ∧
    (∀ rule, op.rules.find? (fun r => Operator.matchesDirect CanConvertTo op r lhs (some rhs) ||
          Operator.matchesSwapped CanConvertTo op r lhs (some rhs)) = some rule →
      Operator.matchesDirect CanConvertTo op rule lhs (some rhs) = false →
      (∀ r ∈ op.rules, Operator.matchesDirect CanConvertTo op r lhs (some rhs) = false) ∧
      ∃ eval, rule.eval = some eval ∧
        Operator.Evaluate CanConvertTo Error call op lhs (some rhs) context =
          call eval op.type rhs (some lhs) context) := by
  have hun : op.IsUnary = false := by simp [Operator.IsUnary, hbin]
  have hshape := runtime_rules_swap_shape op hop
  have h := Operator.EvaluateRules_direct_first CanConvertTo Error call op hun lhs rhs context
    hconv op.rules hshape.1 hshape.2
  have he : Operator.Evaluate CanConvertTo Error call op lhs (some rhs) context =
      Operator.EvaluateRules CanConvertTo Error call op lhs (some rhs) context op.rules := by
    simp [Operator.Evaluate, hbin]
  rw [he]
  exact h

/-- Witness for C28: `0 == form`; the rule `(Form, Number)` of `==` matches in
swapped order only, and `Eval_Eq_Form_Number` is called with the operands
swapped. -/
theorem Evaluate_prefers_direct_match_witness :
    (∀ r ∈ opEquals.rules, Operator.matchesDirect (ScriptToken.CanConvertTo sampleContext)
      opEquals r (.Number 0) (some (.Form 5)) = false) ∧
    ∃ eval, (⟨.Form, .Number, .Boolean, some .Eval_Eq_Form_Number, false⟩ :
        OperationRule).eval = some eval ∧
      Operator.Evaluate (ScriptToken.CanConvertTo sampleContext) ExpressionEvaluator.Error
          (callEval sampleEvalEnv (fun _ _ _ _ _ => none)) opEquals (.Number 0)
          (some (.Form 5)) sampleContext =
        callEval sampleEvalEnv (fun _ _ _ _ _ => none) eval opEquals.type (.Form 5)
          (some (.Number 0)) sampleContext :=
  (Evaluate_prefers_direct_match (ScriptToken.CanConvertTo sampleContext)
    ExpressionEvaluator.Error (callEval sampleEvalEnv (fun _ _ _ _ _ => none)) opEquals
    (by decide) rfl (.Number 0) (.Form 5) sampleContext
    (CanConvertTo_Number_not_Array sampleContext)).2
    ⟨.Form, .Number, .Boolean, some .Eval_Eq_Form_Number, false⟩ rfl rfl

/-- C27: `Cmd_IsControl_Execute` stores the number of the control in `*result`
for a key that is bound to a game control, not 1: for key 17, bound to control
0, the result is 0, as for a key that is no control at all, and for key 30,
bound to control 3, it is 3; the result is 1 only for a key bound to control
1.  For a key bound to no game control the result is 2 when the set of mods
registered for the key is not empty, as it is after `SetIsControl key 1`, and 0
otherwise. -/
theorem IsControl_returns_control_number (env : InputEnv) (key modIndex : Nat)
    (registeredControls : RegisteredControlMap) :
    (Cmd_IsControl_Execute env (some key) registeredControls).2 =
      (if env.GetControlFromKeycode key = 255 then
        (if registeredControls key = [] then 0 else 2)
      else (env.GetControlFromKeycode key : ℚ)) ∧
    (Cmd_IsControl_Execute sampleInputEnv (some 17) (fun _ => [])).2 = 0 ∧
    (Cmd_IsControl_Execute sampleInputEnv (some 30) (fun _ => [])).2 = 3 ∧
    (Cmd_IsControl_Execute sampleInputEnv (some 57) (fun _ => [])).2 = 1 ∧
    (Cmd_IsControl_Execute sampleInputEnv (some 40) (fun _ => [])).2 = 0 ∧
    (Cmd_IsControl_Execute sampleInputEnv (some 40)
      (Cmd_SetIsControl_Execute sampleInputEnv (some (40, 1)) 5 (fun _ => [])).2).2 = 2 ∧
    (key < env.kMaxMacros → env.GetControlFromKeycode key = 255 →
      (Cmd_IsControl_Execute env (some key)
        (Cmd_SetIsControl_Execute env (some (key, 1)) modIndex registeredControls).2).2 = 2) := by
  refine ⟨?_, ?_, ?_, ?_, ?_, ?_, ?_⟩
  · simp only [Cmd_IsControl_Execute]
    by_cases h : env.GetControlFromKeycode key = 255
    · by_cases h' : registeredControls key = [] <;> simp [h, h']
    · simp [h]
  · simp [Cmd_IsControl_Execute, sampleInputEnv]
  · simp [Cmd_IsControl_Execute, sampleInputEnv]
  · simp [Cmd_IsControl_Execute, sampleInputEnv]
  · simp [Cmd_IsControl_Execute, sampleInputEnv]
  · simp [Cmd_IsControl_Execute, Cmd_SetIsControl_Execute, sampleInputEnv]
  · intro hk hc
    simp only [Cmd_IsControl_Execute, Cmd_SetIsControl_Execute, hk, hc, if_true, bne_self_eq_false,
      Bool.false_eq_true, if_false, beq_self_eq_true, Bool.true_and, Function.update_same]
    have hne : ((registeredControls key).insert modIndex).length ≠ 0 := by
      intro h
      have hm : modIndex ∈ (registeredControls key).insert modIndex := List.mem_insert_self _ _
      rw [List.length_eq_zero.mp h] at hm
      cases hm
    simp [hne]

theorem dropWhile_head_false {α : Type} (p : α → Bool) :
    ∀ (l : List α) (c : α) (t : List α), l.dropWhile p = c :: t → p c = false := by
  intro l
  induction l with
  | nil => intro c t h; simp at h
  | cons a l ih =>
    intro c t h
    rw [List.dropWhile_cons] at h
    split at h
    · exact ih c t h
    · rename_i hp
      simp only [List.cons.injEq] at h
      rw [← h.1]
      simpa using hp

/-- A call of `NextToken` that yields a token leaves a shorter text. -/
theorem NextToken_rest_length (delims text token rest : List Char)
    (h : NextToken delims text = some (token, rest)) : rest.length < text.length := by
  unfold NextToken at h
  simp only [] at h
  split at h
  · simp at h
  · rename_i hne
    simp only [Option.some.injEq, Prod.mk.injEq] at h
    rw [← h.2]
    have h1 : (List.dropWhile (fun c => delims.contains c) text).length ≤ text.length :=
      (List.dropWhile_sublist _).length_le
    cases ht : List.dropWhile (fun c => delims.contains c) text with
    | nil => rw [ht] at hne; simp at hne
    | cons c t =>
      have hc : delims.contains c = false :=
        dropWhile_head_false (fun c => delims.contains c) text c t ht
      rw [ht] at h1
      have h2 : List.dropWhile (fun c => !delims.contains c) (c :: t) =
          List.dropWhile (fun c => !delims.contains c) t := by
        rw [List.dropWhile_cons]
        simp only [hc, Bool.not_false, if_true]
      rw [h2]
      have h3 : (List.dropWhile (fun c => !delims.contains c) t).length ≤ t.length :=
        (List.dropWhile_sublist _).length_le
      simp only [List.length_cons] at h1
      omega

/-- The fuel of `Tokenizer_tokens` is enough: with more fuel than the text
has characters the tokens are the same. -/
theorem allTokens_fuel (delims : List Char) :
    ∀ (fuel : Nat) (text : List Char), text.length < fuel →
      ∀ (fuel' : Nat), text.length < fuel' →
        allTokens delims fuel text = allTokens delims fuel' text := by
  intro fuel
  induction fuel with
  | zero => intro text h; omega
  | succ fuel ih =>
    intro text h fuel' h'
    cases fuel' with
    | zero => omega
    | succ fuel' =>
      rw [allTokens, allTokens]
      cases hn : NextToken delims text with
      | none => rfl
      | some tr =>
        obtain ⟨token, rest⟩ := tr
        simp only []
        have hl := NextToken_rest_length delims text token rest hn
        rw [ih rest (by omega) fuel' (by omega)]

theorem GetUserFunctionParamsLines_no_begin (G : List Char → Option Nat)
    (D : List Char → List Char → VarType) (scriptText : List Char)
    (outParams : List UserFunctionParam) :
    ∀ (lines : List (List Char)), (∀ l ∈ lines, IsBeginLine l = false) →
      GetUserFunctionParamsLines G D scriptText lines outParams = (false, outParams) := by
  intro lines
  induction lines with
  | nil => intro _; rfl
  | cons l rest ih =>
    intro h
    rw [GetUserFunctionParamsLines, h l (List.mem_cons_self _ _)]
    simp only [Bool.false_eq_true, if_false]
    exact ih (fun x hx => h x (List.mem_cons_of_mem _ hx))

theorem GetUserFunctionParamsLines_first_begin (G : List Char → Option Nat)
    (D : List Char → List Char → VarType) (scriptText : List Char)
    (outParams : List UserFunctionParam) (lineText : List Char) (post : List (List Char))
    (hbegin : IsBeginLine lineText = true) :
    ∀ (pre : List (List Char)), (∀ l ∈ pre, IsBeginLine l = false) →
      GetUserFunctionParamsLines G D scriptText (pre ++ lineText :: post) outParams =
        GetUserFunctionParamsBegin G D scriptText lineText outParams := by
  intro pre
  induction pre with
  | nil =>
    intro _
    rw [List.nil_append, GetUserFunctionParamsLines, hbegin]
    simp
  | cons l rest ih =>
    intro h
    rw [List.cons_append, GetUserFunctionParamsLines, h l (List.mem_cons_self _ _)]
    simp only [Bool.false_eq_true, if_false]
    exact ih (fun x hx => h x (List.mem_cons_of_mem _ hx))

/-- The loop over the names of a parameter list, when it ends with `return
true`: every name is that of a variable with a valid declared type that no
parameter before it has, the names are pairwise distinct, the parameters are
appended in the order of the names, and their indices stay pairwise
distinct. -/
theorem GetUserFunctionParamsArgs_true (G : List Char → Option Nat)
    (D : List Char → List Char → VarType) (scriptText : List Char)
    (hidx : ∀ name idx, G name = some idx → idx < 65536) :
    ∀ (tokens : List (List Char)) (acc : List UserFunctionParam),
      (GetUserFunctionParamsArgs G D scriptText tokens acc).1 = true →
      (∀ t ∈ tokens, ∃ idx, G (cstr t) = some idx ∧ D (cstr t) (cstr scriptText) ≠ .Invalid ∧
        ∀ p ∈ acc, p.varIdx ≠ idx) ∧
      tokens.Nodup ∧
      (GetUserFunctionParamsArgs G D scriptText tokens acc).2 =
        acc ++ tokens.map (fun t =>
          UserFunctionParam.new ((G (cstr t)).getD 0) (D (cstr t) (cstr scriptText))) ∧
      ((acc.map (fun p => p.varIdx)).Nodup →
        ((GetUserFunctionParamsArgs G D scriptText tokens acc).2.map
          (fun p => p.varIdx)).Nodup) := by
  intro tokens
  induction tokens with
  | nil =>
    intro acc _
    simp [GetUserFunctionParamsArgs]
  | cons t rest ih =>
    intro acc h
    rw [GetUserFunctionParamsArgs] at h ⊢
    cases hg : G (cstr t) with
    | none => rw [hg] at h; simp at h
    | some idx =>
      rw [hg] at h
      simp only [] at h ⊢
      have hlt := hidx _ _ hg
      have hmod : idx % 65536 = idx := Nat.mod_eq_of_lt hlt
      by_cases hty : D (cstr t) (cstr scriptText) = .Invalid
      · simp [hty] at h
      · have hty' : (D (cstr t) (cstr scriptText) == VarType.Invalid) = false := by
          simpa using hty
        simp only [hty', Bool.false_eq_true, if_false] at h ⊢
        by_cases hany : acc.any (fun p => p.varIdx == idx) = true
        · simp [hany] at h
        · have hany' : acc.any (fun p => p.varIdx == idx) = false := by simpa using hany
          simp only [hany', Bool.false_eq_true, if_false] at h ⊢
          have hacc : ∀ p ∈ acc, p.varIdx ≠ idx := by
            intro p hp he
            rw [List.any_eq_false] at hany'
            exact hany' p hp (by simpa using he)
          obtain ⟨h1, h2, h3, h4⟩ := ih _ h
          refine ⟨?_, ?_, ?_, ?_⟩
          · intro x hx
            rw [List.mem_cons] at hx
            rcases hx with rfl | hx
            · exact ⟨idx, hg, hty, hacc⟩
            · obtain ⟨i, hi1, hi2, hi3⟩ := h1 x hx
              exact ⟨i, hi1, hi2, fun p hp => hi3 p (List.mem_append_left _ hp)⟩
          · rw [List.nodup_cons]
            refine ⟨?_, h2⟩
            intro hmem
            obtain ⟨i, hi1, _, hi3⟩ := h1 t hmem
            rw [hg] at hi1
            simp only [Option.some.injEq] at hi1
            have := hi3 (UserFunctionParam.new idx (D (cstr t) (cstr scriptText)))
              (List.mem_append_right _ (List.mem_singleton_self _))
            simp only [UserFunctionParam.new, hmod] at this
            exact this hi1
          · rw [h3, List.map_cons, hg]
            simp
          · intro hnd
            apply h4
            rw [List.map_append, List.nodup_append]
            refine ⟨hnd, by simp, ?_⟩
            intro a ha hb
            simp only [List.map_cons, List.map_nil, List.mem_singleton, UserFunctionParam.new,
              hmod] at hb
            rw [List.mem_map] at ha
            obtain ⟨p, hp, rfl⟩ := ha
            exact hacc p hp hb

/-- C29: `GetUserFunctionParams`, called with an empty output vector, for a
variable list whose indices fit the 16-bit member of a parameter.  It returns
false when no line of the script has `begin` as its first token.  Otherwise the
first such line decides: it returns false when the line has no `{` or no `}`
or the first `}` precedes the first `{`; with both braces in that order it
returns false when one of the names between them is not the name of a
variable, and when a name occurs twice; and when it returns true the
parameters have pairwise distinct variable indices, every name is that of a
variable with a valid declared type, and the parameters are, in the order of
the names, the index and the declared type of each name. -/
theorem GetUserFunctionParams_checks_parameter_list (G : List Char → Option Nat)
    (D : List Char → List Char → VarType) (scriptText : List Char)
    (hidx : ∀ name idx, G name = some idx → idx < 65536) :
    ((∀ l ∈ Tokenizer_tokens ['\r', '\n'] (cstr scriptText), IsBeginLine l = false) →
      (GetUserFunctionParams G D scriptText []).1 = false) ∧
    (∀ (pre : List (List Char)) (lineText : List Char) (post : List (List Char)),
      Tokenizer_tokens ['\r', '\n'] (cstr scriptText) = pre ++ lineText :: post →
      (∀ l ∈ pre, IsBeginLine l = false) → IsBeginLine lineText = true →
      ((lineText.indexOf? '{' = none ∨ lineText.indexOf? '}' = none ∨
          (∃ s e, lineText.indexOf? '{' = some s ∧ lineText.indexOf? '}' = some e ∧ e < s)) →
        (GetUserFunctionParams G D scriptText []).1 = false) ∧
      (∀ s e, lineText.indexOf? '{' = some s → lineText.indexOf? '}' = some e → s ≤ e →
        ((∃ name ∈ Tokenizer_tokens ['\t', ' ', ','] (cstr (argStr lineText s e)),
            G (cstr name) = none) →
          (GetUserFunctionParams G D scriptText []).1 = false) ∧
        (¬ (Tokenizer_tokens ['\t', ' ', ','] (cstr (argStr lineText s e))).Nodup →
          (GetUserFunctionParams G D scriptText []).1 = false) ∧
        ((GetUserFunctionParams G D scriptText []).1 = true →
          ((GetUserFunctionParams G D scriptText []).2.map (fun p => p.varIdx)).Nodup ∧
          (∀ name ∈ Tokenizer_tokens ['\t', ' ', ','] (cstr (argStr lineText s e)),
            ∃ idx, G (cstr name) = some idx ∧ D (cstr name) (cstr scriptText) ≠ .Invalid) ∧
          (GetUserFunctionParams G D scriptText []).2.map
              (fun p => (some p.varIdx, p.varType)) =
            (Tokenizer_tokens ['\t', ' ', ','] (cstr (argStr lineText s e))).map
              (fun name => (G (cstr name), D (cstr name) (cstr scriptText)))))) := by
  constructor
  · intro h
    unfold GetUserFunctionParams
    rw [GetUserFunctionParamsLines_no_begin G D scriptText [] _ h]
  · intro pre lineText post hlines hpre hbegin
    have hrun : GetUserFunctionParams G D scriptText [] =
        GetUserFunctionParamsBegin G D scriptText lineText [] := by
      unfold GetUserFunctionParams
      rw [hlines]
      exact GetUserFunctionParamsLines_first_begin G D scriptText [] lineText post hbegin pre hpre
    rw [hrun]
    constructor
    · intro h
      unfold GetUserFunctionParamsBegin
      rcases h with h | h | ⟨s, e, hs, he, hlt⟩
      · rw [h]
      · rw [h]
        cases lineText.indexOf? '{' <;> rfl
      · rw [hs, he]
        simp [hlt]
    · intro s e hs he hle
      have hb : GetUserFunctionParamsBegin G D scriptText lineText [] =
          GetUserFunctionParamsArgs G D scriptText
            (Tokenizer_tokens ['\t', ' ', ','] (cstr (argStr lineText s e))) [] := by
        unfold GetUserFunctionParamsBegin
        rw [hs, he]
        have : ¬ s > e := by omega
        simp [this]
      rw [hb]
      have key := GetUserFunctionParamsArgs_true G D scriptText hidx
        (Tokenizer_tokens ['\t', ' ', ','] (cstr (argStr lineText s e))) []
      refine ⟨?_, ?_, ?_⟩
      · rintro ⟨name, hname, hnone⟩
        cases hr : (GetUserFunctionParamsArgs G D scriptText
          (Tokenizer_tokens ['\t', ' ', ','] (cstr (argStr lineText s e))) []).1 with
        | false => rfl
        | true =>
          obtain ⟨idx, hi, _⟩ := (key hr).1 name hname
          rw [hnone] at hi
          cases hi
      · intro hnd
        cases hr : (GetUserFunctionParamsArgs G D scriptText
          (Tokenizer_tokens ['\t', ' ', ','] (cstr (argStr lineText s e))) []).1 with
        | false => rfl
        | true => exact absurd (key hr).2.1 hnd
      · intro hr
        obtain ⟨h1, _, h3, h4⟩ := key hr
        refine ⟨h4 (by simp), ?_, ?_⟩
        · intro name hname
          obtain ⟨idx, hi1, hi2, _⟩ := h1 name hname
          exact ⟨idx, hi1, hi2⟩
        · rw [h3, List.nil_append, List.map_map]
          apply List.map_congr_left
          intro name hname
          obtain ⟨idx, hi1, _, _⟩ := h1 name hname
          simp only [Function.comp, UserFunctionParam.new, hi1, Option.getD_some,
            Nat.mod_eq_of_lt (hidx _ _ hi1)]

/-- Witness for C29: a function script with the parameter list `{a, b}`. -/
theorem GetUserFunctionParams_checks_parameter_list_witness :
    ((GetUserFunctionParams sampleVarList sampleDeclaredType
        "scn f\r\nshort a\r\nshort b\r\nBegin Function {a, b}\r\nend".toList []).2.map
      (fun p => p.varIdx)).Nodup ∧
    (∀ name ∈ Tokenizer_tokens ['\t', ' ', ',']
        (cstr (argStr "Begin Function {a, b}".toList 15 20)),
      ∃ idx, sampleVarList (cstr name) = some idx ∧
        sampleDeclaredType (cstr name)
          (cstr "scn f\r\nshort a\r\nshort b\r\nBegin Function {a, b}\r\nend".toList) ≠
            .Invalid) ∧
    (GetUserFunctionParams sampleVarList sampleDeclaredType
        "scn f\r\nshort a\r\nshort b\r\nBegin Function {a, b}\r\nend".toList []).2.map
        (fun p => (some p.varIdx, p.varType)) =
      (Tokenizer_tokens ['\t', ' ', ',']
        (cstr (argStr "Begin Function {a, b}".toList 15 20))).map
        (fun name => (sampleVarList (cstr name), sampleDeclaredType (cstr name)
          (cstr "scn f\r\nshort a\r\nshort b\r\nBegin Function {a, b}\r\nend".toList))) :=
  (((GetUserFunctionParams_checks_parameter_list sampleVarList sampleDeclaredType
    "scn f\r\nshort a\r\nshort b\r\nBegin Function {a, b}\r\nend".toList
    (by
      intro name idx h
      unfold sampleVarList at h
      split at h
      · cases h; decide
      · split at h
        · cases h; decide
        · split at h
          · cases h; decide
          · cases h)).2
    ["scn f".toList, "short a".toList, "short b".toList] "Begin Function {a, b}".toList
    ["end".toList] (by decide) (by decide) (by decide)).2 15 20 (by decide) (by decide)
    (by decide)).2.2 (by decide)

theorem ParseSubExpressionLoop_succ (env : ParserEnv) (fuel m_len exprEnd : Nat)
    (ops : List Operator) (operands : List Token_Type) (bLastTokenWasOperand : Bool)
    (st : ParserState) :
    ParseSubExpressionLoop env (fuel + 1) m_len exprEnd ops operands bLastTokenWasOperand st =
      match ParseSubExpressionStep env fuel m_len exprEnd ops operands bLastTokenWasOperand
          st with
      | .outOfFuel => none
      | .returned r => some r
      | .ended ops operands st => some (finishSubExpression ops operands st)
      | .next ops operands bLastTokenWasOperand st _ =>
        ParseSubExpressionLoop env fuel m_len exprEnd ops operands bLastTokenWasOperand st := by
  rw [ParseSubExpressionLoop]
  unfold ParseSubExpressionStep
  simp only []
  split
  · rfl
  · split
    · rfl
    · generalize ParseOperator env m_len bLastTokenWasOperand true st = po
      obtain ⟨o, st1⟩ := po
      cases o with
      | some op =>
        simp only []
        split
        · generalize MatchOpenBracket (pushOpenBracket op ops operands st1).2.2 m_len op = mb
          cases mb with
          | none => rfl
          | some endBracPos =>
            simp only []
            generalize ParseSubExpression env fuel m_len
              (endBracPos - (pushOpenBracket op ops operands st1).2.2.lineOffset) _ = r
            cases r with
            | none => rfl
            | some r =>
              obtain ⟨operandType, st2⟩ := r
              simp only []
              split <;> rfl
        · split <;> rfl
      | none =>
        simp only []
        cases bLastTokenWasOperand with
        | true => rfl
        | false =>
          simp only [Bool.false_eq_true, if_false, Bool.not_false]
          generalize ParseOperator env m_len true false st1 = po2
          obtain ⟨o2, st2⟩ := po2
          cases o2 with
          | some _ => rfl
          | none =>
            simp only [Option.isSome_none, Bool.false_eq_true, if_false]
            generalize ParseOperand env m_len ops.head? st2 = pr
            obtain ⟨o, st3⟩ := pr
            cases o with
            | none => rfl
            | some operand =>
              simp only []
              cases operand.GetCommandInfo with
              | some cmdInfo =>
                simp only []
                generalize ParseFunctionCallWith env _ cmdInfo _ = r
                cases r with
                | none => rfl
                | some r =>
                  obtain ⟨bParsed, st4⟩ := r
                  simp only []
                  split <;> rfl
              | none =>
                simp only []
                split <;> rfl

/-- A `PopOperator` call that returns a type other than `kTokenType_Invalid`
has popped a two-operand operator and made the operand stack one shorter, or
has popped a one-operand operator and kept the height of the operand stack;
it shows no message. -/
theorem PopOperator_success (topOp : Operator) (operands : List Token_Type) (st : ParserState)
    (h : (PopOperator topOp operands st).1 ≠ .Invalid) :
    ((topOp.numOperands = 2 ∧ (PopOperator topOp operands st).2.1.length + 1 = operands.length) ∨
      (topOp.numOperands = 1 ∧ (PopOperator topOp operands st).2.1.length = operands.length)) ∧
    (PopOperator topOp operands st).2.2.messages = st.messages := by
  unfold PopOperator at h ⊢
  by_cases hlen : operands.length < topOp.numOperands
  · rw [if_pos hlen] at h
    exact absurd rfl h
  · rw [if_neg hlen] at h ⊢
    generalize hn : topOp.numOperands = n at h hlen ⊢
    rcases n with _ | _ | _ | n <;> rcases operands with _ | ⟨a, _ | ⟨b, rest⟩⟩ <;>
      simp only [] at h ⊢ <;> first
        | exact absurd rfl h
        | (split at h
           · exact absurd rfl h
           · rename_i hres
             rw [if_neg hres]
             simp [ParserState.write])

/-- A `PopOperator` call shows at most one message, and never
TooManyOperands. -/
theorem PopOperator_messages (topOp : Operator) (operands : List Token_Type) (st : ParserState) :
    (PopOperator topOp operands st).2.2.messages = st.messages ∨
    ∃ msg, msg ≠ CompilerMessage.kError_TooManyOperands ∧
      (PopOperator topOp operands st).2.2.messages = st.messages ++ [msg] := by
  unfold PopOperator
  by_cases hlen : operands.length < topOp.numOperands
  · rw [if_pos hlen]
    exact Or.inr ⟨_, by simp, rfl⟩
  · rw [if_neg hlen]
    generalize topOp.numOperands = n
    rcases n with _ | _ | _ | n <;> rcases operands with _ | ⟨a, _ | ⟨b, rest⟩⟩ <;>
      simp only [] <;> first
        | exact Or.inr ⟨.kError_CantParse, by simp, rfl⟩
        | (split
           · exact Or.inr ⟨_, by simp, rfl⟩
           · exact Or.inl rfl)

/-- The pop loop of the main loop keeps the number of operands within the
number of two-operand operators on the stack plus a constant, when every
`PopOperator` call succeeds. -/
theorem popWhilePrecedes_operands (op : Operator) (c : Nat) :
    ∀ (ops : List Operator) (operands : List Token_Type) (st : ParserState),
      popWhilePrecedesSucceeds op ops operands st = true →
      operands.length ≤ ops.countP Operator.IsBinary + c →
      (popWhilePrecedes op ops operands st).2.1.length ≤
        (popWhilePrecedes op ops operands st).1.countP Operator.IsBinary + c := by
  intro ops
  induction ops with
  | nil => intro operands st _ h; simpa [popWhilePrecedes] using h
  | cons topOp ops ih =>
    intro operands st hok h
    unfold popWhilePrecedes
    unfold popWhilePrecedesSucceeds at hok
    split
    · rename_i hp
      rw [if_pos hp, Bool.and_eq_true] at hok
      have hne : (PopOperator topOp operands st).1 ≠ .Invalid := by simpa using hok.1
      apply ih _ _ hok.2
      rcases (PopOperator_success topOp operands st hne).1 with ⟨h2, hl⟩ | ⟨h1, hl⟩
      · have hb : topOp.IsBinary = true := by simp [Operator.IsBinary, h2]
        rw [List.countP_cons_of_pos _ _ hb] at h
        omega
      · have hb : ¬ topOp.IsBinary = true := by simp [Operator.IsBinary, h1]
        rw [List.countP_cons_of_neg _ _ hb] at h
        omega
    · exact h

/-- The operator `ParseOperator` returns fits what was expected: a binary
operator or a closing bracket, or else a unary operator or an opening
bracket. -/
theorem ParseOperator_arity (env : ParserEnv) (m_len : Nat) (b c : Bool) (st : ParserState)
    (op : Operator) (h : (ParseOperator env m_len b c st).1 = some op) :
    (if b then op.IsBinary || op.IsClosingBracket else op.IsUnary || op.IsOpenBracket) = true := by
  have hm := ParseOperator_mem env m_len b c st op h
  rw [List.mem_filter, Bool.and_eq_true] at hm
  exact hm.2.1

/-- One pass through the main loop of `ParseSubExpression` in which every
`PopOperator` call succeeds keeps the number of operands within the number of
two-operand operators on the operator stack, plus one after an operand. -/
theorem ParseSubExpressionStep_operands (env : ParserEnv) (fuel m_len exprEnd : Nat)
    (ops : List Operator) (operands : List Token_Type) (b : Bool) (st : ParserState)
    (ops' : List Operator) (operands' : List Token_Type) (b' : Bool) (st' : ParserState)
    (hinv : operands.length ≤ ops.countP Operator.IsBinary + (if b then 1 else 0))
    (h : ParseSubExpressionStep env fuel m_len exprEnd ops operands b st =
      .next ops' operands' b' st' true) :
    operands'.length ≤ ops'.countP Operator.IsBinary + (if b' then 1 else 0) := by
  unfold ParseSubExpressionStep at h
  simp only [] at h
  split at h
  · cases h
  · split at h
    · simp only [SubExpressionStep.next.injEq] at h
      obtain ⟨rfl, rfl, rfl, _, _⟩ := h
      exact hinv
    · generalize hpo : ParseOperator env m_len b true st = po at h
      obtain ⟨o, st1⟩ := po
      cases o with
      | some op =>
        have har := ParseOperator_arity env m_len b true st op (by rw [hpo])
        simp only [] at h
        split at h
        · rename_i hopen
          generalize MatchOpenBracket (pushOpenBracket op ops operands st1).2.2 m_len op = mb at h
          cases mb with
          | none => cases h
          | some endBracPos =>
            simp only [] at h
            generalize ParseSubExpression env fuel m_len
              (endBracPos - (pushOpenBracket op ops operands st1).2.2.lineOffset) _ = r at h
            cases r with
            | none => cases h
            | some r =>
              obtain ⟨operandType, st2⟩ := r
              simp only [] at h
              split at h
              · cases h
              · simp only [SubExpressionStep.next.injEq, Bool.or_eq_true, beq_iff_eq] at h
                obtain ⟨rfl, rfl, rfl, _, hok⟩ := h
                simp only [if_true, List.length_cons]
                unfold pushOpenBracket
                by_cases hz : op.numOperands = 0
                · simp only [hz, bne_self_eq_false, Bool.false_eq_true, if_false]
                  have hb : b = false := by
                    cases b with
                    | false => rfl
                    | true =>
                      simp [Operator.IsBinary, Operator.IsClosingBracket,
                        Operator.IsOpenBracket, hz] at har hopen
                      rcases hopen with ho | ho <;> rcases har with ha | ha <;>
                        rw [ho] at ha <;> cases ha
                  rw [hb] at hinv
                  simpa using hinv
                · have hnz : (op.numOperands != 0) = true := by simpa using hz
                  have hok' : popWhilePrecedesSucceeds op ops operands st1 = true := by
                    rcases hok with hok | hok
                    · exact absurd hok hz
                    · exact hok
                  simp only [hnz, if_true]
                  cases b with
                  | false =>
                    have := popWhilePrecedes_operands op 0 ops operands st1 hok'
                      (by simpa using hinv)
                    by_cases hb : op.IsBinary = true
                    · rw [List.countP_cons_of_pos _ _ hb]; omega
                    · rw [List.countP_cons_of_neg _ _ hb]; omega
                  | true =>
                    have hb : op.IsBinary = true := by
                      simp only [if_true, Bool.or_eq_true] at har
                      rcases har with ha | ha
                      · exact ha
                      · simp [Operator.IsClosingBracket, Operator.IsOpenBracket] at ha hopen
                        rcases hopen with ho | ho <;> rcases ha with ha | ha <;>
                          rw [ho] at ha <;> cases ha
                    have := popWhilePrecedes_operands op 1 ops operands st1 hok'
                      (by simpa using hinv)
                    rw [List.countP_cons_of_pos _ _ hb]
                    omega
        · rename_i hopen
          split at h
          · cases h
          · rename_i hclose
            simp only [SubExpressionStep.next.injEq] at h
            obtain ⟨rfl, rfl, rfl, _, hok⟩ := h
            simp only [Bool.false_eq_true, if_false, Nat.add_zero]
            cases b with
            | false =>
              have hu : op.IsUnary = true := by
                simp only [Bool.false_eq_true, if_false, Bool.or_eq_true] at har
                rcases har with ha | ha
                · exact ha
                · exact absurd ha hopen
              have hb : ¬ op.IsBinary = true := by
                simp only [Operator.IsUnary, beq_iff_eq] at hu
                simp [Operator.IsBinary, hu]
              have := popWhilePrecedes_operands op 0 ops operands st1 hok
                (by simpa using hinv)
              rw [List.countP_cons_of_neg _ _ hb]
              omega
            | true =>
              have hb : op.IsBinary = true := by
                simp only [if_true, Bool.or_eq_true] at har
                rcases har with ha | ha
                · exact ha
                · exact absurd ha hclose
              have := popWhilePrecedes_operands op 1 ops operands st1 hok
                (by simpa using hinv)
              rw [List.countP_cons_of_pos _ _ hb]
              omega
      | none =>
        simp only [] at h
        cases b with
        | true => simp at h
        | false =>
          simp only [Bool.false_eq_true, if_false, Bool.not_false] at h hinv
          split at h
          · cases h
          · generalize ParseOperand env m_len ops.head? _ = pr at h
            obtain ⟨o, st3⟩ := pr
            cases o with
            | none => cases h
            | some operand =>
              simp only [] at h
              cases hci : operand.GetCommandInfo with
              | some cmdInfo =>
                rw [hci] at h
                simp only [] at h
                generalize ParseFunctionCallWith env _ cmdInfo _ = r at h
                cases r with
                | none => cases h
                | some r =>
                  obtain ⟨bParsed, st4⟩ := r
                  simp only [] at h
                  split at h
                  · cases h
                  · simp only [SubExpressionStep.next.injEq] at h
                    obtain ⟨rfl, rfl, rfl, _, _⟩ := h
                    simp only [if_true, List.length_cons]
                    omega
              | none =>
                rw [hci] at h
                simp only [] at h
                split at h
                · cases h
                · simp only [SubExpressionStep.next.injEq] at h
                  obtain ⟨rfl, rfl, rfl, _, _⟩ := h
                  simp only [if_true, List.length_cons]
                  omega

theorem ParseSubExpressionIter_operands (env : ParserEnv) (m_len exprEnd : Nat) :
    ∀ (n fuel : Nat) (ops : List Operator) (operands : List Token_Type) (b : Bool)
      (st : ParserState) (ops' : List Operator) (operands' : List Token_Type) (b' : Bool)
      (st' : ParserState),
      operands.length ≤ ops.countP Operator.IsBinary + (if b then 1 else 0) →
      ParseSubExpressionIter env m_len exprEnd fuel n ops operands b st =
        some (ops', operands', b', st', true) →
      operands'.length ≤ ops'.countP Operator.IsBinary + (if b' then 1 else 0) := by
  intro n
  induction n with
  | zero =>
    intro fuel ops operands b st ops' operands' b' st' hinv h
    simp only [ParseSubExpressionIter, Option.some.injEq, Prod.mk.injEq] at h
    obtain ⟨rfl, rfl, rfl, _, _⟩ := h
    exact hinv
  | succ n ih =>
    intro fuel ops operands b st ops' operands' b' st' hinv h
    cases fuel with
    | zero => simp [ParseSubExpressionIter] at h
    | succ fuel =>
      rw [ParseSubExpressionIter] at h
      cases hs : ParseSubExpressionStep env fuel m_len exprEnd ops operands b st with
      | outOfFuel => rw [hs] at h; cases h
      | returned r => rw [hs] at h; cases h
      | ended o1 o2 s1 => rw [hs] at h; cases h
      | next ops1 operands1 b1 st1 ok =>
        rw [hs] at h
        simp only [Option.map_eq_some'] at h
        obtain ⟨r, hr, he⟩ := h
        simp only [Prod.mk.injEq, Bool.and_eq_true] at he
        obtain ⟨h1, h2, h3, h4, hok, hok'⟩ := he
        subst hok
        have hinv1 := ParseSubExpressionStep_operands env fuel m_len exprEnd ops operands b st
          ops1 operands1 b1 st1 hinv hs
        apply ih fuel ops1 operands1 b1 st1 ops' operands' b' st' hinv1
        rw [hr, ← h1, ← h2, ← h3, ← h4, ← hok']

theorem ParseSubExpressionLoop_iter (env : ParserEnv) (m_len exprEnd k : Nat) :
    ∀ (n : Nat) (ops : List Operator) (operands : List Token_Type) (b : Bool)
      (st : ParserState) (ops' : List Operator) (operands' : List Token_Type) (b' : Bool)
      (st' : ParserState) (ok : Bool),
      ParseSubExpressionIter env m_len exprEnd (n + k) n ops operands b st =
        some (ops', operands', b', st', ok) →
      ParseSubExpressionLoop env (n + k) m_len exprEnd ops operands b st =
        ParseSubExpressionLoop env k m_len exprEnd ops' operands' b' st' := by
  intro n
  induction n with
  | zero =>
    intro ops operands b st ops' operands' b' st' ok h
    simp only [ParseSubExpressionIter, Option.some.injEq, Prod.mk.injEq] at h
    obtain ⟨rfl, rfl, rfl, rfl, _⟩ := h
    rw [Nat.zero_add]
  | succ n ih =>
    intro ops operands b st ops' operands' b' st' ok h
    rw [show n + 1 + k = (n + k) + 1 by omega] at h ⊢
    rw [ParseSubExpressionIter] at h
    rw [ParseSubExpressionLoop_succ]
    cases hs : ParseSubExpressionStep env (n + k) m_len exprEnd ops operands b st with
    | outOfFuel => rw [hs] at h; cases h
    | returned r => rw [hs] at h; cases h
    | ended o1 o2 s1 => rw [hs] at h; cases h
    | next ops1 operands1 b1 st1 ok1 =>
      rw [hs] at h
      simp only [Option.map_eq_some'] at h
      obtain ⟨r, hr, he⟩ := h
      simp only [Prod.mk.injEq] at he
      obtain ⟨h1, h2, h3, h4, _⟩ := he
      simp only []
      apply ih ops1 operands1 b1 st1 ops' operands' b' st' r.2.2.2.2
      rw [hr, ← h1, ← h2, ← h3, ← h4]

theorem ParseSubExpressionStep_ended (env : ParserEnv) (fuel m_len exprEnd : Nat)
    (ops : List Operator) (operands : List Token_Type) (b : Bool) (st : ParserState)
    (ops1 : List Operator) (operands1 : List Token_Type) (st1 : ParserState)
    (h : ParseSubExpressionStep env fuel m_len exprEnd ops operands b st =
      .ended ops1 operands1 st1) : ops1 = ops ∧ operands1 = operands := by
  unfold ParseSubExpressionStep at h
  simp only [] at h
  split at h
  · simp only [SubExpressionStep.ended.injEq] at h
    exact ⟨h.1.symm, h.2.1.symm⟩
  · split at h
    · cases h
    · generalize ParseOperator env m_len b true st = po at h
      obtain ⟨o, st1⟩ := po
      cases o with
      | some op =>
        simp only [] at h
        split at h
        · generalize MatchOpenBracket (pushOpenBracket op ops operands st1).2.2 m_len op = mb at h
          cases mb with
          | none => cases h
          | some endBracPos =>
            simp only [] at h
            generalize ParseSubExpression env fuel m_len
              (endBracPos - (pushOpenBracket op ops operands st1).2.2.lineOffset) _ = r at h
            cases r with
            | none => cases h
            | some r =>
              simp only [] at h
              split at h <;> cases h
        · split at h <;> cases h
      | none =>
        simp only [] at h
        cases b with
        | true =>
          simp only [if_true, SubExpressionStep.ended.injEq] at h
          exact ⟨h.1.symm, h.2.1.symm⟩
        | false =>
          simp only [Bool.false_eq_true, if_false, Bool.not_false] at h
          split at h
          · simp only [SubExpressionStep.ended.injEq] at h
            exact ⟨h.1.symm, h.2.1.symm⟩
          · generalize ParseOperand env m_len ops.head? _ = pr at h
            obtain ⟨o, st3⟩ := pr
            cases o with
            | none => cases h
            | some operand =>
              simp only [] at h
              cases hci : operand.GetCommandInfo with
              | some cmdInfo =>
                rw [hci] at h
                simp only [] at h
                generalize ParseFunctionCallWith env _ cmdInfo _ = r at h
                cases r with
                | none => cases h
                | some r =>
                  simp only [] at h
                  split at h <;> cases h
              | none =>
                rw [hci] at h
                simp only [] at h
                split at h <;> cases h

/-- The final flush of `ParseSubExpression`, when the operands are not more
than the two-operand operators on the stack plus one: it shows no message, or
the one message of a failing `PopOperator` call; it does not show
TooManyOperands. -/
theorem finishSubExpression_operands :
    ∀ (ops : List Operator) (operands : List Token_Type) (st : ParserState),
      operands.length ≤ ops.countP Operator.IsBinary + 1 →
      ((finishSubExpression ops operands st).2.messages = st.messages ∨
        ∃ msg, msg ≠ CompilerMessage.kError_TooManyOperands ∧
          (finishSubExpression ops operands st).2.messages = st.messages ++ [msg]) := by
  intro ops
  induction ops with
  | nil =>
    intro operands st h
    rcases operands with _ | ⟨a, _ | ⟨b, rest⟩⟩
    · exact Or.inl rfl
    · exact Or.inl rfl
    · simp at h
  | cons topOp ops ih =>
    intro operands st h
    rw [finishSubExpression]
    split
    · exact PopOperator_messages topOp operands st
    · rename_i hne
      have hne' : (PopOperator topOp operands st).1 ≠ .Invalid := by simpa using hne
      have hs := PopOperator_success topOp operands st hne'
      rw [← hs.2]
      apply ih
      rcases hs.1 with ⟨h2, hl⟩ | ⟨h1, hl⟩
      · have hb : topOp.IsBinary = true := by simp [Operator.IsBinary, h2]
        rw [List.countP_cons_of_pos _ _ hb] at h
        omega
      · have hb : ¬ topOp.IsBinary = true := by simp [Operator.IsBinary, h1]
        rw [List.countP_cons_of_neg _ _ hb] at h
        omega

/-- C30: the operand stack of `ParseSubExpression`.  When the condition of
the main loop is evaluated for the `n + 1`-th time and every `PopOperator`
call made in the loop so far has succeeded, the number of types on the operand
stack is at most the number of two-operand operators on the operator stack,
plus one if the last token was an operand.  From such stacks the final flush
shows no message or the one message of a `PopOperator` call that fails, never
TooManyOperands; so when the loop ends there, `ParseSubExpression` returns
the result of that flush without TooManyOperands.  TooManyOperands does occur
after a `PopOperator` failure inside the loop: in `"a"->-1` the unary `-` pops
`->` with one operand on the stack, the failure is ignored, and after four
passes two operands lie over no two-operand operator. -/
theorem operand_stack_invariant (env : ParserEnv) (m_len exprLen n k : Nat)
    (st : ParserState) (ops : List Operator) (operands : List Token_Type) (b : Bool)
    (st' : ParserState)
    (hiter : ParseSubExpressionIter env m_len (st.lineOffset + exprLen) (n + (k + 1)) n [] []
      false st = some (ops, operands, b, st', true)) :
    operands.length ≤ ops.countP Operator.IsBinary + (if b then 1 else 0) ∧
    (∀ st1, (finishSubExpression ops operands st1).2.messages = st1.messages ∨
      ∃ msg, msg ≠ CompilerMessage.kError_TooManyOperands ∧
        (finishSubExpression ops operands st1).2.messages = st1.messages ++ [msg]) ∧
    (∀ ops1 operands1 st1,
      ParseSubExpressionStep env k m_len (st.lineOffset + exprLen) ops operands b st' =
        .ended ops1 operands1 st1 →
      ParseSubExpression env (n + (k + 1) + 1) m_len exprLen st =
        some (finishSubExpression ops operands st1) ∧
      ((finishSubExpression ops operands st1).2.messages = st1.messages ∨
        ∃ msg, msg ≠ CompilerMessage.kError_TooManyOperands ∧
          (finishSubExpression ops operands st1).2.messages = st1.messages ++ [msg])) ∧
    (ParseSubExpressionIter plainEnv 7 7 9 4 [] [] false (startState "\"a\"->-1")).map
        (fun r => (r.1.map (fun o => o.symbol), r.2.1, r.2.2.1, r.2.2.2.2)) =
      some (["-"], [.Number, .String], true, false) ∧
    (ParseSubExpression plainEnv 10 7 7 (startState "\"a\"->-1")).map
        (fun r => (r.1, r.2.messages)) =
      some (.Invalid, [.kError_TooManyOperators, .kError_TooManyOperands]) := by
  have hinv := ParseSubExpressionIter_operands env m_len (st.lineOffset + exprLen) n
    (n + (k + 1)) [] [] false st ops operands b st' (by simp) hiter
  have hfin : ∀ st1, (finishSubExpression ops operands st1).2.messages = st1.messages ∨
      ∃ msg, msg ≠ CompilerMessage.kError_TooManyOperands ∧
        (finishSubExpression ops operands st1).2.messages = st1.messages ++ [msg] := by
    intro st1
    apply finishSubExpression_operands
    split at hinv <;> omega
  refine ⟨hinv, hfin, ?_, by decide, by decide⟩
  intro ops1 operands1 st1 hend
  refine ⟨?_, hfin st1⟩
  obtain ⟨rfl, rfl⟩ := ParseSubExpressionStep_ended _ _ _ _ _ _ _ _ _ _ _ hend
  rw [ParseSubExpression,
    ParseSubExpressionLoop_iter env m_len (st.lineOffset + exprLen) (k + 1) n [] [] false st
      ops1 operands1 b st' true hiter,
    ParseSubExpressionLoop_succ, hend]

/-- Witness for C30: `"a" + "b"`; after five passes the operator stack holds
`+` and the operand stack two strings. -/
theorem operand_stack_invariant_witness :
    [Token_Type.String, Token_Type.String].length ≤
      [(⟨19, "+", 2, .Add, kOpRule_Addition false⟩ : Operator)].countP Operator.IsBinary +
        (if true then 1 else 0) :=
  (operand_stack_invariant plainEnv 9 9 5 0 (startState "\"a\" + \"b\"")
    [⟨19, "+", 2, .Add, kOpRule_Addition false⟩]
    [.String, .String] true
    { startState "\"a\" + \"b\"" with lineOffset := 9, dataBuf := [.operand (.String "a".toList), .operand (.String "b".toList)] }
    rfl).1

/-- Every operator of the table has a symbol of at least one character. -/
theorem s_operators_symbol_length (ob : Bool) :
    ∀ op ∈ s_operators ob, 1 ≤ op.symbol.length := by
  cases ob <;> decide

theorem ParseOperator_shape (env : ParserEnv) (m_len : Nat) (b c : Bool) (st : ParserState) :
    ∃ sel : Option Operator,
      ParseOperator env m_len b c st =
        if st.Peek m_len st.lineOffset == ',' then
          (none, { st with lineOffset := st.lineOffset + 1 })
        else
          match sel with
          | some o =>
            if c then (some o, { st with lineOffset := st.lineOffset + o.symbol.length })
            else (some o, st)
          | none => (none, st) := by
  unfold ParseOperator
  exact ⟨_, rfl⟩

/-- `ParseOperator` keeps the text, does not move the offset back, and moves
it forward over an operator it consumes. -/
theorem ParseOperator_offset (env : ParserEnv) (m_len : Nat) (b c : Bool) (st : ParserState) :
    (ParseOperator env m_len b c st).2.paramText = st.paramText ∧
    st.lineOffset ≤ (ParseOperator env m_len b c st).2.lineOffset ∧
    (c = true → ∀ op, (ParseOperator env m_len b c st).1 = some op →
      st.lineOffset + 1 ≤ (ParseOperator env m_len b c st).2.lineOffset) := by
  have hmem := ParseOperator_mem env m_len b c st
  obtain ⟨sel, hsel⟩ := ParseOperator_shape env m_len b c st
  rw [hsel] at hmem ⊢
  split
  · exact ⟨rfl, by simp, fun _ op h => by simp at h⟩
  · cases sel with
    | none => exact ⟨rfl, by simp, fun _ op h => by simp at h⟩
    | some o =>
      rename_i hcomma
      rw [if_neg hcomma] at hmem
      cases c with
      | false => exact ⟨rfl, by simp, fun h => by cases h⟩
      | true =>
        refine ⟨rfl, by simp, fun _ op h => ?_⟩
        simp only [if_true, Option.some.injEq] at h
        subst h
        have hm := hmem o (by simp)
        have hlen := s_operators_symbol_length env.oblivion o (List.mem_of_mem_filter hm)
        simp only [if_true]
        omega

/-- Inside the main loop the offset lies within the text. -/
theorem Peek_ne_NUL_lt (st : ParserState) (m_len i : Nat) (h : st.Peek m_len i ≠ NUL) :
    i < st.paramText.length := by
  unfold ParserState.Peek at h
  split at h
  · unfold ParserState.textAt charAt at h
    by_contra hlt
    rw [List.getD_eq_default _ _ (by omega)] at h
    exact h rfl
  · exact absurd rfl h

/-- The index `MatchOpenBracket` finds is not before the start of the scan and
lies within the text. -/
theorem MatchOpenBracketLoop_bounds (o cl : Char) (text : List Char) :
    ∀ (fuel i count e : Nat), MatchOpenBracketLoop o cl text fuel i count = some e →
      i ≤ e ∧ e < text.length := by
  intro fuel
  induction fuel with
  | zero => intro i count e h; simp [MatchOpenBracketLoop] at h
  | succ fuel ih =>
    intro i count e h
    rw [MatchOpenBracketLoop] at h
    by_cases hnul : (charAt text i == NUL) = true
    · rw [if_pos hnul] at h
      cases h
    · rw [if_neg hnul] at h
      simp only [] at h
      generalize (if (charAt text i == o) = true then count + 1
        else if (charAt text i == cl) = true then count - 1 else count) = cnt at h
      by_cases hz : (cnt == 0) = true
      · rw [if_pos hz] at h
        simp only [Option.some.injEq] at h
        subst h
        refine ⟨Nat.le_refl _, ?_⟩
        by_contra hlt
        apply hnul
        unfold charAt
        rw [List.getD_eq_default _ _ (by omega)]
        simp
      · rw [if_neg hz] at h
        have := ih _ _ _ h
        exact ⟨by omega, this.2⟩

theorem finishSubExpression_paramText :
    ∀ (ops : List Operator) (operands : List Token_Type) (st : ParserState),
      (finishSubExpression ops operands st).2.paramText = st.paramText := by
  intro ops
  induction ops with
  | nil =>
    intro operands st
    unfold finishSubExpression
    split <;> rfl
  | cons topOp ops ih =>
    intro operands st
    rw [finishSubExpression]
    split
    · exact (PopOperator_frame topOp operands st).1
    · rw [ih]
      exact (PopOperator_frame topOp operands st).1

theorem ParseOperandRef_offset (env : ParserEnv) (hasDot : Bool) (rv : RefVariable)
    (refIdx : Nat) (st : ParserState) (r : Option OperandToken × ParserState)
    (h : ParseOperandRef env hasDot rv refIdx st = some r) :
    r.2.paramText = st.paramText ∧ r.2.lineOffset = st.lineOffset := by
  unfold ParseOperandRef at h
  repeat' split at h
  all_goals first
    | (simp only [Option.some.injEq] at h; subst h; exact ⟨rfl, rfl⟩)
    | exact absurd h (by simp)

theorem ParseOperandName_offset (env : ParserEnv) (curOp : Option Operator) (b hasDot : Bool)
    (token : List Char) (refVar : Option RefVariable) (refIdx : Nat) (st : ParserState) :
    (ParseOperandName env curOp b hasDot token refVar refIdx st).2.paramText = st.paramText ∧
    (ParseOperandName env curOp b hasDot token refVar refIdx st).2.lineOffset =
      st.lineOffset := by
  unfold ParseOperandName
  repeat' split
  all_goals exact ⟨rfl, rfl⟩

theorem ParseOperandObject_offset (env : ParserEnv) (curOp : Option Operator) (b hasDot : Bool)
    (refToken token : List Char) (st : ParserState) :
    (ParseOperandObject env curOp b hasDot refToken token st).2.paramText = st.paramText ∧
    (ParseOperandObject env curOp b hasDot refToken token st).2.lineOffset = st.lineOffset := by
  unfold ParseOperandObject
  split
  · exact ⟨rfl, rfl⟩
  · split
    · split
      · exact ⟨rfl, rfl⟩
      · exact ParseOperandName_offset _ _ _ _ _ _ _ _
    · split
      · rename_i h
        exact ParseOperandRef_offset _ _ _ _ _ _ h
      · exact ParseOperandName_offset _ _ _ _ _ _ _ _

/-- `ParseOperandToken` leaves the text and the offset, and gives a command
only for a token that is not empty. -/
theorem ParseOperandToken_offset (env : ParserEnv) (curOp : Option Operator) (b : Bool)
    (token : List Char) (st : ParserState) :
    (ParseOperandToken env curOp b token st).2.paramText = st.paramText ∧
    (ParseOperandToken env curOp b token st).2.lineOffset = st.lineOffset ∧
    (∀ operand cmdInfo, (ParseOperandToken env curOp b token st).1 = some operand →
      operand.GetCommandInfo = some cmdInfo → token ≠ []) := by
  unfold ParseOperandToken
  split
  · split
    · exact ⟨rfl, rfl, fun _ _ h => by simp at h⟩
    · refine ⟨rfl, rfl, fun operand cmdInfo h hc => ?_⟩
      simp only [Option.some.injEq] at h
      subst h
      simp [OperandToken.GetCommandInfo] at hc
  · split
    · refine ⟨rfl, rfl, fun operand cmdInfo h hc => ?_⟩
      simp only [Option.some.injEq] at h
      subst h
      simp [OperandToken.GetCommandInfo] at hc
    · rename_i hnum
      have hne : token ≠ [] := by
        intro he
        apply hnum
        rw [he]
        simp [strtod]
      split
      · exact ⟨(ParseOperandObject_offset _ _ _ _ _ _ _).1,
          (ParseOperandObject_offset _ _ _ _ _ _ _).2, fun _ _ _ _ => hne⟩
      · exact ⟨(ParseOperandObject_offset _ _ _ _ _ _ _).1,
          (ParseOperandObject_offset _ _ _ _ _ _ _).2, fun _ _ _ _ => hne⟩

theorem GetCurTokenEnd_ge (st : ParserState) (m_len : Nat) :
    ∀ (fuel offset : Nat), offset ≤ GetCurTokenEnd st m_len fuel offset := by
  intro fuel
  induction fuel with
  | zero => intro offset; simp [GetCurTokenEnd]
  | succ fuel ih =>
    intro offset
    rw [GetCurTokenEnd]
    split
    · exact Nat.le_refl _
    · split
      · exact Nat.le_refl _
      · have := ih (offset + 1)
        omega

theorem GetCurToken_offset (st : ParserState) (m_len : Nat) :
    (GetCurToken st m_len).2.paramText = st.paramText ∧
    st.lineOffset ≤ (GetCurToken st m_len).2.lineOffset ∧
    ((GetCurToken st m_len).1 ≠ [] → st.lineOffset + 1 ≤ (GetCurToken st m_len).2.lineOffset) := by
  have hge := GetCurTokenEnd_ge st m_len (m_len - st.lineOffset) st.lineOffset
  have e1 : (GetCurToken st m_len).2.lineOffset =
      GetCurTokenEnd st m_len (m_len - st.lineOffset) st.lineOffset := rfl
  have e2 : (GetCurToken st m_len).1 =
      (st.paramText.drop st.lineOffset).take
        (GetCurTokenEnd st m_len (m_len - st.lineOffset) st.lineOffset - st.lineOffset) := rfl
  refine ⟨rfl, by rw [e1]; exact hge, fun hne => ?_⟩
  rw [e1]
  rw [e2] at hne
  by_contra hlt
  apply hne
  have : GetCurTokenEnd st m_len (m_len - st.lineOffset) st.lineOffset - st.lineOffset = 0 := by
    omega
  rw [this]
  simp

/-- `ParseOperand` keeps the text, does not move the offset back, and moves
it forward when it returns a command. -/
theorem ParseOperand_offset (env : ParserEnv) (m_len : Nat) (curOp : Option Operator)
    (st : ParserState) :
    (ParseOperand env m_len curOp st).2.paramText = st.paramText ∧
    st.lineOffset ≤ (ParseOperand env m_len curOp st).2.lineOffset ∧
    (∀ operand cmdInfo, (ParseOperand env m_len curOp st).1 = some operand →
      operand.GetCommandInfo = some cmdInfo →
      st.lineOffset + 1 ≤ (ParseOperand env m_len curOp st).2.lineOffset) := by
  unfold ParseOperand
  simp only []
  split
  · exact ⟨rfl, Nat.le_refl _, fun _ _ h => by simp at h⟩
  · split
    · split
      · exact ⟨rfl, by simp [ParserState.Show], fun _ _ h => by simp at h⟩
      · rename_i endQuote hq
        have hge : st.lineOffset + 1 ≤ endQuote := by
          unfold strchrFrom at hq
          split at hq
          · simp only [Option.some.injEq] at hq
            omega
          · cases hq
        refine ⟨rfl, by simp only []; omega, fun operand cmdInfo h hc => ?_⟩
        simp only [Option.some.injEq] at h
        subst h
        simp [OperandToken.GetCommandInfo] at hc
    · generalize hst1 : (if (st.Peek m_len st.lineOffset == '$') = true then
          ({ st with lineOffset := st.lineOffset + 1 } : ParserState) else st) = st1
      have h1 : st1.paramText = st.paramText ∧ st.lineOffset ≤ st1.lineOffset := by
        rw [← hst1]
        split
        · exact ⟨rfl, by simp⟩
        · exact ⟨rfl, Nat.le_refl _⟩
      have ht := ParseOperandToken_offset env curOp (st.Peek m_len st.lineOffset == '$')
        (GetCurToken st1 m_len).1 (GetCurToken st1 m_len).2
      have hg := GetCurToken_offset st1 m_len
      refine ⟨ht.1.trans (hg.1.trans h1.1), ?_, ?_⟩
      · rw [ht.2.1]
        omega
      · intro operand cmdInfo h hc
        rw [ht.2.1]
        have := hg.2.2 (ht.2.2 operand cmdInfo h hc)
        omega

theorem finishParseArgs_paramText (m_len : Nat) (params : List ParamInfo) (p n : Nat)
    (st : ParserState) : (finishParseArgs m_len params p n st).2.paramText = st.paramText := by
  unfold finishParseArgs
  repeat' split
  all_goals rfl

/-- The loop of `ParseArgs` returns when every argument expression does. -/
theorem ParseArgsLoop_returns (env : ParserEnv)
    (sub : Nat → ParserState → Option (Token_Type × ParserState)) (L : Nat)
    (hsub : ∀ len st, st.paramText.length = L →
      ∃ r, sub len st = some r ∧ r.2.paramText.length = L)
    (argsEndPos : Nat) (flag : Bool) :
    ∀ (params : List ParamInfo) (n dataStart : Nat) (st : ParserState),
      st.paramText.length = L →
      ∃ r, ParseArgsLoop env sub argsEndPos flag params n dataStart st = some r ∧
        r.2.paramText.length = L := by
  intro params
  induction params with
  | nil =>
    intro n dataStart st hL
    exact ⟨_, rfl, hL⟩
  | cons param rest ih =>
    intro n dataStart st hL
    rw [ParseArgsLoop]
    split
    · obtain ⟨r, hr, hrL⟩ := hsub (argsEndPos - st.lineOffset) (st.write (.len16 0)) hL
      rw [hr]
      obtain ⟨argType, st1⟩ := r
      simp only []
      split
      · exact ⟨_, rfl, hrL⟩
      · split
        · exact ⟨_, rfl, hrL⟩
        · split
          · exact ⟨_, rfl, hrL⟩
          · exact ih _ _ _ hrL
    · exact ⟨_, rfl, hL⟩

theorem ParseArgsWith_returns (env : ParserEnv)
    (sub : Nat → ParserState → Option (Token_Type × ParserState)) (L : Nat)
    (hsub : ∀ len st, st.paramText.length = L →
      ∃ r, sub len st = some r ∧ r.2.paramText.length = L)
    (m_len : Nat) (params : List ParamInfo) (flag : Bool) (st : ParserState)
    (hL : st.paramText.length = L) :
    ∃ r, ParseArgsWith env sub m_len params flag st = some r ∧ r.2.paramText.length = L := by
  unfold ParseArgsWith
  simp only []
  obtain ⟨r, hr, hrL⟩ := ParseArgsLoop_returns env sub L hsub m_len flag params 0
    (st.write (.byte 0)).dataBuf.length
    { st.write (.byte 0) with lineOffset := skipSpaces (st.write (.byte 0)) m_len (m_len - (st.write (.byte 0)).lineOffset) (st.write (.byte 0)).lineOffset }
    hL
  rw [hr]
  obtain ⟨o, st1⟩ := r
  cases o with
  | none => exact ⟨_, rfl, hrL⟩
  | some n =>
    refine ⟨_, rfl, ?_⟩
    rw [finishParseArgs_paramText]
    exact hrL

/-- A nested function call returns when every argument expression on the text
after the command does; it restores the text and does not move the offset
back. -/
theorem ParseFunctionCallWith_returns (env : ParserEnv)
    (sub : Nat → Nat → ParserState → Option (Token_Type × ParserState))
    (cmdInfo : CommandInfo) (st : ParserState)
    (hsub : ∀ m_len len st1, st1.paramText.length = st.paramText.length - st.lineOffset →
      ∃ r, sub m_len len st1 = some r ∧ r.2.paramText.length = st1.paramText.length) :
    ∃ r, ParseFunctionCallWith env sub cmdInfo st = some r ∧
      r.2.paramText = st.paramText ∧ st.lineOffset ≤ r.2.lineOffset := by
  unfold ParseFunctionCallWith
  simp only []
  have hL : (ExpressionParser_enter
      { st.write (.len16 0) with paramText := st.paramText.drop st.lineOffset, lineOffset := 0 }).paramText.length =
      st.paramText.length - st.lineOffset := by
    simp [ExpressionParser_enter]
  obtain ⟨r, hr, _⟩ := ParseArgsWith_returns env
    (sub (strlen (ExpressionParser_enter
      { st.write (.len16 0) with paramText := st.paramText.drop st.lineOffset, lineOffset := 0 }).paramText))
    (st.paramText.length - st.lineOffset)
    (fun len st1 h1 => by
      obtain ⟨r, hr, hrL⟩ := hsub _ len st1 h1
      exact ⟨r, hr, hrL.trans h1⟩)
    (strlen (ExpressionParser_enter
      { st.write (.len16 0) with paramText := st.paramText.drop st.lineOffset, lineOffset := 0 }).paramText)
    cmdInfo.params true _ hL
  rw [hr]
  obtain ⟨bParsed, st1⟩ := r
  refine ⟨_, rfl, rfl, ?_⟩
  simp [ParserEnv.patchLength, ExpressionParser_leave, ParserState.write]

/-- One pass through the main loop of `ParseSubExpression` returns when the
nested calls on shorter rests of the text do, and makes progress. -/
theorem ParseSubExpressionStep_progress (env : ParserEnv) (fuel m_len exprEnd : Nat)
    (ops : List Operator) (operands : List Token_Type) (b : Bool) (st : ParserState)
    (hsub : ∀ m_len exprLen st1,
      st1.paramText.length - st1.lineOffset + 1 ≤ st.paramText.length - st.lineOffset →
      ∃ r, ParseSubExpression env fuel m_len exprLen st1 = some r ∧
        r.2.paramText.length = st1.paramText.length) :
    StepProgress st b (ParseSubExpressionStep env fuel m_len exprEnd ops operands b st) := by
  unfold ParseSubExpressionStep
  simp only []
  split
  · exact rfl
  · rename_i hcond
    have hlt : st.lineOffset < st.paramText.length := by
      simp only [Bool.not_eq_true', Bool.and_eq_false_iff, not_or, Bool.not_eq_false,
        decide_eq_false_iff_not, bne_eq_false_iff_eq] at hcond
      apply Peek_ne_NUL_lt st m_len
      intro h
      simp [h] at hcond
    split
    · simp only [StepProgress, true_and]
      omega
    · have hpo := ParseOperator_offset env m_len b true st
      generalize hpe : ParseOperator env m_len b true st = po at hpo
      obtain ⟨o, st1⟩ := po
      cases o with
      | some op =>
        simp only [] at hpo ⊢
        obtain ⟨hp1, hp2, hp3⟩ := hpo
        have hp3' := hp3 trivial op rfl
        have hpush := pushOpenBracket_frame op ops operands st1
        have hpop := popWhilePrecedes_frame op ops operands st1
        split
        · generalize hmb : MatchOpenBracket (pushOpenBracket op ops operands st1).2.2 m_len op = mb
          cases mb with
          | none =>
            simp only [StepProgress, ParserState.Show]
            rw [hpush.1, hp1]
          | some endBracPos =>
            simp only []
            have hb := MatchOpenBracketLoop_bounds _ _ _ _ _ _ _ hmb
            rw [hpush.1, hpush.2.1, hp1] at hb
            obtain ⟨r, hr, hrL⟩ := hsub m_len
              (endBracPos - (pushOpenBracket op ops operands st1).2.2.lineOffset)
              { (pushOpenBracket op ops operands st1).2.2 with paramText := (pushOpenBracket op ops operands st1).2.2.paramText.set endBracPos NUL }
              (by
                simp only [List.length_set]
                rw [hpush.1, hpush.2.1, hp1]
                omega)
            rw [hr]
            obtain ⟨operandType, st2⟩ := r
            simp only [List.length_set] at hrL ⊢
            rw [hpush.1, hp1] at hrL
            split
            · simp only [StepProgress, ParserState.Show]
              exact hrL
            · simp only [StepProgress]
              refine ⟨hrL, ?_⟩
              simp only [if_true]
              rw [hrL]
              omega
        · split
          · simp only [StepProgress, ParserState.Show]
            rw [hp1]
          · simp only [StepProgress]
            refine ⟨by rw [hpop.1, hp1], ?_⟩
            rw [hpop.1, hpop.2.1, hp1]
            simp only [Bool.false_eq_true, if_false]
            split <;> omega
      | none =>
        simp only [] at hpo ⊢
        obtain ⟨hp1, hp2, _⟩ := hpo
        cases b with
        | true =>
          simp only [StepProgress, if_true]
          rw [hp1]
        | false =>
          simp only [Bool.false_eq_true, if_false, Bool.not_false]
          have hpo2 := ParseOperator_offset env m_len true false st1
          generalize ParseOperator env m_len true false st1 = po2 at hpo2
          obtain ⟨o2, st2⟩ := po2
          simp only [] at hpo2 ⊢
          obtain ⟨hq1, hq2, _⟩ := hpo2
          split
          · simp only [StepProgress]
            rw [hq1, hp1]
          · have hop := ParseOperand_offset env m_len ops.head? st2
            generalize ParseOperand env m_len ops.head? st2 = pr at hop
            obtain ⟨o, st3⟩ := pr
            simp only [] at hop
            obtain ⟨ho1, ho2, ho3⟩ := hop
            cases o with
            | none =>
              simp only [StepProgress]
              rw [ho1, hq1, hp1]
            | some operand =>
              simp only []
              cases hci : operand.GetCommandInfo with
              | some cmdInfo =>
                simp only []
                have ho3' := ho3 operand cmdInfo rfl hci
                obtain ⟨r, hr, hr1, hr2⟩ := ParseFunctionCallWith_returns env
                  (fun len => ParseSubExpression env fuel len) cmdInfo
                  { st3.write (.operand operand) with s_parserDepth := (st3.write (.operand operand)).s_parserDepth + 1 }
                  (by
                    intro m_len' len st' hL
                    apply hsub
                    simp only [ParserState.write] at hL
                    rw [ho1, hq1, hp1] at hL
                    omega)
                rw [hr]
                obtain ⟨bParsed, st4⟩ := r
                simp only [ParserState.write] at hr1 hr2 ⊢
                rw [ho1, hq1, hp1] at hr1
                split
                · simp only [StepProgress, ParserState.Show]
                  rw [hr1]
                · simp only [StepProgress]
                  refine ⟨by rw [hr1], ?_⟩
                  simp only [if_true, hr1, Bool.false_eq_true, if_false]
                  omega
              | none =>
                simp only []
                split
                · simp only [StepProgress, ParserState.Show, ParserState.write]
                  rw [ho1, hq1, hp1]
                · simp only [StepProgress]
                  refine ⟨by simp only [ParserState.write]; rw [ho1, hq1, hp1], ?_⟩
                  simp only [ParserState.write, if_true, Bool.false_eq_true, if_false]
                  rw [ho1, hq1, hp1]
                  omega

theorem ParseSubExpression_returns_aux (env : ParserEnv) : ∀ fuel,
    (∀ m_len exprLen st, 4 * (st.paramText.length - st.lineOffset) + 5 ≤ fuel →
      ∃ r, ParseSubExpression env fuel m_len exprLen st = some r ∧
        r.2.paramText.length = st.paramText.length) ∧
    (∀ m_len exprEnd ops operands b st,
      2 * (2 * (st.paramText.length - st.lineOffset) + (if b then 0 else 1)) + 2 ≤ fuel →
      ∃ r, ParseSubExpressionLoop env fuel m_len exprEnd ops operands b st = some r ∧
        r.2.paramText.length = st.paramText.length) := by
  intro fuel
  induction fuel with
  | zero =>
    constructor
    · intro m_len exprLen st h
      omega
    · intro m_len exprEnd ops operands b st h
      omega
  | succ fuel ih =>
    constructor
    · intro m_len exprLen st h
      rw [ParseSubExpression]
      apply ih.2
      simp only [Bool.false_eq_true, if_false]
      omega
    · intro m_len exprEnd ops operands b st h
      rw [ParseSubExpressionLoop_succ]
      have hstep := ParseSubExpressionStep_progress env fuel m_len exprEnd ops operands b st
        (fun m_len' exprLen st1 h1 => ih.1 m_len' exprLen st1 (by
          split at h <;> omega))
      cases hs : ParseSubExpressionStep env fuel m_len exprEnd ops operands b st with
      | outOfFuel =>
        rw [hs] at hstep
        exact absurd hstep (by simp [StepProgress])
      | returned r =>
        rw [hs] at hstep
        exact ⟨r, rfl, hstep⟩
      | ended ops1 operands1 st1 =>
        rw [hs] at hstep
        refine ⟨_, rfl, ?_⟩
        rw [finishSubExpression_paramText]
        exact hstep
      | next ops1 operands1 b1 st1 ok =>
        rw [hs] at hstep
        simp only [StepProgress] at hstep
        obtain ⟨hl, hlt⟩ := hstep
        obtain ⟨r, hr, hrl⟩ := ih.2 m_len exprEnd ops1 operands1 b1 st1 (by omega)
        exact ⟨r, hr, hrl.trans hl⟩

/-- C25: `ParseSubExpression` terminates.  For every text, every state and
every expression length, a call with fuel of at least four times the number of
characters from the offset to the end of the text, plus five, returns: a type
or, for a malformed text, `kTokenType_Invalid`; the text keeps its length.
Each pass of the main loop lowers twice the number of characters left, plus
one while an operand is expected.  Where the loop reads an opening bracket and
`MatchOpenBracket` finds the closing one, the range of the nested call starts
behind the bracket, ends within the text, and is shorter than the text left
before the bracket; the scan of `MatchOpenBracket` itself visits at most the
`m_len - Offset()` characters that are its bound. -/
theorem ParseSubExpression_terminates (env : ParserEnv) (fuel m_len exprLen : Nat)
    (st : ParserState)
    (hfuel : 4 * (st.paramText.length - st.lineOffset) + 5 ≤ fuel) :
    (∃ r, ParseSubExpression env fuel m_len exprLen st = some r ∧
      r.2.paramText.length = st.paramText.length) ∧
    (∀ (k exprEnd : Nat) (ops : List Operator) (operands : List Token_Type) (b : Bool)
      (st0 : ParserState),
      (∀ len1 len (st1 : ParserState),
        st1.paramText.length - st1.lineOffset + 1 ≤ st0.paramText.length - st0.lineOffset →
        ∃ r, ParseSubExpression env k len1 len st1 = some r ∧
          r.2.paramText.length = st1.paramText.length) →
      StepProgress st0 b (ParseSubExpressionStep env k m_len exprEnd ops operands b st0)) ∧
    (∀ (ops : List Operator) (operands : List Token_Type) (b : Bool) (st0 st1 : ParserState)
      (op : Operator) (endBracPos : Nat),
      ParseOperator env m_len b true st0 = (some op, st1) →
      MatchOpenBracket (pushOpenBracket op ops operands st1).2.2 m_len op = some endBracPos →
      st0.lineOffset < (pushOpenBracket op ops operands st1).2.2.lineOffset ∧
      (pushOpenBracket op ops operands st1).2.2.lineOffset ≤ endBracPos ∧
      endBracPos < st0.paramText.length ∧
      endBracPos - (pushOpenBracket op ops operands st1).2.2.lineOffset <
        st0.paramText.length - st0.lineOffset) := by
  refine ⟨(ParseSubExpression_returns_aux env fuel).1 m_len exprLen st hfuel, ?_, ?_⟩
  · intro k exprEnd ops operands b st0 hsub
    exact ParseSubExpressionStep_progress env k m_len exprEnd ops operands b st0 hsub
  · intro ops operands b st0 st1 op endBracPos hpo hmb
    have hp := ParseOperator_offset env m_len b true st0
    rw [hpo] at hp
    obtain ⟨hp1, _, hp3⟩ := hp
    have hp3' := hp3 rfl op rfl
    have hpush := pushOpenBracket_frame op ops operands st1
    have hb := MatchOpenBracketLoop_bounds _ _ _ _ _ _ _ hmb
    rw [hpush.1, hpush.2.1, hp1] at hb
    rw [hpush.2.1]
    simp only [] at hp3'
    omega

/-- Witness for C25: the malformed text `(1`. -/
theorem ParseSubExpression_terminates_witness :
    ∃ r, ParseSubExpression plainEnv 13 2 2 (startState "(1") = some r ∧
      r.2.paramText.length = (startState "(1").paramText.length :=
  (ParseSubExpression_terminates plainEnv 13 2 2 (startState "(1") (by decide)).1

/-- The fuel of `findCRLF` is enough: with at least as much fuel as there are
characters from `pos` on, the result does not depend on the fuel. -/
theorem findCRLF_fuel (text : List Char) :
    ∀ (fuel fuel' pos : Nat), text.length - pos ≤ fuel → text.length - pos ≤ fuel' →
      findCRLF text fuel pos = findCRLF text fuel' pos := by
  intro fuel
  induction fuel with
  | zero =>
    intro fuel' pos h h'
    cases fuel' with
    | zero => rfl
    | succ fuel' =>
      rw [findCRLF, findCRLF]
      rw [if_neg (by omega)]
  | succ fuel ih =>
    intro fuel' pos h h'
    cases fuel' with
    | zero =>
      rw [findCRLF, findCRLF]
      rw [if_neg (by omega)]
    | succ fuel' =>
      rw [findCRLF, findCRLF]
      split
      · split
        · rfl
        · exact ih fuel' (pos + 1) (by omega) (by omega)
      · rfl

/-- The fuel of `AdvanceLine` is enough: with more fuel than there are
characters from the offset on, the result does not depend on the fuel. -/
theorem AdvanceLine_fuel :
    ∀ (fuel fuel' : Nat) (p : Preprocessor),
      p.m_scriptText.length - p.m_scriptTextOffset < fuel →
      p.m_scriptText.length - p.m_scriptTextOffset < fuel' →
      AdvanceLine fuel p = AdvanceLine fuel' p := by
  intro fuel
  induction fuel with
  | zero => intro fuel' p h; omega
  | succ fuel ih =>
    intro fuel' p h h'
    cases fuel' with
    | zero => omega
    | succ fuel' =>
      rw [AdvanceLine, AdvanceLine]
      split
      · rfl
      · rename_i hlt
        simp only []
        cases hf : findCRLF p.m_scriptText p.m_scriptText.length p.m_scriptTextOffset with
        | none => rfl
        | some endPos =>
          have hb := findCRLF_bounds _ _ _ _ hf
          simp only []
          split
          · rename_i heq
            have heq' : p.m_scriptTextOffset = endPos := by simpa using heq
            apply ih
            · simp only []; omega
            · simp only []; omega
          · rfl

/-- The fuel of `StripComments` is enough: with more fuel than there are
characters from `i` on, the result does not depend on the fuel. -/
theorem StripCommentsLoop_fuel (line : List Char) :
    ∀ (fuel fuel' i : Nat), line.length - i < fuel → line.length - i < fuel' →
      StripCommentsLoop line fuel i = StripCommentsLoop line fuel' i := by
  intro fuel
  induction fuel with
  | zero => intro fuel' i h; omega
  | succ fuel ih =>
    intro fuel' i h h'
    cases fuel' with
    | zero => omega
    | succ fuel' =>
      rw [StripCommentsLoop, StripCommentsLoop]
      split
      · rename_i hlt
        split
        · split
          · rfl
          · cases hq : findFrom '"' (i + 1) line with
            | none => rfl
            | some j =>
              simp only []
              have hj : i + 1 ≤ j := by
                unfold findFrom at hq
                split at hq
                · simp only [Option.some.injEq] at hq
                  omega
                · cases hq
              exact ih fuel' (j + 1 + 1) (by omega) (by omega)
        · split
          · rfl
          · exact ih fuel' (i + 1) (by omega) (by omega)
      · rfl

/-- A pass of the loop of `Process` after which the loop goes on has read at
least one more line; the text stays, the line number stays at most the offset
and the offset within the text. -/
theorem ProcessStep_next (env : PreprocessorEnv) (blockStack : List BlockType)
    (p : Preprocessor) (blockStack' : List BlockType) (q : Preprocessor)
    (h : ProcessStep env blockStack p = .next blockStack' q) :
    q.m_scriptText = p.m_scriptText ∧
    p.m_curLineNo + 1 ≤ q.m_curLineNo ∧
    (p.m_curLineNo ≤ p.m_scriptTextOffset → q.m_curLineNo ≤ q.m_scriptTextOffset) ∧
    (p.m_scriptTextOffset ≤ p.m_scriptText.length →
      q.m_scriptTextOffset ≤ q.m_scriptText.length) := by
  have adv : ∀ (s1 : List BlockType) (p1 : Preprocessor),
      p1.m_scriptText = p.m_scriptText → p1.m_curLineNo = p.m_curLineNo →
      p1.m_scriptTextOffset = p.m_scriptTextOffset →
      ProcessAdvance s1 p1 = .next blockStack' q →
      q.m_scriptText = p.m_scriptText ∧
      p.m_curLineNo + 1 ≤ q.m_curLineNo ∧
      (p.m_curLineNo ≤ p.m_scriptTextOffset → q.m_curLineNo ≤ q.m_scriptTextOffset) ∧
      (p.m_scriptTextOffset ≤ p.m_scriptText.length →
        q.m_scriptTextOffset ≤ q.m_scriptText.length) := by
    intro s1 p1 h1 h2 h3 ha
    unfold ProcessAdvance at ha
    have hsp := AdvanceLine_spec (p1.m_scriptText.length + 1) p1
    split at ha
    · rename_i htrue
      simp only [ProcessStepResult.next.injEq] at ha
      obtain ⟨_, rfl⟩ := ha
      refine ⟨hsp.1.trans h1, ?_, ?_, ?_⟩
      · have := hsp.2.2.2.2 htrue
        omega
      · intro hle
        exact hsp.2.2.1 (by omega)
      · intro hle
        rw [hsp.1]
        exact hsp.2.2.2.1 (by rw [h1, h3]; exact hle)
    · cases ha
  unfold ProcessStep at h
  cases htok : NextToken s_delims (cstr p.m_curLineText) with
  | none =>
    rw [htok] at h
    exact adv blockStack p rfl rfl rfl h
  | some tr =>
    obtain ⟨token, rest⟩ := tr
    rw [htok] at h
    simp only [] at h
    cases hb : ProcessBlocks token p.m_curLineNo s_blocks blockStack p.m_loopDepth false with
    | error msg => rw [hb] at h; cases h
    | ok r =>
      obtain ⟨s1, d1, kw⟩ := r
      rw [hb] at h
      simp only [] at h
      split at h
      · cases h
      · exact adv s1 { p with m_loopDepth := d1 } rfl rfl rfl h

theorem ProcessIter_lines (env : PreprocessorEnv) :
    ∀ (n : Nat) (blockStack : List BlockType) (p : Preprocessor)
      (blockStack' : List BlockType) (p' : Preprocessor),
      p.m_curLineNo ≤ p.m_scriptTextOffset → p.m_scriptTextOffset ≤ p.m_scriptText.length →
      ProcessIter env n blockStack p = some (blockStack', p') →
      p'.m_scriptText = p.m_scriptText ∧ p.m_curLineNo + n ≤ p'.m_curLineNo ∧
      p'.m_curLineNo ≤ p'.m_scriptTextOffset ∧
      p'.m_scriptTextOffset ≤ p'.m_scriptText.length := by
  intro n
  induction n with
  | zero =>
    intro blockStack p blockStack' p' h1 h2 h
    simp only [ProcessIter, Option.some.injEq, Prod.mk.injEq] at h
    rw [← h.2]
    exact ⟨rfl, Nat.le_refl _, h1, h2⟩
  | succ n ih =>
    intro blockStack p blockStack' p' h1 h2 h
    unfold ProcessIter at h
    cases hs : ProcessStep env blockStack p with
    | failed msg => rw [hs] at h; cases h
    | finished bs => rw [hs] at h; cases h
    | next bs q =>
      rw [hs] at h
      simp only [] at h
      obtain ⟨e1, e2, e3, e4⟩ := ProcessStep_next env blockStack p bs q hs
      obtain ⟨f1, f2, f3, f4⟩ := ih bs q blockStack' p' (e3 h1) (e4 h2) h
      exact ⟨f1.trans e1, by omega, f3, f4⟩

theorem ProcessLoop_none (env : PreprocessorEnv) :
    ∀ (fuel : Nat) (blockStack : List BlockType) (p : Preprocessor),
      ProcessLoop env fuel blockStack p = none →
      ∃ r, ProcessIter env fuel blockStack p = some r := by
  intro fuel
  induction fuel with
  | zero => intro blockStack p _; exact ⟨_, rfl⟩
  | succ fuel ih =>
    intro blockStack p h
    rw [ProcessLoop_succ] at h
    unfold ProcessIter
    cases hs : ProcessStep env blockStack p with
    | failed msg => rw [hs] at h; cases h
    | finished bs => rw [hs] at h; cases h
    | next bs q =>
      rw [hs] at h
      exact ih bs q h

/-- `Process` returns for every script: the loop reads at least one line in
each pass, so that fuel for more passes than the script has characters is
enough. -/
theorem Process_returns (env : PreprocessorEnv) (fuel : Nat) (scriptText : List Char)
    (hfuel : scriptText.length < fuel) :
    ∃ r, PrecompileScript env fuel scriptText = some r := by
  cases h : PrecompileScript env fuel scriptText with
  | some r => exact ⟨r, rfl⟩
  | none =>
    exfalso
    have hinv := Preprocessor_new_invariant scriptText
    obtain ⟨r, hr⟩ := ProcessLoop_none env fuel [] (Preprocessor_new scriptText) h
    have := ProcessIter_lines env fuel [] (Preprocessor_new scriptText) r.1 r.2
      hinv.2.2.2.1 hinv.2.2.2.2 hr
    rw [this.1, hinv.1] at this
    omega

/-- The rule scan of `Operator::Evaluate` for a unary operator whose rules are all
asymmetric: the handler of the first rule that has one and whose left type the
left operand converts to is called; the right operand is passed on untested. -/
theorem Operator.EvaluateRules_unary {Tok Ctx : Type}
    (CanConvertTo : Tok → Token_Type → Bool) (Error : String → Ctx → Ctx)
    (call : EvalFn → OperatorType → Tok → Option Tok → Ctx → Option (Option Tok × Ctx))
    (op : Operator) (hun : op.IsUnary = true) (lhs : Tok) (rhs : Option Tok) (context : Ctx) :
    ∀ (rules : List OperationRule), (∀ r ∈ rules, r.bAsymmetric = true) →
      Operator.EvaluateRules CanConvertTo Error call op lhs rhs context rules =
        match rules.findSome? (fun r => if CanConvertTo lhs r.lhs then r.eval else none) with
        | some eval => call eval op.type lhs rhs context
        | none => some (none, Error "Cannot evaluate token  (Incomplete info)" context) := by
  intro rules
  induction rules with
  | nil => intro _; rfl
  | cons r rest ih =>
    intro hasym
    have ih' := ih (fun x hx => hasym x (List.mem_cons_of_mem _ hx))
    have hr : r.bAsymmetric = true := hasym r (List.mem_cons_self _ _)
    rw [Operator.EvaluateRules, List.findSome?_cons]
    cases he : r.eval with
    | none =>
      simp only [ite_self]
      exact ih'
    | some eval =>
      cases hc : CanConvertTo lhs r.lhs with
      | true =>
        simp [Operator.matchRule, hun, hc]
      | false =>
        simp only [Operator.matchRule, hun, hc, hr, Bool.and_false, Bool.false_eq_true, if_false,
          Bool.not_true]
        exact ih'

/-- The handlers of the rules of the unary operators of the run-time table. -/
theorem unary_handlers :
    ∀ op ∈ s_operators true, op.IsUnary = true → ∀ r ∈ op.rules, ∀ e, r.eval = some e →
      e ∈ [EvalFn.Eval_Negation, .Eval_LogicalNot, .Eval_ToString_String, .Eval_ToString_Number,
        .Eval_ToString_Form, .Eval_ToString_Array, .Eval_ToNumber, .Eval_Dereference,
        .Eval_Box_Number, .Eval_Box_String, .Eval_Box_Form, .Eval_Box_Array] := by
  decide

/-- A one-operand handler is called with the same outcome whatever the right
operand is. -/
theorem callEval_unary_ignores_rh (env : EvalEnv)
    (other : EvalFn → OperatorType → ScriptToken → Option ScriptToken →
      ExpressionEvaluator → EvalResult)
    (e : EvalFn)
    (he : e ∈ [EvalFn.Eval_Negation, .Eval_LogicalNot, .Eval_ToString_String,
        .Eval_ToString_Number, .Eval_ToString_Form, .Eval_ToString_Array, .Eval_ToNumber,
        .Eval_Dereference, .Eval_Box_Number, .Eval_Box_String, .Eval_Box_Form, .Eval_Box_Array])
    (t : OperatorType) (lh : ScriptToken) (rh : Option ScriptToken)
    (context : ExpressionEvaluator) :
    callEval env other e t lh rh context = callEval env other e t lh none context := by
  simp only [List.mem_cons, List.mem_singleton, List.not_mem_nil, or_false] at he
  rcases he with h | h | h | h | h | h | h | h | h | h | h | h <;> subst h <;> rfl

/-- A one-operand handler never meets a null pointer. -/
theorem callEval_unary_isSome (env : EvalEnv)
    (other : EvalFn → OperatorType → ScriptToken → Option ScriptToken →
      ExpressionEvaluator → EvalResult)
    (e : EvalFn)
    (he : e ∈ [EvalFn.Eval_Negation, .Eval_LogicalNot, .Eval_ToString_String,
        .Eval_ToString_Number, .Eval_ToString_Form, .Eval_ToString_Array, .Eval_ToNumber,
        .Eval_Dereference, .Eval_Box_Number, .Eval_Box_String, .Eval_Box_Form, .Eval_Box_Array])
    (t : OperatorType) (lh : ScriptToken) (rh : Option ScriptToken)
    (context : ExpressionEvaluator) :
    (callEval env other e t lh rh context).isSome = true := by
  simp only [List.mem_cons, List.mem_singleton, List.not_mem_nil, or_false] at he
  rcases he with h | h | h | h | h | h | h | h | h | h | h | h <;> subst h
  all_goals first
    | rfl
    | (simp only [callEval, Eval_ToString_Array]; split <;> rfl)
    | (simp only [callEval, Eval_Dereference]; split_ifs <;> first | rfl | (split <;> rfl))

/-- Claim C31.  The unary operators of the run-time table are unary `-`, `!`, `$`,
`#`, unary `*` and unary `&`.  For each of them every rule is asymmetric;
`Operator::Evaluate` calls the handler of the first rule whose left type the left
operand converts to (or reports that no rule applies) without testing the right
operand, whatever conversion test, handlers and operands are used, so also with a
null right operand; with the handlers of the code the outcome is the same for
every right operand, and with a null right operand no null pointer is
dereferenced, whether or not a rule matches. -/
theorem unary_Evaluate_ignores_right_operand (op : Operator) (hop : op ∈ s_operators true)
    (hun : op.IsUnary = true) :
    ((s_operators true).filter (fun o => o.IsUnary)).map (fun o => (o.symbol, o.type)) =
      [("-", .Negation), ("!", .LogicalNot), ("$", .ToString), ("#", .ToNumber),
        ("*", .Dereference), ("&", .Box)] ∧
    (∀ r ∈ op.rules, r.bAsymmetric = true) ∧
    (∀ (Tok Ctx : Type) (CanConvertTo : Tok → Token_Type → Bool) (Error : String → Ctx → Ctx)
        (call : EvalFn → OperatorType → Tok → Option Tok → Ctx → Option (Option Tok × Ctx))
        (lhs : Tok) (rhs : Option Tok) (context : Ctx),
      Operator.Evaluate CanConvertTo Error call op lhs rhs context =
        match op.rules.findSome? (fun r => if CanConvertTo lhs r.lhs then r.eval else none) with
        | some eval => call eval op.type lhs rhs context
        | none => some (none, Error "Cannot evaluate token  (Incomplete info)" context)) ∧
    (∀ (env : EvalEnv)
        (other : EvalFn → OperatorType → ScriptToken → Option ScriptToken →
          ExpressionEvaluator → EvalResult)
        (lhs : ScriptToken) (rhs : Option ScriptToken) (context : ExpressionEvaluator),
      Operator.Evaluate (ScriptToken.CanConvertTo context) ExpressionEvaluator.Error
          (callEval env other) op lhs rhs context =
        Operator.Evaluate (ScriptToken.CanConvertTo context) ExpressionEvaluator.Error
          (callEval env other) op lhs none context ∧
      (Operator.Evaluate (ScriptToken.CanConvertTo context) ExpressionEvaluator.Error
          (callEval env other) op lhs none context).isSome = true) := by
  have hasym : ∀ r ∈ op.rules, r.bAsymmetric = true := by
    revert op; decide
  have hnum : (op.numOperands == 0) = false := by
    simp only [Operator.IsUnary, beq_iff_eq] at hun
    simp [hun]
  have hgen : ∀ (Tok Ctx : Type) (CanConvertTo : Tok → Token_Type → Bool)
      (Error : String → Ctx → Ctx)
      (call : EvalFn → OperatorType → Tok → Option Tok → Ctx → Option (Option Tok × Ctx))
      (lhs : Tok) (rhs : Option Tok) (context : Ctx),
      Operator.Evaluate CanConvertTo Error call op lhs rhs context =
        match op.rules.findSome? (fun r => if CanConvertTo lhs r.lhs then r.eval else none) with
        | some eval => call eval op.type lhs rhs context
        | none => some (none, Error "Cannot evaluate token  (Incomplete info)" context) := by
    intro Tok Ctx CanConvertTo Error call lhs rhs context
    rw [Operator.Evaluate, hnum]
    exact Operator.EvaluateRules_unary CanConvertTo Error call op hun lhs rhs context op.rules hasym
  refine ⟨by decide, hasym, hgen, ?_⟩
  intro env other lhs rhs context
  rw [hgen, hgen]
  cases hf : op.rules.findSome?
      (fun r => if ScriptToken.CanConvertTo context lhs r.lhs then r.eval else none) with
  | none => exact ⟨rfl, rfl⟩
  | some eval =>
    obtain ⟨r, hr, hre⟩ := List.exists_of_findSome?_eq_some hf
    have he : r.eval = some eval := by
      split at hre
      · exact hre
      · cases hre
    have hmem := unary_handlers op hop hun r hr eval he
    exact ⟨callEval_unary_ignores_rh env other eval hmem op.type lhs rhs context,
      callEval_unary_isSome env other eval hmem op.type lhs none context⟩

/-- Unary `-` of the run-time table applied to the number 5 with a null right
operand. -/
theorem unary_Evaluate_ignores_right_operand_witness :
    ((s_operators true).filter (fun o => o.IsUnary)).map (fun o => (o.symbol, o.type)) =
      [("-", .Negation), ("!", .LogicalNot), ("$", .ToString), ("#", .ToNumber),
        ("*", .Dereference), ("&", .Box)] ∧
    (∀ r ∈ kOpRule_Negation true, r.bAsymmetric = true) :=
  ⟨(unary_Evaluate_ignores_right_operand ⟨25, "-", 1, .Negation, kOpRule_Negation true⟩
      (by decide) (by decide)).1,
    (unary_Evaluate_ignores_right_operand ⟨25, "-", 1, .Negation, kOpRule_Negation true⟩
      (by decide) (by decide)).2.1⟩

/-- Claim C32.  Swapped evaluation in the run-time rule tables.  (1) A rule whose
two operand types are equal never matches in swapped order without matching
directly.  (2) The rules that are not asymmetric and have different operand
types are the rule (Form, Number) of `==` and of `!=`, with the handler
`Eval_Eq_Form_Number`, and the rule (String, Number) of `*`, with the handler
`Eval_Multiply_String_Number`, and these three rules exist.  (3) The matching
test of `Operator::Evaluate` sets `bSwapOrder` only on a rule with one of these
two handlers, whatever the operands are.  (4) For a binary operator of the table
`Evaluate` calls the handler of the first rule that matches directly or swapped
with the operands in their order when the rule matches directly, and with the
operands reversed otherwise, which happens only for these two handlers.  (5) For
a token `s` that converts to String and not to Number and a token `n` that
converts to Number, `n * s` and `s * n` both are
`Eval_Multiply_String_Number(s, n)`; so the text "ab" times 2 is "abab" in both
orders. -/
theorem swapped_evaluation_only_two_handlers :
    (∀ (Tok : Type) (CanConvertTo : Tok → Token_Type → Bool) (op : Operator)
        (r : OperationRule) (lhs : Tok) (rhs : Option Tok),
      r.lhs = r.rhs → Operator.matchesSwapped CanConvertTo op r lhs rhs = true →
        Operator.matchesDirect CanConvertTo op r lhs rhs = true) ∧
    (∀ op ∈ s_operators true, ∀ r ∈ op.rules, r.bAsymmetric = false → r.lhs ≠ r.rhs →
      ((op.type = .Equals ∨ op.type = .NotEqual) ∧ r.lhs = .Form ∧ r.rhs = .Number ∧
        r.eval = some .Eval_Eq_Form_Number) ∨
      (op.type = .Multiply ∧ r.lhs = .String ∧ r.rhs = .Number ∧
        r.eval = some .Eval_Multiply_String_Number)) ∧
    ((s_operators true).flatMap (fun op =>
        (op.rules.filter (fun r => !r.bAsymmetric && r.lhs != r.rhs)).map
          (fun r => (op.symbol, r.lhs, r.rhs, r.eval))) =
      [("==", .Form, .Number, some .Eval_Eq_Form_Number),
        ("!=", .Form, .Number, some .Eval_Eq_Form_Number),
        ("*", .String, .Number, some .Eval_Multiply_String_Number)]) ∧
    (∀ op ∈ s_operators true, ∀ r ∈ op.rules,
      ∀ (Tok : Type) (CanConvertTo : Tok → Token_Type → Bool) (lhs : Tok) (rhs : Option Tok),
        Operator.matchRule CanConvertTo op r lhs rhs = some (true, true) →
          r.eval = some .Eval_Eq_Form_Number ∨ r.eval = some .Eval_Multiply_String_Number) ∧
    (∀ op ∈ s_operators true, op.numOperands = 2 →
      ∀ (Tok Ctx : Type) (CanConvertTo : Tok → Token_Type → Bool) (Error : String → Ctx → Ctx)
        (call : EvalFn → OperatorType → Tok → Option Tok → Ctx → Option (Option Tok × Ctx))
        (lhs rhs : Tok) (context : Ctx),
        match op.rules.find? (fun r => Operator.matchesDirect CanConvertTo op r lhs (some rhs) ||
            Operator.matchesSwapped CanConvertTo op r lhs (some rhs)) with
        | none =>
          Operator.Evaluate CanConvertTo Error call op lhs (some rhs) context =
            some (none, Error "Cannot evaluate token  (Incomplete info)" context)
        | some rule =>
          ∃ eval, rule.eval = some eval ∧
            if Operator.matchesDirect CanConvertTo op rule lhs (some rhs) then
              Operator.Evaluate CanConvertTo Error call op lhs (some rhs) context =
                call eval op.type lhs (some rhs) context
            else
              (eval = .Eval_Eq_Form_Number ∨ eval = .Eval_Multiply_String_Number) ∧
              Operator.Evaluate CanConvertTo Error call op lhs (some rhs) context =
                call eval op.type rhs (some lhs) context) ∧
    (⟨21, "*", 2, .Multiply, kOpRule_Multiply true⟩ ∈ s_operators true ∧
      ∀ (CanConvertTo : ScriptToken → Token_Type → Bool) (env : EvalEnv)
        (other : EvalFn → OperatorType → ScriptToken → Option ScriptToken →
          ExpressionEvaluator → EvalResult)
        (s n : ScriptToken) (context : ExpressionEvaluator),
        CanConvertTo s .String = true → CanConvertTo s .Number = false →
        CanConvertTo n .Number = true →
          Operator.Evaluate CanConvertTo ExpressionEvaluator.Error (callEval env other)
              ⟨21, "*", 2, .Multiply, kOpRule_Multiply true⟩ n (some s) context =
            Eval_Multiply_String_Number .Multiply s n context ∧
          Operator.Evaluate CanConvertTo ExpressionEvaluator.Error (callEval env other)
              ⟨21, "*", 2, .Multiply, kOpRule_Multiply true⟩ s (some n) context =
            Eval_Multiply_String_Number .Multiply s n context) ∧
    (∀ (env : EvalEnv)
        (other : EvalFn → OperatorType → ScriptToken → Option ScriptToken →
          ExpressionEvaluator → EvalResult),
      Operator.Evaluate (ScriptToken.CanConvertTo sampleContext) ExpressionEvaluator.Error
          (callEval env other) ⟨21, "*", 2, .Multiply, kOpRule_Multiply true⟩
          (.Number 2) (some (.String ['a', 'b'])) sampleContext =
        some (some (.String ['a', 'b', 'a', 'b']), sampleContext) ∧
      Operator.Evaluate (ScriptToken.CanConvertTo sampleContext) ExpressionEvaluator.Error
          (callEval env other) ⟨21, "*", 2, .Multiply, kOpRule_Multiply true⟩
          (.String ['a', 'b']) (some (.Number 2)) sampleContext =
        some (some (.String ['a', 'b', 'a', 'b']), sampleContext)) := by
  have h2 : ∀ op ∈ s_operators true, ∀ r ∈ op.rules, r.bAsymmetric = false → r.lhs ≠ r.rhs →
      ((op.type = .Equals ∨ op.type = .NotEqual) ∧ r.lhs = .Form ∧ r.rhs = .Number ∧
        r.eval = some .Eval_Eq_Form_Number) ∨
      (op.type = .Multiply ∧ r.lhs = .String ∧ r.rhs = .Number ∧
        r.eval = some .Eval_Multiply_String_Number) := by
    decide
  have h1 : ∀ (Tok : Type) (CanConvertTo : Tok → Token_Type → Bool) (op : Operator)
      (r : OperationRule) (lhs : Tok) (rhs : Option Tok),
      r.lhs = r.rhs → Operator.matchesSwapped CanConvertTo op r lhs rhs = true →
        Operator.matchesDirect CanConvertTo op r lhs rhs = true := by
    intro Tok CanConvertTo op r lhs rhs heq hs
    simp only [Operator.matchesSwapped, Bool.and_eq_true, Bool.not_eq_true'] at hs
    obtain ⟨⟨⟨hu, _⟩, hr⟩, hl⟩ := hs
    simp only [Operator.matchesDirect, hu, Bool.false_eq_true, if_false, Bool.and_eq_true]
    rw [heq] at hr ⊢
    exact ⟨hl, hr⟩
  have h3 : ∀ op ∈ s_operators true, ∀ r ∈ op.rules,
      ∀ (Tok : Type) (CanConvertTo : Tok → Token_Type → Bool) (lhs : Tok) (rhs : Option Tok),
        Operator.matchRule CanConvertTo op r lhs rhs = some (true, true) →
          r.eval = some .Eval_Eq_Form_Number ∨ r.eval = some .Eval_Multiply_String_Number := by
    intro op hop r hr Tok CanConvertTo lhs rhs hm
    cases hasym : r.bAsymmetric with
    | true =>
      exfalso
      unfold Operator.matchRule at hm
      cases hu : op.IsUnary <;> cases hl : CanConvertTo lhs r.lhs <;>
        rcases rhs with _ | x <;> simp [hu, hl, hasym] at hm
      all_goals cases hx : CanConvertTo x r.rhs <;> simp [hx] at hm
    | false =>
      by_cases heq : r.lhs = r.rhs
      · exfalso
        unfold Operator.matchRule at hm
        rw [heq] at hm
        cases hu : op.IsUnary <;> cases hl : CanConvertTo lhs r.rhs <;>
          rcases rhs with _ | x <;> simp [hu, hl, hasym] at hm
        all_goals cases hx : CanConvertTo x r.rhs <;> simp [hx] at hm
      · rcases h2 op hop r hr hasym heq with h | h
        · exact Or.inl h.2.2.2
        · exact Or.inr h.2.2.2
  refine ⟨h1, h2, by decide, h3, ?_, ⟨by decide, ?_⟩, ?_⟩
  · intro op hop hnum Tok Ctx CanConvertTo Error call lhs rhs context
    have hun : op.IsUnary = false := by simp [Operator.IsUnary, hnum]
    have hshape := (runtime_rules_swap_shape op hop).1
    have hfil : op.rules.filter (fun r => r.eval.isSome) = op.rules :=
      List.filter_eq_self.mpr hshape
    have hE : Operator.Evaluate CanConvertTo Error call op lhs (some rhs) context =
        Operator.resolveSpec CanConvertTo Error call op lhs (some rhs) context op.rules := by
      rw [Operator.Evaluate]
      simp only [hnum, show ((2 : Nat) == 0) = false from rfl, Bool.false_eq_true, if_false]
      exact Operator.EvaluateRules_eq_spec CanConvertTo Error call op lhs (some rhs) context
        (fun _ => rfl) op.rules (fun hu => by rw [hun] at hu; cases hu)
    rw [hE, Operator.resolveSpec, hfil]
    cases hf : op.rules.find? (fun r => Operator.matchesDirect CanConvertTo op r lhs (some rhs) ||
        Operator.matchesSwapped CanConvertTo op r lhs (some rhs)) with
    | none => rfl
    | some rule =>
      have hmem : rule ∈ op.rules := List.mem_of_find?_eq_some hf
      have hmatch := List.find?_some hf
      obtain ⟨eval, he⟩ := Option.isSome_iff_exists.mp (hshape rule hmem)
      refine ⟨eval, he, ?_⟩
      simp only [he]
      cases hd : Operator.matchesDirect CanConvertTo op rule lhs (some rhs) with
      | true => simp
      | false =>
        simp only [Bool.false_eq_true, if_false, and_true]
        rw [hd, Bool.false_or] at hmatch
        have hasym : rule.bAsymmetric = false := by
          simp only [Operator.matchesSwapped, Bool.and_eq_true, Bool.not_eq_true'] at hmatch
          exact hmatch.1.1.2
        have hne : rule.lhs ≠ rule.rhs := by
          intro heq
          have := h1 Tok CanConvertTo op rule lhs (some rhs) heq hmatch
          rw [hd] at this
          cases this
        rcases h2 op hop rule hmem hasym hne with h | h
        · rw [he] at h
          exact Or.inl (Option.some.inj h.2.2.2)
        · rw [he] at h
          exact Or.inr (Option.some.inj h.2.2.2)
  · intro CanConvertTo env other s n context hs hsn hn
    constructor
    · simp [Operator.Evaluate, kOpRule_Multiply, editorOnly, OP_HANDLER,
        Operator.EvaluateRules, Operator.matchRule, Operator.IsUnary, hs, hsn, hn, callEval]
    · simp [Operator.Evaluate, kOpRule_Multiply, editorOnly, OP_HANDLER,
        Operator.EvaluateRules, Operator.matchRule, Operator.IsUnary, hs, hsn, hn, callEval]
  · intro env other
    have e1 : (Token_Type.String == Token_Type.Number) = false := by decide
    have e2 : (Token_Type.Number == Token_Type.String) = false := by decide
    constructor
    · simp [Operator.Evaluate, kOpRule_Multiply, editorOnly, OP_HANDLER,
        Operator.EvaluateRules, Operator.matchRule, Operator.IsUnary, callEval,
        ScriptToken.CanConvertTo, ScriptToken.TokenType, Eval_Multiply_String_Number,
        ScriptToken.GetNumber, ScriptToken.GetString, toUInt32, cstr, e1, e2]
      try decide
    · simp [Operator.Evaluate, kOpRule_Multiply, editorOnly, OP_HANDLER,
        Operator.EvaluateRules, Operator.matchRule, Operator.IsUnary, callEval,
        ScriptToken.CanConvertTo, ScriptToken.TokenType, Eval_Multiply_String_Number,
        ScriptToken.GetNumber, ScriptToken.GetString, toUInt32, cstr, e1, e2]
      try decide

theorem findFrom_at (ch : Char) (pre rest : List Char) :
    findFrom ch pre.length (pre ++ ch :: rest) = some pre.length := by
  simp [findFrom, List.indexOf?, List.findIdx?_cons]

theorem findFrom_skip (ch c : Char) (pre rest : List Char) (h : c ≠ ch) :
    findFrom ch pre.length (pre ++ c :: rest) =
      findFrom ch (pre.length + 1) (pre ++ c :: rest) := by
  have e : List.drop (pre.length + 1) (pre ++ c :: rest) = rest := by
    rw [show pre.length + 1 = pre.length + 1 from rfl, List.drop_append]
    rfl
  simp only [findFrom, List.drop_left, e, List.indexOf?, List.findIdx?_cons]
  have hc : (c == ch) = false := by simpa using h
  simp only [hc, Bool.false_eq_true, if_false]
  rw [List.findIdx?_succ]
  generalize List.findIdx? (fun x => x == ch) rest 0 = r
  cases r with
  | none => rfl
  | some i =>
    simp only [Option.map_some']
    congr 1
    omega

theorem FormatStringLoop_pos (fuel pos pos' : Nat) (str : List Char)
    (h : findFrom '%' pos str = findFrom '%' pos' str) :
    FormatStringLoop fuel pos str = FormatStringLoop fuel pos' str := by
  cases fuel with
  | zero => rfl
  | succ fuel => simp only [FormatStringLoop, h]

/-- The loop of `FormatString` started behind an already rewritten prefix
rewrites the rest as `FormatStringSpec` does. -/
theorem FormatStringLoop_eq_spec :
    ∀ (n : Nat) (rest pre : List Char) (fuel : Nat), rest.length ≤ n → rest.length < fuel →
      FormatStringLoop fuel pre.length (pre ++ rest) = pre ++ FormatStringSpec rest := by
  intro n
  induction n with
  | zero =>
    intro rest pre fuel hn hf
    have : rest = [] := List.length_eq_zero.mp (Nat.le_zero.mp hn)
    subst this
    obtain ⟨fuel1, rfl⟩ : ∃ k, fuel = k + 1 := ⟨fuel - 1, by simp at hf; omega⟩
    simp [FormatStringLoop, findFrom, FormatStringSpec, List.indexOf?]
  | succ n ih =>
    intro rest pre fuel hn hf
    obtain ⟨fuel1, rfl⟩ : ∃ k, fuel = k + 1 := ⟨fuel - 1, by omega⟩
    match rest, hn, hf with
    | [], _, _ => simp [FormatStringLoop, findFrom, FormatStringSpec, List.indexOf?]
    | c :: rest1, hn, hf =>
      by_cases hc : c = '%'
      · subst hc
        rw [FormatStringLoop, findFrom_at]
        simp only []
        match rest1, hn, hf with
        | [], _, _ => simp [FormatStringSpec]
        | d :: rest2, hn, hf =>
          have hlt : pre.length < (pre ++ '%' :: d :: rest2).length - 1 := by
            simp only [List.length_append, List.length_cons]
            omega
          have hd : charAt (pre ++ '%' :: d :: rest2) (pre.length + 1) = d :=
            charAt_append_right pre ('%' :: d :: rest2) 1
          have htake : List.take pre.length (pre ++ '%' :: d :: rest2) = pre := by simp
          have hdrop : List.drop (pre.length + 2) (pre ++ '%' :: d :: rest2) = rest2 := by
            rw [List.drop_append]
            rfl
          simp only [List.length_cons] at hn hf
          rw [if_pos hlt, hd, htake, hdrop]
          by_cases h1 : d = '%'
          · subst h1
            have := ih rest2 (pre ++ ['%', '%']) fuel1 (by omega) (by omega)
            simp only [List.length_append, List.length_cons, List.length_nil, List.append_assoc,
              List.cons_append, List.nil_append] at this
            simp [FormatStringSpec, this]
          · have e1 : (d == '%') = false := by simpa using h1
            by_cases h2 : d = 'r' ∨ d = 'R'
            · have e2 : (d == 'r' || d == 'R') = true := by simpa using h2
              have := ih rest2 (pre ++ ['\n']) fuel1 (by omega) (by omega)
              simp only [List.length_append, List.length_cons, List.length_nil, List.append_assoc,
                List.cons_append, List.nil_append] at this
              simp [FormatStringSpec, this, e1, e2, h1, h2]
            · have e2 : (d == 'r' || d == 'R') = false := by simpa using h2
              by_cases h3 : d = 'q' ∨ d = 'Q'
              · have e3 : (d == 'q' || d == 'Q') = true := by simpa using h3
                have := ih rest2 (pre ++ ['"']) fuel1 (by omega) (by omega)
                simp only [List.length_append, List.length_cons, List.length_nil,
                  List.append_assoc, List.cons_append, List.nil_append] at this
                simp [FormatStringSpec, this, e1, e2, e3, h1, h2, h3]
              · have e3 : (d == 'q' || d == 'Q') = false := by simpa using h3
                have := ih (d :: rest2) (pre ++ ['%']) fuel1 (by simp; omega) (by simp; omega)
                simp only [List.length_append, List.length_cons, List.length_nil,
                  List.append_assoc, List.cons_append, List.nil_append] at this
                simp [FormatStringSpec, this, e1, e2, e3, h1, h2, h3]
      · rw [FormatStringLoop_pos (fuel1 + 1) pre.length (pre.length + 1) _
          (findFrom_skip '%' c pre rest1 hc)]
        simp only [List.length_cons] at hn hf
        have := ih rest1 (pre ++ [c]) (fuel1 + 1) (by omega) (by omega)
        simp only [List.length_append, List.length_cons, List.length_nil, List.append_assoc,
          List.cons_append, List.nil_append] at this
        rw [this]
        cases rest1 with
        | nil => simp [FormatStringSpec]
        | cons d rest2 => simp [FormatStringSpec, hc]

/-- The rewrite never lengthens a string. -/
theorem FormatStringSpec_length : ∀ (n : Nat) (s : List Char), s.length ≤ n →
    (FormatStringSpec s).length ≤ s.length := by
  intro n
  induction n with
  | zero =>
    intro s hs
    have : s = [] := List.length_eq_zero.mp (Nat.le_zero.mp hs)
    subst this
    simp [FormatStringSpec]
  | succ n ih =>
    intro s hs
    match s, hs with
    | [], _ => simp [FormatStringSpec]
    | [c], _ => simp [FormatStringSpec]
    | c :: d :: rest, hs =>
      simp only [List.length_cons] at hs
      have h1 := ih rest (by omega)
      have h2 := ih (d :: rest) (by simp; omega)
      simp only [List.length_cons] at h2
      simp only [FormatStringSpec]
      split_ifs <;> simp only [List.length_cons] <;> omega

/-- Claim C37.  `FormatString` is the left-to-right rewrite `FormatStringSpec`
for every string: `%r` and `%R` become a newline, `%q` and `%Q` a double quote,
`%%` is kept and skipped, a `%` before another character and a trailing `%` are
kept.  So `%%q` is unchanged, a string without `%` is returned unchanged, and
the result is never longer than the string. -/
theorem FormatString_eq_rewrite (str : List Char) :
    FormatString str = FormatStringSpec str ∧
    FormatString ['%', '%', 'q'] = ['%', '%', 'q'] ∧
    FormatString ['a', '%', 'q', '%', 'R', '%', 'x', '%'] = ['a', '"', '\n', '%', 'x', '%'] ∧
    ('%' ∉ str → FormatString str = str) ∧
    (FormatString str).length ≤ str.length := by
  have h : ∀ s, FormatString s = FormatStringSpec s := fun s =>
    FormatStringLoop_eq_spec s.length s [] (s.length + 1) (le_refl _) (Nat.lt_succ_self _)
  refine ⟨h str, by decide, by decide, ?_, ?_⟩
  · intro hp
    exact FormatStringLoop_of_no_percent str hp _ _
  · rw [h]
    exact FormatStringSpec_length _ str (le_refl _)

/-- One more line after `n` lines. -/
theorem ProcessIter_snoc (env : PreprocessorEnv) :
    ∀ (n : Nat) (s : List BlockType) (p : Preprocessor) (s1 : List BlockType) (p1 : Preprocessor)
      (s2 : List BlockType) (p2 : Preprocessor),
      ProcessIter env n s p = some (s1, p1) → ProcessStep env s1 p1 = .next s2 p2 →
      ProcessIter env (n + 1) s p = some (s2, p2) := by
  intro n
  induction n with
  | zero =>
    intro s p s1 p1 s2 p2 h hs
    simp only [ProcessIter, Option.some.injEq, Prod.mk.injEq] at h
    obtain ⟨rfl, rfl⟩ := h
    simp only [ProcessIter, hs]
  | succ n ih =>
    intro s p s1 p1 s2 p2 h hs
    rw [ProcessIter] at h ⊢
    cases hstep : ProcessStep env s p with
    | failed msg => rw [hstep] at h; simp at h
    | finished bs => rw [hstep] at h; simp at h
    | next bs q =>
      rw [hstep] at h
      simp only [] at h ⊢
      exact ih bs q s1 p1 s2 p2 h hs

/-- The keywords `elseif` and `else` on a stack with an If block on top: the
block is closed and opened again. -/
theorem ProcessBlocksFolded_dual (lineNo : Nat) (below : List BlockType) (d : Nat) :
    ProcessBlocksFolded "elseif".toList lineNo s_blocks (.If :: below) d false =
      .ok (.If :: below, d, true) ∧
    ProcessBlocksFolded "else".toList lineNo s_blocks (.If :: below) d false =
      .ok (.If :: below, d, true) := by
  constructor <;> rfl

/-- Claim C38.  Loop-depth invariant of `Preprocessor::Process`, for a script
shorter than 2^32 - 1 characters.  When the loop arrives at a line after `n`
lines passed without error, `m_loopDepth` is the number of Loop entries on the
stack of open blocks, and so it is after the block keywords of that line have
been handled, also when it is the last line: the 32-bit counter never wraps.
When the first token of the line is, letter case aside, `elseif` or `else` and
an If block is on top of the stack, the line is accepted, and the stack and
`m_loopDepth` are after the line what they were before it. -/
theorem loopDepth_counts_open_loops (env : PreprocessorEnv) (scriptText : List Char)
    (hlen : scriptText.length < 4294967295) (n : Nat)
    (blockStack : List BlockType) (p : Preprocessor)
    (hreach : ProcessIter env n [] (Preprocessor_new scriptText) = some (blockStack, p)) :
    p.m_loopDepth = blockStack.count .Loop ∧
    (∀ (token rest : List Char) (stack1 : List BlockType) (d1 : Nat) (kw : Bool),
      NextToken s_delims (cstr p.m_curLineText) = some (token, rest) →
      ProcessBlocks token p.m_curLineNo s_blocks blockStack p.m_loopDepth false =
        .ok (stack1, d1, kw) →
      d1 = stack1.count .Loop) ∧
    (∀ (stack1 : List BlockType) (q : Preprocessor),
      ProcessStep env blockStack p = .next stack1 q → q.m_loopDepth = stack1.count .Loop) ∧
    (∀ (token rest : List Char) (below : List BlockType),
      NextToken s_delims (cstr p.m_curLineText) = some (token, rest) →
      (stricmp token "elseif".toList = 0 ∨ stricmp token "else".toList = 0) →
      blockStack = .If :: below →
      ProcessBlocks token p.m_curLineNo s_blocks blockStack p.m_loopDepth false =
        .ok (blockStack, p.m_loopDepth, true) ∧
      ProcessStep env blockStack p = ProcessAdvance blockStack p ∧
      (∀ (stack1 : List BlockType) (q : Preprocessor),
        ProcessStep env blockStack p = .next stack1 q →
          stack1 = blockStack ∧ q.m_loopDepth = p.m_loopDepth) ∧
      (∀ (stack1 : List BlockType),
        ProcessStep env blockStack p = .finished stack1 → stack1 = blockStack)) := by
  have hinv := ProcessIter_invariant env scriptText hlen n [] (Preprocessor_new scriptText)
    blockStack p (Preprocessor_new_invariant scriptText) hreach
  obtain ⟨htext, hdepth, hstack, hline, hoff⟩ := hinv
  refine ⟨hdepth, ?_, ?_, ?_⟩
  · intro token rest stack1 d1 kw htok hb
    have hn : NUL ∉ token := NextToken_no_nul _ _ _ _ htok
    rw [ProcessBlocks_eq_folded token _ hn s_blocks s_blocks_keywords.1] at hb
    have h1 := s_blocks_countP_le_one (token.map tolower)
    exact (ProcessBlocksFolded_loopDepth (token.map tolower) p.m_curLineNo s_blocks
      blockStack p.m_loopDepth false stack1 d1 kw hdepth (by rw [htext] at hoff; omega) hb).1
  · intro stack1 q hs
    have hnext : ProcessIter env (n + 1) [] (Preprocessor_new scriptText) = some (stack1, q) :=
      ProcessIter_snoc env n [] (Preprocessor_new scriptText) blockStack p stack1 q hreach hs
    exact (ProcessIter_invariant env scriptText hlen (n + 1) [] (Preprocessor_new scriptText)
      stack1 q (Preprocessor_new_invariant scriptText) hnext).2.1
  · intro token rest below htok hkw hstk
    have hn : NUL ∉ token := NextToken_no_nul _ _ _ _ htok
    have hfold : token.map tolower = "elseif".toList ∨ token.map tolower = "else".toList := by
      rcases hkw with h | h
      · left
        have := stricmp_eq_zero_iff token "elseif" hn (by decide)
        rw [h] at this
        simpa using this.symm
      · right
        have := stricmp_eq_zero_iff token "else" hn (by decide)
        rw [h] at this
        simpa using this.symm
    have hb : ProcessBlocks token p.m_curLineNo s_blocks blockStack p.m_loopDepth false =
        .ok (blockStack, p.m_loopDepth, true) := by
      rw [ProcessBlocks_eq_folded token _ hn s_blocks s_blocks_keywords.1, hstk]
      rcases hfold with h | h
      · rw [h]
        exact (ProcessBlocksFolded_dual _ _ _).1
      · rw [h]
        exact (ProcessBlocksFolded_dual _ _ _).2
    have hstep : ProcessStep env blockStack p = ProcessAdvance blockStack p := by
      unfold ProcessStep
      rw [htok]
      simp only [hb]
      rfl
    refine ⟨hb, hstep, ?_, ?_⟩
    · intro stack1 q hs
      rw [hstep] at hs
      unfold ProcessAdvance at hs
      split at hs
      · simp only [ProcessStepResult.next.injEq] at hs
        obtain ⟨rfl, rfl⟩ := hs
        exact ⟨rfl, (AdvanceLine_spec _ p).2.1⟩
      · cases hs
    · intro stack1 hs
      rw [hstep] at hs
      unfold ProcessAdvance at hs
      split at hs
      · cases hs
      · simp only [ProcessStepResult.finished.injEq] at hs
        exact hs.symm

/-- The script `if 1`, `else`, `endif`: at the line `else` the stack holds an If
block and `m_loopDepth` is 0, and so it is after the line. -/
theorem loopDepth_counts_open_loops_witness :
    ProcessIter ⟨fun _ _ => .Invalid, fun _ => none⟩ 1 [] (Preprocessor_new "if 1\r\nelse\r\nendif".toList) =
      some ([.If], ⟨0, "else".toList, 2, "if 1\r\nelse\r\nendif".toList, 12⟩) ∧
    ProcessStep ⟨fun _ _ => .Invalid, fun _ => none⟩ [.If]
        ⟨0, "else".toList, 2, "if 1\r\nelse\r\nendif".toList, 12⟩ =
      .next [.If] ⟨0, "endif".toList, 3, "if 1\r\nelse\r\nendif".toList, 17⟩ ∧
    (0 : Nat) = [BlockType.If].count .Loop :=
  ⟨rfl, rfl,
    (loopDepth_counts_open_loops ⟨fun _ _ => .Invalid, fun _ => none⟩
      "if 1\r\nelse\r\nendif".toList (by decide) 1 [.If]
      ⟨0, "else".toList, 2, "if 1\r\nelse\r\nendif".toList, 12⟩ rfl).1⟩

theorem toUInt32_intCast (k : Int) (h0 : 0 ≤ k) (h1 : k < 4294967296) :
    toUInt32 (k : ℚ) = k.toNat := by
  simp only [toUInt32, Rat.num_intCast, Rat.den_intCast, Nat.cast_one, Int.tdiv_one]
  rw [Int.emod_eq_of_lt h0 h1]

theorem truncNat_intCast (k : Int) : truncNat (k : ℚ) = k.toNat := by
  simp only [truncNat, Rat.num_intCast, Rat.den_intCast, Nat.cast_one, Int.tdiv_one]

theorem drop_take_one (s : List Char) (k : Nat) (h : k < s.length) :
    (s.drop k).take 1 = [charAt s k] := by
  induction s generalizing k with
  | nil => simp at h
  | cons c s ih =>
    cases k with
    | zero => simp [charAt]
    | succ k =>
      simp only [List.length_cons] at h
      have := ih k (by omega)
      simpa [charAt] using this

/-- Claim C39, amended.  String indexing, for a string `s` of length `n < 2^32` (the left
operand) and an integer `i`.  `Eval_Subscript_String` with the index `i` returns
the one-character string `s[i]` when `0 ≤ i < n`, the one-character string
`s[n + i]` when `-n ≤ i < 0`, and the empty string when `n ≤ i < 2^32`.
`Eval_Subscript_String_Slice` with a slice of integer bounds, where `lo` and `hi`
are the bounds after `n` has been added to a negative one, returns the
characters `lo..hi` inclusive when `0 ≤ lo ≤ hi < n` and the empty string
otherwise.  For `-n ≤ i < n` the slice `i:i` gives what the index `i` gives.  The
state is left as it was. -/
theorem string_indexing (op : OperatorType) (lh rh : ScriptToken) (context : ExpressionEvaluator)
    (s : List Char) (i : Int)
    (hs : lh.GetString context = s) (hi : rh.GetNumber context = (i : ℚ))
    (hn : s.length < 4294967296) :
    (0 ≤ i → i < s.length →
      Eval_Subscript_String op lh rh context =
        some (some (.String [charAt s i.toNat]), context)) ∧
    (-(s.length : Int) ≤ i → i < 0 →
      Eval_Subscript_String op lh rh context =
        some (some (.String [charAt s ((s.length : Int) + i).toNat]), context)) ∧
    ((s.length : Int) ≤ i → i < 4294967296 →
      Eval_Subscript_String op lh rh context = some (some (.String []), context)) ∧
    (∀ (sl : Slice) (l u : Int), sl.bIsString = false →
      sl.m_lower = (l : ℚ) → sl.m_upper = (u : ℚ) →
      ∀ (lo hi : Int), lo = (if l < 0 then l + s.length else l) →
        hi = (if u < 0 then u + s.length else u) →
        (0 ≤ lo ∧ lo ≤ hi ∧ hi < s.length →
          Eval_Subscript_String_Slice op lh (.Slice sl) context =
            some (some (.String ((s.drop lo.toNat).take (hi - lo + 1).toNat)), context)) ∧
        (¬ (0 ≤ lo ∧ lo ≤ hi ∧ hi < s.length) →
          Eval_Subscript_String_Slice op lh (.Slice sl) context =
            some (some (.String []), context))) ∧
    (-(s.length : Int) ≤ i → i < s.length →
      ∀ (sl : Slice), sl.bIsString = false → sl.m_lower = (i : ℚ) → sl.m_upper = (i : ℚ) →
        Eval_Subscript_String_Slice op lh (.Slice sl) context =
          Eval_Subscript_String op lh rh context) := by
  have hidx0 : 0 ≤ i → i < s.length →
      Eval_Subscript_String op lh rh context =
        some (some (.String [charAt s i.toNat]), context) := by
    intro h0 h1
    have hneg : ¬ ((i : ℚ) < 0) := by
      push_neg
      exact_mod_cast h0
    have hlt : i.toNat < s.length := by omega
    simp only [Eval_Subscript_String, hs, hi, hneg, if_false,
      toUInt32_intCast i h0 (by omega), hlt, if_true, drop_take_one s _ hlt]
  have hidxneg : -(s.length : Int) ≤ i → i < 0 →
      Eval_Subscript_String op lh rh context =
        some (some (.String [charAt s ((s.length : Int) + i).toNat]), context) := by
    intro h0 h1
    have hneg : (i : ℚ) < 0 := by exact_mod_cast h1
    have hcast : ((s.length : ℚ) + (i : ℚ)) = (((s.length : Int) + i : Int) : ℚ) := by
      push_cast
      rfl
    have hlt : ((s.length : Int) + i).toNat < s.length := by omega
    simp only [Eval_Subscript_String, hs, hi, hneg, if_true, hcast,
      toUInt32_intCast _ (by omega : 0 ≤ (s.length : Int) + i) (by omega), hlt,
      drop_take_one s _ hlt]
  have hslice : ∀ (sl : Slice) (l u : Int), sl.bIsString = false →
      sl.m_lower = (l : ℚ) → sl.m_upper = (u : ℚ) →
      ∀ (lo hi : Int), lo = (if l < 0 then l + s.length else l) →
        hi = (if u < 0 then u + s.length else u) →
        (0 ≤ lo ∧ lo ≤ hi ∧ hi < s.length →
          Eval_Subscript_String_Slice op lh (.Slice sl) context =
            some (some (.String ((s.drop lo.toNat).take (hi - lo + 1).toNat)), context)) ∧
        (¬ (0 ≤ lo ∧ lo ≤ hi ∧ hi < s.length) →
          Eval_Subscript_String_Slice op lh (.Slice sl) context =
            some (some (.String []), context)) := by
    intro sl l u hb hl hu lo hi hlo hhi
    have elo : (if sl.m_lower < 0 then sl.m_lower + (s.length : ℚ) else sl.m_lower) =
        (lo : ℚ) := by
      rw [hl, hlo]
      split_ifs with h1 h2 h2
      · push_cast; rfl
      · exact absurd (by exact_mod_cast h1) h2
      · exact absurd (by exact_mod_cast h2) h1
      · rfl
    have ehi : (if sl.m_upper < 0 then sl.m_upper + (s.length : ℚ) else sl.m_upper) =
        (hi : ℚ) := by
      rw [hu, hhi]
      split_ifs with h1 h2 h2
      · push_cast; rfl
      · exact absurd (by exact_mod_cast h1) h2
      · exact absurd (by exact_mod_cast h2) h1
      · rfl
    have hcond : ((lo : ℚ) ≥ 0 ∧ (hi : ℚ) < (s.length : ℚ) ∧ (lo : ℚ) ≤ (hi : ℚ)) ↔
        (0 ≤ lo ∧ lo ≤ hi ∧ hi < s.length) := by
      constructor
      · rintro ⟨h1, h2, h3⟩
        exact ⟨by exact_mod_cast h1, by exact_mod_cast h3, by exact_mod_cast h2⟩
      · rintro ⟨h1, h2, h3⟩
        exact ⟨by exact_mod_cast h1, by exact_mod_cast h3, by exact_mod_cast h2⟩
    have hsub : ((hi : ℚ) - (lo : ℚ) + 1) = ((hi - lo + 1 : Int) : ℚ) := by push_cast; rfl
    constructor
    · intro hc
      simp only [Eval_Subscript_String_Slice, ScriptToken.GetSlice, hb, hs, elo, ehi,
        Bool.false_eq_true, if_false, hcond.mpr hc, and_self, if_true, hsub, truncNat_intCast]
    · intro hc
      have : ¬ ((lo : ℚ) ≥ 0 ∧ (hi : ℚ) < (s.length : ℚ) ∧ (lo : ℚ) ≤ (hi : ℚ)) :=
        fun h => hc (hcond.mp h)
      simp only [Eval_Subscript_String_Slice, ScriptToken.GetSlice, hb, hs, elo, ehi,
        Bool.false_eq_true, if_false, this]
  refine ⟨hidx0, hidxneg, ?_, hslice, ?_⟩
  · intro h0 h1
    have hneg : ¬ ((i : ℚ) < 0) := by
      push_neg
      exact_mod_cast (by omega : (0 : Int) ≤ i)
    have hlt : ¬ (i.toNat < s.length) := by omega
    simp only [Eval_Subscript_String, hs, hi, hneg, if_false,
      toUInt32_intCast i (by omega) h1, hlt]
  · intro h0 h1 sl hb hl hu
    by_cases hi0 : 0 ≤ i
    · rw [hidx0 hi0 h1]
      have := (hslice sl i i hb hl hu i i (by simp [not_lt.mpr hi0])
        (by simp [not_lt.mpr hi0])).1 ⟨hi0, le_refl _, h1⟩
      rw [this]
      have hlt : i.toNat < s.length := by omega
      simp [drop_take_one s _ hlt]
    · push_neg at hi0
      rw [hidxneg h0 hi0]
      have := (hslice sl i i hb hl hu (i + s.length) (i + s.length) (by simp [hi0])
        (by simp [hi0])).1 ⟨by omega, le_refl _, by omega⟩
      rw [this]
      have hlt : (i + (s.length : Int)).toNat < s.length := by omega
      simp [drop_take_one s _ hlt, add_comm]

/-- In the string `abc` the index -1 denotes the character `c`, the index 3 the
empty string. -/
theorem string_indexing_witness :
    Eval_Subscript_String .LeftBracket (.String ['a', 'b', 'c']) (.Number (-1)) sampleContext =
      some (some (.String ['c']), sampleContext) ∧
    Eval_Subscript_String .LeftBracket (.String ['a', 'b', 'c']) (.Number 3) sampleContext =
      some (some (.String []), sampleContext) := by
  constructor
  · have h := (string_indexing .LeftBracket (.String ['a', 'b', 'c']) (.Number (-1)) sampleContext
      ['a', 'b', 'c'] (-1) (by decide) (by simp [ScriptToken.GetNumber]) (by decide)).2.1
        (by decide) (by decide)
    rw [h]
    have e : charAt ['a', 'b', 'c'] ((['a', 'b', 'c'].length : Int) + -1).toNat = 'c' := by
      decide
    rw [e]
  · exact (string_indexing .LeftBracket (.String ['a', 'b', 'c']) (.Number 3) sampleContext
      ['a', 'b', 'c'] 3 (by decide) (by simp [ScriptToken.GetNumber]) (by decide)).2.2.1
        (by decide) (by decide)

/-- The second-character loop of `ParseOperator`: a definite match has the
character as the second of its symbol; without one only candidates with a
one-character symbol are left. -/
theorem secondCharScan_spec (ch : Char) :
    ∀ (ops : List Operator),
      (∀ o, (secondCharScan ch ops).1 = some o → o.sym 1 = ch) ∧
      ((secondCharScan ch ops).1 = none → ∀ o ∈ (secondCharScan ch ops).2, o.sym 1 = NUL) := by
  intro ops
  induction ops with
  | nil => simp [secondCharScan]
  | cons cur rest ih =>
    unfold secondCharScan
    split
    · rename_i h
      refine ⟨?_, fun hn => by simp at hn⟩
      intro o ho
      simp only [Option.some.injEq] at ho
      subst ho
      simpa using h
    · split
      · exact ih
      · rename_i h1 h2
        refine ⟨ih.1, ?_⟩
        intro hn o ho
        rcases List.mem_cons.mp ho with rfl | h
        · simpa using h2
        · exact ih.2 hn o h

/-- What `ParseOperator` returns and where it leaves the offset: the state is
moved over the symbol when the operator is to be consumed; the symbol has one
character, or its second character is the next character of the text, or the
next character is not punctuation and the operator is the only candidate. -/
theorem ParseOperator_returns (env : ParserEnv) (m_len : Nat) (b c : Bool) (st : ParserState)
    (op : Operator) (h : (ParseOperator env m_len b c st).1 = some op) :
    (ParseOperator env m_len b c st).2 =
      (if c then { st with lineOffset := st.lineOffset + op.symbol.length } else st) ∧
    (op.sym 1 = NUL ∨ op.sym 1 = st.Peek m_len (st.lineOffset + 1) ∨
      (ispunct (st.Peek m_len (st.lineOffset + 1)) = false ∧
        env.operators.filter (fun curOp =>
          (if b then curOp.IsBinary || curOp.IsClosingBracket
           else curOp.IsUnary || curOp.IsOpenBracket) &&
            st.Peek m_len st.lineOffset == curOp.sym 0) = [op])) := by
  have hnul : ispunct NUL = false := by decide
  unfold ParseOperator at h ⊢
  simp only [] at h ⊢
  split at h
  · simp at h
  · rename_i hcomma
    rw [if_neg hcomma]
    generalize hops : env.operators.filter (fun curOp =>
      (if b then curOp.IsBinary || curOp.IsClosingBracket
       else curOp.IsUnary || curOp.IsOpenBracket) &&
        st.Peek m_len st.lineOffset == curOp.sym 0) = ops at h ⊢
    generalize hfound : (if (st.Peek m_len (st.lineOffset + 1) != NUL &&
        ispunct (st.Peek m_len (st.lineOffset + 1))) = true then
          secondCharScan (st.Peek m_len (st.lineOffset + 1)) ops
        else (ops.find? (fun o => o.sym 1 == NUL), ops)) = found at h ⊢
    have hfm : (∀ o, found.1 = some o →
          o.sym 1 = NUL ∨ o.sym 1 = st.Peek m_len (st.lineOffset + 1)) ∧
        (found.1 = none → ∀ o, found.2 = [o] →
          o.sym 1 = NUL ∨ (ispunct (st.Peek m_len (st.lineOffset + 1)) = false ∧ ops = [o])) := by
      rw [← hfound]
      split
      · have hs := secondCharScan_spec (st.Peek m_len (st.lineOffset + 1)) ops
        refine ⟨fun o ho => Or.inr (hs.1 o ho), fun hn o ho => Or.inl (hs.2 hn o ?_)⟩
        rw [ho]
        exact List.mem_cons_self _ _
      · rename_i hp
        refine ⟨fun o ho => Or.inl ?_, fun _ o ho => Or.inr ⟨?_, ho⟩⟩
        · simpa using List.find?_some ho
        · simp only [Bool.and_eq_true, bne_iff_ne, ne_eq, not_and, Bool.not_eq_true] at hp
          by_cases hz : st.Peek m_len (st.lineOffset + 1) = NUL
          · rw [hz]
            exact hnul
          · exact hp hz
    obtain ⟨f1, f2⟩ := found
    simp only [] at hfm h ⊢
    cases f1 with
    | some o =>
      have : o = op := by
        cases c <;> simpa using h
      subst this
      refine ⟨by cases c <;> rfl, ?_⟩
      rcases hfm.1 o rfl with h1 | h1
      · exact Or.inl h1
      · exact Or.inr (Or.inl h1)
    | none =>
      rcases f2 with _ | ⟨x, _ | ⟨y, r⟩⟩
      · simp at h
      · have : x = op := by
          cases c <;> simpa using h
        subst this
        refine ⟨by cases c <;> rfl, ?_⟩
        rcases hfm.2 rfl x rfl with h1 | h1
        · exact Or.inl h1
        · exact Or.inr (Or.inr h1)
      · simp at h

/-- The symbols of the operator table have one or two characters, and an
operator with a two-character symbol that is the only candidate for its first
character is `==` or `!=`, a binary operator being expected. -/
theorem s_operators_symbols (ob : Bool) :
    (∀ op ∈ s_operators ob,
      (op.symbol.length = 1 ∧ op.sym 1 = NUL) ∨ (op.symbol.length = 2 ∧ op.sym 1 ≠ NUL)) ∧
    (∀ (b : Bool), ∀ op ∈ s_operators ob, op.sym 1 ≠ NUL →
      (s_operators ob).filter (fun curOp =>
        (if b then curOp.IsBinary || curOp.IsClosingBracket
         else curOp.IsUnary || curOp.IsOpenBracket) && op.sym 0 == curOp.sym 0) = [op] →
      b = true ∧ (op.symbol = "==" ∨ op.symbol = "!=")) := by
  cases ob <;> decide

/-- The second-character loop finds a definite match when a candidate has the
character as the second of its symbol. -/
theorem secondCharScan_finds (ch : Char) :
    ∀ (ops : List Operator), (∃ o ∈ ops, o.sym 1 = ch) →
      ∃ o, (secondCharScan ch ops).1 = some o := by
  intro ops
  induction ops with
  | nil => rintro ⟨o, ho, _⟩; cases ho
  | cons cur rest ih =>
    rintro ⟨o, ho, hch⟩
    unfold secondCharScan
    split
    · exact ⟨cur, rfl⟩
    · rename_i h1
      have hne : o ≠ cur := by
        rintro rfl
        exact h1 (by simpa using hch)
      have hmem : o ∈ rest := by
        rcases List.mem_cons.mp ho with h | h
        · exact absurd h hne
        · exact h
      split
      · exact ih ⟨o, hmem, hch⟩
      · exact ih ⟨o, hmem, hch⟩

/-- Facts of the operator table about two-character symbols: the second
character is punctuation, no symbol starts with a comma, and two operators that
are candidates together and agree in both characters are the same. -/
theorem s_operators_two_char (ob : Bool) :
    (∀ op ∈ s_operators ob, op.sym 0 ≠ ',' ∧
      (op.symbol.length = 2 → op.sym 1 ≠ NUL ∧ ispunct (op.sym 1) = true)) ∧
    (∀ (b : Bool), ∀ o1 ∈ s_operators ob, ∀ o2 ∈ s_operators ob,
      (if b then o1.IsBinary || o1.IsClosingBracket else o1.IsUnary || o1.IsOpenBracket) = true →
      (if b then o2.IsBinary || o2.IsClosingBracket else o2.IsUnary || o2.IsOpenBracket) = true →
      o1.sym 0 = o2.sym 0 → o1.sym 1 = o2.sym 1 → o1 = o2) := by
  cases ob <;> decide

/-- Claim C35.  Sole-candidate fallback of `ParseOperator`.  (1) When a binary
operator is expected, the character at the offset is `=` and the next character
is not punctuation, `ParseOperator` returns the operator `==` and, when it is to
consume the operator, advances the offset by two, over the character after `=`;
(2) likewise `!` is returned as `!=`.  (3) Whenever `ParseOperator` returns an
operator, the offset advances by the length of its symbol when it is consumed,
and the text at the offset begins with the whole symbol unless a binary operator
is expected, the operator is `==` or `!=` and the character after the first is
not punctuation.  (4) When the text at the offset begins with the two-character
symbol of an operator of the expected kind, that operator is returned.  So
`= 1` and `! 1` give `==` and `!=` with the offset at 2, and `<=` gives `<=`. -/
theorem ParseOperator_sole_candidate_fallback (env : ParserEnv) (m_len : Nat) (c : Bool)
    (st : ParserState) :
    (st.Peek m_len st.lineOffset = '=' → ispunct (st.Peek m_len (st.lineOffset + 1)) = false →
      ParseOperator env m_len true c st =
        (some ⟨13, "==", 2, .Equals, kOpRule_Equality env.oblivion⟩,
          if c then { st with lineOffset := st.lineOffset + 2 } else st)) ∧
    (st.Peek m_len st.lineOffset = '!' → ispunct (st.Peek m_len (st.lineOffset + 1)) = false →
      ParseOperator env m_len true c st =
        (some ⟨13, "!=", 2, .NotEqual, kOpRule_Equality env.oblivion⟩,
          if c then { st with lineOffset := st.lineOffset + 2 } else st)) ∧
    (∀ (b : Bool) (op : Operator), (ParseOperator env m_len b c st).1 = some op →
      (ParseOperator env m_len b c st).2 =
        (if c then { st with lineOffset := st.lineOffset + op.symbol.length } else st) ∧
      ((∀ i, i < op.symbol.length → st.Peek m_len (st.lineOffset + i) = op.sym i) ∨
        (b = true ∧ (op.symbol = "==" ∨ op.symbol = "!=") ∧
          ispunct (st.Peek m_len (st.lineOffset + 1)) = false))) ∧
    (∀ (b : Bool) (op : Operator), op ∈ env.operators →
      (if b then op.IsBinary || op.IsClosingBracket else op.IsUnary || op.IsOpenBracket) = true →
      op.symbol.length = 2 →
      st.Peek m_len st.lineOffset = op.sym 0 → st.Peek m_len (st.lineOffset + 1) = op.sym 1 →
      (ParseOperator env m_len b c st).1 = some op) ∧
    ParseOperator plainEnv 3 true true (startState "= 1") =
      (some ⟨13, "==", 2, .Equals, kOpRule_Equality false⟩,
        { startState "= 1" with lineOffset := 2 }) ∧
    ParseOperator plainEnv 3 true true (startState "! 1") =
      (some ⟨13, "!=", 2, .NotEqual, kOpRule_Equality false⟩,
        { startState "! 1" with lineOffset := 2 }) ∧
    ParseOperator plainEnv 4 true true (startState "<= 1") =
      (some ⟨15, "<=", 2, .LessOrEqual, kOpRule_Comparison false⟩,
        { startState "<= 1" with lineOffset := 2 }) := by
  have hfall : ∀ (ch : Char) (o : Operator), (ch = '=' ∨ ch = '!') →
      st.Peek m_len st.lineOffset = ch →
      ispunct (st.Peek m_len (st.lineOffset + 1)) = false →
      (s_operators env.oblivion).filter (fun curOp =>
        (curOp.IsBinary || curOp.IsClosingBracket) && ch == curOp.sym 0) = [o] →
      (o.sym 1 == NUL) = false → o.symbol.length = 2 →
      ParseOperator env m_len true c st =
        (some o, if c then { st with lineOffset := st.lineOffset + 2 } else st) := by
    intro ch o hch hpk hnp hf h1 hlen
    have hcomma : (ch == ',') = false := by
      rcases hch with h | h <;> subst h <;> decide
    unfold ParseOperator
    simp only [hpk, hcomma, Bool.false_eq_true, if_false, if_true, ParserEnv.operators, hf, hnp,
      Bool.and_false, List.find?_cons, h1, List.find?_nil, hlen]
    cases c <;> rfl
  refine ⟨?_, ?_, ?_, ?_, rfl, rfl, rfl⟩
  · intro hpk hnp
    refine hfall '=' _ (Or.inl rfl) hpk hnp ?_ ?_ ?_
    · cases env.oblivion <;> decide
    · cases env.oblivion <;> decide
    · cases env.oblivion <;> decide
  · intro hpk hnp
    refine hfall '!' _ (Or.inr rfl) hpk hnp ?_ ?_ ?_
    · cases env.oblivion <;> decide
    · cases env.oblivion <;> decide
    · cases env.oblivion <;> decide
  · intro b op h
    have hret := ParseOperator_returns env m_len b c st op h
    have hmem := ParseOperator_mem env m_len b c st op h
    rw [List.mem_filter, Bool.and_eq_true] at hmem
    obtain ⟨hin, hfit, h0⟩ := hmem
    have h0' : st.Peek m_len st.lineOffset = op.sym 0 := by simpa using h0
    have hsym := s_operators_symbols env.oblivion
    refine ⟨hret.1, ?_⟩
    have hpre : ∀ (n : Nat), op.symbol.length = n →
        (n = 2 → st.Peek m_len (st.lineOffset + 1) = op.sym 1) → n ≤ 2 →
        ∀ i, i < op.symbol.length → st.Peek m_len (st.lineOffset + i) = op.sym i := by
      intro n hn h2 hle i hi
      rw [hn] at hi
      rcases i with _ | _ | i
      · exact h0'
      · exact h2 (by omega)
      · omega
    rcases hsym.1 op hin with ⟨hl, h1⟩ | ⟨hl, h1⟩
    · exact Or.inl (hpre 1 hl (fun h => by omega) (by omega))
    · rcases hret.2 with h | h | ⟨hnp, hf⟩
      · exact absurd h h1
      · exact Or.inl (hpre 2 hl (fun _ => h.symm) (by omega))
      · rw [h0'] at hf
        have := hsym.2 b op hin h1 hf
        exact Or.inr ⟨this.1, this.2, hnp⟩
  · intro b op hin hfit hlen h0 h1
    have htab := s_operators_two_char env.oblivion
    have hop := htab.1 op hin
    have hne := (hop.2 hlen).1
    have hpunct := (hop.2 hlen).2
    have hcomma : (st.Peek m_len st.lineOffset == ',') = false := by
      rw [h0]
      simpa using hop.1
    have hcand : op ∈ env.operators.filter (fun curOp =>
        (if b then curOp.IsBinary || curOp.IsClosingBracket
         else curOp.IsUnary || curOp.IsOpenBracket) &&
          st.Peek m_len st.lineOffset == curOp.sym 0) := by
      rw [List.mem_filter, Bool.and_eq_true]
      exact ⟨hin, hfit, by simpa using h0⟩
    obtain ⟨o, ho⟩ := secondCharScan_finds (st.Peek m_len (st.lineOffset + 1)) _
      ⟨op, hcand, h1.symm⟩
    have hbranch : (st.Peek m_len (st.lineOffset + 1) != NUL &&
        ispunct (st.Peek m_len (st.lineOffset + 1))) = true := by
      rw [h1, hpunct]
      simpa using hne
    have hres : (ParseOperator env m_len b c st).1 = some o := by
      unfold ParseOperator
      simp only [hcomma, Bool.false_eq_true, if_false, hbranch, if_true, ho]
      cases c <;> rfl
    rw [hres]
    have hom := ParseOperator_mem env m_len b c st o hres
    rw [List.mem_filter, Bool.and_eq_true] at hom
    obtain ⟨hoin, hofit, ho0⟩ := hom
    have ho1 := (secondCharScan_spec (st.Peek m_len (st.lineOffset + 1)) _).1 o ho
    have ho0' : st.Peek m_len st.lineOffset = o.sym 0 := by simpa using ho0
    rw [htab.2 b o hoin op hin hofit hfit (by rw [← ho0', h0]) (by rw [ho1, h1])]

/-- Claim C36.  Empty operand token: when the character at the offset is
punctuation other than the double quote, `$`, `_` and `.`, and the pending
operator (if there is one) does not expect a string literal, `GetCurToken`
returns the empty string without moving the offset, `strtod` parses the empty
string wholly, giving 0, and `ParseOperand` returns the number 0 and leaves the
state, the offset included, as it was, without a message. -/
theorem ParseOperand_empty_token (env : ParserEnv) (m_len : Nat) (curOp : Option Operator)
    (st : ParserState)
    (hpunct : ispunct (st.Peek m_len st.lineOffset) = true)
    (hquote : st.Peek m_len st.lineOffset ≠ '"')
    (hdollar : st.Peek m_len st.lineOffset ≠ '$')
    (hunder : st.Peek m_len st.lineOffset ≠ '_')
    (hdot : st.Peek m_len st.lineOffset ≠ '.')
    (hop : curOp.any Operator.ExpectsStringLiteral = false) :
    GetCurToken st m_len = ([], st) ∧
    strtod [] = (0, []) ∧
    ParseOperand env m_len curOp st = (some (.Number 0), st) := by
  have hnul : st.Peek m_len st.lineOffset ≠ NUL := by
    intro h
    rw [h] at hpunct
    exact absurd hpunct (by decide)
  have hend : GetCurTokenEnd st m_len (m_len - st.lineOffset) st.lineOffset = st.lineOffset := by
    cases m_len - st.lineOffset with
    | zero => rfl
    | succ fuel =>
      simp [GetCurTokenEnd, hnul, hpunct, hunder, hdot]
  have htok : GetCurToken st m_len = ([], st) := by
    simp [GetCurToken, hend]
  have hstr : strtod [] = (0, []) := by
    simp [strtod]
  refine ⟨htok, hstr, ?_⟩
  have e1 : (st.Peek m_len st.lineOffset == NUL) = false := by simpa using hnul
  have e2 : (st.Peek m_len st.lineOffset == '"') = false := by simpa using hquote
  have e3 : (st.Peek m_len st.lineOffset == '$') = false := by simpa using hdollar
  simp only [ParseOperand, e1, e2, e3, Bool.false_eq_true, if_false, htok, ParseOperandToken, hop,
    hstr, List.isEmpty_nil, if_true]

/-- The text `@` is read as the number 0 with the offset left at 0. -/
theorem ParseOperand_empty_token_witness :
    ParseOperand plainEnv 1 none (startState "@") = (some (.Number 0), startState "@") :=
  (ParseOperand_empty_token plainEnv 1 none (startState "@") (by decide) (by decide) (by decide)
    (by decide) (by decide) rfl).2.2

/-- The routine the rule for a numeric variable on the left points to, for each
operator of the assignment family. -/
theorem assignment_rules_numeric_var :
    ((s_operators true).filter (fun op =>
        op.type ∈ [OperatorType.Assignment, .PlusEquals, .MinusEquals, .TimesEquals,
          .DividedEquals, .ExponentEquals])).map
      (fun op => (op.symbol,
        (op.rules.find? (fun r => r.lhs == .NumericVar)).bind (fun r => r.eval))) =
    [(":=", some .Eval_Assign_Numeric), ("+=", some .Eval_PlusEquals_Number),
      ("*=", some .Eval_TimesEquals), ("/=", some .Eval_DividedEquals),
      ("^=", some .Eval_ExponentEquals), ("-=", some .Eval_MinusEquals_Number)] := by
  decide

/-- Claim C33.  Assignment to a numeric variable declared as integer.
`Eval_Assign_Numeric` stores the floor of the right operand and returns it.  The
routines of `+=`, `-=`, `*=`, `/=` and `^=` each return the value they store, but
store the plain result of the arithmetic, whatever the declared type is: for an
integer variable that holds 2, `+= 0.5` stores and returns 2.5, `-= 0.5` gives
1.5, `*= 0.25` gives 0.5, `/= 4` gives 0.5 and `^= -1` gives 0.5, none of them
integral, where `:= 2.5` stores 2. -/
theorem compound_assignment_keeps_fraction :
    (∀ (op : OperatorType) (v : Nat) (rh : ScriptToken) (context : ExpressionEvaluator),
      Eval_Assign_Numeric op (.NumericVar v .Integer) rh context =
        some (some (.Number ((⌊rh.GetNumber context⌋ : Int) : ℚ)),
          context.setVar v ((⌊rh.GetNumber context⌋ : Int) : ℚ)) ∧
      (context.setVar v ((⌊rh.GetNumber context⌋ : Int) : ℚ)).vars v =
        ((⌊rh.GetNumber context⌋ : Int) : ℚ)) ∧
    (∀ (op : OperatorType) (v : Nat) (t : VarType) (rh : ScriptToken)
        (context : ExpressionEvaluator),
      Eval_PlusEquals_Number op (.NumericVar v t) rh context =
        some (some (.Number (context.vars v + rh.GetNumber context)),
          context.setVar v (context.vars v + rh.GetNumber context)) ∧
      Eval_MinusEquals_Number op (.NumericVar v t) rh context =
        some (some (.Number (context.vars v - rh.GetNumber context)),
          context.setVar v (context.vars v - rh.GetNumber context)) ∧
      Eval_TimesEquals op (.NumericVar v t) rh context =
        some (some (.Number (context.vars v * rh.GetNumber context)),
          context.setVar v (context.vars v * rh.GetNumber context)) ∧
      (rh.GetNumber context ≠ 0 →
        Eval_DividedEquals op (.NumericVar v t) rh context =
          some (some (.Number (context.vars v / rh.GetNumber context)),
            context.setVar v (context.vars v / rh.GetNumber context))) ∧
      (∀ pow, Eval_ExponentEquals pow op (.NumericVar v t) rh context =
        some (some (.Number (pow (context.vars v) (rh.GetNumber context))),
          context.setVar v (pow (context.vars v) (rh.GetNumber context)))) ∧
      (∀ x, (context.setVar v x).vars v = x)) ∧
    sampleContext.vars 0 = 2 ∧
    Eval_Assign_Numeric .Assignment (.NumericVar 0 .Integer) (.Number (5 / 2)) sampleContext =
      some (some (.Number 2), sampleContext.setVar 0 2) ∧
    Eval_PlusEquals_Number .PlusEquals (.NumericVar 0 .Integer) (.Number (1 / 2)) sampleContext =
      some (some (.Number (5 / 2)), sampleContext.setVar 0 (5 / 2)) ∧
    Eval_MinusEquals_Number .MinusEquals (.NumericVar 0 .Integer) (.Number (1 / 2))
        sampleContext =
      some (some (.Number (3 / 2)), sampleContext.setVar 0 (3 / 2)) ∧
    Eval_TimesEquals .TimesEquals (.NumericVar 0 .Integer) (.Number (1 / 4)) sampleContext =
      some (some (.Number (1 / 2)), sampleContext.setVar 0 (1 / 2)) ∧
    Eval_DividedEquals .DividedEquals (.NumericVar 0 .Integer) (.Number 4) sampleContext =
      some (some (.Number (1 / 2)), sampleContext.setVar 0 (1 / 2)) ∧
    Eval_ExponentEquals powInt .ExponentEquals (.NumericVar 0 .Integer) (.Number (-1))
        sampleContext =
      some (some (.Number (1 / 2)), sampleContext.setVar 0 (1 / 2)) ∧
    ¬ IsIntegral (5 / 2) ∧ ¬ IsIntegral (3 / 2) ∧ ¬ IsIntegral (1 / 2) := by
  have hset : ∀ (context : ExpressionEvaluator) (v : Nat) (x : ℚ),
      (context.setVar v x).vars v = x := by
    intro context v x
    simp [ExpressionEvaluator.setVar]
  have hnot : ∀ (n : Int), n % 2 = 1 → ¬ IsIntegral ((n : ℚ) / 2) := by
    rintro n hn ⟨z, hz⟩
    have h2 : (n : ℚ) = ((2 * z : Int) : ℚ) := by
      push_cast
      linarith [hz, (div_mul_cancel₀ (n : ℚ) (two_ne_zero))]
    have := Int.cast_injective h2
    omega
  have hv : sampleContext.vars 0 = 2 := rfl
  refine ⟨?_, ?_, hv, ?_, ?_, ?_, ?_, ?_, ?_, ?_, ?_, ?_⟩
  · intro op v rh context
    exact ⟨by simp [Eval_Assign_Numeric, ScriptToken.GetVariableType, ScriptToken.GetVar],
      hset _ _ _⟩
  · intro op v t rh context
    refine ⟨?_, ?_, ?_, ?_, ?_, hset context v⟩
    · simp [Eval_PlusEquals_Number, ScriptToken.GetVar, hset]
    · simp [Eval_MinusEquals_Number, ScriptToken.GetVar, hset]
    · simp [Eval_TimesEquals, ScriptToken.GetVar, hset]
    · intro h0
      simp [Eval_DividedEquals, ScriptToken.GetVar, hset, h0]
    · intro pow
      simp [Eval_ExponentEquals, ScriptToken.GetVar, hset]
  · have hf : ⌊(5 / 2 : ℚ)⌋ = 2 := by
      rw [Int.floor_eq_iff]
      norm_num
    simp [Eval_Assign_Numeric, ScriptToken.GetVariableType, ScriptToken.GetVar,
      ScriptToken.GetNumber, hf]
  · simp only [Eval_PlusEquals_Number, ScriptToken.GetVar, ScriptToken.GetNumber, hset, hv]
    norm_num
  · simp only [Eval_MinusEquals_Number, ScriptToken.GetVar, ScriptToken.GetNumber, hset, hv]
    norm_num
  · simp only [Eval_TimesEquals, ScriptToken.GetVar, ScriptToken.GetNumber, hset, hv]
    norm_num
  · simp only [Eval_DividedEquals, ScriptToken.GetVar, ScriptToken.GetNumber, hset, hv]
    norm_num
  · simp only [Eval_ExponentEquals, ScriptToken.GetVar, ScriptToken.GetNumber, hset, hv, powInt]
    norm_num
  · have := hnot 5 (by decide)
    simpa using this
  · have := hnot 3 (by decide)
    simpa using this
  · have := hnot 1 (by decide)
    simpa using this

theorem enumerate_begin (ts : List Technique) :
    ∀ (acc : List (List Char)),
      enumerate_techniques beginEffectsCallback ts acc =
        (acc ++ (ts.filter (fun t => t.state)).map (fun t => t.name),
          ts.map (fun t => { t with state := false })) := by
  induction ts with
  | nil => intro acc; simp [enumerate_techniques]
  | cons t rest ih =>
    intro acc
    rcases t with ⟨name, state⟩
    cases state <;> simp [enumerate_techniques, beginEffectsCallback, ih]

theorem enumerate_finish (backup : List (List Char)) (ts : List Technique) :
    enumerate_techniques finishEffectsCallback ts backup =
      (backup, ts.map (fun t => { t with state := backup.contains t.name })) := by
  induction ts with
  | nil => simp [enumerate_techniques]
  | cons t rest ih => simp [enumerate_techniques, finishEffectsCallback, ih]

/-- With pairwise distinct names, a technique is enabled exactly when its name
is among the names of the enabled techniques. -/
theorem restore_states (ts : List Technique) (hd : (ts.map (fun t => t.name)).Nodup) :
    (ts.map (fun t => { t with state := false })).map
      (fun t => { t with
        state := ((ts.filter (fun t => t.state)).map (fun t => t.name)).contains t.name }) =
    ts := by
  rw [List.map_map]
  conv_rhs => rw [← List.map_id ts]
  apply List.map_congr_left
  intro t ht
  rcases t with ⟨name, state⟩
  simp only [Function.comp, id, Technique.mk.injEq, true_and]
  cases state with
  | true =>
    have hm : name ∈ (ts.filter (fun t => t.state)).map (fun t => t.name) :=
      List.mem_map.mpr ⟨⟨name, true⟩, List.mem_filter.mpr ⟨ht, rfl⟩, rfl⟩
    simpa using hm
  | false =>
    rw [Bool.eq_false_iff]
    intro hc
    have hm : name ∈ (ts.filter (fun t => t.state)).map (fun t => t.name) := by
      simpa using hc
    obtain ⟨t1, ht1, hn⟩ := List.mem_map.mp hm
    rw [List.mem_filter] at ht1
    have := List.inj_on_of_nodup_map hd ht1.1 ht hn
    rw [this] at ht1
    simp at ht1

/-- Claim C40.  Technique-state round trip of the ReShade hook, for a runtime
whose technique names are pairwise distinct.  When `validPass` is false,
`on_reshade_begin_effects` leaves every technique of the runtime disabled, keeps
their names and order, records in `backupTechniques` exactly the names of the
techniques that were enabled, and leaves the other runtimes and `validPass` as
they were; the following `on_reshade_finish_effects` returns with the techniques
of every runtime in the state they had before the begin call.  When `validPass`
is true, neither callback changes a technique state, and the finish callback
sets `validPass` to false. -/
theorem technique_state_round_trip (s : AddonState)
    (runtime cmd_list rtv rtv_srgb runtime2 cmd_list2 rtv2 rtv_srgb2 : Nat)
    (hdistinct : ((s.runtimes runtime).map (fun t => t.name)).Nodup) :
    (s.validPass = false →
      (∀ t ∈ (on_reshade_begin_effects s runtime cmd_list rtv rtv_srgb).runtimes runtime,
        t.state = false) ∧
      ((on_reshade_begin_effects s runtime cmd_list rtv rtv_srgb).runtimes runtime).map
          (fun t => t.name) = (s.runtimes runtime).map (fun t => t.name) ∧
      (on_reshade_begin_effects s runtime cmd_list rtv rtv_srgb).backupTechniques =
        ((s.runtimes runtime).filter (fun t => t.state)).map (fun t => t.name) ∧
      (∀ r, r ≠ runtime →
        (on_reshade_begin_effects s runtime cmd_list rtv rtv_srgb).runtimes r = s.runtimes r) ∧
      (on_reshade_begin_effects s runtime cmd_list rtv rtv_srgb).validPass = false ∧
      ∃ s2, on_reshade_finish_effects (on_reshade_begin_effects s runtime cmd_list rtv rtv_srgb)
          runtime2 cmd_list2 rtv2 rtv_srgb2 = some s2 ∧
        s2.runtimes = s.runtimes ∧ s2.validPass = false) ∧
    (s.validPass = true →
      (on_reshade_begin_effects s runtime cmd_list rtv rtv_srgb).runtimes = s.runtimes ∧
      (on_reshade_begin_effects s runtime cmd_list rtv rtv_srgb).validPass = true ∧
      ∃ s2, on_reshade_finish_effects (on_reshade_begin_effects s runtime cmd_list rtv rtv_srgb)
          runtime2 cmd_list2 rtv2 rtv_srgb2 = some s2 ∧
        s2.runtimes = s.runtimes ∧ s2.validPass = false) := by
  constructor
  · intro hv
    have hb : on_reshade_begin_effects s runtime cmd_list rtv rtv_srgb =
        { runtimes := fun r =>
            if r = runtime then (s.runtimes runtime).map (fun t => { t with state := false })
            else s.runtimes r
          m_runtime := some runtime
          m_cmdlist := some cmd_list
          m_rtv := rtv
          m_rtv_srgb := rtv_srgb
          validPass := false
          backupTechniques :=
            ((s.runtimes runtime).filter (fun t => t.state)).map (fun t => t.name) } := by
      simp [on_reshade_begin_effects, hv, enumerate_begin, AddonState.setTechniques]
    rw [hb]
    refine ⟨?_, ?_, rfl, ?_, rfl, ?_⟩
    · intro t ht
      simp only [if_true] at ht
      obtain ⟨t0, _, rfl⟩ := List.mem_map.mp ht
      rfl
    · simp only [if_true, List.map_map]
      rfl
    · intro r hr
      simp only [if_neg hr]
    · refine ⟨_, by simp only [on_reshade_finish_effects, Bool.not_false, if_true]; rfl, ?_, rfl⟩
      funext r
      simp only [AddonState.setTechniques, enumerate_finish, if_true]
      by_cases hr : r = runtime
      · subst hr
        simp only [if_true]
        exact restore_states _ hdistinct
      · simp only [if_neg hr]
  · intro hv
    have hb : on_reshade_begin_effects s runtime cmd_list rtv rtv_srgb =
        { s with
          m_runtime := some runtime
          m_cmdlist := some cmd_list
          m_rtv := rtv
          m_rtv_srgb := rtv_srgb
          backupTechniques := [] } := by
      simp [on_reshade_begin_effects, hv]
    rw [hb]
    refine ⟨rfl, hv, ?_⟩
    refine ⟨⟨s.runtimes, some runtime, some cmd_list, rtv, rtv_srgb, false, []⟩, ?_, rfl, rfl⟩
    simp only [on_reshade_finish_effects, hv, Bool.not_true, Bool.false_eq_true, if_false]

/-- A runtime with the techniques `A` (enabled) and `B` (disabled): the begin
callback disables `A` and records its name, the finish callback enables `A`
again and leaves `B` disabled. -/
theorem technique_state_round_trip_witness :
    (on_reshade_begin_effects
        ⟨fun _ => [⟨['A'], true⟩, ⟨['B'], false⟩], none, none, 0, 0, false, []⟩ 0 0 0 0).runtimes 0 =
      [⟨['A'], false⟩, ⟨['B'], false⟩] ∧
    (on_reshade_begin_effects
        ⟨fun _ => [⟨['A'], true⟩, ⟨['B'], false⟩], none, none, 0, 0, false, []⟩
        0 0 0 0).backupTechniques = [['A']] ∧
    ∃ s2, on_reshade_finish_effects (on_reshade_begin_effects
        ⟨fun _ => [⟨['A'], true⟩, ⟨['B'], false⟩], none, none, 0, 0, false, []⟩ 0 0 0 0)
        0 0 0 0 = some s2 ∧
      s2.runtimes = (fun _ => [⟨['A'], true⟩, ⟨['B'], false⟩]) ∧ s2.validPass = false :=
  ⟨by decide, by decide,
    ((technique_state_round_trip
      ⟨fun _ => [⟨['A'], true⟩, ⟨['B'], false⟩], none, none, 0, 0, false, []⟩ 0 0 0 0 0 0 0 0
      (by decide)).1 rfl).2.2.2.2.2⟩

theorem roundShift_small (fuel a : Nat) (h : a < 9007199254740992) : roundShift fuel a = 0 := by
  cases fuel with
  | zero => rfl
  | succ fuel => simp [roundShift, h]

/-- The conversion of a 64-bit integer to `double` is exact below 2^53 in
absolute value. -/
theorem SInt64ToDouble_exact (z : Int) (h : |z| < 9007199254740992) :
    SInt64ToDouble z = (z : ℚ) := by
  have ha : z.natAbs < 9007199254740992 := by
    have := Int.abs_eq_natAbs z
    omega
  have hz : z.sign * (z.natAbs : Int) = z := Int.sign_mul_natAbs z
  simp only [SInt64ToDouble, roundSInt64, roundShift_small 64 _ ha, pow_zero, Nat.div_one,
    Nat.mod_one, Nat.mul_zero, Nat.mul_one]
  norm_num
  exact_mod_cast hz

theorem truncTowardZero_intCast (k : Int) : truncTowardZero (k : ℚ) = k := by
  unfold truncTowardZero
  split
  · exact Int.floor_intCast k
  · exact Int.ceil_intCast k

theorem toSInt64_intCast (k : Int) (h1 : -2 ^ 63 ≤ k) (h2 : k < 2 ^ 63) :
    toSInt64 (k : ℚ) = k := by
  rw [toSInt64_of_range _ (by rw [truncTowardZero_intCast]; exact h1)
    (by rw [truncTowardZero_intCast]; exact h2), truncTowardZero_intCast]

/-- Counterexample for C13: the operands 2^62 and 1 are their own truncations
and lie in the 64-bit range, `2^62 | 1` is `2^62 + 1`, but `Eval_Integer` returns
the number 2^62: the conversion of the result to `double` rounds it. -/
theorem bitwise_or_result_is_rounded :
    truncTowardZero ((ScriptToken.Number 4611686018427387904).GetNumber sampleContext) =
      4611686018427387904 ∧
    truncTowardZero ((ScriptToken.Number 1).GetNumber sampleContext) = 1 ∧
    Int.lor 4611686018427387904 1 = 4611686018427387905 ∧
    Eval_Integer .BitwiseOr (.Number 4611686018427387904) (.Number 1) sampleContext =
      some (some (.Number 4611686018427387904), sampleContext) ∧
    (ScriptToken.Number 4611686018427387904) ≠
      .Number ((4611686018427387905 : Int) : ℚ) := by
  have e1 : (ScriptToken.Number 4611686018427387904).GetNumber sampleContext =
      ((4611686018427387904 : Int) : ℚ) := by
    simp [ScriptToken.GetNumber]
  have e2 : (ScriptToken.Number 1).GetNumber sampleContext = ((1 : Int) : ℚ) := by
    simp [ScriptToken.GetNumber]
  have hr : roundSInt64 4611686018427387905 = 4611686018427387904 := by decide
  have hl : Int.lor 4611686018427387904 1 = 4611686018427387905 := by decide
  refine ⟨by rw [e1, truncTowardZero_intCast], by rw [e2, truncTowardZero_intCast], hl, ?_, ?_⟩
  · simp only [Eval_Integer, e1, e2, toSInt64_intCast _ (by norm_num : (-2 : Int) ^ 63 ≤ 4611686018427387904)
      (by norm_num), toSInt64_intCast _ (by norm_num : (-2 : Int) ^ 63 ≤ 1) (by norm_num), hl,
      SInt64ToDouble, hr]
    norm_num
  · intro h
    simp only [ScriptToken.Number.injEq] at h
    norm_num at h

/-- C13, amended: for the operators `|`, `&`, `<<`, `>>` and `%` the routine
`Eval_Integer` computes on the operands truncated toward zero and converts the
integer result to `double`.  When both truncations `l` and `r` lie in the range
of a signed 64-bit integer, the result is the conversion of `l | r`, `l & r`,
`l << r` (reduced to 64 bits; `l * 2 ^ r` when that is in range) and `l >> r`
(the floor of `l / 2 ^ r`) for a shift count `0 ≤ r ≤ 63`, and of the remainder
of the truncated division of `l` by `r` for `r ≠ 0`, the pair of the least
64-bit integer and -1 aside; the state is left as it was.  The conversion is
exact for every integer below 2^53 in absolute value.  Two operand pairs with
the same truncations give the same result. -/
theorem Eval_Integer_truncates (lh rh : ScriptToken) (context : ExpressionEvaluator)
    (l r : Int) (hl : truncTowardZero (lh.GetNumber context) = l)
    (hr : truncTowardZero (rh.GetNumber context) = r)
    (hl1 : -2 ^ 63 ≤ l) (hl2 : l < 2 ^ 63) (hr1 : -2 ^ 63 ≤ r) (hr2 : r < 2 ^ 63) :
    Eval_Integer .BitwiseOr lh rh context =
      some (some (.Number (SInt64ToDouble (Int.lor l r))), context) ∧
    Eval_Integer .BitwiseAnd lh rh context =
      some (some (.Number (SInt64ToDouble (Int.land l r))), context) ∧
    (0 ≤ r → r ≤ 63 →
      Eval_Integer .LeftShift lh rh context =
        some (some (.Number (SInt64ToDouble (wrapSInt64 (l * 2 ^ r.toNat)))), context) ∧
      (-2 ^ 63 ≤ l * 2 ^ r.toNat → l * 2 ^ r.toNat < 2 ^ 63 →
        Eval_Integer .LeftShift lh rh context =
          some (some (.Number (SInt64ToDouble (l * 2 ^ r.toNat))), context)) ∧
      Eval_Integer .RightShift lh rh context =
        some (some (.Number (SInt64ToDouble (l / 2 ^ r.toNat))), context)) ∧
    (r ≠ 0 → ¬ (l = -9223372036854775808 ∧ r = -1) →
      Eval_Integer .Modulo lh rh context =
        some (some (.Number (SInt64ToDouble (Int.tmod l r))), context)) ∧
    (∀ z : Int, |z| < 9007199254740992 → SInt64ToDouble z = (z : ℚ)) ∧
    (∀ (op : OperatorType) (lh' rh' : ScriptToken) (context' : ExpressionEvaluator),
      truncTowardZero (lh'.GetNumber context') = l →
      truncTowardZero (rh'.GetNumber context') = r →
      (Eval_Integer op lh' rh' context').map Prod.fst =
        (Eval_Integer op lh rh context).map Prod.fst) := by
  have el : toSInt64 (lh.GetNumber context) = l := by
    rw [toSInt64_of_range _ (by rw [hl]; exact hl1) (by rw [hl]; exact hl2), hl]
  have er : toSInt64 (rh.GetNumber context) = r := by
    rw [toSInt64_of_range _ (by rw [hr]; exact hr1) (by rw [hr]; exact hr2), hr]
  refine ⟨by simp [Eval_Integer, el, er], by simp [Eval_Integer, el, er], ?_, ?_,
    SInt64ToDouble_exact, ?_⟩
  · intro h0 h63
    have e64 : (r % 64).toNat = r.toNat := by
      rw [Int.emod_eq_of_lt h0 (by omega)]
    refine ⟨by simp [Eval_Integer, el, er, e64], ?_, ?_⟩
    · intro h1 h2
      simp [Eval_Integer, el, er, e64, wrapSInt64_of_range _ h1 h2]
    · simp only [Eval_Integer, el, er, e64]
      rw [show l.shiftRight r.toNat = l / 2 ^ r.toNat from by
        have := Int.shiftRight_eq_div_pow l r.toNat
        push_cast at this
        exact this]
  · intro h0 hov
    simp only [Eval_Integer, el, er, ne_eq, h0, not_false_eq_true, if_true, hov, if_false]
  · intro op lh' rh' context' hl' hr'
    have el' : toSInt64 (lh'.GetNumber context') = l := by
      rw [toSInt64_of_range _ (by rw [hl']; exact hl1) (by rw [hl']; exact hl2), hl']
    have er' : toSInt64 (rh'.GetNumber context') = r := by
      rw [toSInt64_of_range _ (by rw [hr']; exact hr1) (by rw [hr']; exact hr2), hr']
    cases op <;> simp only [Eval_Integer, el, er, el', er', Option.map_some']
    split
    · split <;> rfl
    · rfl

/-- Witness for C13: `7.9 | 8.2` is `7 | 8 = 15`. -/
theorem Eval_Integer_truncates_witness :
    Eval_Integer .BitwiseOr (.Number (79 / 10)) (.Number (82 / 10)) sampleContext =
      some (some (.Number 15), sampleContext) := by
  have h7 : truncTowardZero ((ScriptToken.Number (79 / 10)).GetNumber sampleContext) = 7 := by
    simp only [ScriptToken.GetNumber, truncTowardZero]
    norm_num
  have h8 : truncTowardZero ((ScriptToken.Number (82 / 10)).GetNumber sampleContext) = 8 := by
    simp only [ScriptToken.GetNumber, truncTowardZero]
    norm_num
  have h := Eval_Integer_truncates (.Number (79 / 10)) (.Number (82 / 10)) sampleContext 7 8
    h7 h8 (by norm_num) (by norm_num) (by norm_num) (by norm_num)
  rw [h.1, h.2.2.2.2.1 _ (by decide)]
  rfl

/-- Counterexample for C39: the index 2^32 is not below the length of the string
`abc`, but `Eval_Subscript_String` returns the one-character string `a`: the
conversion of the index to a 32-bit unsigned integer gives 0. -/
theorem index_beyond_32_bits_wraps :
    (ScriptToken.String ['a', 'b', 'c']).GetString sampleContext = ['a', 'b', 'c'] ∧
    (ScriptToken.Number 4294967296).GetNumber sampleContext = ((4294967296 : Int) : ℚ) ∧
    ((['a', 'b', 'c'].length : Int) ≤ 4294967296) ∧
    toUInt32 ((4294967296 : Int) : ℚ) = 0 ∧
    Eval_Subscript_String .LeftBracket (.String ['a', 'b', 'c']) (.Number 4294967296)
        sampleContext =
      some (some (.String ['a']), sampleContext) ∧
    Eval_Subscript_String .LeftBracket (.String ['a', 'b', 'c']) (.Number 4294967296)
        sampleContext ≠
      some (some (.String []), sampleContext) := by
  have hs : (ScriptToken.String ['a', 'b', 'c']).GetString sampleContext = ['a', 'b', 'c'] := by
    decide
  have hn : (ScriptToken.Number 4294967296).GetNumber sampleContext =
      ((4294967296 : Int) : ℚ) := by
    simp [ScriptToken.GetNumber]
  have hu : toUInt32 ((4294967296 : Int) : ℚ) = 0 := by
    simp only [toUInt32, Rat.num_intCast, Rat.den_intCast, Nat.cast_one, Int.tdiv_one]
    decide
  have hneg : ¬ (((4294967296 : Int) : ℚ) < 0) := by norm_num
  have hres : Eval_Subscript_String .LeftBracket (.String ['a', 'b', 'c']) (.Number 4294967296)
      sampleContext = some (some (.String ['a']), sampleContext) := by
    simp only [Eval_Subscript_String, hs, hn, hneg, if_false, hu]
    rfl
  refine ⟨hs, hn, by decide, hu, hres, ?_⟩
  rw [hres]
  intro h
  simp at h

end OBSE
